import Mathlib

/-!
# Flux trace producer (`flux.c` / `flux.h`): embedding and verification

Shallow embedding of the C sources of the flux library: the primitive codec
(`_pluswrite`, `_plusread`, `_intwrite`, `_intread`, `_logicstateswrite`), the
linear, simple and ring buffers, the entry writers used by the trace layer
(head, definitions, open, close, data samples), the trace state machine
(`flxAddScope` ... `flxOpen`, `flxClose`, `FLX_WRITE_AT`) and the binding of
buffers to traces (`flxSetBuffer`), once on values and once on addresses.

Conventions of the embedding

* `flxbyte` values are naturals below `256`; a cast `(flxbyte) e` is `e % 256`.
* `flxuint`, `flxbint`, `flxid` are 32 bit unsigned (`unsigned int`), `flxdelta`
  is `uint32_t`; results are reduced `% 2 ^ 32` where the C arithmetic can wrap.
* `flxdomain` is `int64_t`; it is an `Int` kept in `[-2^63, 2^63)` by `wrap64`
  (two's complement, the behaviour of the compiled code).
* a byte region `flxbptr` that is written is a function `Nat → Nat` from index
  to byte (`store` writes one cell); arrays that are only read are lists.
* `while (1)` loops carry a fuel argument; the fuel handed in by the callers is
  shown to be enough in the theorems.
* an access outside an array (undefined behaviour in C) makes the embedded
  function return `none`.
-/

namespace Flux

/-! ## Basic library -/

/-- Write of one byte cell: `bytes[i] = b`. -/
def store (bytes : Nat → Nat) (i b : Nat) : Nat → Nat :=
  fun j => if j = i then b else bytes j

/-- The cells `bytes[pos], ..., bytes[pos + n - 1]`. -/
def readBytes (bytes : Nat → Nat) (pos n : Nat) : List Nat :=
  (List.range n).map (fun i => bytes (pos + i))

def MASK_PLUS : Nat := 0x80
def MASK_PLUS_DATA : Nat := 0x7f
def DEFAULT_PLUS_LENGTH : Nat := 0x7

/-- Body of the `while (1)` loop of `_pluslen`; `len` is the running length.
The line after the loop (`return 0`) is the fuel-exhausted case. -/
def _pluslen_loop : Nat → Nat → Nat → Nat
  | 0, _, _ => 0
  | fuel + 1, val, len =>
    if val ≤ MASK_PLUS_DATA then len
    else _pluslen_loop fuel (val >>> DEFAULT_PLUS_LENGTH) (len + 1)

/-- `static flxuint _pluslen(flxuint val)`: a 32 bit value has at most five
groups of seven bits. -/
def _pluslen (val : Nat) : Nat := _pluslen_loop 5 val 1

/-- Body of the `while (1)` loop of `_pluswrite`. -/
def _pluswrite_loop : Nat → Nat → (Nat → Nat) → Nat → Nat → (Nat → Nat) × Nat
  | 0, _, bytes, _, _ => (bytes, 0)
  | fuel + 1, val, bytes, pos, written =>
    if val ≤ MASK_PLUS_DATA then
      (store bytes pos ((val &&& MASK_PLUS_DATA) % 256), written)
    else
      _pluswrite_loop fuel (val >>> DEFAULT_PLUS_LENGTH)
        (store bytes pos (((val &&& MASK_PLUS_DATA) ||| MASK_PLUS) % 256)) (pos + 1) (written + 1)

/-- `static flxbint _pluswrite(flxuint val, flxbptr bytes, flxbint pos)`:
returns the updated byte region and the number of bytes written. -/
def _pluswrite (val : Nat) (bytes : Nat → Nat) (pos : Nat) : (Nat → Nat) × Nat :=
  _pluswrite_loop 5 val bytes pos 1

/-- `static flxuint _deltawrite(flxdelta val, flxbptr bytes, flxbint pos)`:
the same loop on a `flxdelta`. -/
def _deltawrite (val : Nat) (bytes : Nat → Nat) (pos : Nat) : (Nat → Nat) × Nat :=
  _pluswrite_loop 5 val bytes pos 1

/-- Loop `while (pos <= end)` of `_plusread`; the first argument counts the
positions left up to and including `end`. The shift is done on a 32 bit `int`
and or-ed into the `flxuint` result, hence the reduction `% 2 ^ 32`.
The result is `(*val, return value)`. -/
def _plusread_loop (bytes : Nat → Nat) (start : Nat) : Nat → Nat → Nat → Nat → Nat × Nat
  | 0, _, val, _ => (val, 0)
  | left + 1, pos, val, shift =>
    let sn := bytes pos
    let val1 := val ||| (((sn &&& MASK_PLUS_DATA) <<< shift) % 2 ^ 32)
    if sn &&& MASK_PLUS = 0 then (val1, pos + 1 - start)
    else _plusread_loop bytes start left (pos + 1) val1 (shift + DEFAULT_PLUS_LENGTH)

/-- `flxbint _plusread(flxuint* val, flxbptr bytes, flxbptr end)`: `start` and
`end_` are the indices of `bytes` and `end` in the region. -/
def _plusread (bytes : Nat → Nat) (start end_ : Nat) : Nat × Nat :=
  _plusread_loop bytes start (end_ + 1 - start) start 0 0

/-- `static void _arraycopy(source, sPos, target, tPos, len)`: the `for` loop
over `n = 0 .. len - 1`, last iteration outermost. -/
def _arraycopy (source : Nat → Nat) (sPos : Nat) (target : Nat → Nat) (tPos : Nat) :
    Nat → (Nat → Nat)
  | 0 => target
  | n + 1 => store (_arraycopy source sPos target tPos n) (tPos + n) (source (sPos + n))

/-! ## Low level data writing -/

def FLX_SZDF_NONE : Nat := 0xff
def FLX_SZDF_SIZEONLY : Nat := 0x0
def FLX_DF_DEFAULT : Nat := 1
def FLX_DF_NONE : Nat := 0
def FLX_XDF_LOGIC_PACK_0 : Nat := 0
def FLX_XDF_LOGIC_PACK_1 : Nat := 4
def FLX_XDF_LOGIC_PACK_RIGHT_ALLIGNED : Nat := 8

/-- The size prefix shared by the low level writers:
`szDf != FLX_SZDF_NONE ? _pluswrite(szDf ? ((size << 4) | (szDf & 0x0f)) : size, bytes, pos) : 0`
on `flxuint` operands. -/
def szDfwrite (size szDf : Nat) (bytes : Nat → Nat) (pos : Nat) : (Nat → Nat) × Nat :=
  if szDf ≠ FLX_SZDF_NONE then
    _pluswrite (if szDf ≠ 0 then ((size <<< 4) % 2 ^ 32) ||| (szDf &&& 0x0f) else size) bytes pos
  else (bytes, 0)

/-- The minimising loop of `_intwrite` (little endian branch),
`for (n = size - 1; n >= 0; n--)`: the first argument is `n + 1`. -/
def _intwrite_rsize (vbytes : Nat → Nat) (signd : Nat) : Nat → Nat → Nat
  | 0, rsize => rsize
  | n + 1, rsize =>
    if signd = 0 ∧ vbytes n = 0 ∧ (n = 0 ∨ vbytes (n - 1) &&& 0x80 = 0) then
      _intwrite_rsize vbytes signd n (rsize - 1)
    else if signd ≠ 0 ∧ n > 0 ∧ vbytes n = 0xff ∧ vbytes (n - 1) &&& 0x80 ≠ 0 then
      _intwrite_rsize vbytes signd n (rsize - 1)
    else rsize

/-- The assignment `signd &= size > 0 && (vbytes[size - 1] & 0x80) != 0`. -/
def signdAnd (signd size : Nat) (top : Nat) : Nat :=
  signd &&& (if size > 0 ∧ top &&& 0x80 ≠ 0 then 1 else 0)

/-- `static flxbint _intwrite(void* value, flxbyte size, flxbool signd, flxbyte szDf,
flxbptr bytes, flxbint pos)`, branch `FLX_ENDIANESS == 1` (little endian, the default). -/
def _intwrite (value : Nat → Nat) (size signd szDf : Nat) (bytes : Nat → Nat) (pos : Nat) :
    (Nat → Nat) × Nat :=
  let signd1 := signdAnd signd size (value (size - 1))
  let rsize := _intwrite_rsize value signd1 size size
  let w := szDfwrite rsize szDf bytes pos
  (_arraycopy value 0 w.1 (pos + w.2) rsize, w.2 + rsize)

/-- The filling loop of `_intread` on a little endian host,
`for (n = 0; n < size; n++)`, last iteration outermost. -/
def _intread_fill (bytes : Nat → Nat) (pos rsize signd : Nat) (vbytes : Nat → Nat) :
    Nat → (Nat → Nat)
  | 0 => vbytes
  | n + 1 => store (_intread_fill bytes pos rsize signd vbytes n) n
      (if n < rsize then bytes (pos + n) else if signd ≠ 0 then 0xff else 0)

/-- `static flxbint _intread(void* value, flxbyte size, flxbool signd, flxbptr bytes,
flxbptr end)` on a little endian host: the destination bytes and the return value
(`0` on failure, the destination is then left as it was). -/
def _intread (value : Nat → Nat) (size signd : Nat) (bytes : Nat → Nat) (start end_ : Nat) :
    (Nat → Nat) × Nat :=
  let r := _plusread bytes start end_
  let rsize := r.1
  let pos := start + r.2
  if start = pos ∨ rsize > size ∨ pos + rsize - 1 > end_ then (value, 0)
  else
    let signd1 := signdAnd signd rsize (bytes (pos + (rsize - 1)))
    (_intread_fill bytes pos rsize signd1 value size, pos - start)

/-! ### Logic states -/

def FLX_STATE_LEVEL_UNKNOWN : Nat := 0
def FLX_STATE_LEVEL_2 : Nat := 1
def FLX_STATE_LEVEL_4 : Nat := 2
def FLX_STATE_LEVEL_16 : Nat := 3
def FLX_STATE_0_BITS : Nat := 0
def FLX_STATE_1_BITS : Nat := 1
def FLX_STATE_Z_BITS : Nat := 2
def FLX_STATE_L_BITS : Nat := 4
def FLX_STATE_UNKNOWN_BITS : Nat := 15

def FLX_LOGIC_L2_BYTE_FILL : List Nat :=
  [0x00, 0xff, 0, 0, 0, 0, 0, 0, 0, 0, 0, 0, 0, 0, 0, 0]
def FLX_LOGIC_L4_BYTE_FILL : List Nat :=
  [0x00, 0x55, 0xaa, 0xff, 0, 0, 0, 0, 0, 0, 0, 0, 0, 0, 0, 0]
def FLX_LOGIC_L16_BYTE_FILL : List Nat :=
  [0x00, 0x11, 0x22, 0x33, 0x44, 0x55, 0x66, 0x77, 0x88, 0x99, 0xaa, 0xbb, 0xcc, 0xdd, 0xee, 0xff]

/-- The loop `for (n = 0; n < totalLen; n++)` of `_logicstateswrite` that crops
the leading states equal to `precedingStates` and finds the largest state.
First argument: iterations left; result `(start, size, maxState)`. -/
def _logicstates_crop (precedingStates : Nat) (value : Nat → Nat) :
    Nat → Nat → Bool → Nat → Nat → Nat → Nat × Nat × Nat
  | 0, _, _, start, size, maxState => (start, size, maxState)
  | k + 1, n, crop, start, size, maxState =>
    let maxState1 := if value n > maxState then value n else maxState
    if crop ∧ precedingStates = value n then
      _logicstates_crop precedingStates value k (n + 1) crop (start + 1) (size - 1) maxState1
    else
      _logicstates_crop precedingStates value k (n + 1) false start size maxState1

/-- The inner loop `for (i = from; i < to; i++) d = (flxbyte) ((d << bits) | value[start + i])`.
First argument: iterations left. -/
def _logicstates_shift (bits : Nat) (value : Nat → Nat) (start : Nat) : Nat → Nat → Nat → Nat
  | 0, _, d => d
  | k + 1, i, d => _logicstates_shift bits value start k (i + 1)
      (((d <<< bits) ||| value (start + i)) % 256)

/-- The loop `for (n = 0; n < dlength; n++)` of one `case` of the `switch` in
`_logicstateswrite`; `per` is the number of states per byte (8, 4, 2) and
`bits` the shift (1, 2, 4). `from` and `to` are `flxsint`; `to0` is `to` on
entry of an iteration. -/
def _logicstates_data (per bits fill : Nat) (value : Nat → Nat) (start pos : Nat) :
    Nat → Int → (Nat → Nat) → Nat → (Nat → Nat) × Nat
  | 0, _, bytes, written => (bytes, written)
  | k + 1, to0, bytes, written =>
    let from0 := to0
    let to1 := to0 + per
    let from1 := if from0 < 0 then 0 else from0
    let d := _logicstates_shift bits value start (to1 - from1).toNat from1.toNat fill
    _logicstates_data per bits fill value start pos k to1 (store bytes (pos + written) d)
      (written + 1)

/-- `static flxbint _logicstateswrite(flxbyte stateLevel, flxbyte precedingStates,
flxbptr value, flxuint size, flxbptr bytes, flxbint pos)`. The fill tables have 16
entries and are indexed by a state code; `size` is far below `2 ^ 31`, so that
`to = ((flxsint) size) - dlength * per` is the integer difference. -/
def _logicstateswrite (stateLevel precedingStates : Nat) (value : Nat → Nat) (size : Nat)
    (bytes : Nat → Nat) (pos : Nat) : (Nat → Nat) × Nat :=
  let c := if stateLevel = 0 then
      _logicstates_crop precedingStates value size 0 true 0 size precedingStates
    else (0, size, 0)
  let start := c.1
  let size1 := c.2.1
  let maxState := c.2.2
  let stateLevel1 := if stateLevel = 0 then
      (if maxState ≥ FLX_STATE_Z_BITS then
        (if maxState ≥ FLX_STATE_L_BITS then FLX_STATE_LEVEL_16 else FLX_STATE_LEVEL_4)
       else FLX_STATE_LEVEL_2)
    else stateLevel
  if size1 = 0 ∧ precedingStates = FLX_STATE_0_BITS then
    _pluswrite (FLX_STATE_LEVEL_2 ||| FLX_XDF_LOGIC_PACK_0) bytes pos
  else if size1 = 0 ∧ precedingStates = FLX_STATE_1_BITS then
    _pluswrite (FLX_STATE_LEVEL_2 ||| FLX_XDF_LOGIC_PACK_1) bytes pos
  else
    let statesPerByte := 8 >>> (stateLevel1 - 1)
    let dlength := (size1 + statesPerByte) / statesPerByte
    let w := _pluswrite
      ((((dlength <<< 4) % 2 ^ 32) ||| stateLevel1) ||| FLX_XDF_LOGIC_PACK_RIGHT_ALLIGNED) bytes pos
    if stateLevel1 = FLX_STATE_LEVEL_2 then
      _logicstates_data 8 1 (FLX_LOGIC_L2_BYTE_FILL.getD precedingStates 0) value start pos
        dlength ((size1 : Int) - dlength * 8) w.1 w.2
    else if stateLevel1 = FLX_STATE_LEVEL_4 then
      _logicstates_data 4 2 (FLX_LOGIC_L4_BYTE_FILL.getD precedingStates 0) value start pos
        dlength ((size1 : Int) - dlength * 4) w.1 w.2
    else if stateLevel1 = FLX_STATE_LEVEL_16 then
      _logicstates_data 2 4 (FLX_LOGIC_L16_BYTE_FILL.getD precedingStates 0) value start pos
        dlength ((size1 : Int) - dlength * 2) w.1 w.2
    else w

/-- Decoding side of the logic packing, following the format description:
the states held by one data byte at `bits` bits per state, most significant
state first. -/
def unpackByte (bits d : Nat) : List Nat :=
  (List.range (8 / bits)).map (fun k => (d >>> (8 - bits * (k + 1))) % 2 ^ bits)

/-- Decoding side of the logic packing: all states of the data bytes. -/
def unpackStates (bits : Nat) (data : List Nat) : List Nat :=
  data.flatMap (unpackByte bits)

/-- Bits per state at a state level (1, 2, 3 give 1, 2, 4). -/
def levelBits (stateLevel : Nat) : Nat := 1 <<< (stateLevel - 1)

/-- Decoding side of the logic packing, following the format description: the
header varint carries the number of data bytes above its low nibble, the state
level in its two lowest bits and the right-alignment flag in bit 3; without
that flag the header is the one-byte `PACK_0` / `PACK_1` marker, which stands
for no states beyond the preceding state. -/
def unpackLogic (bytes : Nat → Nat) (pos e : Nat) : List Nat :=
  let h := _plusread bytes pos e
  if (h.1 / 8) % 2 = 0 then []
  else unpackStates (levelBits (h.1 % 4)) (readBytes bytes (pos + h.2) (h.1 / 16))

/-! ## Buffer -/

def FLX_OK : Int := 0
def FLX_ERROR_BUFFER_UNKNOWN_COMMAND : Int := -1
def FLX_ERROR_BUFFER_OVERFLOW : Int := -1
def FLX_ERROR_BUFFER_NOT_AVAIL : Int := -2
def FLX_ERROR_INVALID_VALUE : Int := -3
def FLX_ERROR_INVALID_DATA_SIZE : Int := -4
def FLX_ERROR_INVALID_ID : Int := -5
def FLX_ERROR_NO_BUFFER : Int := -6
def FLX_ERROR_INVALID_OPEN_CLOSE : Int := -7
def FLX_ERROR_ITEM_ALLREADY_DEFINED : Int := -8
def FLX_ERROR_ITEM_NOT_DEFINED : Int := -9
def FLX_ERROR_PARENT_NOT_DEFINED : Int := -10
def FLX_ERROR_ALLREADY_OPEN : Int := -11
def FLX_ERROR_CHILDREN_ALLREADY_OPEN : Int := -12
def FLX_ERROR_NOT_OPEN : Int := -13
def FLX_ERROR_POSITION_LESSTHAN_CURRENT : Int := -14
def FLX_ERROR_BUFFER_ALLREADY_USED : Int := -20

def FLX_BUFFER_REQUEST : Nat := 0
def FLX_BUFFER_AVAIL : Nat := 1
def FLX_BUFFER_COMMIT : Nat := 2
def FLX_BUFFER_SECCOMMIT : Nat := 3
def FLX_BUFFER_GET : Nat := 4
def FLX_BUFFER_CLEAR : Nat := 5
def FLX_BUFFER_FLUSH : Nat := 6
def FLX_BUFFER_DEEPFLUSH : Nat := 7

/-- The function stored in `buffer->access`. -/
inductive flxBufferAccess where
  | simple
  | linear
  | ring
  deriving DecidableEq, Repr

/-- `struct flxBufferStruct`. `σ` is what the `user` pointer of a linear buffer
refers to; the handle `(command, buffer, &len, bytes, user)` is a function of
the command, the byte region, `*len` and the user state that gives the result,
the new `*len` and the new user state. The members of the union `u` are kept
side by side (`handle`, `user` for `u.linear`; `init`, `first`, `current`,
`rlen`, `rpos` for `u.ring`, whose `len`, `pos` are `rlen`, `rpos`). The ring
`init` callback is seen through its effect on the byte region and on
`u.ring.pos`, given the region, `u.ring.current` and `u.ring.len`. The back
pointer `trace` is the address of the bound trace, `0` for none. -/
structure flxBuffer (σ : Type) where
  access : flxBufferAccess
  len : Nat
  pos : Nat
  handle : Option (Nat → (Nat → Nat) → Nat → σ → Int × Nat × σ)
  user : σ
  init : Option ((Nat → Nat) → Nat → Nat → (Nat → Nat) × Nat)
  first : Nat
  current : Nat
  rlen : Nat
  rpos : Nat
  trace : Nat
  bytes : Nat → Nat

/-- Out-parameters and result of a call `buffer->access(command, buffer, &len, &bytes)`:
`bytes` is the offset of `*bytes` in `buffer->bytes`, `none` for a null pointer. -/
structure flxAccessOut (σ : Type) where
  result : Int
  buffer : flxBuffer σ
  len : Nat
  bytes : Option Nat

/-- The loop `for (n = len; n < buffer->pos; n++) buffer->bytes[n - len] = buffer->bytes[n]`
of a partial flush. First argument: iterations left. -/
def flushShift (len : Nat) : Nat → Nat → (Nat → Nat) → (Nat → Nat)
  | 0, _, bytes => bytes
  | k + 1, n, bytes => flushShift len k (n + 1) (store bytes (n - len) (bytes n))

/-- `case FLX_BUFFER_FLUSH: case FLX_BUFFER_DEEPFLUSH:` of the linear (and simple) buffer. -/
def flxLinearFlush {σ : Type} (command : Nat) (buffer : flxBuffer σ) : Int × flxBuffer σ :=
  match buffer.handle with
  | some handle =>
    let h := handle command buffer.bytes buffer.pos buffer.user
    let result := h.1
    let len := h.2.1
    let buffer1 := { buffer with user := h.2.2 }
    if len > 0 then
      if len = buffer1.pos then (result, { buffer1 with pos := 0 })
      else if len > 0 ∧ len < buffer1.pos then
        (result, { buffer1 with
          bytes := flushShift len (buffer1.pos - len) len buffer1.bytes
          pos := buffer1.pos - len })
      else (result, buffer1)
    else (result, buffer1)
  | none => (FLX_OK, buffer)

/-- `flxresult flxLinearBufferAccess(flxbyte command, flxBuffer buffer, flxbint* len,
flxbyte** bytes)`; `len`, `bytes` are the values of `*len`, `*bytes` on entry.
Sums of `flxbint` are reduced `% 2 ^ 32`. -/
def flxLinearBufferAccess {σ : Type} (command : Nat) (buffer : flxBuffer σ) (len : Nat)
    (bytes : Option Nat) : flxAccessOut σ :=
  if command = FLX_BUFFER_GET then
    ⟨FLX_OK, buffer, buffer.pos, some 0⟩
  else if command = FLX_BUFFER_CLEAR then
    ⟨FLX_OK, { buffer with pos := 0 }, len, bytes⟩
  else if command = FLX_BUFFER_FLUSH ∨ command = FLX_BUFFER_DEEPFLUSH then
    let f := flxLinearFlush command buffer
    ⟨f.1, f.2, len, bytes⟩
  else if command = FLX_BUFFER_REQUEST then
    let buffer1 :=
      if buffer.handle.isSome ∧ (buffer.pos + len) % 2 ^ 32 > buffer.len then
        (flxLinearFlush FLX_BUFFER_FLUSH buffer).2
      else buffer
    if (buffer1.pos + len) % 2 ^ 32 ≤ buffer1.len then
      ⟨FLX_OK, buffer1, len, some buffer1.pos⟩
    else ⟨FLX_ERROR_BUFFER_NOT_AVAIL, buffer1, len, none⟩
  else if command = FLX_BUFFER_AVAIL then
    ⟨FLX_OK, buffer, (buffer.len + 2 ^ 32 - buffer.pos) % 2 ^ 32, some buffer.pos⟩
  else if command = FLX_BUFFER_COMMIT then
    if (buffer.pos + len) % 2 ^ 32 ≤ buffer.len then
      ⟨FLX_OK, { buffer with pos := (buffer.pos + len) % 2 ^ 32 }, len, bytes⟩
    else ⟨FLX_ERROR_BUFFER_OVERFLOW, buffer, len, bytes⟩
  else ⟨FLX_ERROR_BUFFER_UNKNOWN_COMMAND, buffer, len, bytes⟩

/-- `flxSimpleBufferAccess`: the same text as `flxLinearBufferAccess` (its
`FLX_BUFFER_REQUEST` case calls its own flush case). -/
def flxSimpleBufferAccess {σ : Type} (command : Nat) (buffer : flxBuffer σ) (len : Nat)
    (bytes : Option Nat) : flxAccessOut σ :=
  flxLinearBufferAccess command buffer len bytes

/-- `flxBuffer flxCreateLinearBuffer(flxbptr bytes, flxbint len, flxBufferHandle handle,
void *user)`; `hdr` is `sizeof(struct flxBufferStruct)`, `ring0` stands for the
ring members of the union, which a linear buffer never reads. -/
def flxCreateLinearBuffer {σ : Type} (hdr : Nat) (bytes : Nat → Nat) (len : Nat)
    (handle : Option (Nat → (Nat → Nat) → Nat → σ → Int × Nat × σ)) (user : σ) : flxBuffer σ :=
  { access := flxBufferAccess.linear, len := (len + 2 ^ 32 - hdr) % 2 ^ 32, pos := 0,
    handle := handle, user := user, init := none, first := 0, current := 0, rlen := 0,
    rpos := 0, trace := 0, bytes := bytes }

def SECTION_HEADER_SIZE : Nat := 7

/-- The section length stored in the header at `current`:
`buffer->bytes[current + 3] + (((int) buffer->bytes[current + 4]) << 8)`. -/
def ringSectionLen (bytes : Nat → Nat) (current : Nat) : Nat :=
  bytes (current + 3) + ((bytes (current + 4)) <<< 8)

/-- `case FLX_BUFFER_REQUEST:` of `flxRingBufferAccess`. `u.ring.first == -1`
is `first = 2 ^ 32 - 1`. -/
def flxRingRequest {σ : Type} (buffer : flxBuffer σ) (len : Nat) : flxAccessOut σ :=
  if buffer.first = 2 ^ 32 - 1 then
    if (buffer.pos + len) % 2 ^ 32 ≤ buffer.len then
      ⟨FLX_OK, buffer, len, some buffer.pos⟩
    else ⟨FLX_ERROR_BUFFER_NOT_AVAIL, buffer, len, none⟩
  else if (buffer.rpos + len) % 2 ^ 32 ≤ buffer.rlen then
    ⟨FLX_OK, buffer, len, some (buffer.current + SECTION_HEADER_SIZE + buffer.rpos)⟩
  else
    let current1 := (buffer.current + (SECTION_HEADER_SIZE
      + ringSectionLen buffer.bytes buffer.current)) % 2 ^ 32
    let current2 := if current1 ≥ buffer.len then buffer.first else current1
    let counter := ((buffer.bytes (current2 + 2)) &&& 0xf) + 1
    let counter1 := if counter ≥ 16 then 1 else counter
    let bytes1 := store buffer.bytes (current2 + 2)
      (counter1 ||| ((buffer.bytes (current2 + 2)) &&& 0x80))
    let rlen1 := ringSectionLen bytes1 current2
    let i := match buffer.init with
      | some init => init bytes1 current2 rlen1
      | none => (bytes1, 0)
    let buffer1 := { buffer with current := current2, bytes := i.1, rlen := rlen1, rpos := i.2 }
    if (buffer1.rpos + len) % 2 ^ 32 ≤ buffer1.rlen then
      ⟨FLX_OK, buffer1, len, some (buffer1.current + SECTION_HEADER_SIZE + buffer1.rpos)⟩
    else ⟨FLX_ERROR_BUFFER_NOT_AVAIL, buffer1, len, none⟩

/-- `flxresult flxRingBufferAccess(flxbyte command, flxBuffer buffer, flxbint* len,
flxbyte** bytes)`. -/
def flxRingBufferAccess {σ : Type} (command : Nat) (buffer : flxBuffer σ) (len : Nat)
    (bytes : Option Nat) : flxAccessOut σ :=
  if command = FLX_BUFFER_GET then
    ⟨FLX_OK, buffer, if buffer.first = 2 ^ 32 - 1 then buffer.pos else buffer.len, some 0⟩
  else if command = FLX_BUFFER_CLEAR then
    ⟨FLX_OK, { buffer with pos := 0, first := 2 ^ 32 - 1 }, len, bytes⟩
  else if command = FLX_BUFFER_REQUEST then
    flxRingRequest buffer len
  else if command = FLX_BUFFER_AVAIL then
    if buffer.first = 2 ^ 32 - 1 then
      ⟨FLX_OK, buffer, (buffer.len + 2 ^ 32 - buffer.pos) % 2 ^ 32, some buffer.pos⟩
    else
      ⟨FLX_OK, buffer, (buffer.rlen + 2 ^ 32 - buffer.rpos) % 2 ^ 32, some buffer.rpos⟩
  else if command = FLX_BUFFER_COMMIT then
    if buffer.first = 2 ^ 32 - 1 then
      if (buffer.pos + len) % 2 ^ 32 ≤ buffer.len then
        ⟨FLX_OK, { buffer with pos := (buffer.pos + len) % 2 ^ 32 }, len, bytes⟩
      else ⟨FLX_ERROR_BUFFER_OVERFLOW, buffer, len, bytes⟩
    else if (buffer.rpos + len) % 2 ^ 32 ≤ buffer.rlen then
      let rpos1 := (buffer.rpos + len) % 2 ^ 32
      ⟨FLX_OK, { buffer with
          rpos := rpos1
          bytes := store (store buffer.bytes (buffer.current + 5) (rpos1 &&& 0xff))
            (buffer.current + 6) ((rpos1 >>> 8) &&& 0xff) }, len, bytes⟩
    else ⟨FLX_ERROR_BUFFER_OVERFLOW, buffer, len, bytes⟩
  else if command = FLX_BUFFER_SECCOMMIT then
    if buffer.first = 2 ^ 32 - 1 then
      let current1 := buffer.pos
      let bytes1 := store buffer.bytes (current1 + 2) ((buffer.bytes (current1 + 2) + 1) % 256)
      ⟨FLX_OK, { buffer with
          first := current1, current := current1, pos := buffer.len, bytes := bytes1
          rlen := ringSectionLen bytes1 current1, rpos := 0 }, len, bytes⟩
    else ⟨FLX_ERROR_BUFFER_OVERFLOW, buffer, len, bytes⟩
  else ⟨FLX_ERROR_BUFFER_UNKNOWN_COMMAND, buffer, len, bytes⟩

/-- `flxBuffer flxCreateRingBuffer(flxbptr bytes, flxbint len, flxBufferInit init)`;
`hdr` is `sizeof(struct flxBufferStruct)`, `user0` stands for the linear members
of the union, which a ring buffer never reads. -/
def flxCreateRingBuffer {σ : Type} (hdr : Nat) (bytes : Nat → Nat) (len : Nat)
    (init : Option ((Nat → Nat) → Nat → Nat → (Nat → Nat) × Nat)) (user0 : σ) : flxBuffer σ :=
  { access := flxBufferAccess.ring, len := (len + 2 ^ 32 - hdr) % 2 ^ 32, pos := 0,
    handle := none, user := user0, init := init, first := 2 ^ 32 - 1, current := 2 ^ 32 - 1,
    rlen := 0, rpos := 0, trace := 0, bytes := bytes }

/-- The call `buffer->access(command, buffer, &len, &bytes)` through the
function pointer. -/
def flxBuffer.call {σ : Type} (buffer : flxBuffer σ) (command : Nat) (len : Nat)
    (bytes : Option Nat) : flxAccessOut σ :=
  match buffer.access with
  | flxBufferAccess.simple => flxSimpleBufferAccess command buffer len bytes
  | flxBufferAccess.linear => flxLinearBufferAccess command buffer len bytes
  | flxBufferAccess.ring => flxRingBufferAccess command buffer len bytes

/-! ## Entry writing -/

/-- `REQ1(t)` is `sizeof(t) + 1`; `flxid`, `flxuint`, `flxbint`, `flxdelta` have
4 bytes, `flxdomain` has 8. -/
def REQ1_flxid : Nat := 5
def REQ1_flxuint : Nat := 5
def REQ1_flxbint : Nat := 5
def REQ1_flxdelta : Nat := 5
def REQ1_flxdomain : Nat := 9

def FLX_ENTRY_SCPD : Nat := 0x10
def FLX_ENTRY_SIGD : Nat := 0x11
def FLX_ENTRY_MSGD : Nat := 0x12
def FLX_ENTRY_SIRD : Nat := 0x13
def FLX_ENTRY_SSGD : Nat := 0x14
def FLX_ENTRY_SSRD : Nat := 0x15
def FLX_ENTRY_OPEN : Nat := 0x20
def FLX_ENTRY_CLOS : Nat := 0x21
def FLX_ENTRY_CURR : Nat := 0x23

/-- A `flxtext`: `none` is the null pointer, `some l` the characters before the
terminating `'\0'`. -/
abbrev flxtext := Option (List Nat)

/-- `static flxuint _textlen(flxtext text, flxbool incLen)`. -/
def _textlen (text : flxtext) (incLen : Bool) : Nat :=
  match text with
  | none => 0
  | some l =>
    let len := (if incLen then 1 else 0) + l.length
    if incLen then len + _pluslen len else len

/-- The characters behind a `flxtext` as a byte region. -/
def textBytes (text : flxtext) : Nat → Nat :=
  fun i => (text.getD []).getD i 0

/-- `static flxbint _textwrite(flxtext value, flxbyte szDf, flxbptr bytes, flxbint pos)`. -/
def _textwrite (value : flxtext) (bytes : Nat → Nat) (pos : Nat) : (Nat → Nat) × Nat :=
  let size := _textlen value false
  let w := _pluswrite size bytes pos
  (_arraycopy (textBytes value) 0 w.1 (pos + w.2) size, w.2 + size)

/-- The statement `bytes[written++] = b`. -/
def putByte (b : Nat) (bytes : Nat → Nat) (pos : Nat) : (Nat → Nat) × Nat :=
  (store bytes pos b, 1)

/-- A run of statements `written += f(..., bytes, written)` starting with
`written = 0`, on the region that begins at `pos` of the buffer bytes. -/
def writeSeq (steps : List ((Nat → Nat) → Nat → (Nat → Nat) × Nat)) (bytes : Nat → Nat)
    (pos : Nat) : (Nat → Nat) × Nat :=
  steps.foldl (fun w f => ((f w.1 (pos + w.2)).1, w.2 + (f w.1 (pos + w.2)).2)) (bytes, 0)

/-- The template of every entry writer:
`if (buffer->access(FLX_BUFFER_REQUEST, buffer, &request, &bytes) == FLX_OK) { ...body...;
return buffer->access(FLX_BUFFER_COMMIT, buffer, &written, 0); } return FLX_ERROR_BUFFER_NOT_AVAIL;`
The `request` sum is a `flxbint`. -/
def flxEntry {σ : Type} (buffer : flxBuffer σ) (request : Nat)
    (body : List ((Nat → Nat) → Nat → (Nat → Nat) × Nat)) : Int × flxBuffer σ :=
  let r := buffer.call FLX_BUFFER_REQUEST (request % 2 ^ 32) none
  if r.result = FLX_OK then
    let w := writeSeq body r.buffer.bytes (r.bytes.getD 0)
    let c := ({ r.buffer with bytes := w.1 }).call FLX_BUFFER_COMMIT w.2 none
    (c.result, c.buffer)
  else (FLX_ERROR_BUFFER_NOT_AVAIL, r.buffer)

def flxWriteScopeDefEntry {σ : Type} (buffer : flxBuffer σ) (itemId parentId : Nat)
    (name description : flxtext) : Int × flxBuffer σ :=
  flxEntry buffer (2 + REQ1_flxid * 2 + _textlen name true + _textlen description true)
    [putByte 0, putByte FLX_ENTRY_SCPD, _pluswrite itemId, _pluswrite parentId,
     _textwrite name, _textwrite description]

def flxWriteSignalDefEntry {σ : Type} (buffer : flxBuffer σ) (itemId parentId : Nat)
    (name description : flxtext) (signalType : Nat) (signalDescriptor : flxtext) :
    Int × flxBuffer σ :=
  flxEntry buffer (3 + REQ1_flxid * 2 + _textlen name true + _textlen description true
      + _textlen signalDescriptor true)
    [putByte 0, putByte FLX_ENTRY_SIGD, _pluswrite itemId, _pluswrite parentId,
     _textwrite name, _textwrite description, putByte (signalType &&& 0xf),
     _textwrite signalDescriptor]

def flxWriteMultiSignalDefEntry {σ : Type} (buffer : flxBuffer σ)
    (itemIdFrom itemIdTo parentId : Nat) (name description : flxtext) (signalType : Nat)
    (signalDescriptor : flxtext) : Int × flxBuffer σ :=
  flxEntry buffer (3 + REQ1_flxid * 3 + _textlen name true + _textlen description true
      + _textlen signalDescriptor true)
    [putByte 0, putByte FLX_ENTRY_MSGD, _pluswrite itemIdFrom, _pluswrite itemIdTo,
     _pluswrite parentId, _textwrite name, _textwrite description,
     putByte (signalType &&& 0xf), _textwrite signalDescriptor]

def flxWriteSignalReferenceDefEntry {σ : Type} (buffer : flxBuffer σ)
    (referenceId parentId : Nat) (name description : flxtext) : Int × flxBuffer σ :=
  flxEntry buffer (2 + REQ1_flxid * 2 + _textlen name true + _textlen description true)
    [putByte 0, putByte FLX_ENTRY_SIRD, _pluswrite referenceId, _pluswrite parentId,
     _textwrite name, _textwrite description]

def flxWriteScatteredSignalDefEntry {σ : Type} (buffer : flxBuffer σ) (itemId parentId : Nat)
    (name description : flxtext) (signalType : Nat) (signalDescriptor : flxtext)
    (scatteredFrom scatteredTo : Nat) : Int × flxBuffer σ :=
  flxEntry buffer (3 + REQ1_flxid * 2 + REQ1_flxuint * 2 + _textlen name true
      + _textlen description true + _textlen signalDescriptor true + _pluslen scatteredFrom
      + _pluslen scatteredTo)
    [putByte 0, putByte FLX_ENTRY_SSGD, _pluswrite itemId, _pluswrite parentId,
     _textwrite name, _textwrite description, putByte (signalType &&& 0xf),
     _textwrite signalDescriptor, _pluswrite scatteredFrom, _pluswrite scatteredTo]

def flxWriteScatteredSignalReferenceDefEntry {σ : Type} (buffer : flxBuffer σ)
    (referenceId parentId : Nat) (name description : flxtext)
    (scatteredFrom scatteredTo : Nat) : Int × flxBuffer σ :=
  flxEntry buffer (2 + REQ1_flxid * 2 + _textlen name true + _textlen description true
      + REQ1_flxuint * 2)
    [putByte 0, putByte FLX_ENTRY_SSRD, _pluswrite referenceId, _pluswrite parentId,
     _textwrite name, _textwrite description, _pluswrite scatteredFrom,
     _pluswrite scatteredTo]

/-- Two's complement reading of a 64 bit pattern (`flxdomain` is `int64_t`). -/
def toS64 (n : Nat) : Int :=
  if n % 2 ^ 64 < 2 ^ 63 then ((n % 2 ^ 64 : Nat) : Int) else ((n % 2 ^ 64 : Nat) : Int) - 2 ^ 64

/-- The 64 bit pattern of a `flxdomain`. -/
def ofS64 (d : Int) : Nat := (d % 2 ^ 64).toNat

/-- Result of 64 bit signed arithmetic as the machine computes it. -/
def wrap64 (d : Int) : Int := toS64 (ofS64 d)

/-- The bytes of a `flxdomain` variable in memory (little endian), as `_intwrite` reads
them through `&start`, `&end`, `&domain`. -/
def domainBytes (d : Int) : Nat → Nat :=
  fun n => (ofS64 d >>> (8 * n)) % 256

/-- The bytes of a `flxdelta` / `flxuint` variable in memory (little endian). -/
def uintBytes (v : Nat) : Nat → Nat :=
  fun n => ((v % 2 ^ 32) >>> (8 * n)) % 256

def flxWriteOpenEntry {σ : Type} (buffer : flxBuffer σ) (itemId : Nat) (domain : flxtext)
    (start : Int) (rate : Nat) : Int × flxBuffer σ :=
  flxEntry buffer (2 + REQ1_flxid + _textlen domain true + REQ1_flxdomain + REQ1_flxdelta)
    [putByte 0, putByte FLX_ENTRY_OPEN, _pluswrite itemId, _textwrite domain,
     _intwrite (domainBytes start) 8 1 FLX_SZDF_SIZEONLY,
     _intwrite (uintBytes rate) 4 0 FLX_SZDF_SIZEONLY]

def flxWriteCloseEntry {σ : Type} (buffer : flxBuffer σ) (itemId : Nat) (end_ : Int) :
    Int × flxBuffer σ :=
  flxEntry buffer (2 + REQ1_flxid + REQ1_flxdomain)
    [putByte 0, putByte FLX_ENTRY_CLOS, _pluswrite itemId,
     _intwrite (domainBytes end_) 8 1 FLX_SZDF_SIZEONLY]

def flxflxWriteCurrentEntry {σ : Type} (buffer : flxBuffer σ) (itemId : Nat) (domain : Int) :
    Int × flxBuffer σ :=
  flxEntry buffer (2 + REQ1_flxid + REQ1_flxdomain)
    [putByte 0, putByte FLX_ENTRY_CURR, _pluswrite itemId,
     _intwrite (domainBytes domain) 8 1 FLX_SZDF_SIZEONLY]

/-- The head of every data entry:
`itemId = (itemId << 3) | (conflict ? 1 : 0) | (delta ? 2 : 0)` written as a
varint, then the delta varint `if (delta)`. -/
def dataHead (itemId conflict delta : Nat) : List ((Nat → Nat) → Nat → (Nat → Nat) × Nat) :=
  [_pluswrite ((((itemId <<< 3) % 2 ^ 32) ||| (if conflict ≠ 0 then 1 else 0))
      ||| (if delta ≠ 0 then 2 else 0))] ++
  (if delta ≠ 0 then [_deltawrite delta] else [])

def flxWriteNoneDataEntry {σ : Type} (buffer : flxBuffer σ) (itemId conflict delta : Nat) :
    Int × flxBuffer σ :=
  if itemId = 0 then (FLX_ERROR_INVALID_ID, buffer)
  else flxEntry buffer (REQ1_flxid + REQ1_flxdelta + 1)
    (dataHead itemId conflict delta ++ [putByte FLX_DF_NONE])

def flxWriteIntDataEntry {σ : Type} (buffer : flxBuffer σ) (itemId conflict delta : Nat)
    (value : Nat → Nat) (size signd : Nat) : Int × flxBuffer σ :=
  if itemId = 0 then (FLX_ERROR_INVALID_ID, buffer)
  else flxEntry buffer (REQ1_flxid + REQ1_flxdelta + 2 + size)
    (dataHead itemId conflict delta ++ [_intwrite value size signd FLX_DF_DEFAULT])

def flxWriteLogicStatesDataEntry {σ : Type} (buffer : flxBuffer σ)
    (itemId conflict delta precedingStates : Nat) (value : Nat → Nat) (size : Nat) :
    Int × flxBuffer σ :=
  if itemId = 0 then (FLX_ERROR_INVALID_ID, buffer)
  else flxEntry buffer (REQ1_flxid + REQ1_flxdelta + REQ1_flxuint + size)
    (dataHead itemId conflict delta ++
      [_logicstateswrite FLX_STATE_LEVEL_UNKNOWN precedingStates value size])

/-! ## Trace level operations -/

def FLX_ITEM_TYPE_UNDEFINED : Nat := 0
def FLX_ITEM_TYPE_SCOPE : Nat := 1
def FLX_ITEM_TYPE_SIGNAL : Nat := 2
def FLX_ITEM_OPEN_NONE : Nat := 0
def FLX_ITEM_OPEN_LOCAL : Nat := 1
def FLX_ITEM_OPEN_CONTAINER : Nat := 2

/-- `struct flxTraceItemStruct`. The field `open` is `opn` here. The union `u`
of `flxdomain current` and `flxid openId` is its 64 bit content (little
endian): `current` reads all of it, `openId` its low 32 bits. -/
structure flxTraceItem where
  type : Nat
  opn : Nat
  parentId : Nat
  u : Nat
  deriving DecidableEq, Repr

/-- Read of `item.u.current`. -/
def flxTraceItem.current (item : flxTraceItem) : Int := toS64 item.u

/-- Read of `item.u.openId`. -/
def flxTraceItem.openId (item : flxTraceItem) : Nat := item.u % 2 ^ 32

/-- The assignment `item.u.current = d`. -/
def flxTraceItem.setCurrent (item : flxTraceItem) (d : Int) : flxTraceItem :=
  { item with u := ofS64 d }

/-- The assignment `item.u.openId = id`, which leaves the upper half of the union. -/
def flxTraceItem.setOpenId (item : flxTraceItem) (id : Nat) : flxTraceItem :=
  { item with u := (item.u % 2 ^ 64) / 2 ^ 32 * 2 ^ 32 + id % 2 ^ 32 }

/-- `struct flxTraceStruct`. `self` is the address of the structure (what a
`flxTrace` pointer compares by), `opn` the field `open` of item 0; `items` is
`none` for the null pointer and else the array behind it, item `i` at index
`i - 1`. -/
structure flxTrace (σ : Type) where
  self : Nat
  id : Nat
  mode : Nat
  maxItemId : Nat
  maxEntrySize : Nat
  buffer : Option (flxBuffer σ)
  opn : Nat
  current : Int
  items : Option (List flxTraceItem)
  itemCount : Nat

/-- The element `items[itemId - 1]` with `flxid` index arithmetic: `none`
outside the array (`itemId = 0` gives index `2 ^ 32 - 1`). -/
def itemAt (items : List flxTraceItem) (itemId : Nat) : Option flxTraceItem :=
  if itemId = 0 then none else items[itemId - 1]?

/-- The assignments to fields of `items[itemId - 1]`, for an index inside the array. -/
def itemSet (items : List flxTraceItem) (itemId : Nat) (item : flxTraceItem) :
    List flxTraceItem :=
  items.set (itemId - 1) item

/-- `flxresult flxSetBuffer(flxTrace trace, flxBuffer buffer)` as far as the trace
sees it: the buffer bound before is let go, the new one gets the back pointer. -/
def flxSetBuffer {σ : Type} (trace : flxTrace σ) (buffer : Option (flxBuffer σ)) :
    Int × flxTrace σ :=
  match buffer with
  | some b =>
    if b.trace ≠ 0 ∧ b.trace ≠ trace.self then (FLX_ERROR_BUFFER_ALLREADY_USED, trace)
    else (FLX_OK, { trace with buffer := some { b with trace := trace.self } })
  | none => (FLX_OK, { trace with buffer := none })

/-- `flxTrace flxCreateTrace(flxid traceId, flxid maxItemId, flxbint maxEntrySize,
flxbptr traceBytes, flxbint traceBytesLen, flxBuffer buffer)`; `traceBytes` is
the address of the memory (`0` for null), `szTrace` and `szItem` are
`sizeof(struct flxTraceStruct)` and `sizeof(struct flxTraceItemStruct)`.
`none` is the null result. -/
def flxCreateTrace {σ : Type} (szTrace szItem : Nat) (traceId maxItemId maxEntrySize : Nat)
    (traceBytes traceBytesLen : Nat) (buffer : Option (flxBuffer σ)) : Option (flxTrace σ) :=
  if traceBytesLen < szTrace ∨ traceBytes = 0 then none
  else
    let maxAvailableItems := (traceBytesLen - szTrace) / szItem
    let trace : flxTrace σ :=
      { self := traceBytes, id := traceId, mode := 0, maxItemId := maxItemId,
        maxEntrySize := maxEntrySize, buffer := none, opn := FLX_ITEM_OPEN_NONE, current := 0,
        items := if maxAvailableItems < maxItemId then none
          else some (List.replicate maxItemId
            { type := FLX_ITEM_TYPE_UNDEFINED, opn := FLX_ITEM_OPEN_NONE, parentId := 0,
              u := ofS64 0 }),
        itemCount := 0 }
    some (flxSetBuffer trace buffer).2

/-- The part shared by `flxAddScope`, `flxAddSignal` and `flxAddScatteredSignal`
(and the loop body of `flxAddSignals`) between the buffer test and the entry:
the id checks and, with an item table, the checks and assignments on it.
`Except.error` carries the error returned. -/
def flxDefineItem (maxItemId : Nat) (items : Option (List flxTraceItem))
    (itemId parentId newType : Nat) : Option (Except Int (Option (List flxTraceItem))) :=
  if itemId = 0 ∨ itemId > maxItemId ∨ parentId > maxItemId then
    some (Except.error FLX_ERROR_INVALID_ID)
  else
    match items with
    | none => some (Except.ok none)
    | some its =>
      match itemAt its itemId with
      | none => none
      | some item =>
        if item.type ≠ FLX_ITEM_TYPE_UNDEFINED then
          some (Except.error FLX_ERROR_ITEM_ALLREADY_DEFINED)
        else
          let parentOk : Option Bool :=
            if parentId ≠ 0 then
              (itemAt its parentId).map (fun p => decide (p.type ≠ FLX_ITEM_TYPE_SCOPE))
            else some false
          match parentOk with
          | none => none
          | some true => some (Except.error FLX_ERROR_PARENT_NOT_DEFINED)
          | some false =>
            some (Except.ok (some (itemSet its itemId
              { item with type := newType, opn := FLX_ITEM_OPEN_NONE, parentId := parentId })))

/-- `flxresult flxAddScope(flxTrace trace, flxid itemId, flxid parentId, flxtext name,
flxtext description)`. `none`: an access outside the item table. -/
def flxAddScope {σ : Type} (trace : flxTrace σ) (itemId parentId : Nat)
    (name description : flxtext) : Option (Int × flxTrace σ) :=
  match trace.buffer with
  | none => some (FLX_ERROR_NO_BUFFER, trace)
  | some buffer =>
    match flxDefineItem trace.maxItemId trace.items itemId parentId FLX_ITEM_TYPE_SCOPE with
    | none => none
    | some (Except.error e) => some (e, trace)
    | some (Except.ok items1) =>
      let w := flxWriteScopeDefEntry buffer itemId parentId name description
      some (w.1, { trace with items := items1, buffer := some w.2 })

/-- `flxresult flxAddSignal(flxTrace trace, flxid itemId, flxid parentId, flxtext name,
flxtext description, flxbyte signalType, flxtext signalDescriptor)`. -/
def flxAddSignal {σ : Type} (trace : flxTrace σ) (itemId parentId : Nat)
    (name description : flxtext) (signalType : Nat) (signalDescriptor : flxtext) :
    Option (Int × flxTrace σ) :=
  match trace.buffer with
  | none => some (FLX_ERROR_NO_BUFFER, trace)
  | some buffer =>
    match flxDefineItem trace.maxItemId trace.items itemId parentId FLX_ITEM_TYPE_SIGNAL with
    | none => none
    | some (Except.error e) => some (e, trace)
    | some (Except.ok items1) =>
      let w := flxWriteSignalDefEntry buffer itemId parentId name description signalType
        signalDescriptor
      some (w.1, { trace with items := items1, buffer := some w.2 })

/-- `flxresult flxAddScatteredSignal(...)`. -/
def flxAddScatteredSignal {σ : Type} (trace : flxTrace σ) (itemId parentId : Nat)
    (name description : flxtext) (signalType : Nat) (signalDescriptor : flxtext)
    (scatteredFrom scatteredTo : Nat) : Option (Int × flxTrace σ) :=
  match trace.buffer with
  | none => some (FLX_ERROR_NO_BUFFER, trace)
  | some buffer =>
    match flxDefineItem trace.maxItemId trace.items itemId parentId FLX_ITEM_TYPE_SIGNAL with
    | none => none
    | some (Except.error e) => some (e, trace)
    | some (Except.ok items1) =>
      let w := flxWriteScatteredSignalDefEntry buffer itemId parentId name description
        signalType signalDescriptor scatteredFrom scatteredTo
      some (w.1, { trace with items := items1, buffer := some w.2 })

/-- The loop `for (itemId = itemIdFrom; itemId <= itemIdTo; itemId++)` of
`flxAddSignals`; first argument: iterations left. The result is the error that
ended the loop, if any, and the item table as the loop left it. -/
def flxAddSignals_loop (maxItemId parentId : Nat) :
    Nat → Nat → Option (List flxTraceItem) → Option (Option Int × Option (List flxTraceItem))
  | 0, _, items => some (none, items)
  | k + 1, itemId, items =>
    match flxDefineItem maxItemId items itemId parentId FLX_ITEM_TYPE_SIGNAL with
    | none => none
    | some (Except.error e) => some (some e, items)
    | some (Except.ok items1) => flxAddSignals_loop maxItemId parentId k (itemId + 1) items1

/-- `flxresult flxAddSignals(flxTrace trace, flxid itemIdFrom, flxid itemIdTo, flxid parentId,
...)`. -/
def flxAddSignals {σ : Type} (trace : flxTrace σ) (itemIdFrom itemIdTo parentId : Nat)
    (name description : flxtext) (signalType : Nat) (signalDescriptor : flxtext) :
    Option (Int × flxTrace σ) :=
  match trace.buffer with
  | none => some (FLX_ERROR_NO_BUFFER, trace)
  | some buffer =>
    match flxAddSignals_loop trace.maxItemId parentId (itemIdTo + 1 - itemIdFrom) itemIdFrom
        trace.items with
    | none => none
    | some (some e, items1) => some (e, { trace with items := items1 })
    | some (none, items1) =>
      let w := flxWriteMultiSignalDefEntry buffer itemIdFrom itemIdTo parentId name description
        signalType signalDescriptor
      some (w.1, { trace with items := items1, buffer := some w.2 })

/-- The checks shared by `flxAddSignalReference` and `flxAddScatteredSignalReference`:
`some none` when they pass. -/
def flxCheckReference (maxItemId : Nat) (items : Option (List flxTraceItem))
    (referenceId parentId : Nat) : Option (Option Int) :=
  if referenceId = 0 ∨ referenceId > maxItemId ∨ parentId > maxItemId then
    some (some FLX_ERROR_INVALID_ID)
  else
    match items with
    | none => some none
    | some its =>
      match itemAt its referenceId with
      | none => none
      | some item =>
        if item.type ≠ FLX_ITEM_TYPE_SIGNAL then some (some FLX_ERROR_ITEM_NOT_DEFINED)
        else if parentId ≠ 0 then
          match itemAt its parentId with
          | none => none
          | some p =>
            if p.type ≠ FLX_ITEM_TYPE_SCOPE then some (some FLX_ERROR_PARENT_NOT_DEFINED)
            else some none
        else some none

/-- `flxresult flxAddSignalReference(flxTrace trace, flxid referenceId, flxid parentId,
flxtext name, flxtext description)`. -/
def flxAddSignalReference {σ : Type} (trace : flxTrace σ) (referenceId parentId : Nat)
    (name description : flxtext) : Option (Int × flxTrace σ) :=
  match trace.buffer with
  | none => some (FLX_ERROR_NO_BUFFER, trace)
  | some buffer =>
    match flxCheckReference trace.maxItemId trace.items referenceId parentId with
    | none => none
    | some (some e) => some (e, trace)
    | some none =>
      let w := flxWriteSignalReferenceDefEntry buffer referenceId parentId name description
      some (w.1, { trace with buffer := some w.2 })

/-- `flxresult flxAddScatteredSignalReference(...)`. -/
def flxAddScatteredSignalReference {σ : Type} (trace : flxTrace σ)
    (referenceId parentId : Nat) (name description : flxtext)
    (scatteredFrom scatteredTo : Nat) : Option (Int × flxTrace σ) :=
  match trace.buffer with
  | none => some (FLX_ERROR_NO_BUFFER, trace)
  | some buffer =>
    match flxCheckReference trace.maxItemId trace.items referenceId parentId with
    | none => none
    | some (some e) => some (e, trace)
    | some none =>
      let w := flxWriteScatteredSignalReferenceDefEntry buffer referenceId parentId name
        description scatteredFrom scatteredTo
      some (w.1, { trace with buffer := some w.2 })

/-- The walk `while (1) { if (p == itemId) ...; if (p == 0) break; p = items[p - 1].parentId; }`
of `flxOpen` and `flxClose`: `some true` when `itemId` is met, `some false` when
the walk ends at `0`; `none` when it leaves the table or the fuel ends. -/
def ancestorWalk (items : List flxTraceItem) (itemId : Nat) : Nat → Nat → Option Bool
  | 0, _ => none
  | fuel + 1, p =>
    if p = itemId then some true
    else if p = 0 then some false
    else
      match itemAt items p with
      | none => none
      | some item => ancestorWalk items itemId fuel item.parentId

/-- Fuel for the walks: a chain of parents without repetition has at most
`items.length` items. -/
def walkFuel (items : List flxTraceItem) : Nat := items.length + 1

/-- The loop `// check if children are open` of `flxOpen`,
`for (n = 1; n < trace->maxItemId; n++)`; first argument: iterations left.
`some true` is the return of `FLX_ERROR_CHILDREN_ALLREADY_OPEN`. The walk starts
at `trace->items[itemId - 1].parentId`, as in the source. -/
def flxOpen_check (items : List flxTraceItem) (itemId : Nat) : Nat → Nat → Option Bool
  | 0, _ => some false
  | k + 1, n =>
    match itemAt items n with
    | none => none
    | some item =>
      if item.opn ≠ FLX_ITEM_OPEN_NONE then
        match itemAt items itemId with
        | none => none
        | some target =>
          match ancestorWalk items itemId (walkFuel items) target.parentId with
          | none => none
          | some true => some true
          | some false => flxOpen_check items itemId k (n + 1)
      else flxOpen_check items itemId k (n + 1)

/-- The loops `// indicate open in children` of `flxOpen` and
`// remove open indication in children` of `flxClose`,
`for (n = 1; n < trace->maxItemId; n++)`, which differ in the assignments
`mark` made to an item whose walk meets `itemId`. -/
def flxMarkChildren (itemId : Nat) (mark : flxTraceItem → flxTraceItem) :
    Nat → Nat → List flxTraceItem → Option (List flxTraceItem)
  | 0, _, items => some items
  | k + 1, n, items =>
    match itemAt items n with
    | none => none
    | some item =>
      match ancestorWalk items itemId (walkFuel items) item.parentId with
      | none => none
      | some true => flxMarkChildren itemId mark k (n + 1) (itemSet items n (mark item))
      | some false => flxMarkChildren itemId mark k (n + 1) items

/-- The assignments of `flxOpen` to a child: `open = FLX_ITEM_OPEN_CONTAINER; u.openId = itemId`. -/
def markOpen (itemId : Nat) (item : flxTraceItem) : flxTraceItem :=
  ({ item with opn := FLX_ITEM_OPEN_CONTAINER }).setOpenId itemId

/-- The assignments of `flxClose` to a child: `open = FLX_ITEM_OPEN_NONE; u.current = 0`. -/
def markClosed (item : flxTraceItem) : flxTraceItem :=
  ({ item with opn := FLX_ITEM_OPEN_NONE }).setCurrent 0

/-- `flxresult flxOpen(flxTrace trace, flxid itemId, flxtext domainBase, flxdomain start,
flxdelta rate)`. `none`: an access outside the item table or a walk that does
not end. -/
def flxOpen {σ : Type} (trace : flxTrace σ) (itemId : Nat) (domainBase : flxtext)
    (start : Int) (rate : Nat) : Option (Int × flxTrace σ) :=
  match trace.buffer with
  | none => some (FLX_ERROR_NO_BUFFER, trace)
  | some buffer =>
    if itemId ≥ trace.maxItemId ∨ (trace.items.isNone ∧ itemId > 0) then
      some (FLX_ERROR_INVALID_ID, trace)
    else
      match trace.items with
      | none =>
        if trace.opn ≠ FLX_ITEM_OPEN_NONE then some (FLX_ERROR_ALLREADY_OPEN, trace)
        else
          let w := flxWriteOpenEntry buffer itemId domainBase start rate
          some (w.1, { trace with opn := FLX_ITEM_OPEN_LOCAL, current := start,
                                  buffer := some w.2 })
      | some its =>
        let isOpen : Option Bool :=
          if itemId = 0 then some (decide (trace.opn ≠ FLX_ITEM_OPEN_NONE))
          else (itemAt its itemId).map (fun item => decide (item.opn ≠ FLX_ITEM_OPEN_NONE))
        match isOpen with
        | none => none
        | some true => some (FLX_ERROR_ALLREADY_OPEN, trace)
        | some false =>
          match flxOpen_check its itemId (trace.maxItemId - 1) 1 with
          | none => none
          | some true => some (FLX_ERROR_CHILDREN_ALLREADY_OPEN, trace)
          | some false =>
            let opened : Option (Nat × Int × List flxTraceItem) :=
              if itemId = 0 then some (FLX_ITEM_OPEN_LOCAL, start, its)
              else (itemAt its itemId).map (fun item =>
                (trace.opn, trace.current,
                 itemSet its itemId (({ item with opn := FLX_ITEM_OPEN_LOCAL }).setCurrent start)))
            match opened with
            | none => none
            | some (opn1, current1, its1) =>
              match flxMarkChildren itemId (markOpen itemId) (trace.maxItemId - 1) 1 its1 with
              | none => none
              | some its2 =>
                let w := flxWriteOpenEntry buffer itemId domainBase start rate
                some (w.1, { trace with opn := opn1, current := current1, items := some its2,
                                        buffer := some w.2 })

/-- `flxresult flxClose(flxTrace trace, flxid itemId, flxdomain end)`. -/
def flxClose {σ : Type} (trace : flxTrace σ) (itemId : Nat) (end_ : Int) :
    Option (Int × flxTrace σ) :=
  match trace.buffer with
  | none => some (FLX_ERROR_NO_BUFFER, trace)
  | some buffer =>
    if itemId ≥ trace.maxItemId ∨ (trace.items.isNone ∧ itemId > 0) then
      some (FLX_ERROR_INVALID_ID, trace)
    else
      let state : Option (Nat × Int) :=
        if itemId = 0 then some (trace.opn, trace.current)
        else
          match trace.items with
          | none => none
          | some its => (itemAt its itemId).map (fun item => (item.opn, item.current))
      match state with
      | none => none
      | some (opn, current) =>
        if opn ≠ FLX_ITEM_OPEN_LOCAL then some (FLX_ERROR_NOT_OPEN, trace)
        else
          let end1 := if end_ < current then wrap64 (current + 1) else end_
          let marked : Option (Option (List flxTraceItem)) :=
            match trace.items with
            | none => some none
            | some its =>
              (flxMarkChildren itemId markClosed (trace.maxItemId - 1) 1 its).map some
          match marked with
          | none => none
          | some items1 =>
            let w := flxWriteCloseEntry buffer itemId end1
            some (w.1, { trace with items := items1, buffer := some w.2 })

/-- `flxbool flxIsOpen(flxTrace trace, flxid itemId)`. -/
def flxIsOpen {σ : Type} (trace : flxTrace σ) (itemId : Nat) : Option Bool :=
  if trace.opn = FLX_ITEM_OPEN_LOCAL then some true
  else
    match trace.items with
    | none => some false
    | some its => (itemAt its itemId).map (fun item => decide (item.opn ≠ FLX_ITEM_OPEN_NONE))

/-- The first part of the macro `FLX_WRITE_AT`: which `current` the write is
measured against. `some (Except.ok openId)` stands for
`current = &(trace->items[openId - 1].u.current)` when `openId ≠ 0` and for
`current = &(trace->current)` when `openId = 0`. -/
def flxResolveCurrent {σ : Type} (trace : flxTrace σ) (itemId : Nat) :
    Option (Except Int (Nat × Int)) :=
  match trace.items with
  | some its =>
    if trace.opn = 0 then
      match itemAt its itemId with
      | none => none
      | some item =>
        if item.opn = FLX_ITEM_OPEN_LOCAL then some (Except.ok (itemId, item.current))
        else if item.opn = FLX_ITEM_OPEN_CONTAINER then
          match itemAt its item.openId with
          | none => none
          | some oitem =>
            if oitem.opn ≠ FLX_ITEM_OPEN_LOCAL then some (Except.error FLX_ERROR_NOT_OPEN)
            else some (Except.ok (item.openId, oitem.current))
        else some (Except.error FLX_ERROR_NOT_OPEN)
    else if trace.opn ≠ FLX_ITEM_OPEN_LOCAL then some (Except.error FLX_ERROR_NOT_OPEN)
    else some (Except.ok (0, trace.current))
  | none =>
    if trace.opn ≠ FLX_ITEM_OPEN_LOCAL then some (Except.error FLX_ERROR_NOT_OPEN)
    else some (Except.ok (0, trace.current))

/-- The assignment through the pointer `current` of `FLX_WRITE_AT`. -/
def flxStoreCurrent {σ : Type} (trace : flxTrace σ) (openId : Nat) (d : Int) : flxTrace σ :=
  if openId = 0 then { trace with current := d }
  else
    match trace.items with
    | none => trace
    | some its =>
      match itemAt its openId with
      | none => trace
      | some item => { trace with items := some (itemSet its openId (item.setCurrent d)) }

/-- The macro `FLX_WRITE_AT(x)`, the body of `flxWriteCurrent` and of every
`flxWrite...At`. `x` is the entry writer call of the macro argument, as a
function of `trace->buffer` and of the `flxdomain delta` computed by the macro.
Signed 64 bit arithmetic wraps. -/
def FLX_WRITE_AT {σ : Type} (x : flxBuffer σ → Int → Int × flxBuffer σ) (trace : flxTrace σ)
    (itemId : Nat) (domainPosition : Int) (isDelta : Nat) : Option (Int × flxTrace σ) :=
  match trace.buffer with
  | none => some (FLX_ERROR_NO_BUFFER, trace)
  | some buffer =>
    match flxResolveCurrent trace itemId with
    | none => none
    | some (Except.error e) => some (e, trace)
    | some (Except.ok (openId, current)) =>
      let delta := if isDelta ≠ 0 then domainPosition else wrap64 (domainPosition - current)
      if delta < 0 then some (FLX_ERROR_POSITION_LESSTHAN_CURRENT, trace)
      else
        let r := x buffer delta
        let trace1 := { trace with buffer := some r.2 }
        if r.1 = FLX_OK then
          some (r.1, flxStoreCurrent trace1 openId
            (if isDelta ≠ 0 then wrap64 (current + delta) else domainPosition))
        else some (r.1, trace1)

/-- Conversion of the `flxdomain delta` of `FLX_WRITE_AT` to the `flxdelta`
(`uint32_t`) parameter of the data entry writers. -/
def toFlxdelta (delta : Int) : Nat := (delta % 2 ^ 32).toNat

/-- `flxresult flxWriteCurrent(flxTrace trace, flxid itemId, flxdomain domainPosition)`. -/
def flxWriteCurrent {σ : Type} (trace : flxTrace σ) (itemId : Nat) (domainPosition : Int) :
    Option (Int × flxTrace σ) :=
  FLX_WRITE_AT (fun buffer _ => flxflxWriteCurrentEntry buffer itemId domainPosition)
    trace itemId domainPosition 0

/-- `flxresult flxWriteNoneAt(flxTrace trace, flxid itemId, flxbool conflict,
flxdomain domainPosition, flxbool isDelta)`. -/
def flxWriteNoneAt {σ : Type} (trace : flxTrace σ) (itemId conflict : Nat)
    (domainPosition : Int) (isDelta : Nat) : Option (Int × flxTrace σ) :=
  FLX_WRITE_AT (fun buffer delta => flxWriteNoneDataEntry buffer itemId conflict
    (toFlxdelta delta)) trace itemId domainPosition isDelta

/-- `flxresult flxWriteIntAt(...)`. -/
def flxWriteIntAt {σ : Type} (trace : flxTrace σ) (itemId conflict : Nat)
    (domainPosition : Int) (isDelta : Nat) (value : Nat → Nat) (size signd : Nat) :
    Option (Int × flxTrace σ) :=
  FLX_WRITE_AT (fun buffer delta => flxWriteIntDataEntry buffer itemId conflict
    (toFlxdelta delta) value size signd) trace itemId domainPosition isDelta

/-- `flxresult flxWriteLogicStatesAt(flxTrace trace, flxid itemId, flxbool conflict,
flxdomain domainPosition, flxbool isDelta, flxbyte precedingStates, flxbptr value,
flxuint size)`. -/
def flxWriteLogicStatesAt {σ : Type} (trace : flxTrace σ) (itemId conflict : Nat)
    (domainPosition : Int) (isDelta : Nat) (precedingStates : Nat) (value : Nat → Nat)
    (size : Nat) : Option (Int × flxTrace σ) :=
  FLX_WRITE_AT (fun buffer delta => flxWriteLogicStatesDataEntry buffer itemId conflict
    (toFlxdelta delta) precedingStates value size) trace itemId domainPosition isDelta

/-- Statement side of `FLX_WRITE_AT`, after the description of the write at a
domain position: the open sequence that governs a write to `itemId` and its
current position. With the root open it is the root (`openId = 0`) and
`trace.current`; else, with an item table, the item itself when it is `LOCAL`
and the item it names in `u.openId` when it is `CONTAINER` and that item is
`LOCAL`. -/
def OpenAt {σ : Type} (trace : flxTrace σ) (itemId openId : Nat) (current : Int) : Prop :=
  (trace.opn = FLX_ITEM_OPEN_LOCAL ∧ openId = 0 ∧ current = trace.current) ∨
  (∃ its item, trace.opn = FLX_ITEM_OPEN_NONE ∧ trace.items = some its ∧
    itemAt its itemId = some item ∧ item.opn = FLX_ITEM_OPEN_LOCAL ∧
    openId = itemId ∧ current = item.current) ∨
  (∃ its item oitem, trace.opn = FLX_ITEM_OPEN_NONE ∧ trace.items = some its ∧
    itemAt its itemId = some item ∧ item.opn = FLX_ITEM_OPEN_CONTAINER ∧
    itemAt its item.openId = some oitem ∧ oitem.opn = FLX_ITEM_OPEN_LOCAL ∧
    openId = item.openId ∧ current = oitem.current)

/-- The values of `int64_t`. -/
def InS64 (d : Int) : Prop := -(2 ^ 63) ≤ d ∧ d < 2 ^ 63

/-! ## Runs of public operations -/

/-- The public operations that act on a trace: the item definitions, the
references, `flxOpen`, `flxClose`, the writes (`flxWriteCurrent` and every
`flxWrite...At` are `FLX_WRITE_AT` with their entry writer `x`) and
`flxSetBuffer`. -/
inductive flxOp (σ : Type) where
  | addScope (itemId parentId : Nat) (name description : flxtext)
  | addSignal (itemId parentId : Nat) (name description : flxtext) (signalType : Nat)
      (signalDescriptor : flxtext)
  | addSignals (itemIdFrom itemIdTo parentId : Nat) (name description : flxtext)
      (signalType : Nat) (signalDescriptor : flxtext)
  | addSignalReference (referenceId parentId : Nat) (name description : flxtext)
  | addScatteredSignal (itemId parentId : Nat) (name description : flxtext) (signalType : Nat)
      (signalDescriptor : flxtext) (scatteredFrom scatteredTo : Nat)
  | addScatteredSignalReference (referenceId parentId : Nat) (name description : flxtext)
      (scatteredFrom scatteredTo : Nat)
  | opening (itemId : Nat) (domainBase : flxtext) (start : Int) (rate : Nat)
  | closing (itemId : Nat) (end_ : Int)
  | writeAt (x : flxBuffer σ → Int → Int × flxBuffer σ) (itemId : Nat) (domainPosition : Int)
      (isDelta : Nat)
  | setBuffer (buffer : Option (flxBuffer σ))

/-- One public operation on a trace: its result and the trace afterwards. -/
def flxOp.run {σ : Type} (op : flxOp σ) (trace : flxTrace σ) : Option (Int × flxTrace σ) :=
  match op with
  | .addScope itemId parentId name description =>
    flxAddScope trace itemId parentId name description
  | .addSignal itemId parentId name description signalType signalDescriptor =>
    flxAddSignal trace itemId parentId name description signalType signalDescriptor
  | .addSignals itemIdFrom itemIdTo parentId name description signalType signalDescriptor =>
    flxAddSignals trace itemIdFrom itemIdTo parentId name description signalType
      signalDescriptor
  | .addSignalReference referenceId parentId name description =>
    flxAddSignalReference trace referenceId parentId name description
  | .addScatteredSignal itemId parentId name description signalType signalDescriptor
      scatteredFrom scatteredTo =>
    flxAddScatteredSignal trace itemId parentId name description signalType signalDescriptor
      scatteredFrom scatteredTo
  | .addScatteredSignalReference referenceId parentId name description scatteredFrom
      scatteredTo =>
    flxAddScatteredSignalReference trace referenceId parentId name description scatteredFrom
      scatteredTo
  | .opening itemId domainBase start rate => flxOpen trace itemId domainBase start rate
  | .closing itemId end_ => flxClose trace itemId end_
  | .writeAt x itemId domainPosition isDelta => FLX_WRITE_AT x trace itemId domainPosition isDelta
  | .setBuffer buffer => some (flxSetBuffer trace buffer)

/-- A sequence of public operations, whatever each one returns; `none` when one
of them leaves defined behaviour. -/
def flxRun {σ : Type} : List (flxOp σ) → flxTrace σ → Option (flxTrace σ)
  | [], trace => some trace
  | op :: ops, trace =>
    match op.run trace with
    | none => none
    | some r => flxRun ops r.2

/-- Statement side: item tables `a` and `b` agree on type and parent of every
item that is defined in `a`. -/
def KeepsDefined (a b : Option (List flxTraceItem)) : Prop :=
  ∀ its, a = some its → ∃ its1, b = some its1 ∧
    ∀ i item, itemAt its i = some item → item.type ≠ FLX_ITEM_TYPE_UNDEFINED →
      ∃ item1, itemAt its1 i = some item1 ∧ item1.type = item.type ∧
        item1.parentId = item.parentId

/-! ## Example states -/

/-- Example state: a trace without item table (single-open mode) on a linear
buffer of 64 bytes, as `flxCreateTrace` makes it. -/
def exTraceRoot : Option (flxTrace Unit) :=
  flxCreateTrace 56 16 0 4 4096 1000 56 (some (flxCreateLinearBuffer 0 (fun _ => 0) 64 none ()))

/-- Example state: the single-open trace with the root sequence open at position 5. -/
def exTraceOpen5 : flxTrace Unit :=
  { self := 1000, id := 0, mode := 0, maxItemId := 4, maxEntrySize := 4096,
    buffer := some (flxCreateLinearBuffer 0 (fun _ => 0) 64 none ()),
    opn := FLX_ITEM_OPEN_LOCAL, current := 5, items := none, itemCount := 0 }

/-- Example state: signal 2 under scope 1 in a trace of four items, the root
sequence open, position 10 reached by a sample. -/
def exTraceAt10 : flxTrace Unit :=
  { self := 1000, id := 0, mode := 0, maxItemId := 4, maxEntrySize := 4096,
    buffer := some (flxCreateLinearBuffer 0 (fun _ => 0) 64 none ()),
    opn := FLX_ITEM_OPEN_LOCAL, current := 10,
    items := some [⟨FLX_ITEM_TYPE_SCOPE, FLX_ITEM_OPEN_CONTAINER, 0, 0⟩,
      ⟨FLX_ITEM_TYPE_SIGNAL, FLX_ITEM_OPEN_CONTAINER, 1, 0⟩,
      ⟨FLX_ITEM_TYPE_UNDEFINED, FLX_ITEM_OPEN_CONTAINER, 0, 0⟩,
      ⟨FLX_ITEM_TYPE_UNDEFINED, FLX_ITEM_OPEN_NONE, 0, 0⟩],
    itemCount := 0 }

/-- Example state: a trace with a table of four undefined items on a linear
buffer of 64 bytes. -/
def exTraceFour : flxTrace Unit :=
  { self := 1000, id := 0, mode := 0, maxItemId := 4, maxEntrySize := 4096,
    buffer := some (flxCreateLinearBuffer 0 (fun _ => 0) 64 none ()),
    opn := FLX_ITEM_OPEN_NONE, current := 0,
    items := some (List.replicate 4 ⟨FLX_ITEM_TYPE_UNDEFINED, FLX_ITEM_OPEN_NONE, 0, 0⟩),
    itemCount := 0 }

/-- Example run: close the root sequence, define scope 3 under scope 1, try to
define item 2 again, open scope 1, write a sample to signal 2, close scope 1. -/
def exOpsMixed : List (flxOp Unit) :=
  [.closing 0 20, .addScope 3 1 none none, .addScope 2 0 none none, .opening 1 none 0 0,
   .writeAt (fun buffer delta => flxWriteNoneDataEntry buffer 2 0 (toFlxdelta delta)) 2 15 0,
   .closing 1 9]

/-- `FLX_TYPE_LOGIC`. -/
def FLX_TYPE_LOGIC : Nat := 3

/-- The results of a sequence of public operations, in call order, and the trace
afterwards; `none` when one of them leaves defined behaviour. -/
def flxRunResults {σ : Type} : List (flxOp σ) → flxTrace σ → Option (List Int × flxTrace σ)
  | [], trace => some ([], trace)
  | op :: ops, trace =>
    match op.run trace with
    | none => none
    | some r => (flxRunResults ops r.2).map (fun q => (r.1 :: q.1, q.2))

/-- Example state: a trace for `maxItemId` items with the item table, created by
`flxCreateTrace` on memory of `FLX_TRACE_BYTES(1, maxItemId)` bytes, bound to a
linear buffer of 256 bytes. -/
def exCreate (maxItemId : Nat) : Option (flxTrace Unit) :=
  flxCreateTrace 56 16 0 maxItemId 4096 1000 (56 + 16 * maxItemId)
    (some (flxCreateLinearBuffer 0 (fun _ => 0) 256 none ()))

/-- Example hierarchy: scopes 1, 2 under 1 and 3 under 2, signals 4 under 2 and 5
under 3. -/
def exTreeOps : List (flxOp Unit) :=
  [.addScope 1 0 none none, .addScope 2 1 none none, .addScope 3 2 none none,
   .addSignal 4 2 none none FLX_TYPE_LOGIC none, .addSignal 5 3 none none FLX_TYPE_LOGIC none]

/-- The view of a run used in the examples: the results of the calls and, per
item, `(parentId, open, u)`. -/
def exView (r : Option (List Int × flxTrace Unit)) :
    Option (List Int × Option (List (Nat × Nat × Nat))) :=
  r.map (fun q => (q.1, q.2.items.map (List.map (fun item => (item.parentId, item.opn, item.u)))))

/-- The committed bytes of the buffer bound to a trace (linear buffer: the
cells below the cursor). -/
def exCommitted (t : flxTrace Unit) : List Nat :=
  match t.buffer with
  | none => []
  | some b => readBytes b.bytes 0 b.pos

/-! ## Entry layout, statement side -/

/-- Statement side: the groups of seven bits of `v`, least significant first,
with the continuation bit `0x80` on all but the last one; first argument: the
number of groups allowed. -/
def varintAux : Nat → Nat → List Nat
  | 0, _ => []
  | g + 1, v => if v < 128 then [v] else (v % 128 + 128) :: varintAux g (v / 128)

/-- Statement side: the unsigned varint of the format (a value below `2 ^ 70`
has at most ten groups). -/
def varintBytes (v : Nat) : List Nat := varintAux 10 v

/-- Statement side: a text of the format, the varint of its length and then its
characters, without terminator; the null text is the empty text. -/
def textEntryBytes (text : flxtext) : List Nat :=
  varintBytes (text.getD []).length ++ text.getD []

/-- Statement side: the step `f` of an entry body appends exactly the bytes `l`:
from any position of any region it reports `l.length` bytes written, leaves the
cells below the position as they were and leaves `l` at the position. -/
def Emits (f : (Nat → Nat) → Nat → (Nat → Nat) × Nat) (l : List Nat) : Prop :=
  ∀ bytes pos, (f bytes pos).2 = l.length ∧ (∀ j, j < pos → (f bytes pos).1 j = bytes j) ∧
    readBytes (f bytes pos).1 pos l.length = l

/-- Example state: a linear buffer of 16 bytes holding `1, 2, 3, 4, 5`, whose
handle reports that it took `k` bytes. -/
def exBufferFive (k : Nat) : flxBuffer Unit :=
  { flxCreateLinearBuffer 0 (fun i => if i < 5 then i + 1 else 0) 16
      (some (fun _ _ _ _ => (FLX_OK, k, ()))) () with pos := 5 }


/-! ## Head entry -/

def FLX_VERSION : Nat := 4
def FLX_ENTRY_HEAD : Nat := 0x01
def FLX_MODE_HEAD_NORMAL : Nat := 0x00

/-- The statements `_arraycopy((const flxbptr) format4, 0, bytes, written, 4); written += 4;`. -/
def copyFormat4 (format4 : flxtext) (bytes : Nat → Nat) (pos : Nat) : (Nat → Nat) × Nat :=
  (_arraycopy (textBytes format4) 0 bytes pos 4, 4)

/-- `flxresult flxWriteHeadEntry(flxBuffer buffer, flxtext format4, flxid traceId, flxtext name,
flxtext description, flxbyte mode, flxid maxItemId, flxbint maxEntrySize)`. The
body reads four bytes behind `format4`: `none` when it runs with a null
`format4` or with one of less than three characters (the read then passes the
terminator). -/
def flxWriteHeadEntry {σ : Type} (buffer : flxBuffer σ) (format4 : flxtext)
    (traceId : Nat) (name description : flxtext) (mode maxItemId maxEntrySize : Nat) :
    Option (Int × flxBuffer σ) :=
  let request := 6 + REQ1_flxid * 2 + REQ1_flxbint + _textlen name true
    + _textlen description true
  if (buffer.call FLX_BUFFER_REQUEST (request % 2 ^ 32) none).result = FLX_OK ∧
      (format4.isNone ∨ (format4.getD []).length + 1 < 4) then none
  else
    some (flxEntry buffer request
      [putByte 0, putByte FLX_ENTRY_HEAD, copyFormat4 format4, putByte FLX_VERSION,
       _pluswrite traceId, _textwrite name, _textwrite description, putByte mode,
       _pluswrite maxItemId, _pluswrite maxEntrySize])

/-- The characters of the literal `"flux"`. -/
def fluxFormat : List Nat := [0x66, 0x6c, 0x75, 0x78]

/-- `flxresult flxAddHead(flxTrace trace, flxtext name, flxtext description)`. -/
def flxAddHead {σ : Type} (trace : flxTrace σ) (name description : flxtext) :
    Option (Int × flxTrace σ) :=
  match trace.buffer with
  | none => some (FLX_ERROR_NO_BUFFER, trace)
  | some buffer =>
    (flxWriteHeadEntry buffer (some fluxFormat) trace.id name description
      FLX_MODE_HEAD_NORMAL trace.maxItemId trace.maxEntrySize).map
      (fun w => (w.1, { trace with buffer := some w.2 }))

/-- Statement side: the head of a data sample, the varint of the tagged item id
and, when the delta is not zero, the varint of the delta. The tag is the
expression of the source on the 32 bit `flxid`. -/
def dataHeadBytes (itemId conflict delta : Nat) : List Nat :=
  varintBytes ((((itemId <<< 3) % 2 ^ 32) ||| (if conflict ≠ 0 then 1 else 0))
      ||| (if delta ≠ 0 then 2 else 0)) ++
  (if delta ≠ 0 then varintBytes delta else [])

/-- Statement side: the head entry as the format describes it. -/
def headEntryBytes (traceId : Nat) (name description : flxtext) (mode maxItemId
    maxEntrySize : Nat) : List Nat :=
  [0x00, 0x01, 0x66, 0x6c, 0x75, 0x78, 0x04] ++ varintBytes traceId ++ textEntryBytes name
    ++ textEntryBytes description ++ [mode] ++ varintBytes maxItemId ++ varintBytes maxEntrySize

/-- Example state: a trace with id 0, `maxItemId = 0` and `maxEntrySize = 4095`
bound to an empty linear buffer of 4096 bytes. -/
def exTraceHead : flxTrace Unit :=
  { self := 1000, id := 0, mode := 0, maxItemId := 0, maxEntrySize := 4095,
    buffer := some { flxCreateLinearBuffer 0 (fun _ => 0) 4096 none () with trace := 1000 },
    opn := FLX_ITEM_OPEN_NONE, current := 0, items := none, itemCount := 0 }

/-- Example run: scope 1 under the root, logic signal 2 under scope 1, then
`flxOpen(trace, 0, "ns", 0, 0)`. -/
def exMinimalOps : List (flxOp Unit) :=
  [.addScope 1 0 none none, .addSignal 2 1 none none FLX_TYPE_LOGIC none,
   .opening 0 (some [0x6e, 0x73]) 0 0]

/-- Example state: the trace for two items after `exMinimalOps`, with the
results of the three calls. -/
def exMinimal : Option (List Int × flxTrace Unit) :=
  (exCreate 2).bind (flxRunResults exMinimalOps)


/-! ## Buffer binding on addresses -/

/-- The pointers that `flxSetBuffer` reads and writes, with traces and buffers
told apart by their addresses: `traceBuffer t` is `t->buffer` of the trace at
address `t` (`none` as long as no trace was created there, `some 0` for the null
pointer), `bufferTrace b` is `b->trace` of the buffer at address `b` (`0` for
the null pointer, as `flxCreateLinearBuffer` and the other creators leave it). -/
structure flxLinks where
  traceBuffer : Nat → Option Nat
  bufferTrace : Nat → Nat

/-- `flxresult flxSetBuffer(flxTrace trace, flxBuffer buffer)` on addresses;
`none`: `trace` is not the address of a trace. -/
def flxSetBufferAt (m : flxLinks) (trace buffer : Nat) : Option (Int × flxLinks) :=
  match m.traceBuffer trace with
  | none => none
  | some old =>
    if buffer ≠ 0 ∧ m.bufferTrace buffer ≠ 0 ∧ m.bufferTrace buffer ≠ trace then
      some (FLX_ERROR_BUFFER_ALLREADY_USED, m)
    else
      some (FLX_OK,
        { traceBuffer := fun t => if t = trace then some buffer else m.traceBuffer t,
          bufferTrace := fun b =>
            if buffer ≠ 0 ∧ b = buffer then trace
            else if old ≠ 0 ∧ b = old then 0
            else m.bufferTrace b })

/-- The statements of `flxCreateTrace` on `trace->buffer`:
`trace->buffer = 0; flxSetBuffer(trace, buffer); return trace;` after the test
of the memory; the result is the memory afterwards and the returned pointer. -/
def flxCreateTraceAt (szTrace : Nat) (m : flxLinks) (traceBytes traceBytesLen buffer : Nat) :
    flxLinks × Nat :=
  if traceBytesLen < szTrace ∨ traceBytes = 0 then (m, 0)
  else
    let m1 : flxLinks :=
      { m with traceBuffer := fun t => if t = traceBytes then some 0 else m.traceBuffer t }
    match flxSetBufferAt m1 traceBytes buffer with
    | some r => (r.2, traceBytes)
    | none => (m1, traceBytes)

/-- The calls that bind buffers. -/
inductive flxLinkOp where
  | create (traceBytes traceBytesLen buffer : Nat)
  | setBuffer (trace buffer : Nat)

/-- One call on the memory; `none` for `flxSetBuffer` on something that is not
a trace. -/
def flxLinkOp.run (szTrace : Nat) (op : flxLinkOp) (m : flxLinks) : Option flxLinks :=
  match op with
  | .create traceBytes traceBytesLen buffer =>
    some (flxCreateTraceAt szTrace m traceBytes traceBytesLen buffer).1
  | .setBuffer trace buffer => (flxSetBufferAt m trace buffer).map (fun r => r.2)

/-- A sequence of calls. -/
def flxLinksRun (szTrace : Nat) : List flxLinkOp → flxLinks → Option flxLinks
  | [], m => some m
  | op :: ops, m =>
    match op.run szTrace m with
    | none => none
    | some m1 => flxLinksRun szTrace ops m1

/-- The memory before any trace is created: every buffer unbound. -/
def flxLinks0 : flxLinks := { traceBuffer := fun _ => none, bufferTrace := fun _ => 0 }

/-- Statement side: binding is symmetric, `t->buffer == b` exactly when
`b->trace == t`, for non-null `t` and `b`; no trace is at the null address. -/
def Symmetric (m : flxLinks) : Prop :=
  m.traceBuffer 0 = none ∧
  ∀ t b, t ≠ 0 → b ≠ 0 → (m.traceBuffer t = some b ↔ m.bufferTrace b = t)

/-- Statement side: every `flxCreateTrace` of the sequence is given memory in
which no trace was created before. -/
def FreshCreates (szTrace : Nat) : flxLinks → List flxLinkOp → Prop
  | _, [] => True
  | m, op :: ops =>
    (match op with
      | .create traceBytes _ _ => m.traceBuffer traceBytes = none
      | .setBuffer _ _ => True) ∧
    (match op.run szTrace m with
      | none => True
      | some m1 => FreshCreates szTrace m1 ops)

/-! ## Primitive payloads, statement side -/

/-- Statement side: the size prefix of a primitive, absent for `FLX_SZDF_NONE`,
the varint of the size for `FLX_SZDF_SIZEONLY`, else the varint of
`(size << 4) | (szDf & 0x0f)`. -/
def sizePrefixBytes (size szDf : Nat) : List Nat :=
  if szDf = FLX_SZDF_NONE then []
  else if szDf = FLX_SZDF_SIZEONLY then varintBytes size
  else varintBytes ((size <<< 4) ||| (szDf &&& 0x0f))

/-- Statement side: the minimisation rule on the bytes of a value listed from
the most significant end. A `0x00` byte (value not negative) whose next lower
byte has its most significant bit clear is stripped, and so is a `0xff` byte
(value negative) whose next lower byte has that bit set; the first byte that
does not qualify stops the stripping. A lowest byte `0x00` of a value that is
not negative is stripped too. The result is the number of bytes retained. -/
def minimalFromTop (neg : Bool) : List Nat → Nat
  | [] => 0
  | [b] => if neg = false ∧ b = 0 then 0 else 1
  | b :: c :: rest =>
    if (neg = false ∧ b = 0 ∧ c &&& 0x80 = 0) ∨ (neg = true ∧ b = 0xff ∧ c &&& 0x80 ≠ 0) then
      minimalFromTop neg (c :: rest)
    else rest.length + 2

/-- Statement side: the number of bytes retained of a little endian value; the
value is negative when the flag says signed and the most significant bit of
its most significant byte is set. -/
def minimalLen (signd : Bool) (value : List Nat) : Nat :=
  minimalFromTop (signd && decide (value.getLastD 0 &&& 0x80 ≠ 0)) value.reverse

/-! ## Logic payload, statement side -/

/-- Statement side: the state level chosen for a preceding state and the
states that remain after cropping: 2-state when all of them are in `{0, 1}`,
4-state when all are in `{0, 1, Z, X}` but not all in `{0, 1}`, 16-state
otherwise. -/
def autoLevel (p : Nat) (states : List Nat) : Nat :=
  if p ≤ 1 ∧ ∀ s ∈ states, s ≤ 1 then FLX_STATE_LEVEL_2
  else if p ≤ 3 ∧ ∀ s ∈ states, s ≤ 3 then FLX_STATE_LEVEL_4
  else FLX_STATE_LEVEL_16

/-- Statement side: the number of data bytes of a logic payload that is not a
marker, for `size` states at a level: one more than the number of bytes the
states fill completely, so that the first data byte always starts with a fill
state. -/
def logicDataBytes (stateLevel size : Nat) : Nat := size / (8 >>> (stateLevel - 1)) + 1

/-- Statement side: the header of a logic payload that is not a marker, the
expression `(dataBytes << 4) | stateLevel | FLX_XDF_LOGIC_PACK_RIGHT_ALLIGNED`
on `flxuint`. -/
def logicHeader (stateLevel size : Nat) : Nat :=
  ((((logicDataBytes stateLevel size) <<< 4) % 2 ^ 32) ||| stateLevel)
    ||| FLX_XDF_LOGIC_PACK_RIGHT_ALLIGNED

/-- Statement side: the result `r` of a write at `pos` of `bytes` is the header
varint of `size` states at `stateLevel` followed by exactly
`logicDataBytes stateLevel size` data bytes. -/
def LogicPayload (stateLevel size : Nat) (bytes : Nat → Nat) (pos : Nat)
    (r : (Nat → Nat) × Nat) : Prop :=
  r.2 = (varintBytes (logicHeader stateLevel size)).length + logicDataBytes stateLevel size ∧
  readBytes r.1 pos (varintBytes (logicHeader stateLevel size)).length
    = varintBytes (logicHeader stateLevel size) ∧
  ∀ j, j < pos → r.1 j = bytes j

/-! ## Logic text -/

/-- The characters `'0', '1', 'z', 'x', 'l', 'h', 'u', 'w', '-', 'j', 'k', 'm', 'n', 'o', 'p', '#'`. -/
def FLX_STATE_LC_DIGITS : List Nat :=
  [0x30, 0x31, 0x7a, 0x78, 0x6c, 0x68, 0x75, 0x77, 0x2d, 0x6a, 0x6b, 0x6d, 0x6e, 0x6f, 0x70, 0x23]

/-- The characters `'0', '1', 'Z', 'X', 'L', 'H', 'U', 'W', '-', 'J', 'K', 'M', 'N', 'O', 'P', '#'`. -/
def FLX_STATE_UC_DIGITS : List Nat :=
  [0x30, 0x31, 0x5a, 0x58, 0x4c, 0x48, 0x55, 0x57, 0x2d, 0x4a, 0x4b, 0x4d, 0x4e, 0x4f, 0x50, 0x23]

/-- The loop `for (n = 0; n < 16; n++) { char2State[FLX_STATE_LC_DIGITS[n]] = n;
char2State[FLX_STATE_UC_DIGITS[n]] = n; }` of `_logictextwrite`, last iteration
outermost. -/
def char2State_fill (table : Nat → Nat) : Nat → (Nat → Nat)
  | 0 => table
  | n + 1 => store (store (char2State_fill table n) (FLX_STATE_LC_DIGITS.getD n 0) n)
      (FLX_STATE_UC_DIGITS.getD n 0) n

/-- The table `static flxbyte char2State[256]` of `_logictextwrite` once `init`
is set: every cell `FLX_STATE_UNKNOWN_BITS`, then the sixteen digits in both
cases. The table is filled on the first call and read by every call. -/
def char2State : Nat → Nat := char2State_fill (fun _ => FLX_STATE_UNKNOWN_BITS) 16

/-- The index `(int) value[n]` of `_logictextwrite` for the character with the
byte `c`: `flxtext` is `const char*` and `char` is signed, so a byte above
`0x7f` is a negative number. -/
def charIndex (c : Nat) : Int := if c < 128 then (c : Int) else (c : Int) - 256

/-- The read `char2State[i]` with an `int` index; `none`: an access outside the
256 cells of the table. -/
def char2StateAt (i : Int) : Option Nat :=
  if 0 ≤ i ∧ i < 256 then some (char2State i.toNat) else none

/-- The loop `for (n = 0; n < size; n++) states[n] = char2State[(int) value[n]]`
of `_logictextwrite` on the local array `states`; first argument: the
iterations done. `none`: a read outside the table. -/
def _logictextwrite_states (value : Nat → Nat) (states : Nat → Nat) : Nat → Option (Nat → Nat)
  | 0 => some states
  | n + 1 =>
    match _logictextwrite_states value states n with
    | none => none
    | some states1 =>
      match char2StateAt (charIndex (value n)) with
      | none => none
      | some s => some (store states1 n s)

/-- `static flxbint _logictextwrite(flxbyte precedingStates, flxtext value, flxuint size,
flxbptr bytes, flxbint pos)`. The local array `states` is not initialised; its
cells are taken as 0 before the conversion loop, which writes the cells below
`size`. `none`: a read outside the table `char2State`. -/
def _logictextwrite (precedingStates : Nat) (value : Nat → Nat) (size : Nat)
    (bytes : Nat → Nat) (pos : Nat) : Option ((Nat → Nat) × Nat) :=
  if size > 256 then some (bytes, 0)
  else
    match _logictextwrite_states value (fun _ => 0) size with
    | none => none
    | some states =>
      some (_logicstateswrite 0 (char2State precedingStates) states size bytes pos)

/-- `flxresult flxWriteLogicTextDataEntry(flxBuffer buffer, flxid itemId, flxbool conflict,
flxdelta delta, flxbyte precedingStates, flxtext value, flxuint size)`: the
template of the entry writers with the head of a data entry and
`_logictextwrite`. `none`: a read outside the table `char2State`. -/
def flxWriteLogicTextDataEntry {σ : Type} (buffer : flxBuffer σ)
    (itemId conflict delta precedingStates : Nat) (value : Nat → Nat) (size : Nat) :
    Option (Int × flxBuffer σ) :=
  if itemId = 0 then some (FLX_ERROR_INVALID_ID, buffer)
  else if size > 256 then some (FLX_ERROR_INVALID_DATA_SIZE, buffer)
  else
    let r := buffer.call FLX_BUFFER_REQUEST
      ((REQ1_flxid + REQ1_flxdelta + REQ1_flxuint + size) % 2 ^ 32) none
    if r.result = FLX_OK then
      let h := writeSeq (dataHead itemId conflict delta) r.buffer.bytes (r.bytes.getD 0)
      match _logictextwrite precedingStates value size h.1 (r.bytes.getD 0 + h.2) with
      | none => none
      | some w =>
        let c := ({ r.buffer with bytes := w.1 }).call FLX_BUFFER_COMMIT (h.2 + w.2) none
        some (c.result, c.buffer)
    else some (FLX_ERROR_BUFFER_NOT_AVAIL, r.buffer)

/-- Statement side: the state code of a character of a logic text, the table
`'0'`, `'1'`, `'z'/'Z'`, `'x'/'X'`, `'l'/'L'`, `'h'/'H'`, `'u'/'U'`, `'w'/'W'`,
`'-'`, `'j'/'J'`, `'k'/'K'`, `'m'/'M'`, `'n'/'N'`, `'o'/'O'`, `'p'/'P'`, `'#'`
for the codes 0..15, and 15 for any other character. -/
def stateOfChar (c : Nat) : Nat :=
  if c = 0x30 then 0
  else if c = 0x31 then 1
  else if c = 0x7a ∨ c = 0x5a then 2
  else if c = 0x78 ∨ c = 0x58 then 3
  else if c = 0x6c ∨ c = 0x4c then 4
  else if c = 0x68 ∨ c = 0x48 then 5
  else if c = 0x75 ∨ c = 0x55 then 6
  else if c = 0x77 ∨ c = 0x57 then 7
  else if c = 0x2d then 8
  else if c = 0x6a ∨ c = 0x4a then 9
  else if c = 0x6b ∨ c = 0x4b then 10
  else if c = 0x6d ∨ c = 0x4d then 11
  else if c = 0x6e ∨ c = 0x4e then 12
  else if c = 0x6f ∨ c = 0x4f then 13
  else if c = 0x70 ∨ c = 0x50 then 14
  else 15

/-- Example state: an empty linear buffer of 64 bytes without handle. -/
def exBufferEmpty : flxBuffer Unit := flxCreateLinearBuffer 0 (fun _ => 0) 64 none ()

/-! ## Members and control entries -/

def FLX_STRUCTTYPE_UNKNOWN : Nat := 0
def FLX_STRUCTTYPE_TEXT : Nat := 1
def FLX_STRUCTTYPE_ENUM : Nat := 2
def FLX_STRUCTTYPE_INTEGER : Nat := 3
def FLX_STRUCTTYPE_FLOAT : Nat := 4
def FLX_STRUCTTYPE_BINARY : Nat := 6
def FLX_STRUCTTYPE_LOCAL_ENUM : Nat := 7
def FLX_STRUCTTYPE_MERGE_ENUM : Nat := 8
def FLX_STRUCTTYPE_MASK_BASE : Nat := 0x0f
def FLX_ENTRY_CRES : Nat := 0x81
def FLX_ERROR_COMMAND_PARSE_ERROR : Int := -16
def FLX_ERROR_COMMAND_PARSE_NEED_MORE_DATA : Int := -17

/-- `struct flxMemberValueStruct`; `value` is the memory `void* value` points
to, `type` and `format` are bytes. -/
structure flxMemberValueStruct where
  memberId : Nat
  type : Nat
  label : flxtext
  descriptor : flxtext
  format : Nat
  value : Nat → Nat
  size : Nat
  option : Nat
  valid : Nat

/-- `static flxbint _intlen(int x)`: the loop `while (1)` shifts `x` left until
its sign bit is set; `x` is the 32 bit pattern, first argument: shifts left. -/
def _intlen_loop : Nat → Nat → Nat → Nat
  | 0, _, n => n
  | fuel + 1, x, n => if x ≥ 2 ^ 31 then n else _intlen_loop fuel ((x <<< 1) % 2 ^ 32) (n - 1)

/-- `static flxbint _intlen(int x)`: the number of bits up to the highest set
bit of the pattern `x`. -/
def _intlen (x : Nat) : Nat := if x = 0 then 0 else _intlen_loop 32 x 32

/-- Body of the `while (1)` loop of `_pluswritefixed`; the loop ends when
`written == size`. -/
def _pluswritefixed_loop : Nat → Nat → (Nat → Nat) → Nat → Nat → Nat → (Nat → Nat) × Nat
  | 0, _, bytes, _, _, _ => (bytes, 0)
  | fuel + 1, val, bytes, pos, written, size =>
    if written = size then
      (store bytes pos ((val &&& MASK_PLUS_DATA) % 256), written)
    else
      _pluswritefixed_loop fuel (val >>> DEFAULT_PLUS_LENGTH)
        (store bytes pos (((val &&& MASK_PLUS_DATA) ||| MASK_PLUS) % 256)) (pos + 1) (written + 1)
        size

/-- `static flxbint _pluswritefixed(flxuint val, flxbptr bytes, flxbint pos, flxbint size)`:
a varint of exactly `size` bytes (`size` is at least 1 at every call). -/
def _pluswritefixed (val : Nat) (bytes : Nat → Nat) (pos size : Nat) : (Nat → Nat) × Nat :=
  _pluswritefixed_loop size val bytes pos 1 size

/-- `static flxbint _binwrite(flxbptr value, flxuint size, flxbyte szDf, flxbptr bytes,
flxbint pos)`. -/
def _binwrite (value : Nat → Nat) (size szDf : Nat) (bytes : Nat → Nat) (pos : Nat) :
    (Nat → Nat) × Nat :=
  let w := szDfwrite size szDf bytes pos
  (_arraycopy value 0 w.1 (pos + w.2) size, w.2 + size)

/-- `static flxbint _textnwrite(flxtext value, flxuint size, flxbyte szDf, flxbptr bytes,
flxbint pos)`. -/
def _textnwrite (value : Nat → Nat) (size szDf : Nat) (bytes : Nat → Nat) (pos : Nat) :
    (Nat → Nat) × Nat :=
  let w := szDfwrite size szDf bytes pos
  (_arraycopy value 0 w.1 (pos + w.2) size, w.2 + size)

/-- `static flxbint _floatwrite(void* value, flxbyte size, flxbyte szDf, flxbptr bytes,
flxbint pos)`, branch `FLX_ENDIANESS == 1`: the bytes of the value in memory order. -/
def _floatwrite (value : Nat → Nat) (size szDf : Nat) (bytes : Nat → Nat) (pos : Nat) :
    (Nat → Nat) × Nat :=
  if size ≠ 4 ∧ size ≠ 8 then (bytes, 0)
  else
    let w := szDfwrite size szDf bytes pos
    (_arraycopy value 0 w.1 (pos + w.2) size, w.2 + size)

/-- The `switch (type)` of `_memberwrite` on `type & FLX_STRUCTTYPE_MASK_BASE`;
the `size` of a member is passed to `_intwrite` and `_floatwrite` as a
`flxbyte`. -/
def _memberwrite_payload (m : flxMemberValueStruct) (bytes : Nat → Nat) (pos : Nat) :
    (Nat → Nat) × Nat :=
  let type := m.type &&& FLX_STRUCTTYPE_MASK_BASE
  if type = FLX_STRUCTTYPE_ENUM ∨ type = FLX_STRUCTTYPE_LOCAL_ENUM ∨
      type = FLX_STRUCTTYPE_MERGE_ENUM ∨ type = FLX_STRUCTTYPE_INTEGER then
    _intwrite m.value (m.size % 256) m.option FLX_SZDF_SIZEONLY bytes pos
  else if type = FLX_STRUCTTYPE_FLOAT then
    _floatwrite m.value (m.size % 256) FLX_SZDF_SIZEONLY bytes pos
  else if type = FLX_STRUCTTYPE_TEXT then
    _textnwrite m.value m.size FLX_SZDF_SIZEONLY bytes pos
  else if type = FLX_STRUCTTYPE_BINARY then
    _binwrite m.value m.size FLX_SZDF_SIZEONLY bytes pos
  else (bytes, 0)

/-- One iteration of the loop `for (n = 0; n < count; n++)` of `_memberwrite`:
the statements run `if ((value + n) != 0 && (value + n)->valid)`. -/
def _memberwrite_member (m : flxMemberValueStruct) :
    List ((Nat → Nat) → Nat → (Nat → Nat) × Nat) :=
  if m.valid ≠ 0 then [_pluswrite m.memberId, putByte m.type, _memberwrite_payload m] else []

/-- The sum `maxSize` of `_memberwrite`, a `flxbint`; first argument: `count`. -/
def _memberwrite_maxSize (value : Nat → flxMemberValueStruct) : Nat → Nat
  | 0 => 0
  | n + 1 => (_memberwrite_maxSize value n +
      (if (value n).valid ≠ 0 then
        _pluslen (value n).memberId + 1 + _pluslen (value n).size + (value n).size
      else 0)) % 2 ^ 32

/-- `static flxbint _memberwrite(flxMemberValue value, flxuint count, flxbyte szDf,
flxbptr bytes, flxbint pos)`; `value` is the array of members. With a size
prefix the members are written behind `sizeBytes` reserved bytes, which
`_pluswritefixed` fills at the end. -/
def _memberwrite (value : Nat → flxMemberValueStruct) (count szDf : Nat) (bytes : Nat → Nat)
    (pos : Nat) : (Nat → Nat) × Nat :=
  let sizeBytes0 := (_intlen (_memberwrite_maxSize value count) + (if szDf ≠ 0 then 4 else 0) + 6) / 7
  let sizeBytes := if szDf ≠ FLX_SZDF_NONE then (if sizeBytes0 = 0 then 1 else sizeBytes0) else 0
  let w := writeSeq ((List.range count).flatMap (fun n => _memberwrite_member (value n))) bytes
    (pos + sizeBytes)
  let written := sizeBytes + w.2
  if szDf ≠ FLX_SZDF_NONE then
    let size := written - sizeBytes
    ((_pluswritefixed (if szDf ≠ 0 then ((size <<< 4) % 2 ^ 32) ||| (szDf &&& 0x0f) else size)
      w.1 pos sizeBytes).1, written)
  else (w.1, written)

/-- The loop of `flxWriteControlEntry` that sums `request` and counts `rcount`;
first argument: `count`; result `(request, rcount)`. -/
def flxWriteControlEntry_request (value : Nat → flxMemberValueStruct) : Nat → Nat × Nat
  | 0 => (2 + REQ1_flxid * 2 + REQ1_flxuint, 0)
  | n + 1 =>
    let r := flxWriteControlEntry_request value n
    if (value n).valid ≠ 0 then
      ((r.1 + (REQ1_flxid + REQ1_flxuint + (value n).size)) % 2 ^ 32, (r.2 + 1) % 2 ^ 32)
    else r

/-- `flxresult flxWriteControlEntry(flxBuffer buffer, flxbyte entryTag, flxid controlId,
flxid messageId, flxMemberValue value, flxuint count)`. -/
def flxWriteControlEntry {σ : Type} (buffer : flxBuffer σ) (entryTag controlId messageId : Nat)
    (value : Nat → flxMemberValueStruct) (count : Nat) : Int × flxBuffer σ :=
  let r := flxWriteControlEntry_request value count
  flxEntry buffer (r.1 + _pluslen r.2)
    [putByte 0, putByte entryTag, _pluswrite controlId, _pluswrite messageId, _pluswrite r.2,
      _memberwrite value count FLX_SZDF_NONE]

/-- `flxresult flxWriteControlResEntry(flxBuffer buffer, flxid controlId, flxid messageId,
flxMemberValue value, flxuint count)`. -/
def flxWriteControlResEntry {σ : Type} (buffer : flxBuffer σ) (controlId messageId : Nat)
    (value : Nat → flxMemberValueStruct) (count : Nat) : Int × flxBuffer σ :=
  flxWriteControlEntry buffer FLX_ENTRY_CRES controlId messageId value count

/-- Statement side: the bytes of a member value listed in memory order. -/
def memberValueBytes (m : flxMemberValueStruct) (n : Nat) : List Nat :=
  (List.range n).map m.value

/-- Statement side: the payload of a member by its base type: a minimised
integer behind the varint of its retained length for the integer and enum
types, the varint of the size and the bytes for text, binary and a float of 4
or 8 bytes, nothing for a float of another size and for any other type. -/
def memberPayloadBytes (m : flxMemberValueStruct) : List Nat :=
  let type := m.type &&& FLX_STRUCTTYPE_MASK_BASE
  if type = FLX_STRUCTTYPE_ENUM ∨ type = FLX_STRUCTTYPE_LOCAL_ENUM ∨
      type = FLX_STRUCTTYPE_MERGE_ENUM ∨ type = FLX_STRUCTTYPE_INTEGER then
    varintBytes (minimalLen (decide (m.option % 2 = 1)) (memberValueBytes m (m.size % 256))) ++
      (memberValueBytes m (m.size % 256)).take
        (minimalLen (decide (m.option % 2 = 1)) (memberValueBytes m (m.size % 256)))
  else if type = FLX_STRUCTTYPE_FLOAT then
    (if m.size % 256 = 4 ∨ m.size % 256 = 8 then
      varintBytes (m.size % 256) ++ memberValueBytes m (m.size % 256) else [])
  else if type = FLX_STRUCTTYPE_TEXT ∨ type = FLX_STRUCTTYPE_BINARY then
    varintBytes m.size ++ memberValueBytes m m.size
  else []

/-- Statement side: a member in an entry, the varint of its id, its type byte
and its payload. -/
def memberBytes (m : flxMemberValueStruct) : List Nat :=
  varintBytes m.memberId ++ [m.type] ++ memberPayloadBytes m

/-- Statement side: the members of the array that are valid, in array order. -/
def validMembers (value : Nat → flxMemberValueStruct) (count : Nat) : List flxMemberValueStruct :=
  ((List.range count).map value).filter (fun m => decide (m.valid ≠ 0))

/-- Statement side: a control entry, `0x00`, the tag, the varints of the control
id, of the message id and of the number of valid members, then the valid
members in array order; there is no length prefix. -/
def controlEntryBytes (entryTag controlId messageId : Nat) (value : Nat → flxMemberValueStruct)
    (count : Nat) : List Nat :=
  [0, entryTag] ++ varintBytes controlId ++ varintBytes messageId ++
    varintBytes (validMembers value count).length ++
    (validMembers value count).flatMap memberBytes

/-- Example state: an empty array of members (`value` null, `count` 0). -/
def exNoMembers : Nat → flxMemberValueStruct :=
  fun _ => ⟨0, 0, none, none, 0, fun _ => 0, 0, 0, 0⟩

/-! ## Control parsing -/

def FLX_CONTROL_HANDLE_ENTER_MESSAGE : Nat := 0
def FLX_CONTROL_HANDLE_PARSE_PARAMETER : Nat := 1
def FLX_CONTROL_HANDLE_LEAVE_MESSAGE : Nat := 2

/-- What a call of the handler `flxHandleControlParse` leaves behind: its
result, the values it left in `*value`, `*size` and `*opt`, the memory objects
its pointers refer to, and its own state. `value` is the address of the object
`*value` points to, `none` for a null pointer. -/
structure flxParseOut (σ : Type) where
  result : Int
  value : Option Nat
  size : Nat
  opt : Nat
  objs : Nat → Nat → Nat
  user : σ

/-- `typedef flxresult (*flxHandleControlParse)(flxbyte command, flxid controlId,
flxid messageId, flxid memberId, flxbyte type, void** value, flxuint* size, flxuint* opt)`:
a function of the command, the ids, the type, `*size` and `*opt` on entry
(`*value` is 0 on entry), the memory objects and the state of the handler. For
`ENTER_MESSAGE` and `LEAVE_MESSAGE` the three pointers are null: what the
handler reports in `value`, `size`, `opt` is then not used. -/
abbrev flxHandleControlParse (σ : Type) :=
  Nat → Nat → Nat → Nat → Nat → Nat → Nat → (Nat → Nat → Nat) → σ → flxParseOut σ

/-- What `flxHandleControl` changes besides its arguments: the memory objects
that the handler hands out as destinations, and the state of the handler. -/
structure flxControlWorld (σ : Type) where
  objs : Nat → Nat → Nat
  user : σ

/-- Assignment of the bytes of one memory object. -/
def setObj (objs : Nat → Nat → Nat) (a : Nat) (obj : Nat → Nat) : Nat → Nat → Nat :=
  fun b => if b = a then obj else objs b

/-- `static flxbint _floatread(void* value, flxbyte size, flxbptr bytes, flxbptr end)` on
a little endian host: the destination bytes and the return value. -/
def _floatread (value : Nat → Nat) (size : Nat) (bytes : Nat → Nat) (start end_ : Nat) :
    (Nat → Nat) × Nat :=
  let r := _plusread bytes start end_
  let rsize := r.1
  let pos := start + r.2
  if start = pos ∨ rsize ≠ size ∨ pos + rsize - 1 > end_ then (value, 0)
  else (_arraycopy bytes pos value 0 size, pos - start)

/-- `static flxbint _binread(flxbptr value, flxuint* size, flxbptr bytes, flxbptr end)`:
the destination bytes, `*size` and the return value. -/
def _binread (value : Nat → Nat) (size : Nat) (bytes : Nat → Nat) (start end_ : Nat) :
    (Nat → Nat) × Nat × Nat :=
  let r := _plusread bytes start end_
  let rsize := r.1
  let pos := start + r.2
  if start = pos ∨ rsize > size ∨ pos + rsize - 1 > end_ then (value, size, 0)
  else (_arraycopy bytes pos value 0 rsize, rsize, (pos + rsize - start) % 2 ^ 32)

/-- `static flxbint _textread(flxtext value, flxuint* size, flxbptr bytes, flxbptr end)`. -/
def _textread (value : Nat → Nat) (size : Nat) (bytes : Nat → Nat) (start end_ : Nat) :
    (Nat → Nat) × Nat × Nat :=
  _binread value size bytes start end_

/-- The `switch (type)` of `flxHandleControl` with `read = 0` before it, for a
destination object `a` of `rsize` bytes and a member of `size` bytes at `pos`:
the memory objects and `read`, or `none` for `default: return
FLX_ERROR_COMMAND_PARSE_ERROR`. `_intread` and `_floatread` take `rsize` as a
`flxbyte`. -/
def flxHandleControl_decode (type a rsize size opt : Nat) (bytes : Nat → Nat) (pos end_ : Nat)
    (objs : Nat → Nat → Nat) : Option ((Nat → Nat → Nat) × Nat) :=
  let t := type &&& FLX_STRUCTTYPE_MASK_BASE
  if t = FLX_STRUCTTYPE_ENUM ∨ t = FLX_STRUCTTYPE_LOCAL_ENUM ∨
      t = FLX_STRUCTTYPE_MERGE_ENUM ∨ t = FLX_STRUCTTYPE_INTEGER then
    if rsize ≥ size then
      let r := _intread (objs a) (rsize % 256) opt bytes pos end_
      some (setObj objs a r.1, r.2)
    else some (objs, 0)
  else if t = FLX_STRUCTTYPE_FLOAT then
    if rsize = size then
      let r := _floatread (objs a) (rsize % 256) bytes pos end_
      some (setObj objs a r.1, r.2)
    else some (objs, 0)
  else if t = FLX_STRUCTTYPE_TEXT then
    if rsize ≥ size then
      let r := _textread (objs a) rsize bytes pos end_
      some (setObj objs a r.1, r.2.2)
    else some (objs, 0)
  else if t = FLX_STRUCTTYPE_BINARY then
    if rsize ≥ size then
      let r := _binread (objs a) rsize bytes pos end_
      some (setObj objs a r.1, r.2.2)
    else some (objs, 0)
  else none

/-- The loop `for (n = 0; n < count; n++)` of `flxHandleControl`; first
argument: iterations left. The result is the code of a `return` inside the
loop (`none` when the loop ran to its end), `pos`, `opt` and the world. -/
def flxHandleControl_members {σ : Type} (parse : Option (flxHandleControlParse σ))
    (bytes : Nat → Nat) (end_ controlId messageId : Nat) :
    Nat → Nat → Nat → flxControlWorld σ → Option Int × Nat × Nat × flxControlWorld σ
  | 0, pos, opt, w => (none, pos, opt, w)
  | k + 1, pos, opt, w =>
    let r1 := _plusread bytes pos end_
    if r1.2 = 0 then (some FLX_ERROR_COMMAND_PARSE_NEED_MORE_DATA, pos, opt, w)
    else
      let memberId := r1.1
      let pos1 := pos + r1.2
      let type := bytes pos1
      let pos2 := pos1 + 1
      let r2 := _plusread bytes pos2 end_
      if r2.2 = 0 then (some FLX_ERROR_COMMAND_PARSE_NEED_MORE_DATA, pos2, opt, w)
      else
        let size := r2.1
        let skip := (r2.2 + size) % 2 ^ 32
        match parse with
        | none => flxHandleControl_members parse bytes end_ controlId messageId k (pos2 + skip) opt w
        | some h =>
          let o := h FLX_CONTROL_HANDLE_PARSE_PARAMETER controlId messageId memberId type size opt
            w.objs w.user
          match (if o.result = FLX_OK ∧ o.size > 0 then o.value else none) with
          | some a =>
            match flxHandleControl_decode type a o.size size o.opt bytes pos2 end_ o.objs with
            | none => (some FLX_ERROR_COMMAND_PARSE_ERROR, pos2, o.opt, ⟨o.objs, o.user⟩)
            | some d =>
              if d.2 = 0 then
                (some FLX_ERROR_COMMAND_PARSE_NEED_MORE_DATA, pos2, o.opt, ⟨d.1, o.user⟩)
              else
                flxHandleControl_members parse bytes end_ controlId messageId k (pos2 + skip)
                  o.opt ⟨d.1, o.user⟩
          | none =>
            flxHandleControl_members parse bytes end_ controlId messageId k (pos2 + skip) o.opt
              ⟨o.objs, o.user⟩

/-- The call of the handler for `ENTER_MESSAGE` or `LEAVE_MESSAGE`, `if (user)`. -/
def flxHandleControl_message {σ : Type} (parse : Option (flxHandleControlParse σ))
    (command controlId messageId : Nat) (w : flxControlWorld σ) : flxControlWorld σ :=
  match parse with
  | none => w
  | some h =>
    let o := h command controlId messageId 0 0 0 0 w.objs w.user
    ⟨o.objs, o.user⟩

/-- The loop `while (end > pos)` of `flxHandleControl`, with `end = bytes + len - 1`;
first argument: iterations left, then `pos`, `*len`, `opt` and the world. -/
def flxHandleControl_loop {σ : Type} (parse : Option (flxHandleControlParse σ))
    (bytes : Nat → Nat) (len : Nat) :
    Nat → Nat → Nat → Nat → flxControlWorld σ → Int × Nat × flxControlWorld σ
  | 0, _, consumed, _, w => (FLX_OK, consumed, w)
  | fuel + 1, pos, consumed, opt, w =>
    if ¬ (pos + 1 < len) then (FLX_OK, consumed, w)
    else if len - 1 - pos < 2 then (FLX_ERROR_COMMAND_PARSE_NEED_MORE_DATA, consumed, w)
    else if bytes pos ≠ 0 then (FLX_ERROR_COMMAND_PARSE_ERROR, (pos + 1) % 2 ^ 32, w)
    else if bytes (pos + 1) = 0x80 then
      let c := _plusread bytes (pos + 2) (len - 1)
      if c.2 = 0 then (FLX_ERROR_COMMAND_PARSE_NEED_MORE_DATA, consumed, w)
      else
        let m := _plusread bytes (pos + 2 + c.2) (len - 1)
        if m.2 = 0 then (FLX_ERROR_COMMAND_PARSE_NEED_MORE_DATA, consumed, w)
        else
          let n := _plusread bytes (pos + 2 + c.2 + m.2) (len - 1)
          if n.2 = 0 then (FLX_ERROR_COMMAND_PARSE_NEED_MORE_DATA, consumed, w)
          else
            let w1 := flxHandleControl_message parse FLX_CONTROL_HANDLE_ENTER_MESSAGE c.1 m.1 w
            let r := flxHandleControl_members parse bytes (len - 1) c.1 m.1 n.1
              (pos + 2 + c.2 + m.2 + n.2) opt w1
            match r.1 with
            | some code => (code, consumed, r.2.2.2)
            | none =>
              flxHandleControl_loop parse bytes len fuel r.2.1 (r.2.1 % 2 ^ 32) r.2.2.1
                (flxHandleControl_message parse FLX_CONTROL_HANDLE_LEAVE_MESSAGE c.1 m.1 r.2.2.2)
    else if bytes (pos + 1) = 0x81 then
      flxHandleControl_loop parse bytes len fuel (pos + 2) ((pos + 2) % 2 ^ 32) opt w
    else (FLX_ERROR_COMMAND_PARSE_ERROR, consumed, w)

/-- `flxresult flxHandleControl(flxbyte command, void* buffer, flxbint* len, flxbyte* bytes,
void* user)`, a buffer handle: the result, `*len` on return and the world. `parse`
is the handler `user` points to, `opt0` the indeterminate initial value of the
local `opt`. Every turn of the loop moves `pos` by at least 2, so `len` turns
are enough. -/
def flxHandleControl {σ : Type} (parse : Option (flxHandleControlParse σ)) (opt0 : Nat)
    (_command : Nat) (bytes : Nat → Nat) (len : Nat) (w : flxControlWorld σ) :
    Int × Nat × flxControlWorld σ :=
  flxHandleControl_loop parse bytes len len 0 0 opt0 w

/-- Statement side: a member of a control request on the wire. -/
structure controlMember where
  memberId : Nat
  type : Nat
  payload : List Nat

/-- Statement side: the member tuple, `varint(memberId)`, type byte,
`varint(size)` and `size` payload bytes. -/
def controlMemberBytes (m : controlMember) : List Nat :=
  varintBytes m.memberId ++ [m.type] ++ varintBytes m.payload.length ++ m.payload

/-- Statement side: a complete well-formed control request entry, `0x00`, `0x80`,
control id, message id, count and the member tuples. -/
def controlRequestBytes (controlId messageId : Nat) (members : List controlMember) : List Nat :=
  [0x00, 0x80] ++ varintBytes controlId ++ varintBytes messageId ++ varintBytes members.length ++
    members.flatMap controlMemberBytes

/-- Statement side: what a destination object of `rsize` bytes holds after a
payload was delivered to it, `none` when the payload cannot be delivered: an
integer or enum of at most `rsize` bytes (`rsize` below 256) fills the object,
extended by `0xff` when `opt` says signed and the payload is negative, by `0`
otherwise; a float needs `rsize` equal to its size; a text or binary of at most
`rsize` bytes is copied to the front of the object; other types are not
delivered. -/
def deliverPayload (type : Nat) (payload : List Nat) (rsize opt : Nat) (old : Nat → Nat) :
    Option (Nat → Nat) :=
  let t := type &&& FLX_STRUCTTYPE_MASK_BASE
  if t = FLX_STRUCTTYPE_ENUM ∨ t = FLX_STRUCTTYPE_LOCAL_ENUM ∨
      t = FLX_STRUCTTYPE_MERGE_ENUM ∨ t = FLX_STRUCTTYPE_INTEGER then
    if payload.length ≤ rsize ∧ payload.length ≤ rsize % 256 then
      some (fun n =>
        if n < rsize % 256 then
          (if n < payload.length then payload.getD n 0
           else if opt % 2 = 1 ∧ payload.getLastD 0 &&& 0x80 ≠ 0 then 0xff else 0)
        else old n)
    else none
  else if t = FLX_STRUCTTYPE_FLOAT then
    if payload.length = rsize ∧ rsize < 256 then
      some (fun n => if n < payload.length then payload.getD n 0 else old n)
    else none
  else if t = FLX_STRUCTTYPE_TEXT ∨ t = FLX_STRUCTTYPE_BINARY then
    if payload.length ≤ rsize then
      some (fun n => if n < payload.length then payload.getD n 0 else old n)
    else none
  else none

/-- Statement side: the handler is called with `PARSE_PARAMETER` for each member
in stream order, with the member's id, type byte and size; when it answers
`FLX_OK` with a destination and a size above 0 the payload is delivered there.
The result is `none` when some payload cannot be delivered. -/
def controlDeliver {σ : Type} (parse : Option (flxHandleControlParse σ))
    (controlId messageId : Nat) :
    List controlMember → Nat → flxControlWorld σ → Option (Nat × flxControlWorld σ)
  | [], opt, w => some (opt, w)
  | m :: ms, opt, w =>
    match parse with
    | none => controlDeliver parse controlId messageId ms opt w
    | some h =>
      let o := h FLX_CONTROL_HANDLE_PARSE_PARAMETER controlId messageId m.memberId m.type
        m.payload.length opt w.objs w.user
      match (if o.result = FLX_OK ∧ o.size > 0 then o.value else none) with
      | some a =>
        match deliverPayload m.type m.payload o.size o.opt (o.objs a) with
        | none => none
        | some obj =>
          controlDeliver parse controlId messageId ms o.opt ⟨setObj o.objs a obj, o.user⟩
      | none => controlDeliver parse controlId messageId ms o.opt ⟨o.objs, o.user⟩

/-- Statement side: the dispatch of one control request, `ENTER_MESSAGE` once,
`PARSE_PARAMETER` for the members in stream order, `LEAVE_MESSAGE` once. -/
def controlDispatch {σ : Type} (parse : Option (flxHandleControlParse σ))
    (controlId messageId : Nat) (members : List controlMember) (opt : Nat)
    (w : flxControlWorld σ) : Option (flxControlWorld σ) :=
  (controlDeliver parse controlId messageId members opt
    (flxHandleControl_message parse FLX_CONTROL_HANDLE_ENTER_MESSAGE controlId messageId w)).map
    (fun r => flxHandleControl_message parse FLX_CONTROL_HANDLE_LEAVE_MESSAGE controlId messageId
      r.2)

/-- Example handler: it supplies no destination and records each call as
`[command, controlId, messageId, memberId, type]`. -/
def exLogHandler : flxHandleControlParse (List (List Nat)) :=
  fun command controlId messageId memberId type size opt objs log =>
    ⟨FLX_OK, none, size, opt, objs, log ++ [[command, controlId, messageId, memberId, type]]⟩

/-- Example state: no memory objects, nothing recorded. -/
def exLogWorld : flxControlWorld (List (List Nat)) := ⟨fun _ _ => 0, []⟩

/-- Example handler: for every parameter it supplies the object 0 as a
destination of one byte, and records each call as `[command, memberId]`. -/
def exSmallHandler : flxHandleControlParse (List (List Nat)) :=
  fun command _ _ memberId _ _ opt objs log =>
    ⟨FLX_OK, some 0, 1, opt, objs, log ++ [[command, memberId]]⟩

/-- Statement side: the handler never supplies a destination. -/
def SuppliesNothing {σ : Type} (parse : Option (flxHandleControlParse σ)) : Prop :=
  ∀ h, parse = some h → ∀ controlId messageId memberId type size opt objs user,
    (h FLX_CONTROL_HANDLE_PARSE_PARAMETER controlId messageId memberId type size opt objs
      user).value = none

/-! ## Control round trip, statement side -/

/-- Example members: the signed integer `-128` in four bytes with id 5 and the
text `AAA` with id 9. -/
def exMembers : Nat → flxMemberValueStruct :=
  fun n =>
    if n = 0 then
      ⟨5, FLX_STRUCTTYPE_INTEGER, none, none, 0, fun i => [0x80, 0xff, 0xff, 0xff].getD i 0, 4, 1, 1⟩
    else ⟨9, FLX_STRUCTTYPE_TEXT, none, none, 0, fun _ => 0x41, 3, 0, 1⟩

/-- Example state: a linear buffer of 64 bytes that holds the bytes `l` and
whose handle is `flxHandleControl` with the recording handler. -/
def exControlBuffer (l : List Nat) : flxBuffer (flxControlWorld (List (List Nat))) :=
  { flxCreateLinearBuffer 0 (fun i => l.getD i 0) 64
      (some (flxHandleControl (some exLogHandler) 0)) exLogWorld with pos := l.length }

/-! ## Ring sections -/

def FLX_ENTRY_SECT : Nat := 0x06

/-- The loop `for (n = 0; n < noOfSections; n++)` of `flxWriteSectionEntries` on the
region that starts at `base` of the buffer bytes; first argument: iterations
left, then `n`, the bytes and `written`. `written` is a `flxbint`. -/
def flxWriteSectionEntries_loop (noOfSections contentSize lastContentSize base : Nat) :
    Nat → Nat → (Nat → Nat) → Nat → (Nat → Nat) × Nat
  | 0, _, bytes, written => (bytes, written)
  | k + 1, n, bytes, written =>
    let last := n = (noOfSections + 2 ^ 32 - 1) % 2 ^ 32
    let cs := if last then lastContentSize else contentSize
    let b0 := store bytes (base + written) 0
    let b1 := store b0 (base + (written + 1) % 2 ^ 32) FLX_ENTRY_SECT
    let b2 := store b1 (base + (written + 2) % 2 ^ 32) (if last then 0x80 else 0)
    let b3 := store b2 (base + (written + 3) % 2 ^ 32) (cs &&& 0xff)
    let b4 := store b3 (base + (written + 4) % 2 ^ 32) ((cs >>> 8) &&& 0xff)
    let b5 := store b4 (base + (written + 5) % 2 ^ 32) 0
    let b6 := store b5 (base + (written + 6) % 2 ^ 32) 0
    flxWriteSectionEntries_loop noOfSections contentSize lastContentSize base k (n + 1) b6
      ((written + 7 + cs) % 2 ^ 32)

/-- `flxresult flxWriteSectionEntries(flxBuffer buffer, flxuint noOfSections)`; `none`
stands for the division by `noOfSections = 0`. All sizes are `flxbint` values. -/
def flxWriteSectionEntries {σ : Type} (buffer : flxBuffer σ) (noOfSections : Nat) :
    Option (Int × flxBuffer σ) :=
  let a := buffer.call FLX_BUFFER_AVAIL 0 none
  if a.result = FLX_OK then
    if noOfSections = 0 then none
    else
      let avail := a.len
      let sectionSize := avail / noOfSections
      let contentSize := (sectionSize + 2 ^ 32 - SECTION_HEADER_SIZE) % 2 ^ 32
      let lastContentSize := (avail + 2 * 2 ^ 32
        - (sectionSize * ((noOfSections + 2 ^ 32 - 1) % 2 ^ 32)) % 2 ^ 32
        - SECTION_HEADER_SIZE) % 2 ^ 32
      if lastContentSize < 16 ∨ lastContentSize > 0xffff then
        some (FLX_ERROR_BUFFER_NOT_AVAIL, a.buffer)
      else
        let w := flxWriteSectionEntries_loop noOfSections contentSize lastContentSize
          (a.bytes.getD 0) noOfSections 0 a.buffer.bytes 0
        let c := ({ a.buffer with bytes := w.1 }).call FLX_BUFFER_SECCOMMIT avail none
        some (c.result, c.buffer)
  else some (FLX_ERROR_BUFFER_NOT_AVAIL, a.buffer)

/-- A call of the buffer from the side of an entry writer: `REQUEST`, `COMMIT`,
or the write of one byte into the content of the current ring section. -/
inductive flxRingOp where
  | request (len : Nat)
  | commit (len : Nat)
  | put (i v : Nat)

/-- The buffer after a call. -/
def flxRingOp.run {σ : Type} (op : flxRingOp) (b : flxBuffer σ) : flxBuffer σ :=
  match op with
  | flxRingOp.request len => (b.call FLX_BUFFER_REQUEST len none).buffer
  | flxRingOp.commit len => (b.call FLX_BUFFER_COMMIT len none).buffer
  | flxRingOp.put i v =>
    if b.current + SECTION_HEADER_SIZE ≤ i ∧ i < b.current + SECTION_HEADER_SIZE + b.rlen then
      { b with bytes := store b.bytes i v }
    else b

/-- The buffer after a sequence of calls. -/
def flxRingRun {σ : Type} : List flxRingOp → flxBuffer σ → flxBuffer σ
  | [], b => b
  | op :: ops, b => flxRingRun ops (op.run b)

/-- Example state: an empty ring buffer of 83 bytes without init callback. -/
def exRing83 : flxBuffer Unit := flxCreateRingBuffer 0 (fun _ => 0) 83 none ()

/-- Example state: an empty ring buffer of 256 bytes without init callback. -/
def exRing256 : flxBuffer Unit := flxCreateRingBuffer 0 (fun _ => 0) 256 none ()

/-- Statement side: the offset of the header of section `k` in the buffer bytes,
for sections written from `pos` on with `sectionSize` bytes each. -/
def sectionOffset (pos sectionSize k : Nat) : Nat := pos + k * sectionSize

/-- Statement side: the content size of section `k`. -/
def sectionContent (noOfSections sectionSize lastContentSize k : Nat) : Nat :=
  if k + 1 = noOfSections then lastContentSize else sectionSize - SECTION_HEADER_SIZE

/-- Statement side: the init callback of the ring, if there is one, writes only
into the section it is called for, from the `used` field of its header to the
end of its content. -/
def InitInSection (init : Option ((Nat → Nat) → Nat → Nat → (Nat → Nat) × Nat)) : Prop :=
  ∀ f, init = some f → ∀ (bytes : Nat → Nat) (current rlen i : Nat),
    (i < current + 5 ∨ current + SECTION_HEADER_SIZE + rlen ≤ i) → (f bytes current rlen).1 i = bytes i

/-- Statement side: the call enters a section, a `REQUEST` in section mode that
does not fit into what is left of the current section. -/
def flxRingOp.enters {σ : Type} (op : flxRingOp) (b : flxBuffer σ) : Bool :=
  match op with
  | flxRingOp.request len =>
    decide (b.first ≠ 2 ^ 32 - 1 ∧ ¬ ((b.rpos + len) % 2 ^ 32 ≤ b.rlen))
  | _ => false

/-- Statement side: the offsets of the sections entered along a sequence of
calls, last one first, on top of those entered before. -/
def flxRingEntered {σ : Type} : List flxRingOp → flxBuffer σ → List Nat → List Nat
  | [], _, e => e
  | op :: ops, b, e =>
    flxRingEntered ops (op.run b) (if op.enters b then (op.run b).current :: e else e)

/-- Statement side: the state of a ring in section mode over the sections
written at `pos`: the ring fields, the current section with its length, the
entry marks and length fields of all headers, the `0x80` bit of all counters, and a counter
nibble above 0 in every section entered so far. -/
structure RingInv {σ : Type} (pos noOfSections sectionSize lastContentSize len : Nat)
    (init : Option ((Nat → Nat) → Nat → Nat → (Nat → Nat) × Nat)) (b : flxBuffer σ)
    (entered : List Nat) : Prop where
  access : b.access = flxBufferAccess.ring
  len : b.len = len
  first : b.first = pos
  init : b.init = init
  current : ∃ j, j < noOfSections ∧ b.current = sectionOffset pos sectionSize j ∧
    b.rlen = sectionContent noOfSections sectionSize lastContentSize j
  marks : ∀ k, k < noOfSections →
    b.bytes (sectionOffset pos sectionSize k) = 0 ∧
    b.bytes (sectionOffset pos sectionSize k + 1) = FLX_ENTRY_SECT
  sizes : ∀ k, k < noOfSections →
    ringSectionLen b.bytes (sectionOffset pos sectionSize k)
      = sectionContent noOfSections sectionSize lastContentSize k
  last : ∀ k, k < noOfSections →
    b.bytes (sectionOffset pos sectionSize k + 2) &&& 0x80
      = if k + 1 = noOfSections then 0x80 else 0
  nibble : ∀ o ∈ entered, (∃ k, k < noOfSections ∧ o = sectionOffset pos sectionSize k) ∧
    1 ≤ b.bytes (o + 2) &&& 0xf

/-- Statement side: what a successful `flxWriteSectionEntries` with sections of at
least the header size means in numbers. -/
structure SectionLayout (pos noOfSections sectionSize lastContentSize len : Nat) : Prop where
  sections : 1 ≤ noOfSections
  sections32 : noOfSections < 2 ^ 32
  header : SECTION_HEADER_SIZE ≤ sectionSize
  lastLow : sectionSize - SECTION_HEADER_SIZE ≤ lastContentSize
  lastHigh : lastContentSize ≤ 0xffff
  total : pos + (noOfSections - 1) * sectionSize + SECTION_HEADER_SIZE + lastContentSize = len
  len32 : len < 2 ^ 32

/-- Example state: `exRing256` after `flxWriteSectionEntries(buffer, 4)`, four
sections of 64 bytes. -/
def exRing256Sections : flxBuffer Unit :=
  ((flxWriteSectionEntries exRing256 4).map (fun r => r.2)).getD exRing256

/-- Example calls: entries of 40 bytes, requested, written at their last byte
and committed, six times over. -/
def exRingOps : List flxRingOp :=
  (List.replicate 6 [flxRingOp.request 40, flxRingOp.commit 40]).flatten

/-- Example state: a ring buffer of 256 bytes whose init callback clears the
counter byte of the section it is called for. -/
def exRingClear : flxBuffer Unit :=
  flxCreateRingBuffer 0 (fun _ => 0) 256
    (some (fun bytes current _ => (store bytes (current + 2) 0, 0))) ()

/-! ## Current position and default domain -/

/-- `flxdomain flxGetCurrent(flxTrace trace, flxid itemId)`; an error code is
returned as a `flxdomain`. `none`: an access outside the item table. -/
def flxGetCurrent {σ : Type} (trace : flxTrace σ) (itemId : Nat) : Option Int :=
  match trace.items with
  | some its =>
    if trace.opn = 0 then
      match itemAt its itemId with
      | none => none
      | some item =>
        if item.opn = FLX_ITEM_OPEN_LOCAL then some item.current
        else if item.opn = FLX_ITEM_OPEN_CONTAINER then
          match itemAt its item.openId with
          | none => none
          | some oitem =>
            if oitem.opn ≠ FLX_ITEM_OPEN_LOCAL then some FLX_ERROR_NOT_OPEN
            else some oitem.current
        else some FLX_ERROR_NOT_OPEN
    else if trace.opn ≠ FLX_ITEM_OPEN_LOCAL then some FLX_ERROR_NOT_OPEN
    else some trace.current
  | none =>
    if trace.opn ≠ FLX_ITEM_OPEN_LOCAL then some FLX_ERROR_NOT_OPEN
    else some trace.current

def FLX_ENTRY_DOMD : Nat := 0x22

def flxWriteDefaultOpenDomainEntry {σ : Type} (buffer : flxBuffer σ) (domain : flxtext) :
    Int × flxBuffer σ :=
  flxEntry buffer (2 + _textlen domain true)
    [putByte 0, putByte FLX_ENTRY_DOMD, _textwrite domain]

/-- `flxresult flxSetDefaultOpenDomain(flxTrace trace, flxtext domainBase)`. -/
def flxSetDefaultOpenDomain {σ : Type} (trace : flxTrace σ) (domainBase : flxtext) :
    Int × flxTrace σ :=
  match trace.buffer with
  | none => (FLX_ERROR_NO_BUFFER, trace)
  | some buffer =>
    let w := flxWriteDefaultOpenDomainEntry buffer domainBase
    (w.1, { trace with buffer := some w.2 })

/-- Example state: an empty linear buffer of `n` bytes without handle, in memory
filled with `0xaa`. -/
def exBufferOf (n : Nat) : flxBuffer Unit := flxCreateLinearBuffer 0 (fun _ => 0xaa) n none ()

/-- Example state: a trace for four items with the item table, created by
`flxCreateTrace`, bound to an empty linear buffer of 8 bytes without handle. -/
def exTraceTiny : Option (flxTrace Unit) :=
  flxCreateTrace 56 16 0 4 4096 1000 (56 + 16 * 4) (some (exBufferOf 8))

/-- The view of a trace used in the examples: per item `[type, parentId, open, u]`. -/
def exItems (t : flxTrace Unit) : Option (List (List Nat)) :=
  t.items.map (List.map (fun item => [item.type, item.parentId, item.opn, item.u]))

/-! ## Buffer handles -/

/-- `flxresult flxFlushBuffer(flxBuffer buffer)`: the `len` and `bytes` pointers
are null. -/
def flxFlushBuffer {σ : Type} (buffer : flxBuffer σ) : Int × flxBuffer σ :=
  ((buffer.call FLX_BUFFER_FLUSH 0 none).result, (buffer.call FLX_BUFFER_FLUSH 0 none).buffer)

/-- `flxresult flxDeepFlushBuffer(flxBuffer buffer)`. -/
def flxDeepFlushBuffer {σ : Type} (buffer : flxBuffer σ) : Int × flxBuffer σ :=
  ((buffer.call FLX_BUFFER_DEEPFLUSH 0 none).result,
    (buffer.call FLX_BUFFER_DEEPFLUSH 0 none).buffer)

/-- `flxresult flxCopy(flxbyte command, void* buffer, flxbint* len, flxbyte* bytes, void* user)`
as a handle: `user` is the downstream buffer `buffer2`, the result holds the
value of `*len` after the call, which `flxCopy` never assigns, and the
downstream buffer. -/
def flxCopy {τ : Type} (command : Nat) (bytes : Nat → Nat) (len : Nat) (buffer2 : flxBuffer τ) :
    Int × Nat × flxBuffer τ :=
  let r := buffer2.call FLX_BUFFER_REQUEST len none
  if r.result = FLX_OK then
    let c := ({ r.buffer with
      bytes := _arraycopy bytes 0 r.buffer.bytes (r.bytes.getD 0) len }).call
        FLX_BUFFER_COMMIT len none
    (c.result, len, c.buffer)
  else
    (FLX_ERROR_BUFFER_NOT_AVAIL, len,
      if command = FLX_BUFFER_DEEPFLUSH then (flxDeepFlushBuffer r.buffer).2 else r.buffer)

/-- Example state: an empty linear buffer of `n` bytes whose handle takes all
bytes and records the command and the bytes of each call. -/
def exSink (n : Nat) : flxBuffer (List (List Nat)) :=
  flxCreateLinearBuffer 0 (fun _ => 0) n
    (some (fun command bytes len log => (FLX_OK, len, log ++ [command :: readBytes bytes 0 len])))
    []

/-- Example state: a linear buffer of 16 bytes holding `1, 2, 3, 4, 5` with the
handle `flxCopy` into the downstream buffer `buffer2`. -/
def exChain {τ : Type} (buffer2 : flxBuffer τ) : flxBuffer (flxBuffer τ) :=
  { flxCreateLinearBuffer 0 (fun i => if i < 5 then i + 1 else 0) 16 (some flxCopy) buffer2
    with pos := 5 }

/-! ## Parent chains -/

/-- Statement side: the parent links of an item table are ranked. An undefined
item has `parentId = 0`, and the parent of an item is a scope of the table with
a lower rank (the order of definition). -/
def RankedItems (its : List flxTraceItem) : Prop :=
  ∃ rank : Nat → Nat, ∀ i item, itemAt its i = some item →
    (item.type = FLX_ITEM_TYPE_UNDEFINED → item.parentId = 0) ∧
    (item.parentId ≠ 0 → ∃ pitem, itemAt its item.parentId = some pitem ∧
      pitem.type = FLX_ITEM_TYPE_SCOPE ∧ rank item.parentId < rank i)

/-- Statement side: an item table, if there is one, has `m` items and ranked
parent links. -/
def TableOk (m : Nat) (items : Option (List flxTraceItem)) : Prop :=
  ∀ its, items = some its → its.length = m ∧ RankedItems its

/-- Statement side: a relation between the item table before and after a step
that holds across the assignments the public operations make to the table:
none, a new value for an item with the same type and parent, and the
definition of an item as scope or signal. -/
structure ItemStep (R : Option (List flxTraceItem) → Option (List flxTraceItem) → Prop) :
    Prop where
  refl : ∀ a, R a a
  trans : ∀ a b c, R a b → R b c → R a c
  set : ∀ (its : List flxTraceItem) (n : Nat) (old new : flxTraceItem),
    itemAt its n = some old → new.type = old.type → new.parentId = old.parentId →
    R (some its) (some (itemSet its n new))
  define : ∀ (maxItemId : Nat) (items items1 : Option (List flxTraceItem))
    (itemId parentId newType : Nat),
    newType = FLX_ITEM_TYPE_SCOPE ∨ newType = FLX_ITEM_TYPE_SIGNAL →
    flxDefineItem maxItemId items itemId parentId newType = some (Except.ok items1) →
    R items items1

/-! ## Section tiling -/

/-- Statement side: the sum of `7 + len` over the length fields of the section
headers at the offsets `pos + k * sectionSize`, `k < noOfSections`, where the
loop of `flxWriteSectionEntries` writes them. -/
def sectionsTotal (bytes : Nat → Nat) (pos sectionSize noOfSections : Nat) : Nat :=
  ((List.range noOfSections).map (fun k =>
    SECTION_HEADER_SIZE + ringSectionLen bytes (sectionOffset pos sectionSize k))).sum

/-! ## Ring recycle scenario -/

/-- The result of a call of the buffer from the side of an entry writer. -/
def flxRingOp.result {σ : Type} (op : flxRingOp) (b : flxBuffer σ) : Int :=
  match op with
  | flxRingOp.request len => (b.call FLX_BUFFER_REQUEST len none).result
  | flxRingOp.commit len => (b.call FLX_BUFFER_COMMIT len none).result
  | flxRingOp.put _ _ => FLX_OK

/-- The results of a sequence of calls. -/
def flxRingResults {σ : Type} : List flxRingOp → flxBuffer σ → List Int
  | [], _ => []
  | op :: ops, b => op.result b :: flxRingResults ops (op.run b)

/-- Statement side: an entry as the entry writers make it, a `REQUEST` of
`request` bytes, writes of bytes `(index, value)` into the content of the
current section, and a `COMMIT` of `written` bytes. -/
structure ringEntry where
  request : Nat
  data : List (Nat × Nat)
  written : Nat

/-- Statement side: the calls of an entry. -/
def ringEntry.ops (e : ringEntry) : List flxRingOp :=
  flxRingOp.request e.request :: (e.data.map (fun d => flxRingOp.put d.1 d.2)
    ++ [flxRingOp.commit e.written])

/-- Statement side: the calls of a sequence of entries. -/
def ringEntriesOps (es : List ringEntry) : List flxRingOp :=
  (es.map ringEntry.ops).flatten

/-- Statement side: the state of a ring of 768 bytes with three sections of 256
bytes and no init callback, after entering the sections `entered` and
committing `total` bytes in entries that request at most `m` bytes each. -/
structure RecycleInv {σ : Type} (m : Nat) (b : flxBuffer σ) (entered : List Nat)
    (total : Nat) : Prop where
  access : b.access = flxBufferAccess.ring
  first : b.first = 0
  len : b.len = 768
  init : b.init = none
  rlen : b.rlen = 249
  rpos : b.rpos ≤ 249
  current : b.current = 256 * (entered.length % 3)
  sizes : ∀ k, k < 3 → ringSectionLen b.bytes (256 * k) = 249
  third : (entered.length < 2 → b.bytes 514 = 0x80) ∧ (entered.length = 2 → b.bytes 514 = 0x81)
  upper : total ≤ 249 * entered.length + b.rpos
  lower : (250 - m) * entered.length + b.rpos ≤ total

/-- Example entries: 35 times an entry that requests 16 bytes and writes 12 and
an entry of 8 bytes, 700 bytes. -/
def exEntries700 : List ringEntry :=
  (List.replicate 35 [⟨16, [], 12⟩, ⟨8, [], 8⟩]).flatten

/-- Example entries: eleven entries of 60 bytes, the first one with its first
byte written, and one of 40 bytes, 700 bytes. -/
def exEntries60 : List ringEntry :=
  ⟨60, [(7, 0x11)], 60⟩ :: List.replicate 10 ⟨60, [], 60⟩ ++ [⟨40, [], 40⟩]

/-- Example entries: five entries of 140 bytes, 700 bytes. -/
def exEntries140 : List ringEntry := List.replicate 5 ⟨140, [], 140⟩

/-- Example state: an empty ring buffer of 768 bytes without init callback. -/
def exRing768 : flxBuffer Unit := flxCreateRingBuffer 0 (fun _ => 0) 768 none ()

/-! ## Arrays and back-patched size prefix -/

/-- `static flxbint _intarraywrite(void *value, flxbyte intsize, flxbool signd,
flxuint count, flxbyte szDf, flxbptr bytes, flxbint pos)`; element `n` of the
array is the memory at `value + n * intsize`. With a size prefix the elements
are written behind `sizeBytes` reserved bytes, which `_pluswritefixed` fills at
the end; the products `n * intsize` and `(1 + intsize) * count` are taken in
`flxuint`. -/
def _intarraywrite (value : Nat → Nat) (intsize signd count szDf : Nat) (bytes : Nat → Nat)
    (pos : Nat) : (Nat → Nat) × Nat :=
  let sizeBytes0 := (_intlen (((1 + intsize) * count) % 2 ^ 32) + (if szDf ≠ 0 then 4 else 0) + 6) / 7
  let sizeBytes := if szDf ≠ FLX_SZDF_NONE then (if sizeBytes0 = 0 then 1 else sizeBytes0) else 0
  let w := writeSeq ((List.range count).map (fun n =>
    _intwrite (fun i => value ((n * intsize) % 2 ^ 32 + i)) intsize signd FLX_SZDF_SIZEONLY)) bytes
    (pos + sizeBytes)
  let written := sizeBytes + w.2
  if szDf ≠ FLX_SZDF_NONE then
    let size := written - sizeBytes
    ((_pluswritefixed (if szDf ≠ 0 then ((size <<< 4) % 2 ^ 32) ||| (szDf &&& 0x0f) else size)
      w.1 pos sizeBytes).1, written)
  else (w.1, written)

/-- Statement side: the varint of exactly `k` bytes, seven bits of `v` per byte
from the low end, the continuation bit `0x80` on all but the last byte. -/
def fixedVarintBytes : Nat → Nat → List Nat
  | 0, _ => []
  | k + 1, v => if k = 0 then [v % 128] else (v % 128 + 128) :: fixedVarintBytes k (v / 128)

/-- Statement side: the value of a size prefix, `(payloadLen << 4) | (szDf & 0x0f)`,
or `payloadLen` when `szDf = 0`. -/
def sizePrefixValue (payloadLen szDf : Nat) : Nat :=
  if szDf ≠ 0 then (payloadLen <<< 4) ||| (szDf &&& 0x0f) else payloadLen

/-- The number `sizeBytes` of bytes that `_intarraywrite` and `_memberwrite`
reserve for the size prefix of a payload of at most `maxSize` bytes:
`sizeBits = _intlen(maxSize); sizeBytes = (sizeBits + (szDf ? 4 : 0) + 6) / 7;
if (!sizeBytes) sizeBytes = 1`. -/
def sizeBytesOf (maxSize szDf : Nat) : Nat :=
  if (_intlen maxSize + (if szDf ≠ 0 then 4 else 0) + 6) / 7 = 0 then 1
  else (_intlen maxSize + (if szDf ≠ 0 then 4 else 0) + 6) / 7

/-- Statement side: the sum `maxSize` of `_memberwrite` without the reduction to
32 bits. -/
def membersMaxSize (value : Nat → flxMemberValueStruct) : Nat → Nat
  | 0 => 0
  | n + 1 => membersMaxSize value n +
      (if (value n).valid ≠ 0 then
        _pluslen (value n).memberId + 1 + _pluslen (value n).size + (value n).size
      else 0)

/-- Statement side: the element writers of `_intarraywrite`. -/
def intArrayWriters (value : Nat → Nat) (intsize signd count : Nat) :
    List ((Nat → Nat) → Nat → (Nat → Nat) × Nat) :=
  (List.range count).map (fun n =>
    _intwrite (fun i => value ((n * intsize) % 2 ^ 32 + i)) intsize signd FLX_SZDF_SIZEONLY)

/-- Statement side: the member writers of `_memberwrite`. -/
def memberWriters (value : Nat → flxMemberValueStruct) (count : Nat) :
    List ((Nat → Nat) → Nat → (Nat → Nat) × Nat) :=
  (List.range count).flatMap (fun n => _memberwrite_member (value n))

/-- Statement side: the step `f` of a writer reports at most `n` bytes written
and leaves the cells below its position as they were. -/
def WritesAtMost (f : (Nat → Nat) → Nat → (Nat → Nat) × Nat) (n : Nat) : Prop :=
  ∀ bytes pos, (f bytes pos).2 ≤ n ∧ ∀ j, j < pos → (f bytes pos).1 j = bytes j

/-- Statement side: the result `r` of a writer at `pos` is the payload of the
writers `payload` behind a back-patched size prefix of exactly `k` bytes. The
payload starts at `pos + k` and is what the writers left there, the return
value is `k` plus the payload length, the prefix is the fixed varint of
`(payloadLen << 4) | (szDf & 0x0f)` (of `payloadLen` for `szDf = 0`) with the
continuation bit on all but its last byte, and `_plusread` decodes it to that
value in `k` bytes. -/
def BackPatched (r : (Nat → Nat) × Nat) (payload : List ((Nat → Nat) → Nat → (Nat → Nat) × Nat))
    (k szDf : Nat) (bytes : Nat → Nat) (pos : Nat) : Prop :=
  1 ≤ k ∧ r.2 = k + (writeSeq payload bytes (pos + k)).2 ∧
  (∀ j, j < pos → r.1 j = bytes j) ∧
  (∀ j, pos + k ≤ j → r.1 j = (writeSeq payload bytes (pos + k)).1 j) ∧
  readBytes r.1 pos k
    = fixedVarintBytes k (sizePrefixValue (writeSeq payload bytes (pos + k)).2 szDf) ∧
  (∀ i, i < k → r.1 (pos + i) &&& 0x80 = if i + 1 < k then 0x80 else 0) ∧
  (∀ end_, pos + k ≤ end_ + 1 →
    _plusread r.1 pos end_ = (sizePrefixValue (writeSeq payload bytes (pos + k)).2 szDf, k))

/-- Example array: the three integers `1`, `0x1234` and `0x7fffffff` in four
bytes each. -/
def exIntArray : Nat → Nat :=
  fun i => [1, 0, 0, 0, 0x34, 0x12, 0, 0, 0xff, 0xff, 0xff, 0x7f].getD i 0

/-- Example members: four valid members of unknown type, the first with the
size `2 ^ 32 - 16`, the others with size 0. -/
def exMembersWrap : Nat → flxMemberValueStruct :=
  fun n => ⟨n + 1, FLX_STRUCTTYPE_UNKNOWN, none, none, 0, fun _ => 0,
    if n = 0 then 2 ^ 32 - 16 else 0, 0, 1⟩

/-! ## Definition operations -/

/-- Statement side: the properties of a relation between item tables that hold
along the definition operations. -/
structure DefineStep (R : Option (List flxTraceItem) → Option (List flxTraceItem) → Prop) :
    Prop where
  refl : ∀ a, R a a
  trans : ∀ a b c, R a b → R b c → R a c
  define : ∀ (maxItemId : Nat) (items items1 : Option (List flxTraceItem))
    (itemId parentId newType : Nat),
    newType = FLX_ITEM_TYPE_SCOPE ∨ newType = FLX_ITEM_TYPE_SIGNAL →
    flxDefineItem maxItemId items itemId parentId newType = some (Except.ok items1) →
    R items items1

/-- Statement side: no item of the table is marked open. -/
def NoneOpen (items : Option (List flxTraceItem)) : Prop :=
  ∀ its, items = some its → ∀ n item, itemAt its n = some item →
    item.opn = FLX_ITEM_OPEN_NONE

/-- Statement side: the operation is one of the public definition operations
(`flxAddScope`, `flxAddSignal`, `flxAddSignals`, `flxAddScatteredSignal` and the
two reference definitions) or the binding of a buffer with `flxSetBuffer`. -/
def flxOp.isDefinition {σ : Type} : flxOp σ → Bool
  | .opening _ _ _ _ => false
  | .closing _ _ => false
  | .writeAt _ _ _ _ => false
  | _ => true

/-! ## Theorems -/

/-! ### Varint codec -/

theorem store_same (bytes : Nat → Nat) (i b : Nat) : store bytes i b i = b := by
  simp [store]

theorem store_other (bytes : Nat → Nat) (i b j : Nat) (h : j ≠ i) :
    store bytes i b j = bytes j := by
  simp [store, h]

theorem plus_byte_facts : ∀ b, b < 128 →
    (b &&& 0x7f) % 256 = b ∧ (b &&& 0x7f) = b ∧ (b &&& 0x80) = 0 ∧
    ((b ||| 0x80) % 256 = b + 128) ∧ ((b + 128) &&& 0x7f) = b ∧
    ((b + 128) &&& 0x80) = 128 := by
  decide

theorem and_7f_eq_mod (v : Nat) : v &&& 0x7f = v % 128 :=
  Nat.and_pow_two_sub_one_eq_mod v 7

/-- The write loop leaves every cell below `pos` as it was. -/
theorem pluswrite_loop_frame (fuel : Nat) : ∀ (val : Nat) (bytes : Nat → Nat) (pos w j : Nat),
    j < pos → (_pluswrite_loop fuel val bytes pos w).1 j = bytes j := by
  induction fuel with
  | zero => intro val bytes pos w j _; rfl
  | succ n ih =>
    intro val bytes pos w j hj
    unfold _pluswrite_loop
    split
    · exact store_other _ _ _ _ (by omega)
    · rw [ih _ _ _ _ _ (by omega)]
      exact store_other _ _ _ _ (by omega)

/-- The write loop returns what the length loop computes. -/
theorem pluswrite_loop_len (fuel : Nat) : ∀ (val : Nat) (bytes : Nat → Nat) (pos w : Nat),
    (_pluswrite_loop fuel val bytes pos w).2 = _pluslen_loop fuel val w := by
  induction fuel with
  | zero => intro val bytes pos w; rfl
  | succ n ih =>
    intro val bytes pos w
    unfold _pluswrite_loop _pluslen_loop
    split
    · rfl
    · exact ih _ _ _ _

theorem pluswrite_loop_last (fuel val : Nat) (bytes : Nat → Nat) (pos w : Nat)
    (h : val < 128) :
    _pluswrite_loop (fuel + 1) val bytes pos w = (store bytes pos val, w) := by
  have h1 : val ≤ 127 := by omega
  simp only [_pluswrite_loop, MASK_PLUS_DATA, h1, if_true, (plus_byte_facts val h).1]

theorem pluswrite_loop_cont (fuel val : Nat) (bytes : Nat → Nat) (pos w : Nat)
    (h : 128 ≤ val) :
    _pluswrite_loop (fuel + 1) val bytes pos w
      = _pluswrite_loop fuel (val / 128) (store bytes pos (val % 128 + 128)) (pos + 1) (w + 1) := by
  have h1 : ¬ val ≤ 127 := by omega
  have hb := plus_byte_facts (val % 128) (Nat.mod_lt _ (by norm_num))
  have hdiv : val >>> DEFAULT_PLUS_LENGTH = val / 128 := by
    rw [Nat.shiftRight_eq_div_pow]; rfl
  simp only [_pluswrite_loop, MASK_PLUS_DATA, MASK_PLUS, h1, if_false, and_7f_eq_mod,
    hb.2.2.2.1, hdiv]

theorem pluslen_loop_last (fuel val w : Nat) (h : val < 128) :
    _pluslen_loop (fuel + 1) val w = w := by
  have h1 : val ≤ 127 := by omega
  simp only [_pluslen_loop, MASK_PLUS_DATA, h1, if_true]

theorem pluslen_loop_cont (fuel val w : Nat) (h : 128 ≤ val) :
    _pluslen_loop (fuel + 1) val w = _pluslen_loop fuel (val / 128) (w + 1) := by
  have h1 : ¬ val ≤ 127 := by omega
  have hdiv : val >>> DEFAULT_PLUS_LENGTH = val / 128 := by
    rw [Nat.shiftRight_eq_div_pow]; rfl
  simp only [_pluslen_loop, MASK_PLUS_DATA, h1, if_false, hdiv]

theorem or_shifted_eq_add (acc b shift : Nat) (hacc : acc < 2 ^ shift) :
    acc ||| b * 2 ^ shift = acc + b * 2 ^ shift := by
  rw [Nat.mul_comm, Nat.lor_comm, ← Nat.mul_add_lt_is_or hacc, Nat.add_comm]

theorem plusread_loop_last (bytes : Nat → Nat) (start l pos acc shift b : Nat)
    (hb : bytes pos = b) (h : b < 128) (hacc : acc < 2 ^ shift)
    (hx : b * 2 ^ shift < 2 ^ 32) :
    _plusread_loop bytes start (l + 1) pos acc shift = (acc + b * 2 ^ shift, pos + 1 - start) := by
  have hf := plus_byte_facts b h
  simp only [_plusread_loop, hb, MASK_PLUS_DATA, MASK_PLUS, hf.2.1, hf.2.2.1, if_true,
    Nat.shiftLeft_eq, Nat.mod_eq_of_lt hx, or_shifted_eq_add _ _ _ hacc]

theorem plusread_loop_cont (bytes : Nat → Nat) (start l pos acc shift b : Nat)
    (hb : bytes pos = b + 128) (h : b < 128) (hacc : acc < 2 ^ shift)
    (hx : b * 2 ^ shift < 2 ^ 32) :
    _plusread_loop bytes start (l + 1) pos acc shift
      = _plusread_loop bytes start l (pos + 1) (acc + b * 2 ^ shift) (shift + 7) := by
  have hf := plus_byte_facts b h
  have h128 : ¬ ((128 : Nat) = 0) := by decide
  simp only [_plusread_loop, hb, MASK_PLUS_DATA, MASK_PLUS, hf.2.2.2.2.1, hf.2.2.2.2.2, h128,
    if_false, Nat.shiftLeft_eq, Nat.mod_eq_of_lt hx, or_shifted_eq_add _ _ _ hacc,
    DEFAULT_PLUS_LENGTH]

theorem div128_lt_pow (val n : Nat) (h : val < 128 ^ (n + 1 + 1)) : val / 128 < 128 ^ (n + 1) := by
  rw [Nat.div_lt_iff_lt_mul (by norm_num)]
  calc val < 128 ^ (n + 1 + 1) := h
    _ = 128 ^ (n + 1) * 128 := by rw [pow_succ]

theorem pluslen_loop_bounds (fuel : Nat) : ∀ (val w : Nat), val < 128 ^ (fuel + 1) →
    w ≤ _pluslen_loop (fuel + 1) val w ∧ _pluslen_loop (fuel + 1) val w ≤ w + fuel := by
  induction fuel with
  | zero =>
    intro val w h
    rw [pluslen_loop_last 0 val w (by simpa using h)]
    omega
  | succ n ih =>
    intro val w h
    by_cases h1 : val < 128
    · rw [pluslen_loop_last _ val w h1]; omega
    · rw [pluslen_loop_cont _ val w (by omega)]
      have := ih (val / 128) (w + 1) (div128_lt_pow val n h)
      omega

/-- Reading back what the write loop stored: the accumulated value and the
number of bytes agree. -/
theorem plus_loop_roundtrip (fuel : Nat) :
    ∀ (val : Nat) (bytes : Nat → Nat) (pos w start left acc shift : Nat),
    val < 128 ^ (fuel + 1) → acc < 2 ^ shift → acc + val * 2 ^ shift < 2 ^ 32 →
    _pluslen_loop (fuel + 1) val w - w < left →
    _plusread_loop (_pluswrite_loop (fuel + 1) val bytes pos w).1 start left pos acc shift
      = (acc + val * 2 ^ shift, pos + (_pluslen_loop (fuel + 1) val w - w) + 1 - start) := by
  induction fuel with
  | zero =>
    intro val bytes pos w start left acc shift hv hacc hsum hleft
    have h1 : val < 128 := by simpa using hv
    obtain ⟨l, rfl⟩ : ∃ l, left = l + 1 := ⟨left - 1, by omega⟩
    rw [pluswrite_loop_last 0 val bytes pos w h1, pluslen_loop_last 0 val w h1,
      plusread_loop_last _ start l pos acc shift val (store_same _ _ _) h1 hacc (by omega)]
    simp
  | succ n ih =>
    intro val bytes pos w start left acc shift hv hacc hsum hleft
    obtain ⟨l, rfl⟩ : ∃ l, left = l + 1 := ⟨left - 1, by omega⟩
    by_cases h1 : val < 128
    · rw [pluswrite_loop_last _ val bytes pos w h1, pluslen_loop_last _ val w h1,
        plusread_loop_last _ start l pos acc shift val (store_same _ _ _) h1 hacc (by omega)]
      simp
    · have h2 := div128_lt_pow val n hv
      have hlen := pluslen_loop_bounds n (val / 128) (w + 1) h2
      rw [pluslen_loop_cont _ val w (by omega)] at hleft ⊢
      rw [pluswrite_loop_cont _ val bytes pos w (by omega)]
      have hmod : val % 128 < 128 := Nat.mod_lt _ (by norm_num)
      have hsplit : val * 2 ^ shift
          = (val % 128) * 2 ^ shift + (val / 128) * 2 ^ (shift + 7) := by
        have := Nat.mod_add_div val 128
        simp only [pow_add]
        nth_rewrite 1 [← this]
        ring
      have hx : (val % 128) * 2 ^ shift < 2 ^ 32 := by omega
      have hacc2 : acc + (val % 128) * 2 ^ shift < 2 ^ (shift + 7) := by
        simp only [pow_add]
        have : (val % 128) * 2 ^ shift ≤ 127 * 2 ^ shift := Nat.mul_le_mul_right _ (by omega)
        omega
      have hframe := pluswrite_loop_frame (n + 1) (val / 128)
        (store bytes pos (val % 128 + 128)) (pos + 1) (w + 1) pos (by omega)
      rw [plusread_loop_cont _ start l pos acc shift (val % 128)
        (by rw [hframe, store_same]) hmod hacc hx]
      rw [ih (val / 128) (store bytes pos (val % 128 + 128)) (pos + 1) (w + 1) start l
        (acc + (val % 128) * 2 ^ shift) (shift + 7) h2 hacc2 (by omega) (by omega)]
      congr 1
      · omega
      · omega

/-- Shared form of the varint round trip: for every 32 bit value `v`, `_pluswrite` writes `_pluslen v` bytes (between one and five), and
`_plusread` from the same position, with `end` at or after the last written
byte, returns `v` and the same byte count. -/
theorem pluswrite_plusread (v : Nat) (bytes : Nat → Nat) (pos e : Nat)
    (hv : v < 2 ^ 32) (he : pos + (_pluswrite v bytes pos).2 ≤ e + 1) :
    (_pluswrite v bytes pos).2 = _pluslen v ∧
    1 ≤ _pluslen v ∧ _pluslen v ≤ 5 ∧
    _plusread (_pluswrite v bytes pos).1 pos e = (v, (_pluswrite v bytes pos).2) := by
  have hv5 : v < 128 ^ (4 + 1) := by norm_num at hv ⊢; omega
  have hlen : (_pluswrite v bytes pos).2 = _pluslen v := pluswrite_loop_len 5 v bytes pos 1
  have hb : 1 ≤ _pluslen v ∧ _pluslen v ≤ 1 + 4 := pluslen_loop_bounds 4 v 1 hv5
  refine ⟨hlen, hb.1, hb.2, ?_⟩
  rw [hlen] at he ⊢
  have hrt : _plusread (_pluswrite v bytes pos).1 pos e
      = (0 + v * 2 ^ 0, pos + (_pluslen v - 1) + 1 - pos) :=
    plus_loop_roundtrip 4 v bytes pos 1 pos (e + 1 - pos) 0 0 hv5 (by norm_num)
      (by simpa using hv) (by show _pluslen v - 1 < e + 1 - pos; omega)
  rw [hrt]
  simp only [pow_zero, Nat.mul_one, Nat.zero_add]
  congr 1
  omega

/-- C1. Varint round trip: for every 32 bit value `v`, any byte region and
position, `_pluswrite` writes `_pluslen v` bytes (between one and five), and
`_plusread` from the same position, with `end` at or after the last written
byte, returns `v` and the same byte count. -/
theorem plus_write_read_roundtrip (v : Nat) (bytes : Nat → Nat) (pos e : Nat)
    (hv : v < 2 ^ 32) (he : pos + (_pluswrite v bytes pos).2 ≤ e + 1) :
    (_pluswrite v bytes pos).2 = _pluslen v ∧
    1 ≤ _pluslen v ∧ _pluslen v ≤ 5 ∧
    _plusread (_pluswrite v bytes pos).1 pos e = (v, (_pluswrite v bytes pos).2) := by
  have hv5 : v < 128 ^ (4 + 1) := by norm_num at hv ⊢; omega
  have hlen : (_pluswrite v bytes pos).2 = _pluslen v := pluswrite_loop_len 5 v bytes pos 1
  have hb : 1 ≤ _pluslen v ∧ _pluslen v ≤ 1 + 4 := pluslen_loop_bounds 4 v 1 hv5
  refine ⟨hlen, hb.1, hb.2, ?_⟩
  rw [hlen] at he ⊢
  have hrt : _plusread (_pluswrite v bytes pos).1 pos e
      = (0 + v * 2 ^ 0, pos + (_pluslen v - 1) + 1 - pos) :=
    plus_loop_roundtrip 4 v bytes pos 1 pos (e + 1 - pos) 0 0 hv5 (by norm_num)
      (by simpa using hv) (by show _pluslen v - 1 < e + 1 - pos; omega)
  rw [hrt]
  simp only [pow_zero, Nat.mul_one, Nat.zero_add]
  congr 1
  omega

theorem plus_write_read_roundtrip_witness :
    (300 : Nat) < 2 ^ 32 ∧ 3 + (_pluswrite 300 (fun _ => 0) 3).2 ≤ 4 + 1 ∧
    _plusread (_pluswrite 300 (fun _ => 0) 3).1 3 4
      = (300, (_pluswrite 300 (fun _ => 0) 3).2) :=
  ⟨by decide, by decide,
    (plus_write_read_roundtrip 300 (fun _ => 0) 3 4 (by decide) (by decide)).2.2.2⟩

/-! ### Minimal integers -/

theorem arraycopy_apply (source : Nat → Nat) (sPos : Nat) (target : Nat → Nat) (tPos : Nat)
    (n j : Nat) :
    _arraycopy source sPos target tPos n j
      = if tPos ≤ j ∧ j < tPos + n then source (sPos + (j - tPos)) else target j := by
  induction n with
  | zero =>
    have : ¬ (tPos ≤ j ∧ j < tPos + 0) := by omega
    simp only [_arraycopy, this, if_false]
  | succ k ih =>
    simp only [_arraycopy, store]
    by_cases h : j = tPos + k
    · subst h; simp
    · simp only [h, if_false, ih]
      by_cases h2 : tPos ≤ j ∧ j < tPos + k
      · have : tPos ≤ j ∧ j < tPos + (k + 1) := ⟨h2.1, by omega⟩
        simp [h2, this]
      · have : ¬ (tPos ≤ j ∧ j < tPos + (k + 1)) := by omega
        simp [h2, this]

theorem intread_fill_apply (bytes : Nat → Nat) (pos rsize signd : Nat) (vbytes : Nat → Nat)
    (n j : Nat) :
    _intread_fill bytes pos rsize signd vbytes n j
      = if j < n then (if j < rsize then bytes (pos + j) else if signd ≠ 0 then 0xff else 0)
        else vbytes j := by
  induction n with
  | zero => simp [_intread_fill]
  | succ k ih =>
    simp only [_intread_fill, store]
    by_cases h : j = k
    · subst h; simp
    · simp only [h, if_false, ih]
      by_cases h2 : j < k
      · have : j < k + 1 := by omega
        simp [h2, this]
      · have : ¬ j < k + 1 := by omega
        simp [h2, this]

/-- What the minimising loop of `_intwrite` leaves: the stripped bytes are all
the fill byte, and the byte kept on top tells the sign. -/
theorem intwrite_rsize_spec (v : Nat → Nat) (s : Nat) : ∀ k,
    _intwrite_rsize v s k k ≤ k ∧
    (∀ n, _intwrite_rsize v s k k ≤ n → n < k → v n = if s ≠ 0 then 0xff else 0) ∧
    (_intwrite_rsize v s k k < k →
      (s ≠ 0 → 0 < _intwrite_rsize v s k k ∧ v (_intwrite_rsize v s k k - 1) &&& 0x80 ≠ 0) ∧
      (s = 0 → _intwrite_rsize v s k k = 0 ∨ v (_intwrite_rsize v s k k - 1) &&& 0x80 = 0)) := by
  intro k
  induction k with
  | zero => simp [_intwrite_rsize]
  | succ n ih =>
    unfold _intwrite_rsize
    simp only [Nat.add_sub_cancel]
    obtain ⟨ih1, ih2, ih3⟩ := ih
    by_cases c1 : s = 0 ∧ v n = 0 ∧ (n = 0 ∨ v (n - 1) &&& 0x80 = 0)
    · rw [if_pos c1]
      have hs : (if s ≠ 0 then 0xff else 0) = 0 := by simp [c1.1]
      refine ⟨by omega, ?_, ?_⟩
      · intro m hm hlt
        by_cases hmn : m = n
        · rw [hmn, hs]; exact c1.2.1
        · exact ih2 m hm (by omega)
      · intro _
        refine ⟨fun h => absurd c1.1 h, fun _ => ?_⟩
        by_cases hlt : _intwrite_rsize v s n n < n
        · exact (ih3 hlt).2 c1.1
        · have : _intwrite_rsize v s n n = n := by omega
          rw [this]
          exact c1.2.2
    · rw [if_neg c1]
      by_cases c2 : s ≠ 0 ∧ n > 0 ∧ v n = 0xff ∧ v (n - 1) &&& 0x80 ≠ 0
      · rw [if_pos c2]
        have hs : (if s ≠ 0 then 0xff else 0) = 0xff := by simp [c2.1]
        refine ⟨by omega, ?_, ?_⟩
        · intro m hm hlt
          by_cases hmn : m = n
          · rw [hmn, hs]; exact c2.2.2.1
          · exact ih2 m hm (by omega)
        · intro _
          refine ⟨fun _ => ?_, fun h => absurd h c2.1⟩
          by_cases hlt : _intwrite_rsize v s n n < n
          · exact (ih3 hlt).1 c2.1
          · have : _intwrite_rsize v s n n = n := by omega
            rw [this]
            exact ⟨c2.2.1, c2.2.2.2⟩
      · rw [if_neg c2]
        refine ⟨le_refl _, ?_, ?_⟩
        · intro m hm hlt; omega
        · intro h; omega

theorem plusread_loop_count (m : Nat → Nat) (start : Nat) : ∀ (left pos acc shift : Nat),
    start ≤ pos →
    (_plusread_loop m start left pos acc shift).2 = 0 ∨
      pos + 1 - start ≤ (_plusread_loop m start left pos acc shift).2 := by
  intro left
  induction left with
  | zero => intro pos acc shift _; left; rfl
  | succ l ih =>
    intro pos acc shift hp
    unfold _plusread_loop
    simp only
    split
    · right; exact le_refl _
    · rcases ih (pos + 1) (acc ||| (((m pos &&& MASK_PLUS_DATA) <<< shift) % 2 ^ 32))
        (shift + DEFAULT_PLUS_LENGTH) (by omega) with h | h
      · left; exact h
      · right; omega

/-- The varint reader only depends on the cells it has consumed. -/
theorem plusread_loop_congr (m1 m2 : Nat → Nat) (start : Nat) :
    ∀ (left pos acc shift : Nat), start ≤ pos →
    (_plusread_loop m1 start left pos acc shift).2 ≠ 0 →
    (∀ j, pos ≤ j → j < start + (_plusread_loop m1 start left pos acc shift).2 → m1 j = m2 j) →
    _plusread_loop m2 start left pos acc shift = _plusread_loop m1 start left pos acc shift := by
  intro left
  induction left with
  | zero => intro pos acc shift _ _ _; rfl
  | succ l ih =>
    intro pos acc shift hp hne hagree
    have hcnt := plusread_loop_count m1 start (l + 1) pos acc shift hp
    have hpos : m1 pos = m2 pos := hagree pos (le_refl _) (by omega)
    unfold _plusread_loop at hne hagree ⊢
    simp only at hne hagree ⊢
    rw [← hpos]
    by_cases hc : m1 pos &&& MASK_PLUS = 0
    · simp only [hc, if_true]
    · simp only [hc, if_false] at hne hagree ⊢
      exact ih _ _ _ (by omega) hne (fun j hj hlt => hagree j (by omega) hlt)

theorem plusread_congr (m1 m2 : Nat → Nat) (start e : Nat)
    (hne : (_plusread m1 start e).2 ≠ 0)
    (hagree : ∀ j, start ≤ j → j < start + (_plusread m1 start e).2 → m1 j = m2 j) :
    _plusread m2 start e = _plusread m1 start e :=
  plusread_loop_congr m1 m2 start _ start 0 0 (le_refl _) hne hagree

theorem intwrite_rsize_zero (v : Nat → Nat) : ∀ k, (∀ n, n < k → v n = 0) →
    _intwrite_rsize v 0 k k = 0 := by
  intro k
  induction k with
  | zero => intro _; rfl
  | succ n ih =>
    intro h
    unfold _intwrite_rsize
    have c1 : (0 : Nat) = 0 ∧ v n = 0 ∧ (n = 0 ∨ v (n - 1) &&& 0x80 = 0) := by
      refine ⟨rfl, h n (by omega), ?_⟩
      by_cases hn : n = 0
      · left; exact hn
      · right; rw [h (n - 1) (by omega)]; rfl
    rw [if_pos c1]
    simpa using ih (fun m hm => h m (by omega))

theorem signdAnd_ne_zero (signd size top : Nat) (hs : signd ≤ 1) :
    signdAnd signd size top ≠ 0 ↔ (signd = 1 ∧ size > 0 ∧ top &&& 0x80 ≠ 0) := by
  unfold signdAnd
  have h01 : signd = 0 ∨ signd = 1 := by omega
  by_cases c : size > 0 ∧ top &&& 0x80 ≠ 0
  · rw [if_pos c]
    rcases h01 with h | h <;> simp [h, c]
  · rw [if_neg c]
    rcases h01 with h | h
    · simp [h]
    · simp only [h, Nat.and_zero, ne_eq, not_true_eq_false, true_and, false_iff]
      exact c

/-- Shared form of the minimal integer round trip. -/
theorem intwrite_intread (value dst : Nat → Nat) (size signd : Nat) (bytes : Nat → Nat)
    (pos e : Nat) (hsize : size ≤ 255) (hs : signd ≤ 1)
    (he : pos + (_intwrite value size signd FLX_SZDF_SIZEONLY bytes pos).2 ≤ e + 1) :
    (_intread dst size signd (_intwrite value size signd FLX_SZDF_SIZEONLY bytes pos).1 pos e).2 ≠ 0 ∧
    (∀ n, n < size →
      (_intread dst size signd (_intwrite value size signd FLX_SZDF_SIZEONLY bytes pos).1 pos e).1 n
        = value n) := by
  have hspec := intwrite_rsize_spec value (signdAnd signd size (value (size - 1))) size
  unfold _intwrite at he ⊢
  simp only [szDfwrite, FLX_SZDF_SIZEONLY, FLX_SZDF_NONE, ne_eq, not_true_eq_false, if_false,
    show ¬ ((0 : Nat) = 255) from by decide, not_false_eq_true, if_true] at he ⊢
  generalize hs1 : signdAnd signd size (value (size - 1)) = s1 at *
  generalize hrs : _intwrite_rsize value s1 size size = rsize at *
  obtain ⟨hle, hfill, hsign⟩ := hspec
  have hrt := pluswrite_plusread rsize bytes pos e (by omega) (by omega)
  obtain ⟨hplen, hp1, hp5, hread⟩ := hrt
  generalize hw : _pluswrite rsize bytes pos = w at *
  have hread2 : _plusread (_arraycopy value 0 w.1 (pos + w.2) rsize) pos e = (rsize, w.2) := by
    rw [← hread]
    apply plusread_congr
    · rw [hread]; simp only; omega
    · intro j hj hlt
      rw [hread] at hlt
      simp only at hlt
      rw [arraycopy_apply]
      have : ¬ (pos + w.2 ≤ j ∧ j < pos + w.2 + rsize) := by omega
      simp only [this, if_false]
  have hcond : ¬ (pos = pos + w.2 ∨ rsize > size ∨ pos + w.2 + rsize - 1 > e) := by omega
  refine ⟨?_, ?_⟩
  · unfold _intread
    simp only [hread2, hcond, if_false]
    omega
  · intro n hn
    unfold _intread
    simp only [hread2, hcond, if_false]
    rw [intread_fill_apply]
    simp only [hn, if_true]
    by_cases hnr : n < rsize
    · simp only [hnr, if_true]
      rw [arraycopy_apply]
      have : pos + w.2 ≤ pos + w.2 + n ∧ pos + w.2 + n < pos + w.2 + rsize := by omega
      simp only [this, and_self, if_true]
      congr 1
      omega
    · simp only [hnr, if_false]
      rw [hfill n (by omega) hn]
      have hlt : rsize < size := by omega
      obtain ⟨hneg, hnonneg⟩ := hsign hlt
      have hiff := signdAnd_ne_zero signd rsize
        (_arraycopy value 0 w.1 (pos + w.2) rsize (pos + w.2 + (rsize - 1))) hs
      have hiff1 := signdAnd_ne_zero signd size (value (size - 1)) hs
      rw [hs1] at hiff1
      by_cases hz : s1 = 0
      · have h2 : signdAnd signd rsize
            (_arraycopy value 0 w.1 (pos + w.2) rsize (pos + w.2 + (rsize - 1))) = 0 := by
          by_contra hcon
          obtain ⟨_, hpos, hmsb⟩ := hiff.mp hcon
          rw [arraycopy_apply] at hmsb
          have : pos + w.2 ≤ pos + w.2 + (rsize - 1) ∧
              pos + w.2 + (rsize - 1) < pos + w.2 + rsize := by omega
          simp only [this, and_self, if_true] at hmsb
          have h3 : 0 + (pos + w.2 + (rsize - 1) - (pos + w.2)) = rsize - 1 := by omega
          rw [h3] at hmsb
          rcases hnonneg hz with h | h
          · omega
          · exact hmsb h
        simp [h2, hz]
      · obtain ⟨hpos, hmsb⟩ := hneg hz
        have h2 : signdAnd signd rsize
            (_arraycopy value 0 w.1 (pos + w.2) rsize (pos + w.2 + (rsize - 1))) ≠ 0 := by
          rw [hiff]
          refine ⟨(hiff1.mp hz).1, hpos, ?_⟩
          rw [arraycopy_apply]
          have : pos + w.2 ≤ pos + w.2 + (rsize - 1) ∧
              pos + w.2 + (rsize - 1) < pos + w.2 + rsize := by omega
          simp only [this, and_self, if_true]
          have h3 : 0 + (pos + w.2 + (rsize - 1) - (pos + w.2)) = rsize - 1 := by omega
          rw [h3]
          exact hmsb
        simp [h2, hz]

/-- An all-zero value is minimised to length 0: `_intwrite` emits the single
prefix byte `0`. -/
theorem intwrite_zero (value : Nat → Nat) (size signd szDf : Nat) (bytes : Nat → Nat) (pos : Nat)
    (hs : signd ≤ 1) (hzero : ∀ n, n < size → value n = 0) :
    _intwrite value size signd szDf bytes pos = szDfwrite 0 szDf bytes pos := by
  have hs0 : signdAnd signd size (value (size - 1)) = 0 := by
    by_contra hcon
    obtain ⟨_, hpos, hmsb⟩ := (signdAnd_ne_zero signd size (value (size - 1)) hs).mp hcon
    rw [hzero (size - 1) (by omega)] at hmsb
    exact hmsb rfl
  unfold _intwrite
  simp only [hs0, intwrite_rsize_zero value size hzero, _arraycopy, Nat.add_zero]

/-- C2. Minimal integer round trip: for every width `size` (1..8 and in fact up
to 255), every value of `size` little endian bytes and either sign flag,
`_intread` with the same size and flag on the bytes `_intwrite` produced with
`FLX_SZDF_SIZEONLY` succeeds and reproduces the `size` bytes; a value of zero
is written with length 0 (the single prefix byte `0`). -/
theorem int_write_read_roundtrip (value dst : Nat → Nat) (size signd : Nat)
    (bytes : Nat → Nat) (pos e : Nat) (hsize : 1 ≤ size ∧ size ≤ 8) (hs : signd ≤ 1)
    (he : pos + (_intwrite value size signd FLX_SZDF_SIZEONLY bytes pos).2 ≤ e + 1) :
    (_intread dst size signd (_intwrite value size signd FLX_SZDF_SIZEONLY bytes pos).1 pos e).2 ≠ 0 ∧
    (∀ n, n < size →
      (_intread dst size signd (_intwrite value size signd FLX_SZDF_SIZEONLY bytes pos).1 pos e).1 n
        = value n) ∧
    ((∀ n, n < size → value n = 0) →
      (_intwrite value size signd FLX_SZDF_SIZEONLY bytes pos).2 = 1 ∧
      (_intwrite value size signd FLX_SZDF_SIZEONLY bytes pos).1 pos = 0) := by
  obtain ⟨hok, hbytes⟩ := intwrite_intread value dst size signd bytes pos e (by omega) hs he
  refine ⟨hok, hbytes, fun hzero => ?_⟩
  rw [intwrite_zero value size signd FLX_SZDF_SIZEONLY bytes pos hs hzero]
  have h0 : szDfwrite 0 FLX_SZDF_SIZEONLY bytes pos = (store bytes pos 0, 1) := by
    simp only [szDfwrite, FLX_SZDF_SIZEONLY, FLX_SZDF_NONE, ne_eq, not_true_eq_false, if_false,
      show ¬ ((0 : Nat) = 255) from by decide, not_false_eq_true, if_true]
    exact pluswrite_loop_last 4 0 bytes pos 1 (by decide)
  rw [h0]
  exact ⟨rfl, store_same _ _ _⟩

theorem int_write_read_roundtrip_witness :
    ((1 ≤ 4 ∧ 4 ≤ 8) ∧ (1 : Nat) ≤ 1 ∧
      2 + (_intwrite (fun i => [0x80, 0xff, 0xff, 0xff].getD i 0) 4 1 FLX_SZDF_SIZEONLY
        (fun _ => 0) 2).2 ≤ 3 + 1) ∧
    (∀ n, n < 4 →
      (_intread (fun _ => 0) 4 1
        (_intwrite (fun i => [0x80, 0xff, 0xff, 0xff].getD i 0) 4 1 FLX_SZDF_SIZEONLY
          (fun _ => 0) 2).1 2 3).1 n
        = (fun i => [0x80, 0xff, 0xff, 0xff].getD i 0) n) :=
  ⟨⟨by decide, by decide, by decide⟩,
    (int_write_read_roundtrip (fun i => [0x80, 0xff, 0xff, 0xff].getD i 0) (fun _ => 0) 4 1
      (fun _ => 0) 2 3 (by decide) (by decide) (by decide)).2.1⟩

/-! ### Logic state packing -/

set_option maxRecDepth 100000 in
theorem unpack_shift_1 : ∀ d, d < 256 → ∀ s, s < 2 →
    unpackByte 1 (((d <<< 1) ||| s) % 256) = (unpackByte 1 d).drop 1 ++ [s] := by
  decide

set_option maxRecDepth 100000 in
theorem unpack_shift_2 : ∀ d, d < 256 → ∀ s, s < 4 →
    unpackByte 2 (((d <<< 2) ||| s) % 256) = (unpackByte 2 d).drop 1 ++ [s] := by
  decide

set_option maxRecDepth 100000 in
set_option maxHeartbeats 4000000 in
theorem unpack_shift_4 : ∀ d, d < 256 → ∀ s, s < 16 →
    unpackByte 4 (((d <<< 4) ||| s) % 256) = (unpackByte 4 d).drop 1 ++ [s] := by
  decide

/-- The states `value[start + i], ..., value[start + i + k - 1]`. -/
theorem statesOf_range_succ (f : Nat → Nat) (k : Nat) :
    (List.range (k + 1)).map f = f 0 :: (List.range k).map (fun j => f (j + 1)) := by
  rw [List.range_succ_eq_map]
  simp [List.map_map, Function.comp]

theorem unpackByte_length (bits d : Nat) : (unpackByte bits d).length = 8 / bits := by
  simp [unpackByte]

/-- The inner loop as a shift register: after `k` steps the byte holds the last
states of the old byte followed by the `k` states shifted in. -/
theorem logicstates_shift_unpack (bits : Nat)
    (hshift : ∀ d, d < 256 → ∀ s, s < 2 ^ bits →
      unpackByte bits (((d <<< bits) ||| s) % 256) = (unpackByte bits d).drop 1 ++ [s])
    (value : Nat → Nat) (start : Nat) : ∀ (k i d : Nat), d < 256 → k ≤ 8 / bits →
    (∀ j, j < k → value (start + (i + j)) < 2 ^ bits) →
    unpackByte bits (_logicstates_shift bits value start k i d)
      = (unpackByte bits d).drop k ++ (List.range k).map (fun j => value (start + (i + j))) := by
  intro k
  induction k with
  | zero => intro i d _ _ _; simp [_logicstates_shift]
  | succ k ih =>
    intro i d hd hk hv
    unfold _logicstates_shift
    have hd' : ((d <<< bits) ||| value (start + i)) % 256 < 256 := Nat.mod_lt _ (by norm_num)
    rw [ih (i + 1) _ hd' (by omega) (fun j hj => by
      have := hv (j + 1) (by omega)
      rwa [show i + 1 + j = i + (j + 1) by omega])]
    rw [hshift d hd (value (start + i)) (by simpa using hv 0 (by omega))]
    rw [statesOf_range_succ]
    have hlen : k ≤ ((unpackByte bits d).drop 1).length := by
      rw [List.length_drop, unpackByte_length]; omega
    rw [List.drop_append_of_le_length hlen, List.drop_drop]
    simp only [List.append_assoc, List.singleton_append, Nat.add_zero]
    have e1 : 1 + k = k + 1 := by omega
    have e2 : (fun j => value (start + (i + 1 + j))) = (fun j => value (start + (i + (j + 1)))) := by
      funext j; congr 1; omega
    rw [e1, e2]

theorem logicstates_shift_lt (bits : Nat) (value : Nat → Nat) (start : Nat) :
    ∀ (k i d : Nat), d < 256 → _logicstates_shift bits value start k i d < 256 := by
  intro k
  induction k with
  | zero => intro i d hd; exact hd
  | succ k ih =>
    intro i d _
    unfold _logicstates_shift
    exact ih _ _ (Nat.mod_lt _ (by norm_num))

/-- The data loop, run with `to >= 0`: it appends `k` bytes, each made of the
next `per` states, and leaves the cells before them alone. -/
theorem logicstates_data_spec (per bits fill : Nat) (value : Nat → Nat) (start pos : Nat) :
    ∀ (k t : Nat) (bytes : Nat → Nat) (written : Nat),
    (_logicstates_data per bits fill value start pos k (t : Int) bytes written).2 = written + k ∧
    (∀ j, j < pos + written →
      (_logicstates_data per bits fill value start pos k (t : Int) bytes written).1 j = bytes j) ∧
    (∀ n, n < k →
      (_logicstates_data per bits fill value start pos k (t : Int) bytes written).1
          (pos + written + n)
        = _logicstates_shift bits value start per (t + n * per) fill) := by
  intro k
  induction k with
  | zero =>
    intro t bytes written
    simp [_logicstates_data]
  | succ k ih =>
    intro t bytes written
    unfold _logicstates_data
    have hneg : ¬ ((t : Int) < 0) := by omega
    simp only [hneg, if_false]
    have e1 : ((t : Int) + (per : Int) - (t : Int)).toNat = per := by omega
    have e2 : ((t : Int)).toNat = t := by omega
    have e3 : (t : Int) + (per : Int) = ((t + per : Nat) : Int) := by omega
    rw [e1, e2, e3]
    obtain ⟨h1, h2, h3⟩ := ih (t + per)
      (store bytes (pos + written) (_logicstates_shift bits value start per t fill)) (written + 1)
    refine ⟨by omega, ?_, ?_⟩
    · intro j hj
      rw [h2 j (by omega)]
      exact store_other _ _ _ _ (by omega)
    · intro n hn
      by_cases hn0 : n = 0
      · subst hn0
        rw [h2 (pos + written + 0) (by omega)]
        simp [store_same]
      · have := h3 (n - 1) (by omega)
        rw [show pos + (written + 1) + (n - 1) = pos + written + n by omega] at this
        rw [this]
        congr 1
        have : n = (n - 1) + 1 := by omega
        rw [this]
        simp only [Nat.add_sub_cancel]
        ring

/-- The data loop as `_logicstateswrite` starts it: `to = r - per` is negative
for the first byte, which takes the `r` leading states behind the fill. -/
theorem logicstates_data_first (per bits fill : Nat) (value : Nat → Nat) (start pos : Nat)
    (q r : Nat) (hr : r < per) (bytes : Nat → Nat) (written : Nat) :
    (_logicstates_data per bits fill value start pos (q + 1) ((r : Int) - per) bytes written).2
      = written + (q + 1) ∧
    (∀ j, j < pos + written →
      (_logicstates_data per bits fill value start pos (q + 1) ((r : Int) - per) bytes written).1 j
        = bytes j) ∧
    (_logicstates_data per bits fill value start pos (q + 1) ((r : Int) - per) bytes written).1
        (pos + written) = _logicstates_shift bits value start r 0 fill ∧
    (∀ n, n < q →
      (_logicstates_data per bits fill value start pos (q + 1) ((r : Int) - per) bytes written).1
          (pos + written + 1 + n)
        = _logicstates_shift bits value start per (r + n * per) fill) := by
  unfold _logicstates_data
  have hneg : ((r : Int) - per < 0) := by omega
  simp only [hneg, if_true]
  have e1 : ((r : Int) - (per : Int) + (per : Int) - 0).toNat = r := by omega
  have e3 : (r : Int) - (per : Int) + (per : Int) = ((r : Nat) : Int) := by omega
  rw [e1, e3]
  simp only [Int.toNat_zero]
  obtain ⟨h1, h2, h3⟩ := logicstates_data_spec per bits fill value start pos q r
      (store bytes (pos + written) (_logicstates_shift bits value start r 0 fill)) (written + 1)
  refine ⟨by omega, ?_, ?_, ?_⟩
  · intro j hj
    rw [h2 j (by omega)]
    exact store_other _ _ _ _ (by omega)
  · rw [h2 (pos + written) (by omega)]
    exact store_same _ _ _
  · intro n hn
    have := h3 n hn
    rw [show pos + (written + 1) + n = pos + written + 1 + n by omega] at this
    exact this

theorem states_range_add (f : Nat → Nat) (a b : Nat) :
    (List.range (a + b)).map f
      = (List.range a).map f ++ (List.range b).map (fun j => f (a + j)) := by
  rw [List.range_add, List.map_append, List.map_map]
  rfl

theorem readBytes_succ (bytes : Nat → Nat) (pos n : Nat) :
    readBytes bytes pos (n + 1) = bytes pos :: readBytes bytes (pos + 1) n := by
  unfold readBytes
  rw [statesOf_range_succ]
  simp only [Nat.add_zero, List.cons.injEq, true_and]
  apply List.map_congr_left
  intro j _
  congr 1; omega

theorem readBytes_congr (m1 m2 : Nat → Nat) (pos n : Nat)
    (h : ∀ j, pos ≤ j → j < pos + n → m1 j = m2 j) :
    readBytes m1 pos n = readBytes m2 pos n := by
  unfold readBytes
  apply List.map_congr_left
  intro j hj
  exact h _ (by omega) (by have := List.mem_range.mp hj; omega)

theorem readBytes_length (bytes : Nat → Nat) (pos n : Nat) :
    (readBytes bytes pos n).length = n := by
  simp [readBytes]

/-- The full bytes of the data loop unpack to the states they were fed. -/
theorem unpack_full_bytes (bits per : Nat) (hper : per = 8 / bits) (hpos : 0 < per)
    (hshift : ∀ d, d < 256 → ∀ s, s < 2 ^ bits →
      unpackByte bits (((d <<< bits) ||| s) % 256) = (unpackByte bits d).drop 1 ++ [s])
    (fill : Nat) (hfill : fill < 256) (value : Nat → Nat) (start r : Nat) : ∀ (q : Nat),
    (∀ j, j < r + q * per → value (start + j) < 2 ^ bits) →
    unpackStates bits
        ((List.range q).map (fun n => _logicstates_shift bits value start per (r + n * per) fill))
      = (List.range (q * per)).map (fun j => value (start + (r + j))) := by
  intro q
  induction q with
  | zero => intro _; simp [unpackStates]
  | succ q ih =>
    intro hv
    have hv' : ∀ j, j < r + q * per → value (start + j) < 2 ^ bits := fun j hj =>
      hv j (by rw [Nat.succ_mul]; omega)
    rw [List.range_succ, List.map_append]
    unfold unpackStates at ih ⊢
    rw [List.flatMap_append, ih hv']
    simp only [List.map_cons, List.map_nil, List.flatMap_cons, List.flatMap_nil, List.append_nil]
    rw [logicstates_shift_unpack bits hshift value start per (r + q * per) fill hfill (by omega)
      (fun j hj => hv _ (by rw [Nat.succ_mul]; omega))]
    have hdrop : (unpackByte bits fill).drop per = [] := by
      apply List.drop_eq_nil_of_le
      rw [unpackByte_length]; omega
    rw [hdrop, List.nil_append, Nat.succ_mul, states_range_add]
    congr 1
    apply List.map_congr_left
    intro j _
    congr 1; omega

/-- The data bytes written by one `case` of `_logicstateswrite` unpack to the
fill states followed by the `size` states after `start`. -/
theorem logicstates_data_unpack (bits per : Nat) (hper : per = 8 / bits) (hpos : 0 < per)
    (hshift : ∀ d, d < 256 → ∀ s, s < 2 ^ bits →
      unpackByte bits (((d <<< bits) ||| s) % 256) = (unpackByte bits d).drop 1 ++ [s])
    (fill p : Nat) (hfill : fill < 256) (hfillp : unpackByte bits fill = List.replicate per p)
    (value : Nat → Nat) (start pos size : Nat)
    (hv : ∀ j, j < size → value (start + j) < 2 ^ bits) (bytes : Nat → Nat) (written : Nat) :
    (_logicstates_data per bits fill value start pos ((size + per) / per)
        ((size : Int) - ((size + per) / per : Nat) * per) bytes written).2
      = written + (size + per) / per ∧
    (∀ j, j < pos + written →
      (_logicstates_data per bits fill value start pos ((size + per) / per)
        ((size : Int) - ((size + per) / per : Nat) * per) bytes written).1 j = bytes j) ∧
    unpackStates bits (readBytes
      (_logicstates_data per bits fill value start pos ((size + per) / per)
        ((size : Int) - ((size + per) / per : Nat) * per) bytes written).1
      (pos + written) ((size + per) / per))
      = List.replicate (per - size % per) p ++ (List.range size).map (fun j => value (start + j)) := by
  have hq : (size + per) / per = size / per + 1 := Nat.add_div_right size hpos
  have hsz : size = size % per + (size / per) * per := by
    have := Nat.mod_add_div size per
    rw [Nat.mul_comm] at this; omega
  have hr : size % per < per := Nat.mod_lt _ hpos
  have hto : (size : Int) - ((size / per + 1 : Nat) : Int) * (per : Int)
      = ((size % per : Nat) : Int) - (per : Int) := by
    have h1 : ((size / per + 1 : Nat) : Int) * (per : Int)
        = (((size / per) * per : Nat) : Int) + (per : Int) := by push_cast; ring
    rw [h1]
    have h2 : (size : Int) = ((size % per : Nat) : Int) + (((size / per) * per : Nat) : Int) := by
      exact_mod_cast hsz
    omega
  rw [hq, hto]
  obtain ⟨h1, h2, h3, h4⟩ := logicstates_data_first per bits fill value start pos (size / per)
    (size % per) hr bytes written
  refine ⟨h1, h2, ?_⟩
  rw [readBytes_succ, h3]
  have hrest : readBytes
      (_logicstates_data per bits fill value start pos (size / per + 1)
        (((size % per : Nat) : Int) - (per : Int)) bytes written).1 (pos + written + 1) (size / per)
      = (List.range (size / per)).map
          (fun n => _logicstates_shift bits value start per (size % per + n * per) fill) := by
    unfold readBytes
    apply List.map_congr_left
    intro n hn
    exact h4 n (List.mem_range.mp hn)
  rw [hrest]
  unfold unpackStates
  rw [List.flatMap_cons]
  have hfull := unpack_full_bytes bits per hper hpos hshift fill hfill value start (size % per)
    (size / per) (fun j hj => hv j (by omega))
  unfold unpackStates at hfull
  rw [hfull]
  rw [logicstates_shift_unpack bits hshift value start (size % per) 0 fill hfill (by omega)
    (fun j hj => hv _ (by omega))]
  rw [hfillp, List.drop_replicate, List.append_assoc]
  congr 1
  conv_rhs => rw [hsz]
  rw [states_range_add]
  simp only [Nat.zero_add]

theorem foldl_max_ge (l : List Nat) : ∀ m, m ≤ l.foldl max m ∧ ∀ x ∈ l, x ≤ l.foldl max m := by
  induction l with
  | nil => intro m; simp
  | cons a t ih =>
    intro m
    simp only [List.foldl_cons, List.mem_cons, forall_eq_or_imp]
    obtain ⟨h1, h2⟩ := ih (max m a)
    refine ⟨le_trans (le_max_left _ _) h1, le_trans (le_max_right _ _) h1, h2⟩

theorem foldl_max_lt (l : List Nat) (B : Nat) : ∀ m, m < B → (∀ x ∈ l, x < B) →
    l.foldl max m < B := by
  induction l with
  | nil => intro m hm _; simpa using hm
  | cons a t ih =>
    intro m hm hl
    simp only [List.foldl_cons]
    exact ih _ (max_lt hm (hl a (List.mem_cons_self _ _)))
      (fun x hx => hl x (List.mem_cons_of_mem _ hx))

/-- The crop loop of `_logicstateswrite` on the tail of the input from index
`n`: it counts the leading states equal to `p` (while `crop` is set) and folds
the maximum. -/
theorem logicstates_crop_spec (p : Nat) (l : List Nat) :
    ∀ (k n : Nat) (crop : Bool) (start size maxState : Nat), n + k = l.length →
    _logicstates_crop p (fun i => l.getD i 0) k n crop start size maxState
      = (start + (if crop then ((l.drop n).takeWhile (fun x => decide (x = p))).length else 0),
         size - (if crop then ((l.drop n).takeWhile (fun x => decide (x = p))).length else 0),
         (l.drop n).foldl max maxState) := by
  intro k
  induction k with
  | zero =>
    intro n crop start size maxState hn
    have : l.drop n = [] := List.drop_eq_nil_of_le (by omega)
    simp [_logicstates_crop, this]
  | succ k ih =>
    intro n crop start size maxState hn
    have hlt : n < l.length := by omega
    have hdrop : l.drop n = l[n] :: l.drop (n + 1) := List.drop_eq_getElem_cons hlt
    have hget : l.getD n 0 = l[n] := by
      rw [List.getD_eq_getElem?_getD, List.getElem?_eq_getElem hlt]; rfl
    unfold _logicstates_crop
    simp only [hget, hdrop, List.foldl_cons]
    have hmax : (if l[n] > maxState then l[n] else maxState) = max maxState l[n] := by
      by_cases h : l[n] > maxState
      · rw [if_pos h, max_eq_right (le_of_lt h)]
      · rw [if_neg h, max_eq_left (by omega)]
    rw [hmax]
    by_cases hc : crop = true ∧ p = l[n]
    · rw [if_pos hc, ih (n + 1) crop _ _ _ (by omega)]
      obtain ⟨hc1, hc2⟩ := hc
      subst hc1
      simp only [if_true, List.takeWhile_cons, ← hc2, decide_True, List.length_cons]
      refine Prod.ext ?_ (Prod.ext ?_ rfl)
      · simp only; omega
      · simp only; omega
    · rw [if_neg hc, ih (n + 1) false _ _ _ (by omega)]
      by_cases hcrop : crop = true
      · subst hcrop
        have hne : ¬ (l[n] = p) := fun h => hc ⟨rfl, h.symm⟩
        simp only [List.takeWhile_cons, hne, decide_False, if_true, List.length_nil,
          Bool.false_eq_true, if_false, Nat.add_zero, Nat.sub_zero]
      · have : crop = false := by simpa using hcrop
        subst this
        simp only [Bool.false_eq_true, if_false]

theorem drop_length_takeWhile (f : Nat → Bool) (l : List Nat) :
    l.drop (l.takeWhile f).length = l.dropWhile f := by
  induction l with
  | nil => rfl
  | cons a t ih =>
    by_cases h : f a = true
    · simp [List.takeWhile_cons, List.dropWhile_cons, h, ih]
    · simp [List.takeWhile_cons, List.dropWhile_cons, h]

theorem length_takeWhile_add_dropWhile (f : Nat → Bool) (l : List Nat) :
    (l.takeWhile f).length + (l.dropWhile f).length = l.length := by
  rw [← List.length_append, List.takeWhile_append_dropWhile]

theorem map_getD_drop (l : List Nat) (start : Nat) :
    (List.range (l.drop start).length).map (fun j => (fun i => l.getD i 0) (start + j))
      = l.drop start := by
  apply List.ext_getElem
  · simp
  · intro n h1 h2
    simp only [List.getElem_map, List.getElem_range, List.getElem_drop]
    rw [List.getD_eq_getElem?_getD, List.getElem?_eq_getElem (by
      simp only [List.length_drop] at h2; omega)]
    rfl

theorem dropWhile_replicate_append (p : Nat) (k : Nat) (l : List Nat) :
    (List.replicate k p ++ l).dropWhile (fun x => decide (x = p))
      = l.dropWhile (fun x => decide (x = p)) := by
  induction k with
  | zero => simp
  | succ k ih => simp [List.replicate_succ, List.dropWhile_cons, ih]

theorem dropWhile_idem (f : Nat → Bool) (l : List Nat) :
    (l.dropWhile f).dropWhile f = l.dropWhile f := by
  induction l with
  | nil => rfl
  | cons a t ih =>
    by_cases h : f a = true
    · simp [List.dropWhile_cons, h, ih]
    · simp [List.dropWhile_cons, h]

theorem logic_header_arith (dlength level : Nat) (hd : dlength ≤ 4097)
    (hlevel : level = 1 ∨ level = 2 ∨ level = 3) :
    ((((dlength <<< 4) % 2 ^ 32) ||| level) ||| FLX_XDF_LOGIC_PACK_RIGHT_ALLIGNED)
      = 16 * dlength + (level + 8) := by
  have h1 : (dlength <<< 4) % 2 ^ 32 = 2 ^ 4 * dlength := by
    rw [Nat.shiftLeft_eq, Nat.mod_eq_of_lt (by omega), Nat.mul_comm]
  rw [h1, Nat.lor_assoc]
  have h2 : (level ||| FLX_XDF_LOGIC_PACK_RIGHT_ALLIGNED) = level + 8 := by
    rcases hlevel with h | h | h <;> subst h <;> rfl
  rw [h2, ← Nat.mul_add_lt_is_or (by omega)]

/-- One `case` of the `switch` of `_logicstateswrite` behind a header `v`:
the header reads back, and the data bytes unpack to fill states followed by
the states after `start`. -/
theorem logicstates_case (per bits fill p : Nat) (hper : per = 8 / bits) (hpos : 0 < per)
    (hshift : ∀ d, d < 256 → ∀ s, s < 2 ^ bits →
      unpackByte bits (((d <<< bits) ||| s) % 256) = (unpackByte bits d).drop 1 ++ [s])
    (hfill : fill < 256) (hfillp : unpackByte bits fill = List.replicate per p)
    (value : Nat → Nat) (start pos size : Nat)
    (hv : ∀ j, j < size → value (start + j) < 2 ^ bits)
    (v : Nat) (hvv : v < 2 ^ 32) (bytes : Nat → Nat) (e : Nat)
    (he : pos + (_logicstates_data per bits fill value start pos ((size + per) / per)
        ((size : Int) - ((size + per) / per : Nat) * per)
        (_pluswrite v bytes pos).1 (_pluswrite v bytes pos).2).2 ≤ e + 1) :
    ∃ hl : Nat, 1 ≤ hl ∧
    (_logicstates_data per bits fill value start pos ((size + per) / per)
        ((size : Int) - ((size + per) / per : Nat) * per)
        (_pluswrite v bytes pos).1 (_pluswrite v bytes pos).2).2 = hl + (size + per) / per ∧
    _plusread (_logicstates_data per bits fill value start pos ((size + per) / per)
        ((size : Int) - ((size + per) / per : Nat) * per)
        (_pluswrite v bytes pos).1 (_pluswrite v bytes pos).2).1 pos e = (v, hl) ∧
    unpackStates bits (readBytes (_logicstates_data per bits fill value start pos
        ((size + per) / per) ((size : Int) - ((size + per) / per : Nat) * per)
        (_pluswrite v bytes pos).1 (_pluswrite v bytes pos).2).1 (pos + hl) ((size + per) / per))
      = List.replicate (per - size % per) p ++ (List.range size).map (fun j => value (start + j)) := by
  obtain ⟨h1, h2, h3⟩ := logicstates_data_unpack bits per hper hpos hshift fill p hfill hfillp
    value start pos size hv (_pluswrite v bytes pos).1 (_pluswrite v bytes pos).2
  rw [h1] at he
  have he' : pos + (_pluswrite v bytes pos).2 ≤ e + 1 :=
    Nat.le_trans (Nat.add_le_add_left (Nat.le_add_right _ _) _) he
  obtain ⟨hpl, hp1, _, hread⟩ := pluswrite_plusread v bytes pos e hvv he'
  have hlen1 : 1 ≤ (_pluswrite v bytes pos).2 := by
    rw [hpl]; exact hp1
  refine ⟨(_pluswrite v bytes pos).2, hlen1, h1, ?_, h3⟩
  rw [← hread]
  apply plusread_congr
  · rw [hread]; simp only; omega
  · intro j _ hlt
    rw [hread] at hlt
    exact (h2 j hlt).symm

theorem fill_unpack_1 : ∀ p, p < 2 →
    FLX_LOGIC_L2_BYTE_FILL.getD p 0 < 256 ∧
    unpackByte 1 (FLX_LOGIC_L2_BYTE_FILL.getD p 0) = List.replicate 8 p := by
  decide

theorem fill_unpack_2 : ∀ p, p < 4 →
    FLX_LOGIC_L4_BYTE_FILL.getD p 0 < 256 ∧
    unpackByte 2 (FLX_LOGIC_L4_BYTE_FILL.getD p 0) = List.replicate 4 p := by
  decide

theorem fill_unpack_4 : ∀ p, p < 16 →
    FLX_LOGIC_L16_BYTE_FILL.getD p 0 < 256 ∧
    unpackByte 4 (FLX_LOGIC_L16_BYTE_FILL.getD p 0) = List.replicate 2 p := by
  decide

/-- `_logicstateswrite` with automatic level, split by the outcome of the crop
loop: the two one-byte markers and the three `case`s of the `switch`. -/
theorem logicstateswrite_auto (p : Nat) (value : Nat → Nat) (size : Nat) (bytes : Nat → Nat)
    (pos start size1 M : Nat)
    (hc : _logicstates_crop p value size 0 true 0 size p = (start, size1, M)) :
    (size1 = 0 ∧ p = 0 →
      _logicstateswrite 0 p value size bytes pos = _pluswrite 1 bytes pos) ∧
    (size1 = 0 ∧ p = 1 →
      _logicstateswrite 0 p value size bytes pos = _pluswrite 5 bytes pos) ∧
    (¬ (size1 = 0 ∧ p ≤ 1) → M < 2 →
      _logicstateswrite 0 p value size bytes pos
        = _logicstates_data 8 1 (FLX_LOGIC_L2_BYTE_FILL.getD p 0) value start pos
            ((size1 + 8) / 8) ((size1 : Int) - ((size1 + 8) / 8 : Nat) * (8 : Nat))
            (_pluswrite (((((size1 + 8) / 8) <<< 4) % 2 ^ 32 ||| 1)
              ||| FLX_XDF_LOGIC_PACK_RIGHT_ALLIGNED) bytes pos).1
            (_pluswrite (((((size1 + 8) / 8) <<< 4) % 2 ^ 32 ||| 1)
              ||| FLX_XDF_LOGIC_PACK_RIGHT_ALLIGNED) bytes pos).2) ∧
    (¬ (size1 = 0 ∧ p ≤ 1) → 2 ≤ M → M < 4 →
      _logicstateswrite 0 p value size bytes pos
        = _logicstates_data 4 2 (FLX_LOGIC_L4_BYTE_FILL.getD p 0) value start pos
            ((size1 + 4) / 4) ((size1 : Int) - ((size1 + 4) / 4 : Nat) * (4 : Nat))
            (_pluswrite (((((size1 + 4) / 4) <<< 4) % 2 ^ 32 ||| 2)
              ||| FLX_XDF_LOGIC_PACK_RIGHT_ALLIGNED) bytes pos).1
            (_pluswrite (((((size1 + 4) / 4) <<< 4) % 2 ^ 32 ||| 2)
              ||| FLX_XDF_LOGIC_PACK_RIGHT_ALLIGNED) bytes pos).2) ∧
    (¬ (size1 = 0 ∧ p ≤ 1) → 4 ≤ M →
      _logicstateswrite 0 p value size bytes pos
        = _logicstates_data 2 4 (FLX_LOGIC_L16_BYTE_FILL.getD p 0) value start pos
            ((size1 + 2) / 2) ((size1 : Int) - ((size1 + 2) / 2 : Nat) * (2 : Nat))
            (_pluswrite (((((size1 + 2) / 2) <<< 4) % 2 ^ 32 ||| 3)
              ||| FLX_XDF_LOGIC_PACK_RIGHT_ALLIGNED) bytes pos).1
            (_pluswrite (((((size1 + 2) / 2) <<< 4) % 2 ^ 32 ||| 3)
              ||| FLX_XDF_LOGIC_PACK_RIGHT_ALLIGNED) bytes pos).2) := by
  refine ⟨?_, ?_, ?_, ?_, ?_⟩
  · rintro ⟨h1, h2⟩
    subst h2
    unfold _logicstateswrite
    simp only [if_true, hc, h1, FLX_STATE_0_BITS, and_self]
    rfl
  · rintro ⟨h1, h2⟩
    subst h2
    unfold _logicstateswrite
    simp only [if_true, hc, h1, FLX_STATE_0_BITS, FLX_STATE_1_BITS, and_self, and_false,
      show ¬ ((1 : Nat) = 0) from by decide, if_false]
    rfl
  · intro h hM
    have h0 : ¬ (size1 = 0 ∧ p = FLX_STATE_0_BITS) := by
      simp only [FLX_STATE_0_BITS]; omega
    have h1 : ¬ (size1 = 0 ∧ p = FLX_STATE_1_BITS) := by
      simp only [FLX_STATE_1_BITS]; omega
    have hz : ¬ (M ≥ FLX_STATE_Z_BITS) := by simp only [FLX_STATE_Z_BITS]; omega
    unfold _logicstateswrite
    simp only [if_true, hc, h0, h1, hz, if_false, FLX_STATE_LEVEL_2]
    rfl
  · intro h hM2 hM4
    have h0 : ¬ (size1 = 0 ∧ p = FLX_STATE_0_BITS) := by
      simp only [FLX_STATE_0_BITS]; omega
    have h1 : ¬ (size1 = 0 ∧ p = FLX_STATE_1_BITS) := by
      simp only [FLX_STATE_1_BITS]; omega
    have hz : (M ≥ FLX_STATE_Z_BITS) := by simp only [FLX_STATE_Z_BITS]; omega
    have hL : ¬ (M ≥ FLX_STATE_L_BITS) := by simp only [FLX_STATE_L_BITS]; omega
    unfold _logicstateswrite
    simp only [if_true, hc, h0, h1, hz, hL, if_false, FLX_STATE_LEVEL_2, FLX_STATE_LEVEL_4,
      show ¬ ((2 : Nat) = 1) from by decide]
    rfl
  · intro h hM4
    have h0 : ¬ (size1 = 0 ∧ p = FLX_STATE_0_BITS) := by
      simp only [FLX_STATE_0_BITS]; omega
    have h1 : ¬ (size1 = 0 ∧ p = FLX_STATE_1_BITS) := by
      simp only [FLX_STATE_1_BITS]; omega
    have hz : (M ≥ FLX_STATE_Z_BITS) := by simp only [FLX_STATE_Z_BITS]; omega
    have hL : (M ≥ FLX_STATE_L_BITS) := by simp only [FLX_STATE_L_BITS]; omega
    unfold _logicstateswrite
    simp only [if_true, hc, h0, h1, hz, hL, if_false, FLX_STATE_LEVEL_2, FLX_STATE_LEVEL_4,
      FLX_STATE_LEVEL_16, show ¬ ((3 : Nat) = 1) from by decide,
      show ¬ ((3 : Nat) = 2) from by decide]
    rfl

theorem getD_lt_of_forall (l : List Nat) (B i : Nat) (hl : ∀ x ∈ l, x < B) (hi : i < l.length) :
    l.getD i 0 < B := by
  rw [List.getD_eq_getElem?_getD, List.getElem?_eq_getElem hi]
  exact hl _ (List.getElem_mem hi)

theorem getD_le_of_forall (l : List Nat) (B i : Nat) (hl : ∀ x ∈ l, x ≤ B) (hi : i < l.length) :
    l.getD i 0 ≤ B := by
  rw [List.getD_eq_getElem?_getD, List.getElem?_eq_getElem hi]
  exact hl _ (List.getElem_mem hi)

/-- Result of one packed `case`, in the form the decoder needs. -/
theorem logicstates_decode_case (level per bits fill p : Nat) (hper : per = 8 / bits)
    (hpos : 0 < per)
    (hshift : ∀ d, d < 256 → ∀ s, s < 2 ^ bits →
      unpackByte bits (((d <<< bits) ||| s) % 256) = (unpackByte bits d).drop 1 ++ [s])
    (hfill : fill < 256 ∧ unpackByte bits fill = List.replicate per p)
    (hlevel : level = 1 ∨ level = 2 ∨ level = 3) (hbits : levelBits level = bits)
    (l : List Nat) (start pos : Nat) (rest : List Nat) (hrest : l.drop start = rest)
    (hv : ∀ x ∈ l, x < 2 ^ bits) (hsize : rest.length ≤ 4096)
    (bytes : Nat → Nat) (e : Nat) (r : (Nat → Nat) × Nat)
    (hr : r = _logicstates_data per bits fill (fun i => l.getD i 0) start pos
        ((rest.length + per) / per)
        ((rest.length : Int) - ((rest.length + per) / per : Nat) * per)
        (_pluswrite (((((rest.length + per) / per) <<< 4) % 2 ^ 32 ||| level)
          ||| FLX_XDF_LOGIC_PACK_RIGHT_ALLIGNED) bytes pos).1
        (_pluswrite (((((rest.length + per) / per) <<< 4) % 2 ^ 32 ||| level)
          ||| FLX_XDF_LOGIC_PACK_RIGHT_ALLIGNED) bytes pos).2)
    (he : pos + r.2 ≤ e + 1) :
    (_plusread r.1 pos e).2 ≠ 0 ∧
    (_plusread r.1 pos e).2 +
      (if ((_plusread r.1 pos e).1 / 8) % 2 = 0 then 0 else (_plusread r.1 pos e).1 / 16) = r.2 ∧
    (∃ k, unpackLogic r.1 pos e = List.replicate k p ++ rest) := by
  have hd : (rest.length + per) / per ≤ 4097 := by
    rw [Nat.add_div_right _ hpos]
    have := Nat.div_le_self rest.length per
    omega
  rw [logic_header_arith _ level hd hlevel] at hr
  subst hr
  have hvv : 16 * ((rest.length + per) / per) + (level + 8) < 2 ^ 32 := by
    rcases hlevel with h | h | h <;> subst h <;> omega
  have hvalue : ∀ j, j < rest.length → (fun i => l.getD i 0) (start + j) < 2 ^ bits := by
    intro j hj
    have : start + j < l.length := by
      rw [← hrest, List.length_drop] at hj; omega
    exact getD_lt_of_forall l _ _ hv this
  obtain ⟨hl, hhl1, h2, hread, hunpack⟩ := logicstates_case per bits fill p hper hpos hshift
    hfill.1 hfill.2 (fun i => l.getD i 0) start pos rest.length hvalue _ hvv bytes e he
  have hmap : (List.range rest.length).map (fun j => (fun i => l.getD i 0) (start + j)) = rest := by
    have := map_getD_drop l start
    rw [hrest] at this
    exact this
  rw [hmap] at hunpack
  have hv8 : (16 * ((rest.length + per) / per) + (level + 8)) / 8 % 2 = 1 := by
    rcases hlevel with h | h | h <;> subst h <;> omega
  have hv16 : (16 * ((rest.length + per) / per) + (level + 8)) / 16 = (rest.length + per) / per := by
    rcases hlevel with h | h | h <;> subst h <;> omega
  have hv4 : (16 * ((rest.length + per) / per) + (level + 8)) % 4 = level := by
    rcases hlevel with h | h | h <;> subst h <;> omega
  refine ⟨?_, ?_, ?_⟩
  · rw [hread]; simp only; omega
  · rw [hread]
    simp only [hv8, hv16, show ¬ ((1 : Nat) = 0) from by decide, if_false]
    exact h2.symm
  · refine ⟨per - rest.length % per, ?_⟩
    unfold unpackLogic
    simp only [hread, hv8, hv16, hv4, hbits, show ¬ ((1 : Nat) = 0) from by decide, if_false]
    exact hunpack

/-- Result of a one-byte marker, in the form the decoder needs. -/
theorem logicstates_decode_marker (m : Nat) (hm : m = 1 ∨ m = 5) (bytes : Nat → Nat)
    (pos e : Nat) (he : pos + (_pluswrite m bytes pos).2 ≤ e + 1) :
    (_pluswrite m bytes pos).2 = 1 ∧ (_pluswrite m bytes pos).1 pos = m ∧
    _plusread (_pluswrite m bytes pos).1 pos e = (m, 1) ∧
    unpackLogic (_pluswrite m bytes pos).1 pos e = [] := by
  have hw : _pluswrite m bytes pos = (store bytes pos m, 1) :=
    pluswrite_loop_last 4 m bytes pos 1 (by omega)
  obtain ⟨_, _, _, hread⟩ := pluswrite_plusread m bytes pos e (by omega) he
  rw [hw] at hread ⊢
  refine ⟨rfl, store_same _ _ _, hread, ?_⟩
  unfold unpackLogic
  rw [hread]
  rcases hm with h | h <;> subst h <;> simp

/-- What the decoder finds in the output of `_logicstateswrite` with automatic
level: the header reads back, header and data make up exactly the written
bytes, and the unpacked states are copies of `p` followed by the cropped input;
an empty remainder after `0` or `1` is the one-byte marker. -/
theorem logicstates_decode (p : Nat) (l : List Nat) (bytes : Nat → Nat) (pos e : Nat)
    (hp : p < 16) (hl : ∀ x ∈ l, x < 16) (hlen : l.length ≤ 4096)
    (he : pos + (_logicstateswrite 0 p (fun i => l.getD i 0) l.length bytes pos).2 ≤ e + 1) :
    (_plusread (_logicstateswrite 0 p (fun i => l.getD i 0) l.length bytes pos).1 pos e).2 ≠ 0 ∧
    (_plusread (_logicstateswrite 0 p (fun i => l.getD i 0) l.length bytes pos).1 pos e).2 +
      (if ((_plusread (_logicstateswrite 0 p (fun i => l.getD i 0) l.length bytes pos).1
            pos e).1 / 8) % 2 = 0 then 0
       else (_plusread (_logicstateswrite 0 p (fun i => l.getD i 0) l.length bytes pos).1
            pos e).1 / 16)
      = (_logicstateswrite 0 p (fun i => l.getD i 0) l.length bytes pos).2 ∧
    (∃ k, unpackLogic (_logicstateswrite 0 p (fun i => l.getD i 0) l.length bytes pos).1 pos e
      = List.replicate k p ++ l.dropWhile (fun x => decide (x = p))) ∧
    (l.dropWhile (fun x => decide (x = p)) = [] ∧ p ≤ 1 →
      (_logicstateswrite 0 p (fun i => l.getD i 0) l.length bytes pos).2 = 1 ∧
      (_logicstateswrite 0 p (fun i => l.getD i 0) l.length bytes pos).1 pos
        = FLX_STATE_LEVEL_2 |||
          (if p = 0 then FLX_XDF_LOGIC_PACK_0 else FLX_XDF_LOGIC_PACK_1)) := by
  have hcrop := logicstates_crop_spec p l l.length 0 true 0 l.length p (by simp)
  simp only [List.drop_zero, if_true, Nat.zero_add] at hcrop
  have hsum := length_takeWhile_add_dropWhile (fun x => decide (x = p)) l
  have hdrop := drop_length_takeWhile (fun x => decide (x = p)) l
  obtain ⟨hmaxp, hmaxl⟩ := foldl_max_ge l p
  have hmaxlt := foldl_max_lt l 16 p hp hl
  have hsz : l.length - (l.takeWhile (fun x => decide (x = p))).length
      = (l.dropWhile (fun x => decide (x = p))).length := by omega
  rw [hsz] at hcrop
  obtain ⟨hm0, hm1, hL2, hL4, hL16⟩ := logicstateswrite_auto p (fun i => l.getD i 0) l.length
    bytes pos _ _ _ hcrop
  generalize hrest : l.dropWhile (fun x => decide (x = p)) = rest at *
  generalize hM : l.foldl max p = M at *
  have hrl : rest.length ≤ 4096 := by omega
  by_cases hmark : rest.length = 0 ∧ p ≤ 1
  · have hnil : rest = [] := List.length_eq_zero.mp hmark.1
    by_cases hp0 : p = 0
    · rw [hm0 ⟨hmark.1, hp0⟩] at he ⊢
      obtain ⟨h1, h2, h3, h4⟩ := logicstates_decode_marker 1 (Or.inl rfl) bytes pos e he
      refine ⟨by rw [h3]; decide, by rw [h3, h1]; rfl, ⟨0, by rw [h4, hnil]; rfl⟩, fun _ => ?_⟩
      rw [h1, h2, hp0]
      exact ⟨rfl, rfl⟩
    · have hp1 : p = 1 := by omega
      rw [hm1 ⟨hmark.1, hp1⟩] at he ⊢
      obtain ⟨h1, h2, h3, h4⟩ := logicstates_decode_marker 5 (Or.inr rfl) bytes pos e he
      refine ⟨by rw [h3]; decide, by rw [h3, h1]; rfl, ⟨0, by rw [h4, hnil]; rfl⟩, fun _ => ?_⟩
      rw [h1, h2, hp1]
      exact ⟨rfl, rfl⟩
  · have hnomark : ¬ (rest = [] ∧ p ≤ 1) := fun h => hmark ⟨by rw [h.1]; rfl, h.2⟩
    by_cases hM2 : M < 2
    · have heq := hL2 hmark hM2
      obtain ⟨h1, h2, h3⟩ := logicstates_decode_case 1 8 1 _ p (by decide) (by decide)
        unpack_shift_1 (fill_unpack_1 p (by omega)) (Or.inl rfl) (by decide) l _ pos rest hdrop
        (fun x hx => by have := hmaxl x hx; omega) hrl bytes e _ heq he
      exact ⟨h1, h2, h3, fun h => absurd h hnomark⟩
    · by_cases hM4 : M < 4
      · have heq := hL4 hmark (by omega) hM4
        obtain ⟨h1, h2, h3⟩ := logicstates_decode_case 2 4 2 _ p (by decide) (by decide)
          unpack_shift_2 (fill_unpack_2 p (by omega)) (Or.inr (Or.inl rfl)) (by decide) l _ pos
          rest hdrop (fun x hx => by have := hmaxl x hx; omega) hrl bytes e _ heq he
        exact ⟨h1, h2, h3, fun h => absurd h hnomark⟩
      · have heq := hL16 hmark (by omega)
        obtain ⟨h1, h2, h3⟩ := logicstates_decode_case 3 2 4 _ p (by decide) (by decide)
          unpack_shift_4 (fill_unpack_4 p hp) (Or.inr (Or.inr rfl)) (by decide) l _ pos
          rest hdrop (fun x hx => by have := hl x hx; omega) hrl bytes e _ heq he
        exact ⟨h1, h2, h3, fun h => absurd h hnomark⟩

theorem readBytes_eq_pointwise (m1 m2 : Nat → Nat) (pos n : Nat)
    (h : readBytes m1 pos n = readBytes m2 pos n) :
    ∀ j, pos ≤ j → j < pos + n → m1 j = m2 j := by
  intro j hj1 hj2
  unfold readBytes at h
  have := (List.map_inj_left.mp h) (j - pos) (List.mem_range.mpr (by omega))
  simpa [show pos + (j - pos) = j by omega] using this

/-- The decoder only looks at the header and the data bytes it announces. -/
theorem unpackLogic_congr (m1 m2 : Nat → Nat) (pos e n : Nat)
    (hne : (_plusread m1 pos e).2 ≠ 0)
    (hfit : (_plusread m1 pos e).2 +
      (if ((_plusread m1 pos e).1 / 8) % 2 = 0 then 0 else (_plusread m1 pos e).1 / 16) = n)
    (hagree : ∀ j, pos ≤ j → j < pos + n → m1 j = m2 j) :
    unpackLogic m2 pos e = unpackLogic m1 pos e := by
  have hread : _plusread m2 pos e = _plusread m1 pos e :=
    plusread_congr m1 m2 pos e hne (fun j hj hlt => hagree j hj (by omega))
  unfold unpackLogic
  rw [hread]
  simp only
  by_cases hc : ((_plusread m1 pos e).1 / 8) % 2 = 0
  · simp only [hc, if_true]
  · simp only [hc, if_false] at hfit ⊢
    congr 1
    exact (readBytes_congr m1 m2 _ _ (fun j hj hlt => hagree j (by omega) (by omega))).symm

/-- C3. Logic-state packing is invertible: for a preceding state `p` in 0..15
and state sequences (states 0..15, length at most 4096) written by
`_logicstateswrite` with automatic level selection, unpacking the data bytes at
the level named in the header, most significant state first, gives some copies
of `p` followed by exactly the input without its leading `p` entries; an empty
remainder after `p = 0` or `p = 1` is the one-byte `PACK_0` / `PACK_1` marker;
and two inputs whose remainders differ never produce the same bytes. -/
theorem logicstates_pack_invertible (p : Nat) (l1 l2 : List Nat) (bytes1 bytes2 : Nat → Nat)
    (pos e : Nat) (hp : p < 16)
    (hl1 : ∀ x ∈ l1, x < 16) (hlen1 : l1.length ≤ 4096)
    (hl2 : ∀ x ∈ l2, x < 16) (hlen2 : l2.length ≤ 4096)
    (he : pos + (_logicstateswrite 0 p (fun i => l1.getD i 0) l1.length bytes1 pos).2 ≤ e + 1) :
    (∃ k, unpackLogic (_logicstateswrite 0 p (fun i => l1.getD i 0) l1.length bytes1 pos).1 pos e
      = List.replicate k p ++ l1.dropWhile (fun x => decide (x = p))) ∧
    (l1.dropWhile (fun x => decide (x = p)) = [] ∧ p ≤ 1 →
      (_logicstateswrite 0 p (fun i => l1.getD i 0) l1.length bytes1 pos).2 = 1 ∧
      (_logicstateswrite 0 p (fun i => l1.getD i 0) l1.length bytes1 pos).1 pos
        = FLX_STATE_LEVEL_2 |||
          (if p = 0 then FLX_XDF_LOGIC_PACK_0 else FLX_XDF_LOGIC_PACK_1)) ∧
    (l1.dropWhile (fun x => decide (x = p)) ≠ l2.dropWhile (fun x => decide (x = p)) →
      readBytes (_logicstateswrite 0 p (fun i => l1.getD i 0) l1.length bytes1 pos).1 pos
          (_logicstateswrite 0 p (fun i => l1.getD i 0) l1.length bytes1 pos).2
        ≠ readBytes (_logicstateswrite 0 p (fun i => l2.getD i 0) l2.length bytes2 pos).1 pos
          (_logicstateswrite 0 p (fun i => l2.getD i 0) l2.length bytes2 pos).2) := by
  obtain ⟨_, _, hdec, hmark⟩ := logicstates_decode p l1 bytes1 pos e hp hl1 hlen1 he
  refine ⟨hdec, hmark, ?_⟩
  intro hne heq
  generalize hr1 : _logicstateswrite 0 p (fun i => l1.getD i 0) l1.length bytes1 pos = r1 at *
  generalize hr2 : _logicstateswrite 0 p (fun i => l2.getD i 0) l2.length bytes2 pos = r2 at *
  have hn : r1.2 = r2.2 := by
    have := congrArg List.length heq
    simpa [readBytes_length] using this
  rw [← hn] at heq
  have hagree := readBytes_eq_pointwise r1.1 r2.1 pos r1.2 heq
  have he1 : pos + (_logicstateswrite 0 p (fun i => l1.getD i 0) l1.length bytes1 pos).2
      ≤ (pos + r1.2 - 1) + 1 := by rw [hr1]; omega
  have he2 : pos + (_logicstateswrite 0 p (fun i => l2.getD i 0) l2.length bytes2 pos).2
      ≤ (pos + r1.2 - 1) + 1 := by rw [hr2]; omega
  obtain ⟨a1, a2, ⟨k1, a3⟩, _⟩ :=
    logicstates_decode p l1 bytes1 pos (pos + r1.2 - 1) hp hl1 hlen1 he1
  obtain ⟨_, _, ⟨k2, b3⟩, _⟩ :=
    logicstates_decode p l2 bytes2 pos (pos + r1.2 - 1) hp hl2 hlen2 he2
  rw [hr1] at a1 a2 a3
  rw [hr2] at b3
  have hsame := unpackLogic_congr r1.1 r2.1 pos (pos + r1.2 - 1) r1.2 a1 a2 hagree
  rw [a3, b3] at hsame
  have hd := congrArg (List.dropWhile (fun x => decide (x = p))) hsame
  rw [dropWhile_replicate_append, dropWhile_replicate_append, dropWhile_idem, dropWhile_idem] at hd
  exact hne hd.symm

theorem logicstates_pack_invertible_witness :
    (1 : Nat) < 16 ∧ [1, 1, 0, 3, 2].length ≤ 4096 ∧
    ∃ k, unpackLogic (_logicstateswrite 0 1 (fun i => [1, 1, 0, 3, 2].getD i 0) 5
        (fun _ => 0) 2).1 2 4
      = List.replicate k 1 ++ [1, 1, 0, 3, 2].dropWhile (fun x => decide (x = 1)) :=
  ⟨by decide, by decide,
    (logicstates_pack_invertible 1 [1, 1, 0, 3, 2] [] (fun _ => 0) (fun _ => 0) 2 4 (by decide)
      (by decide) (by decide) (by decide) (by decide) (by decide)).1⟩

/-! ### Writes at a domain position -/

theorem toS64_ofS64 (d : Int) (h : InS64 d) : toS64 (ofS64 d) = d := by
  obtain ⟨h1, h2⟩ := h
  unfold toS64 ofS64
  have hnn : (0 : Int) ≤ d % 2 ^ 64 := Int.emod_nonneg _ (by norm_num)
  have hlt : d % 2 ^ 64 < 2 ^ 64 := Int.emod_lt_of_pos _ (by norm_num)
  have hcast : (((d % 2 ^ 64).toNat % 2 ^ 64 : Nat) : Int) = d % 2 ^ 64 := by
    have h3 : (d % 2 ^ 64).toNat % 2 ^ 64 = (d % 2 ^ 64).toNat := by
      apply Nat.mod_eq_of_lt
      omega
    rw [h3]
    exact Int.toNat_of_nonneg hnn
  by_cases hd : 0 ≤ d
  · have hm : d % 2 ^ 64 = d := Int.emod_eq_of_lt hd (by omega)
    have hc : (d % 2 ^ 64).toNat % 2 ^ 64 < 2 ^ 63 := by omega
    rw [if_pos hc, hcast, hm]
  · have hm : d % 2 ^ 64 = d + 2 ^ 64 := by
      have : (d + 2 ^ 64) % 2 ^ 64 = d + 2 ^ 64 := Int.emod_eq_of_lt (by omega) (by omega)
      rw [← this]; simp
    have hc : ¬ ((d % 2 ^ 64).toNat % 2 ^ 64 < 2 ^ 63) := by omega
    rw [if_neg hc, hcast, hm]
    omega

theorem wrap64_eq (d : Int) (h : InS64 d) : wrap64 d = d := toS64_ofS64 d h

theorem setCurrent_current (item : flxTraceItem) (d : Int) (h : InS64 d) :
    (item.setCurrent d).current = d := by
  simp only [flxTraceItem.setCurrent, flxTraceItem.current]
  exact toS64_ofS64 d h

/-- `flxResolveCurrent` finds exactly the governing open sequence. -/
theorem resolveCurrent_of_openAt {σ : Type} (trace : flxTrace σ) (itemId openId : Nat)
    (current : Int) (h : OpenAt trace itemId openId current) :
    flxResolveCurrent trace itemId = some (Except.ok (openId, current)) := by
  unfold flxResolveCurrent
  rcases h with ⟨h1, h2, h3⟩ | ⟨its, item, h1, h2, h3, h4, h5, h6⟩ |
    ⟨its, item, oitem, h1, h2, h3, h4, h5, h6, h7, h8⟩
  · subst h2 h3
    cases hi : trace.items with
    | none => simp [h1]
    | some its => simp [h1, FLX_ITEM_OPEN_LOCAL]
  · subst h5 h6
    simp [h1, h2, h3, h4, FLX_ITEM_OPEN_NONE]
  · subst h7 h8
    simp [h1, h2, h3, h4, h5, h6, FLX_ITEM_OPEN_NONE, FLX_ITEM_OPEN_LOCAL,
      FLX_ITEM_OPEN_CONTAINER]

theorem itemAt_isSome_lt (items : List flxTraceItem) (i : Nat) (item : flxTraceItem)
    (h : itemAt items i = some item) : i ≠ 0 ∧ i - 1 < items.length := by
  unfold itemAt at h
  by_cases hi : i = 0
  · simp [hi] at h
  · simp only [hi, if_false] at h
    exact ⟨hi, (List.getElem?_eq_some_iff.mp h).1⟩

theorem itemAt_itemSet_same (items : List flxTraceItem) (i : Nat) (old new : flxTraceItem)
    (h : itemAt items i = some old) : itemAt (itemSet items i new) i = some new := by
  obtain ⟨hi, hlt⟩ := itemAt_isSome_lt items i old h
  unfold itemAt itemSet
  simp only [hi, if_false]
  rw [List.getElem?_set_self hlt]

theorem itemAt_itemSet_other (items : List flxTraceItem) (i j : Nat) (new : flxTraceItem)
    (hi : i ≠ 0) (hij : j ≠ i) : itemAt (itemSet items i new) j = itemAt items j := by
  unfold itemAt itemSet
  by_cases hj : j = 0
  · simp [hj]
  · simp only [hj, if_false]
    rw [List.getElem?_set_ne (by omega)]

/-- Where `flxStoreCurrent` puts the new position, the governing sequence shows it. -/
theorem openAt_storeCurrent {σ : Type} (trace : flxTrace σ) (buffer1 : Option (flxBuffer σ))
    (itemId openId : Nat) (current d : Int) (hd : InS64 d)
    (h : OpenAt trace itemId openId current) :
    OpenAt (flxStoreCurrent { trace with buffer := buffer1 } openId d) itemId openId d := by
  rcases h with ⟨h1, h2, h3⟩ | ⟨its, item, h1, h2, h3, h4, h5, h6⟩ |
    ⟨its, item, oitem, h1, h2, h3, h4, h5, h6, h7, h8⟩
  · subst h2
    left
    simp [flxStoreCurrent, h1]
  · subst h5
    obtain ⟨hne, _⟩ := itemAt_isSome_lt its openId item h3
    right; left
    refine ⟨itemSet its openId (item.setCurrent d), item.setCurrent d, ?_, ?_, ?_, ?_, rfl, ?_⟩
    · simp [flxStoreCurrent, hne, h2, h3, h1]
    · simp [flxStoreCurrent, hne, h2, h3]
    · exact itemAt_itemSet_same its openId item _ h3
    · simpa [flxTraceItem.setCurrent] using h4
    · exact (setCurrent_current item d hd).symm
  · subst h7
    obtain ⟨hne, _⟩ := itemAt_isSome_lt its item.openId oitem h5
    have hdiff : itemId ≠ item.openId := by
      intro heq
      rw [← heq, h3] at h5
      have : item = oitem := Option.some.inj h5
      rw [this] at h4
      rw [h4] at h6
      exact absurd h6 (by decide)
    right; right
    refine ⟨itemSet its item.openId (oitem.setCurrent d), item, oitem.setCurrent d,
      ?_, ?_, ?_, h4, ?_, ?_, rfl, ?_⟩
    · simp [flxStoreCurrent, hne, h2, h5, h1]
    · simp [flxStoreCurrent, hne, h2, h5]
    · rw [itemAt_itemSet_other its item.openId itemId _ hne hdiff]; exact h3
    · exact itemAt_itemSet_same its item.openId oitem _ h5
    · simpa [flxTraceItem.setCurrent] using h6
    · exact (setCurrent_current oitem d hd).symm

/-- What a successful `FLX_WRITE_AT` did: the entry writer returned `FLX_OK`
for a non-negative `delta` and the governing position was stored. -/
theorem write_at_ok_inv {σ : Type} (x : flxBuffer σ → Int → Int × flxBuffer σ)
    (trace trace1 : flxTrace σ) (itemId openId : Nat) (current dp : Int) (isDelta : Nat)
    (hopen : OpenAt trace itemId openId current)
    (hres : FLX_WRITE_AT x trace itemId dp isDelta = some (FLX_OK, trace1)) :
    ∃ buffer, trace.buffer = some buffer ∧
      0 ≤ (if isDelta ≠ 0 then dp else wrap64 (dp - current)) ∧
      trace1 = flxStoreCurrent
        { trace with buffer := some (x buffer
            (if isDelta ≠ 0 then dp else wrap64 (dp - current))).2 } openId
        (if isDelta ≠ 0 then wrap64 (current + (if isDelta ≠ 0 then dp else wrap64 (dp - current)))
          else dp) := by
  unfold FLX_WRITE_AT at hres
  cases hb : trace.buffer with
  | none =>
    rw [hb] at hres
    simp only [Option.some.injEq, Prod.mk.injEq] at hres
    exact absurd hres.1 (by decide)
  | some buffer =>
    rw [hb] at hres
    simp only [resolveCurrent_of_openAt trace itemId openId current hopen] at hres
    by_cases hneg : (if isDelta ≠ 0 then dp else wrap64 (dp - current)) < 0
    · simp only [hneg, if_true, Option.some.injEq, Prod.mk.injEq] at hres
      exact absurd hres.1 (by decide)
    · simp only [hneg, if_false] at hres
      by_cases hok : (x buffer (if isDelta ≠ 0 then dp else wrap64 (dp - current))).1 = FLX_OK
      · simp only [hok, if_true, Option.some.injEq, Prod.mk.injEq, true_and] at hres
        exact ⟨buffer, rfl, by omega, hres.symm⟩
      · simp only [hok, if_false, Option.some.injEq, Prod.mk.injEq] at hres
        exact hres.1.elim

/-- C4 (as amended). Domain-position monotonicity: when a `flxWrite...At` or
`flxWriteCurrent` call (any entry writer `x` in `FLX_WRITE_AT`) returns `FLX_OK`
on an item governed by an open sequence with position `current`, and the 64 bit
arithmetic does not overflow (`current + domainPosition < 2^63` in delta mode,
`domainPosition - current >= -2^63` in absolute mode), then the governing
sequence afterwards stands at `domainPosition` (absolute mode) or at
`current + domainPosition` (delta mode), which is at least `current`. -/
theorem write_at_monotone {σ : Type} (x : flxBuffer σ → Int → Int × flxBuffer σ)
    (trace trace1 : flxTrace σ) (itemId openId : Nat) (current dp : Int) (isDelta : Nat)
    (hopen : OpenAt trace itemId openId current)
    (hres : FLX_WRITE_AT x trace itemId dp isDelta = some (FLX_OK, trace1))
    (hcur : InS64 current) (hdp : InS64 dp)
    (hrange : if isDelta ≠ 0 then current + dp < 2 ^ 63 else -(2 ^ 63) ≤ dp - current) :
    OpenAt trace1 itemId openId (if isDelta ≠ 0 then current + dp else dp) ∧
    current ≤ (if isDelta ≠ 0 then current + dp else dp) := by
  obtain ⟨buffer, _, hnn, ht⟩ := write_at_ok_inv x trace trace1 itemId openId current dp isDelta
    hopen hres
  obtain ⟨hc1, hc2⟩ := hcur
  obtain ⟨hd1, hd2⟩ := hdp
  by_cases hdel : isDelta = 0
  swap
  · simp only [ne_eq, hdel, not_false_eq_true, if_true] at hrange hnn ht ⊢
    have hin : InS64 (current + dp) := ⟨by omega, hrange⟩
    rw [wrap64_eq _ hin] at ht
    rw [ht]
    exact ⟨openAt_storeCurrent trace _ itemId openId current _ hin hopen, by omega⟩
  · simp only [ne_eq, hdel, not_true_eq_false, if_false] at hrange hnn ht ⊢
    rw [ht]
    refine ⟨openAt_storeCurrent trace _ itemId openId current _ ⟨hd1, hd2⟩ hopen, ?_⟩
    by_contra hlt
    have hin : InS64 (dp - current) := ⟨hrange, by omega⟩
    rw [wrap64_eq _ hin] at hnn
    omega

theorem exists_of_map_fst {α β : Type} (o : Option (α × β)) (a : α)
    (h : o.map (fun r => r.1) = some a) : ∃ b, o = some (a, b) := by
  cases o with
  | none => simp at h
  | some r =>
    simp only [Option.map_some', Option.some.injEq] at h
    exact ⟨r.2, by rw [← h]⟩

set_option maxRecDepth 100000 in
theorem write_at_monotone_witness :
    ∃ t1 : flxTrace Unit, OpenAt exTraceOpen5 1 0 5 ∧
      flxWriteNoneAt exTraceOpen5 1 0 10 0 = some (FLX_OK, t1) ∧
      OpenAt t1 1 0 10 ∧ (5 : Int) ≤ 10 := by
  obtain ⟨t1, h1⟩ := exists_of_map_fst (flxWriteNoneAt exTraceOpen5 1 0 10 0) FLX_OK (by decide)
  have ho : OpenAt exTraceOpen5 1 0 5 := Or.inl ⟨rfl, rfl, rfl⟩
  exact ⟨t1, ho, h1, write_at_monotone _ exTraceOpen5 t1 1 0 5 10 0 ho h1
    ⟨by decide, by decide⟩ ⟨by decide, by decide⟩ (by decide)⟩

set_option maxRecDepth 100000 in
/-- Counterexample to C4 as stated: after `flxOpen(trace, 0, 0, INT64_MAX, 0)` a
delta write of `1` returns `FLX_OK` and the position wraps to `INT64_MIN`,
below the old position. -/
theorem write_at_monotone_counterexample :
    (exTraceRoot.bind (fun t => flxOpen t 0 none (2 ^ 63 - 1) 0)).map
        (fun r => (r.1, r.2.opn, r.2.current)) = some (FLX_OK, FLX_ITEM_OPEN_LOCAL, 2 ^ 63 - 1) ∧
    ((exTraceRoot.bind (fun t => flxOpen t 0 none (2 ^ 63 - 1) 0)).bind
        (fun r => flxWriteNoneAt r.2 1 0 1 1)).map (fun r => (r.1, r.2.opn, r.2.current))
      = some (FLX_OK, FLX_ITEM_OPEN_LOCAL, -(2 ^ 63)) := by
  decide

/-- C5 (as amended). A monotonicity violation is rejected atomically: an
absolute-position write (`isDelta = 0`, any entry writer) to an item governed
by an open sequence with `domainPosition < current`, where the 64 bit
difference `domainPosition - current` does not overflow (it is at least
`-2^63`), returns `FLX_ERROR_POSITION_LESSTHAN_CURRENT` and leaves the trace,
its buffer and `current` as they were. -/
theorem write_at_less_than_current {σ : Type} (x : flxBuffer σ → Int → Int × flxBuffer σ)
    (trace : flxTrace σ) (buffer : flxBuffer σ) (itemId openId : Nat) (current dp : Int)
    (hb : trace.buffer = some buffer) (hopen : OpenAt trace itemId openId current)
    (hlt : dp < current) (hrange : -(2 ^ 63) ≤ dp - current) :
    FLX_WRITE_AT x trace itemId dp 0 = some (FLX_ERROR_POSITION_LESSTHAN_CURRENT, trace) := by
  unfold FLX_WRITE_AT
  rw [hb]
  simp only [resolveCurrent_of_openAt trace itemId openId current hopen]
  have hin : InS64 (dp - current) := ⟨hrange, by omega⟩
  have hneg : (if (0 : Nat) ≠ 0 then dp else wrap64 (dp - current)) < 0 := by
    simp only [ne_eq, not_true_eq_false, if_false, wrap64_eq _ hin]
    omega
  simp only [hneg, if_true]

theorem write_at_less_than_current_witness :
    OpenAt exTraceAt10 2 0 10 ∧ (5 : Int) < 10 ∧
    flxWriteLogicStatesAt exTraceAt10 2 0 5 0 FLX_STATE_0_BITS (fun _ => 1) 1
      = some (FLX_ERROR_POSITION_LESSTHAN_CURRENT, exTraceAt10) :=
  ⟨Or.inl ⟨rfl, rfl, rfl⟩, by decide,
    write_at_less_than_current _ exTraceAt10 _ 2 0 10 5 rfl (Or.inl ⟨rfl, rfl, rfl⟩)
      (by decide) (by decide)⟩

set_option maxRecDepth 100000 in
/-- Counterexample to C5 as stated: with the root sequence open at position 1
(`flxOpen(trace, 0, 0, 1, 0)`), the absolute write at `INT64_MIN < 1` is not
rejected: the 64 bit difference wraps to `INT64_MAX`, the write returns
`FLX_OK`, commits its bytes and moves the position back. -/
theorem write_at_less_than_current_counterexample :
    (exTraceRoot.bind (fun t => flxOpen t 0 none 1 0)).map
        (fun r => (r.1, r.2.opn, r.2.current, r.2.buffer.map (fun b => b.pos)))
      = some (FLX_OK, FLX_ITEM_OPEN_LOCAL, 1, some 7) ∧
    ((exTraceRoot.bind (fun t => flxOpen t 0 none 1 0)).bind
        (fun r => flxWriteNoneAt r.2 1 0 (-(2 ^ 63)) 0)).map
        (fun r => (r.1, r.2.current, r.2.buffer.map (fun b => b.pos)))
      = some (FLX_OK, -(2 ^ 63), some 14) := by
  decide

/-! ### Item definitions -/

theorem itemAt_of_le_length (items : List flxTraceItem) (i : Nat) (h0 : i ≠ 0)
    (h : i ≤ items.length) : ∃ item, itemAt items i = some item := by
  unfold itemAt
  simp only [h0, if_false]
  have hlt : i - 1 < items.length := by omega
  exact ⟨items[i - 1], List.getElem?_eq_getElem hlt⟩

theorem defineItem_invalid (maxItemId : Nat) (items : Option (List flxTraceItem))
    (itemId parentId newType : Nat)
    (h : itemId = 0 ∨ itemId > maxItemId ∨ parentId > maxItemId) :
    flxDefineItem maxItemId items itemId parentId newType
      = some (Except.error FLX_ERROR_INVALID_ID) := by
  unfold flxDefineItem
  rw [if_pos h]

theorem defineItem_defined (maxItemId : Nat) (its : List flxTraceItem)
    (itemId parentId newType : Nat) (item : flxTraceItem)
    (h : ¬ (itemId = 0 ∨ itemId > maxItemId ∨ parentId > maxItemId))
    (hitem : itemAt its itemId = some item) (ht : item.type ≠ FLX_ITEM_TYPE_UNDEFINED) :
    flxDefineItem maxItemId (some its) itemId parentId newType
      = some (Except.error FLX_ERROR_ITEM_ALLREADY_DEFINED) := by
  unfold flxDefineItem
  rw [if_neg h]
  simp only [hitem, ht, ne_eq, not_false_eq_true, if_true]

theorem defineItem_parent (maxItemId : Nat) (its : List flxTraceItem)
    (itemId parentId newType : Nat) (item p : flxTraceItem)
    (h : ¬ (itemId = 0 ∨ itemId > maxItemId ∨ parentId > maxItemId))
    (hitem : itemAt its itemId = some item) (ht : item.type = FLX_ITEM_TYPE_UNDEFINED)
    (hp0 : parentId ≠ 0) (hp : itemAt its parentId = some p)
    (hpt : p.type ≠ FLX_ITEM_TYPE_SCOPE) :
    flxDefineItem maxItemId (some its) itemId parentId newType
      = some (Except.error FLX_ERROR_PARENT_NOT_DEFINED) := by
  unfold flxDefineItem
  rw [if_neg h]
  simp only [hitem, ht, ne_eq, not_true_eq_false, if_false, hp0, not_false_eq_true, if_true, hp,
    Option.map_some', hpt, decide_True]

theorem defineItem_ok (maxItemId : Nat) (its : List flxTraceItem)
    (itemId parentId newType : Nat) (item : flxTraceItem)
    (h : ¬ (itemId = 0 ∨ itemId > maxItemId ∨ parentId > maxItemId))
    (hitem : itemAt its itemId = some item) (ht : item.type = FLX_ITEM_TYPE_UNDEFINED)
    (hp : parentId = 0 ∨ ∃ p, itemAt its parentId = some p ∧ p.type = FLX_ITEM_TYPE_SCOPE) :
    flxDefineItem maxItemId (some its) itemId parentId newType
      = some (Except.ok (some (itemSet its itemId
          { item with type := newType, opn := FLX_ITEM_OPEN_NONE, parentId := parentId }))) := by
  unfold flxDefineItem
  rw [if_neg h]
  by_cases hp0 : parentId = 0
  · simp only [hitem, ht, ne_eq, not_true_eq_false, if_false, hp0]
  · rcases hp with hp | ⟨p, hp1, hp2⟩
    · exact absurd hp hp0
    · simp only [hitem, ht, ne_eq, not_true_eq_false, if_false, hp0, not_false_eq_true, if_true,
        hp1, Option.map_some', hp2, decide_False]

/-- The three defining operations share one shape: the checks of `flxDefineItem`
and then an entry writer `w` whose result is returned. -/
theorem add_call_shape {σ : Type} (trace : flxTrace σ) (buffer : flxBuffer σ)
    (itemId parentId : Nat) (name description signalDescriptor : flxtext)
    (signalType scatteredFrom scatteredTo newType : Nat) (call : Option (Int × flxTrace σ))
    (hb : trace.buffer = some buffer)
    (hcall : (newType = FLX_ITEM_TYPE_SCOPE ∧
        call = flxAddScope trace itemId parentId name description) ∨
      (newType = FLX_ITEM_TYPE_SIGNAL ∧
        call = flxAddSignal trace itemId parentId name description signalType
          signalDescriptor) ∨
      (newType = FLX_ITEM_TYPE_SIGNAL ∧
        call = flxAddScatteredSignal trace itemId parentId name description signalType
          signalDescriptor scatteredFrom scatteredTo)) :
    ∃ w : Int × flxBuffer σ, call =
      match flxDefineItem trace.maxItemId trace.items itemId parentId newType with
      | none => none
      | some (Except.error e) => some (e, trace)
      | some (Except.ok items1) =>
        some (w.1, { trace with items := items1, buffer := some w.2 }) := by
  rcases hcall with ⟨h1, h2⟩ | ⟨h1, h2⟩ | ⟨h1, h2⟩
  · subst h1 h2
    refine ⟨flxWriteScopeDefEntry buffer itemId parentId name description, ?_⟩
    unfold flxAddScope
    rw [hb]
  · subst h1 h2
    refine ⟨flxWriteSignalDefEntry buffer itemId parentId name description signalType
      signalDescriptor, ?_⟩
    unfold flxAddSignal
    rw [hb]
  · subst h1 h2
    refine ⟨flxWriteScatteredSignalDefEntry buffer itemId parentId name description signalType
      signalDescriptor scatteredFrom scatteredTo, ?_⟩
    unfold flxAddScatteredSignal
    rw [hb]

/-- C6. Item-definition validation: on a trace with an item table (one slot
per id up to `maxItemId`) and a bound buffer, `flxAddScope`, `flxAddSignal`
and `flxAddScatteredSignal` return `FLX_ERROR_INVALID_ID` unless `itemId` is in
`[1, maxItemId]` and `parentId <= maxItemId`, then
`FLX_ERROR_ITEM_ALLREADY_DEFINED` unless the slot is `UNDEFINED`, then
`FLX_ERROR_PARENT_NOT_DEFINED` unless `parentId = 0` or the parent is a `SCOPE`,
each time leaving trace and buffer as they were (no entry); a call that
returns `FLX_OK` passed all checks and left the slot with the new type,
`open = NONE` and the given `parentId`, the other slots untouched; and the
call always returns. -/
theorem item_definition_validation {σ : Type} (trace : flxTrace σ) (buffer : flxBuffer σ)
    (its : List flxTraceItem) (itemId parentId : Nat)
    (name description signalDescriptor : flxtext)
    (signalType scatteredFrom scatteredTo newType : Nat) (call : Option (Int × flxTrace σ))
    (hb : trace.buffer = some buffer) (hi : trace.items = some its)
    (hlen : its.length = trace.maxItemId)
    (hcall : (newType = FLX_ITEM_TYPE_SCOPE ∧
        call = flxAddScope trace itemId parentId name description) ∨
      (newType = FLX_ITEM_TYPE_SIGNAL ∧
        call = flxAddSignal trace itemId parentId name description signalType
          signalDescriptor) ∨
      (newType = FLX_ITEM_TYPE_SIGNAL ∧
        call = flxAddScatteredSignal trace itemId parentId name description signalType
          signalDescriptor scatteredFrom scatteredTo)) :
    ((itemId = 0 ∨ itemId > trace.maxItemId ∨ parentId > trace.maxItemId) →
      call = some (FLX_ERROR_INVALID_ID, trace)) ∧
    (∀ item, 1 ≤ itemId → itemId ≤ trace.maxItemId → parentId ≤ trace.maxItemId →
      itemAt its itemId = some item → item.type ≠ FLX_ITEM_TYPE_UNDEFINED →
      call = some (FLX_ERROR_ITEM_ALLREADY_DEFINED, trace)) ∧
    (∀ item p, 1 ≤ itemId → itemId ≤ trace.maxItemId → parentId ≤ trace.maxItemId →
      itemAt its itemId = some item → item.type = FLX_ITEM_TYPE_UNDEFINED →
      parentId ≠ 0 → itemAt its parentId = some p → p.type ≠ FLX_ITEM_TYPE_SCOPE →
      call = some (FLX_ERROR_PARENT_NOT_DEFINED, trace)) ∧
    (∀ t1, call = some (FLX_OK, t1) →
      (1 ≤ itemId ∧ itemId ≤ trace.maxItemId ∧ parentId ≤ trace.maxItemId) ∧
      ∃ item, itemAt its itemId = some item ∧ item.type = FLX_ITEM_TYPE_UNDEFINED ∧
        (parentId = 0 ∨ ∃ p, itemAt its parentId = some p ∧ p.type = FLX_ITEM_TYPE_SCOPE) ∧
        ∃ its1, t1.items = some its1 ∧
          itemAt its1 itemId = some { item with type := newType, opn := FLX_ITEM_OPEN_NONE,
                                                parentId := parentId } ∧
          ∀ j, j ≠ itemId → itemAt its1 j = itemAt its j) ∧
    (∃ r t1, call = some (r, t1)) := by
  obtain ⟨w, hw⟩ := add_call_shape trace buffer itemId parentId name description
    signalDescriptor signalType scatteredFrom scatteredTo newType call hb hcall
  rw [hi] at hw
  have hinv : (itemId = 0 ∨ itemId > trace.maxItemId ∨ parentId > trace.maxItemId) →
      call = some (FLX_ERROR_INVALID_ID, trace) := by
    intro h
    rw [hw, defineItem_invalid _ _ _ _ _ h]
  have hdef : ∀ item, 1 ≤ itemId → itemId ≤ trace.maxItemId → parentId ≤ trace.maxItemId →
      itemAt its itemId = some item → item.type ≠ FLX_ITEM_TYPE_UNDEFINED →
      call = some (FLX_ERROR_ITEM_ALLREADY_DEFINED, trace) := by
    intro item h1 h2 h3 hitem ht
    rw [hw, defineItem_defined _ its _ _ _ item (by omega) hitem ht]
  have hpar : ∀ item p, 1 ≤ itemId → itemId ≤ trace.maxItemId → parentId ≤ trace.maxItemId →
      itemAt its itemId = some item → item.type = FLX_ITEM_TYPE_UNDEFINED →
      parentId ≠ 0 → itemAt its parentId = some p → p.type ≠ FLX_ITEM_TYPE_SCOPE →
      call = some (FLX_ERROR_PARENT_NOT_DEFINED, trace) := by
    intro item p h1 h2 h3 hitem ht hp0 hp hpt
    rw [hw, defineItem_parent _ its _ _ _ item p (by omega) hitem ht hp0 hp hpt]
  have hok : ∀ item, 1 ≤ itemId → itemId ≤ trace.maxItemId → parentId ≤ trace.maxItemId →
      itemAt its itemId = some item → item.type = FLX_ITEM_TYPE_UNDEFINED →
      (parentId = 0 ∨ ∃ p, itemAt its parentId = some p ∧ p.type = FLX_ITEM_TYPE_SCOPE) →
      call = some (w.1, { trace with
        items := some (itemSet its itemId
          { item with type := newType, opn := FLX_ITEM_OPEN_NONE, parentId := parentId }),
        buffer := some w.2 }) := by
    intro item h1 h2 h3 hitem ht hp
    rw [hw, defineItem_ok _ its _ _ _ item (by omega) hitem ht hp]
  refine ⟨hinv, hdef, hpar, ?_, ?_⟩
  · intro t1 ht1
    by_cases hval : itemId = 0 ∨ itemId > trace.maxItemId ∨ parentId > trace.maxItemId
    · rw [hinv hval] at ht1
      simp only [Option.some.injEq, Prod.mk.injEq] at ht1
      exact absurd ht1.1 (by decide)
    · have h1 : 1 ≤ itemId := by omega
      have h2 : itemId ≤ trace.maxItemId := by omega
      have h3 : parentId ≤ trace.maxItemId := by omega
      obtain ⟨item, hitem⟩ := itemAt_of_le_length its itemId (by omega) (by omega)
      refine ⟨⟨h1, h2, h3⟩, item, hitem, ?_⟩
      by_cases ht : item.type = FLX_ITEM_TYPE_UNDEFINED
      · have hparent : parentId = 0 ∨
            ∃ p, itemAt its parentId = some p ∧ p.type = FLX_ITEM_TYPE_SCOPE := by
          by_cases hp0 : parentId = 0
          · exact Or.inl hp0
          · obtain ⟨p, hp⟩ := itemAt_of_le_length its parentId hp0 (by omega)
            by_cases hpt : p.type = FLX_ITEM_TYPE_SCOPE
            · exact Or.inr ⟨p, hp, hpt⟩
            · rw [hpar item p h1 h2 h3 hitem ht hp0 hp hpt] at ht1
              simp only [Option.some.injEq, Prod.mk.injEq] at ht1
              exact absurd ht1.1 (by decide)
        refine ⟨ht, hparent, ?_⟩
        rw [hok item h1 h2 h3 hitem ht hparent] at ht1
        simp only [Option.some.injEq, Prod.mk.injEq] at ht1
        obtain ⟨_, ht1⟩ := ht1
        subst ht1
        obtain ⟨hne, _⟩ := itemAt_isSome_lt its itemId item hitem
        exact ⟨_, rfl, itemAt_itemSet_same its itemId item _ hitem,
          fun j hj => itemAt_itemSet_other its itemId j _ hne hj⟩
      · rw [hdef item h1 h2 h3 hitem ht] at ht1
        simp only [Option.some.injEq, Prod.mk.injEq] at ht1
        exact absurd ht1.1 (by decide)
  · by_cases hval : itemId = 0 ∨ itemId > trace.maxItemId ∨ parentId > trace.maxItemId
    · exact ⟨_, _, hinv hval⟩
    · have h1 : 1 ≤ itemId := by omega
      have h2 : itemId ≤ trace.maxItemId := by omega
      have h3 : parentId ≤ trace.maxItemId := by omega
      obtain ⟨item, hitem⟩ := itemAt_of_le_length its itemId (by omega) (by omega)
      by_cases ht : item.type = FLX_ITEM_TYPE_UNDEFINED
      · by_cases hp0 : parentId = 0
        · exact ⟨_, _, hok item h1 h2 h3 hitem ht (Or.inl hp0)⟩
        · obtain ⟨p, hp⟩ := itemAt_of_le_length its parentId hp0 (by omega)
          by_cases hpt : p.type = FLX_ITEM_TYPE_SCOPE
          · exact ⟨_, _, hok item h1 h2 h3 hitem ht (Or.inr ⟨p, hp, hpt⟩)⟩
          · exact ⟨_, _, hpar item p h1 h2 h3 hitem ht hp0 hp hpt⟩
      · exact ⟨_, _, hdef item h1 h2 h3 hitem ht⟩

theorem item_definition_validation_witness :
    exTraceFour.items = some (List.replicate 4 ⟨FLX_ITEM_TYPE_UNDEFINED, FLX_ITEM_OPEN_NONE, 0, 0⟩) ∧
    (List.replicate 4 (⟨FLX_ITEM_TYPE_UNDEFINED, FLX_ITEM_OPEN_NONE, 0, 0⟩ : flxTraceItem)).length
      = exTraceFour.maxItemId ∧
    ((5 = 0 ∨ 5 > exTraceFour.maxItemId ∨ 0 > exTraceFour.maxItemId) →
      flxAddScope exTraceFour 5 0 none none = some (FLX_ERROR_INVALID_ID, exTraceFour)) ∧
    ∃ r t1, flxAddScope exTraceFour 5 0 none none = some (r, t1) :=
  ⟨rfl, rfl,
    (item_definition_validation exTraceFour _ _ 5 0 none none none 0 0 0 FLX_ITEM_TYPE_SCOPE
      (flxAddScope exTraceFour 5 0 none none) rfl rfl rfl (Or.inl ⟨rfl, rfl⟩)).1,
    (item_definition_validation exTraceFour _ _ 5 0 none none none 0 0 0 FLX_ITEM_TYPE_SCOPE
      (flxAddScope exTraceFour 5 0 none none) rfl rfl rfl (Or.inl ⟨rfl, rfl⟩)).2.2.2.2⟩

/-! ### Item type is write-once -/

theorem keepsDefined_refl (a : Option (List flxTraceItem)) : KeepsDefined a a := by
  intro its h
  exact ⟨its, h, fun i item hi _ => ⟨item, hi, rfl, rfl⟩⟩

theorem keepsDefined_trans (a b c : Option (List flxTraceItem)) (h1 : KeepsDefined a b)
    (h2 : KeepsDefined b c) : KeepsDefined a c := by
  intro its h
  obtain ⟨its1, hb, hk1⟩ := h1 its h
  obtain ⟨its2, hc, hk2⟩ := h2 its1 hb
  refine ⟨its2, hc, fun i item hi ht => ?_⟩
  obtain ⟨item1, hi1, ht1, hp1⟩ := hk1 i item hi ht
  obtain ⟨item2, hi2, ht2, hp2⟩ := hk2 i item1 hi1 (by rw [ht1]; exact ht)
  exact ⟨item2, hi2, by rw [ht2, ht1], by rw [hp2, hp1]⟩

/-- Replacing an item by one of the same type and parent keeps all definitions. -/
theorem keepsDefined_itemSet (its : List flxTraceItem) (n : Nat) (old new : flxTraceItem)
    (hn : itemAt its n = some old) (ht : new.type = old.type)
    (hp : new.parentId = old.parentId) :
    KeepsDefined (some its) (some (itemSet its n new)) := by
  intro its0 h0
  have h0' : its = its0 := Option.some.inj h0
  subst h0'
  refine ⟨_, rfl, fun i item hi _ => ?_⟩
  obtain ⟨hne, _⟩ := itemAt_isSome_lt its n old hn
  by_cases hin : i = n
  · subst hin
    rw [hn] at hi
    have : old = item := Option.some.inj hi
    subst this
    exact ⟨new, itemAt_itemSet_same its i old new hn, ht, hp⟩
  · exact ⟨item, by rw [itemAt_itemSet_other its n i new hne hin]; exact hi, rfl, rfl⟩

/-- The checks and assignments of a definition keep every defined item: the
slot they write was `UNDEFINED`. -/
theorem defineItem_keeps (maxItemId : Nat) (items items1 : Option (List flxTraceItem))
    (itemId parentId newType : Nat)
    (h : flxDefineItem maxItemId items itemId parentId newType = some (Except.ok items1)) :
    KeepsDefined items items1 := by
  unfold flxDefineItem at h
  by_cases hval : itemId = 0 ∨ itemId > maxItemId ∨ parentId > maxItemId
  · rw [if_pos hval] at h
    simp at h
  · rw [if_neg hval] at h
    cases items with
    | none =>
      simp only [Option.some.injEq, Except.ok.injEq] at h
      subst h
      exact keepsDefined_refl _
    | some its =>
      simp only at h
      cases hitem : itemAt its itemId with
      | none => rw [hitem] at h; simp at h
      | some item =>
        rw [hitem] at h
        simp only at h
        by_cases ht : item.type ≠ FLX_ITEM_TYPE_UNDEFINED
        · rw [if_pos ht] at h; simp at h
        · rw [if_neg ht] at h
          have hund : item.type = FLX_ITEM_TYPE_UNDEFINED := by simpa using ht
          have hres : items1 = some (itemSet its itemId
              { item with type := newType, opn := FLX_ITEM_OPEN_NONE, parentId := parentId }) := by
            split at h
            · simp at h
            · simp at h
            · simp only [Option.some.injEq, Except.ok.injEq] at h
              exact h.symm
          subst hres
          intro its0 h0
          have h0' : its = its0 := Option.some.inj h0
          subst h0'
          refine ⟨_, rfl, fun i it hi hdef => ?_⟩
          obtain ⟨hne, _⟩ := itemAt_isSome_lt its itemId item hitem
          have hin : i ≠ itemId := by
            intro heq
            subst heq
            rw [hitem] at hi
            have : item = it := Option.some.inj hi
            subst this
            exact hdef hund
          exact ⟨it, by rw [itemAt_itemSet_other its itemId i _ hne hin]; exact hi, rfl, rfl⟩

theorem addSignals_loop_keeps (maxItemId parentId : Nat) : ∀ (k itemId : Nat)
    (items items1 : Option (List flxTraceItem)) (e : Option Int),
    flxAddSignals_loop maxItemId parentId k itemId items = some (e, items1) →
    KeepsDefined items items1 := by
  intro k
  induction k with
  | zero =>
    intro itemId items items1 e h
    simp only [flxAddSignals_loop, Option.some.injEq, Prod.mk.injEq] at h
    rw [← h.2]
    exact keepsDefined_refl _
  | succ k ih =>
    intro itemId items items1 e h
    unfold flxAddSignals_loop at h
    cases hd : flxDefineItem maxItemId items itemId parentId FLX_ITEM_TYPE_SIGNAL with
    | none => rw [hd] at h; simp at h
    | some r =>
      rw [hd] at h
      cases r with
      | error err =>
        simp only [Option.some.injEq, Prod.mk.injEq] at h
        rw [← h.2]
        exact keepsDefined_refl _
      | ok items2 =>
        simp only at h
        exact keepsDefined_trans _ _ _ (defineItem_keeps _ _ _ _ _ _ hd) (ih _ _ _ _ h)

/-- The marking loops of `flxOpen` and `flxClose` touch `open` and `u` only. -/
theorem markChildren_keeps (itemId : Nat) (mark : flxTraceItem → flxTraceItem)
    (hmark : ∀ item, (mark item).type = item.type ∧ (mark item).parentId = item.parentId) :
    ∀ (k n : Nat) (its its1 : List flxTraceItem),
    flxMarkChildren itemId mark k n its = some its1 → KeepsDefined (some its) (some its1) := by
  intro k
  induction k with
  | zero =>
    intro n its its1 h
    simp only [flxMarkChildren, Option.some.injEq] at h
    subst h
    exact keepsDefined_refl _
  | succ k ih =>
    intro n its its1 h
    unfold flxMarkChildren at h
    cases hn : itemAt its n with
    | none => rw [hn] at h; simp at h
    | some item =>
      rw [hn] at h
      simp only at h
      cases hw : ancestorWalk its itemId (walkFuel its) item.parentId with
      | none => rw [hw] at h; simp at h
      | some b =>
        rw [hw] at h
        cases b with
        | true =>
          simp only at h
          exact keepsDefined_trans _ _ _
            (keepsDefined_itemSet its n item (mark item) hn (hmark item).1 (hmark item).2)
            (ih _ _ _ h)
        | false =>
          simp only at h
          exact ih _ _ _ h

theorem addScope_keeps {σ : Type} (trace t1 : flxTrace σ) (itemId parentId : Nat)
    (name description : flxtext) (r : Int)
    (h : flxAddScope trace itemId parentId name description = some (r, t1)) :
    KeepsDefined trace.items t1.items := by
  unfold flxAddScope at h
  cases hb : trace.buffer with
  | none =>
    rw [hb] at h
    simp only [Option.some.injEq, Prod.mk.injEq] at h
    rw [← h.2]; exact keepsDefined_refl _
  | some buffer =>
    rw [hb] at h
    simp only at h
    cases hd : flxDefineItem trace.maxItemId trace.items itemId parentId FLX_ITEM_TYPE_SCOPE with
    | none => rw [hd] at h; simp at h
    | some res =>
      rw [hd] at h
      cases res with
      | error e =>
        simp only [Option.some.injEq, Prod.mk.injEq] at h
        rw [← h.2]; exact keepsDefined_refl _
      | ok items1 =>
        simp only [Option.some.injEq, Prod.mk.injEq] at h
        rw [← h.2]
        exact defineItem_keeps _ _ _ _ _ _ hd

theorem addSignal_keeps {σ : Type} (trace t1 : flxTrace σ) (itemId parentId : Nat)
    (name description : flxtext) (signalType : Nat) (signalDescriptor : flxtext) (r : Int)
    (h : flxAddSignal trace itemId parentId name description signalType signalDescriptor
      = some (r, t1)) :
    KeepsDefined trace.items t1.items := by
  unfold flxAddSignal at h
  cases hb : trace.buffer with
  | none =>
    rw [hb] at h
    simp only [Option.some.injEq, Prod.mk.injEq] at h
    rw [← h.2]; exact keepsDefined_refl _
  | some buffer =>
    rw [hb] at h
    simp only at h
    cases hd : flxDefineItem trace.maxItemId trace.items itemId parentId FLX_ITEM_TYPE_SIGNAL with
    | none => rw [hd] at h; simp at h
    | some res =>
      rw [hd] at h
      cases res with
      | error e =>
        simp only [Option.some.injEq, Prod.mk.injEq] at h
        rw [← h.2]; exact keepsDefined_refl _
      | ok items1 =>
        simp only [Option.some.injEq, Prod.mk.injEq] at h
        rw [← h.2]
        exact defineItem_keeps _ _ _ _ _ _ hd

theorem addScatteredSignal_keeps {σ : Type} (trace t1 : flxTrace σ) (itemId parentId : Nat)
    (name description : flxtext) (signalType : Nat) (signalDescriptor : flxtext)
    (scatteredFrom scatteredTo : Nat) (r : Int)
    (h : flxAddScatteredSignal trace itemId parentId name description signalType
      signalDescriptor scatteredFrom scatteredTo = some (r, t1)) :
    KeepsDefined trace.items t1.items := by
  unfold flxAddScatteredSignal at h
  cases hb : trace.buffer with
  | none =>
    rw [hb] at h
    simp only [Option.some.injEq, Prod.mk.injEq] at h
    rw [← h.2]; exact keepsDefined_refl _
  | some buffer =>
    rw [hb] at h
    simp only at h
    cases hd : flxDefineItem trace.maxItemId trace.items itemId parentId FLX_ITEM_TYPE_SIGNAL with
    | none => rw [hd] at h; simp at h
    | some res =>
      rw [hd] at h
      cases res with
      | error e =>
        simp only [Option.some.injEq, Prod.mk.injEq] at h
        rw [← h.2]; exact keepsDefined_refl _
      | ok items1 =>
        simp only [Option.some.injEq, Prod.mk.injEq] at h
        rw [← h.2]
        exact defineItem_keeps _ _ _ _ _ _ hd

theorem addSignals_keeps {σ : Type} (trace t1 : flxTrace σ) (itemIdFrom itemIdTo parentId : Nat)
    (name description : flxtext) (signalType : Nat) (signalDescriptor : flxtext) (r : Int)
    (h : flxAddSignals trace itemIdFrom itemIdTo parentId name description signalType
      signalDescriptor = some (r, t1)) :
    KeepsDefined trace.items t1.items := by
  unfold flxAddSignals at h
  cases hb : trace.buffer with
  | none =>
    rw [hb] at h
    simp only [Option.some.injEq, Prod.mk.injEq] at h
    rw [← h.2]; exact keepsDefined_refl _
  | some buffer =>
    rw [hb] at h
    simp only at h
    cases hd : flxAddSignals_loop trace.maxItemId parentId (itemIdTo + 1 - itemIdFrom)
        itemIdFrom trace.items with
    | none => rw [hd] at h; simp at h
    | some res =>
      rw [hd] at h
      obtain ⟨e, items1⟩ := res
      have hk := addSignals_loop_keeps _ _ _ _ _ _ _ hd
      cases e with
      | none =>
        simp only [Option.some.injEq, Prod.mk.injEq] at h
        rw [← h.2]; exact hk
      | some err =>
        simp only [Option.some.injEq, Prod.mk.injEq] at h
        rw [← h.2]; exact hk

theorem addSignalReference_keeps {σ : Type} (trace t1 : flxTrace σ) (referenceId parentId : Nat)
    (name description : flxtext) (r : Int)
    (h : flxAddSignalReference trace referenceId parentId name description = some (r, t1)) :
    KeepsDefined trace.items t1.items := by
  unfold flxAddSignalReference at h
  cases hb : trace.buffer with
  | none =>
    rw [hb] at h
    simp only [Option.some.injEq, Prod.mk.injEq] at h
    rw [← h.2]; exact keepsDefined_refl _
  | some buffer =>
    rw [hb] at h
    simp only at h
    cases hd : flxCheckReference trace.maxItemId trace.items referenceId parentId with
    | none => rw [hd] at h; simp at h
    | some res =>
      rw [hd] at h
      cases res with
      | none =>
        simp only [Option.some.injEq, Prod.mk.injEq] at h
        rw [← h.2]; exact keepsDefined_refl _
      | some e =>
        simp only [Option.some.injEq, Prod.mk.injEq] at h
        rw [← h.2]; exact keepsDefined_refl _

theorem addScatteredSignalReference_keeps {σ : Type} (trace t1 : flxTrace σ)
    (referenceId parentId : Nat) (name description : flxtext) (scatteredFrom scatteredTo : Nat)
    (r : Int)
    (h : flxAddScatteredSignalReference trace referenceId parentId name description
      scatteredFrom scatteredTo = some (r, t1)) :
    KeepsDefined trace.items t1.items := by
  unfold flxAddScatteredSignalReference at h
  cases hb : trace.buffer with
  | none =>
    rw [hb] at h
    simp only [Option.some.injEq, Prod.mk.injEq] at h
    rw [← h.2]; exact keepsDefined_refl _
  | some buffer =>
    rw [hb] at h
    simp only at h
    cases hd : flxCheckReference trace.maxItemId trace.items referenceId parentId with
    | none => rw [hd] at h; simp at h
    | some res =>
      rw [hd] at h
      cases res with
      | none =>
        simp only [Option.some.injEq, Prod.mk.injEq] at h
        rw [← h.2]; exact keepsDefined_refl _
      | some e =>
        simp only [Option.some.injEq, Prod.mk.injEq] at h
        rw [← h.2]; exact keepsDefined_refl _

/-- What a call of `flxOpen` that returns did: either nothing (an error before
any assignment), or the root was opened without item table, or, with an item
table, the target was opened and the marking loop ran. -/
theorem flxOpen_inv {σ : Type} (trace t1 : flxTrace σ) (itemId : Nat) (domainBase : flxtext)
    (start : Int) (rate : Nat) (r : Int)
    (h : flxOpen trace itemId domainBase start rate = some (r, t1)) :
    (t1 = trace ∧ r ≠ FLX_OK) ∨
    (∃ buffer, trace.buffer = some buffer ∧ trace.items = none ∧ itemId = 0 ∧
      trace.opn = FLX_ITEM_OPEN_NONE ∧
      r = (flxWriteOpenEntry buffer itemId domainBase start rate).1 ∧
      t1 = { trace with opn := FLX_ITEM_OPEN_LOCAL, current := start,
                        buffer := some (flxWriteOpenEntry buffer itemId domainBase start rate).2 }) ∨
    (∃ buffer its its1 its2 opn1 cur1, trace.buffer = some buffer ∧ trace.items = some its ∧
      itemId < trace.maxItemId ∧
      flxOpen_check its itemId (trace.maxItemId - 1) 1 = some false ∧
      ((itemId = 0 ∧ trace.opn = FLX_ITEM_OPEN_NONE ∧ opn1 = FLX_ITEM_OPEN_LOCAL ∧
          cur1 = start ∧ its1 = its) ∨
       (∃ item, itemId ≠ 0 ∧ itemAt its itemId = some item ∧
          item.opn = FLX_ITEM_OPEN_NONE ∧ opn1 = trace.opn ∧ cur1 = trace.current ∧
          its1 = itemSet its itemId
            (({ item with opn := FLX_ITEM_OPEN_LOCAL }).setCurrent start))) ∧
      flxMarkChildren itemId (markOpen itemId) (trace.maxItemId - 1) 1 its1 = some its2 ∧
      r = (flxWriteOpenEntry buffer itemId domainBase start rate).1 ∧
      t1 = { trace with opn := opn1, current := cur1, items := some its2,
                        buffer := some (flxWriteOpenEntry buffer itemId domainBase start rate).2 }) := by
  unfold flxOpen at h
  cases hb : trace.buffer with
  | none =>
    rw [hb] at h
    simp only [Option.some.injEq, Prod.mk.injEq] at h
    exact Or.inl ⟨h.2.symm, by rw [← h.1]; decide⟩
  | some buffer =>
    rw [hb] at h
    simp only at h
    by_cases hid : itemId ≥ trace.maxItemId ∨ (trace.items.isNone ∧ itemId > 0)
    · rw [if_pos hid] at h
      simp only [Option.some.injEq, Prod.mk.injEq] at h
      exact Or.inl ⟨h.2.symm, by rw [← h.1]; decide⟩
    · rw [if_neg hid] at h
      cases hi : trace.items with
      | none =>
        rw [hi] at h hid
        simp only [Option.isNone_none, true_and, not_or, not_le, not_lt] at hid
        simp only at h
        by_cases ho : trace.opn ≠ FLX_ITEM_OPEN_NONE
        · rw [if_pos ho] at h
          simp only [Option.some.injEq, Prod.mk.injEq] at h
          exact Or.inl ⟨h.2.symm, by rw [← h.1]; decide⟩
        · rw [if_neg ho] at h
          simp only [Option.some.injEq, Prod.mk.injEq] at h
          right; left
          exact ⟨buffer, rfl, rfl, by omega, by simpa using ho, h.1.symm, h.2.symm⟩
      | some its =>
        rw [hi] at h hid
        simp only [Option.isNone_some, false_and, or_false, not_le, Bool.false_eq_true] at hid
        simp only at h
        by_cases h0 : itemId = 0
        · subst h0
          simp only [if_true] at h
          by_cases ho : trace.opn ≠ FLX_ITEM_OPEN_NONE
          · rw [decide_eq_true ho] at h
            simp only [Option.some.injEq, Prod.mk.injEq] at h
            exact Or.inl ⟨h.2.symm, by rw [← h.1]; decide⟩
          · rw [decide_eq_false ho] at h
            cases hc : flxOpen_check its 0 (trace.maxItemId - 1) 1 with
            | none => rw [hc] at h; simp at h
            | some c =>
              rw [hc] at h
              cases c with
              | true =>
                simp only [Option.some.injEq, Prod.mk.injEq] at h
                exact Or.inl ⟨h.2.symm, by rw [← h.1]; decide⟩
              | false =>
                simp only at h
                cases hm : flxMarkChildren 0 (markOpen 0) (trace.maxItemId - 1) 1 its with
                | none => rw [hm] at h; simp at h
                | some its2 =>
                  rw [hm] at h
                  simp only [Option.some.injEq, Prod.mk.injEq] at h
                  right; right
                  exact ⟨buffer, its, its, its2, FLX_ITEM_OPEN_LOCAL, start, rfl, rfl, hid, hc,
                    Or.inl ⟨rfl, by simpa using ho, rfl, rfl, rfl⟩, hm, h.1.symm, h.2.symm⟩
        · simp only [h0, if_false] at h
          cases hitem : itemAt its itemId with
          | none => rw [hitem] at h; simp at h
          | some item =>
            rw [hitem] at h
            simp only [Option.map_some'] at h
            by_cases ho : item.opn ≠ FLX_ITEM_OPEN_NONE
            · rw [decide_eq_true ho] at h
              simp only [Option.some.injEq, Prod.mk.injEq] at h
              exact Or.inl ⟨h.2.symm, by rw [← h.1]; decide⟩
            · rw [decide_eq_false ho] at h
              cases hc : flxOpen_check its itemId (trace.maxItemId - 1) 1 with
              | none => rw [hc] at h; simp at h
              | some c =>
                rw [hc] at h
                cases c with
                | true =>
                  simp only [Option.some.injEq, Prod.mk.injEq] at h
                  exact Or.inl ⟨h.2.symm, by rw [← h.1]; decide⟩
                | false =>
                  simp only at h
                  cases hm : flxMarkChildren itemId (markOpen itemId) (trace.maxItemId - 1) 1
                      (itemSet its itemId
                        (({ item with opn := FLX_ITEM_OPEN_LOCAL }).setCurrent start)) with
                  | none => rw [hm] at h; simp at h
                  | some its2 =>
                    rw [hm] at h
                    simp only [Option.some.injEq, Prod.mk.injEq] at h
                    right; right
                    exact ⟨buffer, its, _, its2, trace.opn, trace.current, rfl, rfl, hid, hc,
                      Or.inr ⟨item, h0, hitem, by simpa using ho, rfl, rfl, rfl⟩, hm,
                      h.1.symm, h.2.symm⟩

/-- What a call of `flxClose` that returns did: nothing (an error), or the
marking loop over the children and the close entry; the item `itemId` itself is
not assigned to. -/
theorem flxClose_inv {σ : Type} (trace t1 : flxTrace σ) (itemId : Nat) (end_ : Int) (r : Int)
    (h : flxClose trace itemId end_ = some (r, t1)) :
    (t1 = trace ∧ r ≠ FLX_OK) ∨
    (∃ buffer current items1, trace.buffer = some buffer ∧ itemId < trace.maxItemId ∧
      ((itemId = 0 ∧ trace.opn = FLX_ITEM_OPEN_LOCAL ∧ current = trace.current) ∨
       (∃ its item, itemId ≠ 0 ∧ trace.items = some its ∧ itemAt its itemId = some item ∧
          item.opn = FLX_ITEM_OPEN_LOCAL ∧ current = item.current)) ∧
      ((trace.items = none ∧ items1 = none) ∨
       (∃ its its2, trace.items = some its ∧
          flxMarkChildren itemId markClosed (trace.maxItemId - 1) 1 its = some its2 ∧
          items1 = some its2)) ∧
      r = (flxWriteCloseEntry buffer itemId
            (if end_ < current then wrap64 (current + 1) else end_)).1 ∧
      t1 = { trace with items := items1,
                        buffer := some (flxWriteCloseEntry buffer itemId
                          (if end_ < current then wrap64 (current + 1) else end_)).2 }) := by
  unfold flxClose at h
  cases hb : trace.buffer with
  | none =>
    rw [hb] at h
    simp only [Option.some.injEq, Prod.mk.injEq] at h
    exact Or.inl ⟨h.2.symm, by rw [← h.1]; decide⟩
  | some buffer =>
    rw [hb] at h
    simp only at h
    by_cases hid : itemId ≥ trace.maxItemId ∨ (trace.items.isNone ∧ itemId > 0)
    · rw [if_pos hid] at h
      simp only [Option.some.injEq, Prod.mk.injEq] at h
      exact Or.inl ⟨h.2.symm, by rw [← h.1]; decide⟩
    · rw [if_neg hid] at h
      simp only [not_or, not_le] at hid
      -- the state of the target
      have hstate : ∃ opn current,
          (if itemId = 0 then some (trace.opn, trace.current)
            else match trace.items with
              | none => none
              | some its => (itemAt its itemId).map (fun item => (item.opn, item.current)))
            = some (opn, current) ∧
          ((itemId = 0 ∧ opn = trace.opn ∧ current = trace.current) ∨
           (∃ its item, itemId ≠ 0 ∧ trace.items = some its ∧ itemAt its itemId = some item ∧
              opn = item.opn ∧ current = item.current)) := by
        by_cases h0 : itemId = 0
        · exact ⟨trace.opn, trace.current, by rw [if_pos h0], Or.inl ⟨h0, rfl, rfl⟩⟩
        · rw [if_neg h0] at h ⊢
          cases hi : trace.items with
          | none => rw [hi] at h; simp at h
          | some its =>
            rw [hi] at h
            cases hitem : itemAt its itemId with
            | none => simp only [hitem] at h; simp at h
            | some item =>
              exact ⟨item.opn, item.current, by simp [hitem],
                Or.inr ⟨its, item, h0, rfl, hitem, rfl, rfl⟩⟩
      obtain ⟨opn, current, hs, hcase⟩ := hstate
      rw [hs] at h
      simp only at h
      by_cases ho : opn ≠ FLX_ITEM_OPEN_LOCAL
      · rw [if_pos ho] at h
        simp only [Option.some.injEq, Prod.mk.injEq] at h
        exact Or.inl ⟨h.2.symm, by rw [← h.1]; decide⟩
      · rw [if_neg ho] at h
        have ho1 : opn = FLX_ITEM_OPEN_LOCAL := by simpa using ho
        have hcase1 : (itemId = 0 ∧ trace.opn = FLX_ITEM_OPEN_LOCAL ∧ current = trace.current) ∨
            (∃ its item, itemId ≠ 0 ∧ trace.items = some its ∧ itemAt its itemId = some item ∧
              item.opn = FLX_ITEM_OPEN_LOCAL ∧ current = item.current) := by
          rcases hcase with ⟨a, b, c⟩ | ⟨its, item, a, b, c, d, e⟩
          · exact Or.inl ⟨a, by rw [← b]; exact ho1, c⟩
          · exact Or.inr ⟨its, item, a, b, c, by rw [← d]; exact ho1, e⟩
        cases hi : trace.items with
        | none =>
          rw [hi] at h
          simp only [Option.some.injEq, Prod.mk.injEq] at h
          right
          refine ⟨buffer, current, none, rfl, hid.1, ?_, Or.inl ⟨rfl, rfl⟩, h.1.symm, h.2.symm⟩
          rcases hcase1 with c | ⟨its, item, a, b, c⟩
          · exact Or.inl c
          · rw [hi] at b; cases b
        | some its =>
          rw [hi] at h
          simp only at h
          cases hm : flxMarkChildren itemId markClosed (trace.maxItemId - 1) 1 its with
          | none => rw [hm] at h; simp at h
          | some its2 =>
            rw [hm] at h
            simp only [Option.map_some', Option.some.injEq, Prod.mk.injEq] at h
            right
            refine ⟨buffer, current, some its2, rfl, hid.1, ?_,
              Or.inr ⟨its, its2, rfl, hm, rfl⟩, h.1.symm, h.2.symm⟩
            rcases hcase1 with c | ⟨its0, item, a, b, c⟩
            · exact Or.inl c
            · exact Or.inr ⟨its0, item, a, by rw [← hi]; exact b, c⟩

theorem markOpen_fields (itemId : Nat) (item : flxTraceItem) :
    (markOpen itemId item).type = item.type ∧ (markOpen itemId item).parentId = item.parentId :=
  ⟨rfl, rfl⟩

theorem markClosed_fields (item : flxTraceItem) :
    (markClosed item).type = item.type ∧ (markClosed item).parentId = item.parentId :=
  ⟨rfl, rfl⟩

theorem open_keeps {σ : Type} (trace t1 : flxTrace σ) (itemId : Nat) (domainBase : flxtext)
    (start : Int) (rate : Nat) (r : Int)
    (h : flxOpen trace itemId domainBase start rate = some (r, t1)) :
    KeepsDefined trace.items t1.items := by
  rcases flxOpen_inv trace t1 itemId domainBase start rate r h with
    ⟨h1, _⟩ | ⟨buffer, _, hi, _, _, _, h1⟩ |
    ⟨buffer, its, its1, its2, opn1, cur1, _, hi, _, _, hcase, hm, _, h1⟩
  · rw [h1]; exact keepsDefined_refl _
  · rw [h1]; exact keepsDefined_refl _
  · rw [h1, hi]
    have hk2 := markChildren_keeps itemId (markOpen itemId) (markOpen_fields itemId)
      (trace.maxItemId - 1) 1 its1 its2 hm
    refine keepsDefined_trans _ (some its1) _ ?_ hk2
    rcases hcase with ⟨_, _, _, _, e⟩ | ⟨item, _, hitem, _, _, _, e⟩
    · rw [e]; exact keepsDefined_refl _
    · rw [e]; exact keepsDefined_itemSet its itemId item _ hitem rfl rfl

theorem close_keeps {σ : Type} (trace t1 : flxTrace σ) (itemId : Nat) (end_ : Int) (r : Int)
    (h : flxClose trace itemId end_ = some (r, t1)) :
    KeepsDefined trace.items t1.items := by
  rcases flxClose_inv trace t1 itemId end_ r h with
    ⟨h1, _⟩ | ⟨buffer, current, items1, _, _, _, hitems, _, h1⟩
  · rw [h1]; exact keepsDefined_refl _
  · rw [h1]
    rcases hitems with ⟨hi, e⟩ | ⟨its, its2, hi, hm, e⟩
    · rw [hi, e]; exact keepsDefined_refl _
    · rw [hi, e]
      exact markChildren_keeps itemId markClosed markClosed_fields (trace.maxItemId - 1) 1
        its its2 hm

theorem storeCurrent_keeps {σ : Type} (trace : flxTrace σ) (openId : Nat) (d : Int) :
    KeepsDefined trace.items (flxStoreCurrent trace openId d).items := by
  unfold flxStoreCurrent
  by_cases h0 : openId = 0
  · rw [if_pos h0]; exact keepsDefined_refl _
  · rw [if_neg h0]
    cases hi : trace.items with
    | none => simp only; rw [hi]; exact keepsDefined_refl _
    | some its =>
      simp only
      cases hitem : itemAt its openId with
      | none => simp only; rw [hi]; exact keepsDefined_refl _
      | some item =>
        simp only
        exact keepsDefined_itemSet its openId item _ hitem rfl rfl

theorem writeAt_keeps {σ : Type} (x : flxBuffer σ → Int → Int × flxBuffer σ)
    (trace t1 : flxTrace σ) (itemId : Nat) (domainPosition : Int) (isDelta : Nat) (r : Int)
    (h : FLX_WRITE_AT x trace itemId domainPosition isDelta = some (r, t1)) :
    KeepsDefined trace.items t1.items := by
  unfold FLX_WRITE_AT at h
  cases hb : trace.buffer with
  | none =>
    rw [hb] at h
    simp only [Option.some.injEq, Prod.mk.injEq] at h
    rw [← h.2]; exact keepsDefined_refl _
  | some buffer =>
    rw [hb] at h
    simp only at h
    cases hr : flxResolveCurrent trace itemId with
    | none => rw [hr] at h; simp at h
    | some res =>
      rw [hr] at h
      cases res with
      | error e =>
        simp only [Option.some.injEq, Prod.mk.injEq] at h
        rw [← h.2]; exact keepsDefined_refl _
      | ok oc =>
        obtain ⟨openId, current⟩ := oc
        simp only at h
        by_cases hd : (if isDelta ≠ 0 then domainPosition
            else wrap64 (domainPosition - current)) < 0
        · rw [if_pos hd] at h
          simp only [Option.some.injEq, Prod.mk.injEq] at h
          rw [← h.2]; exact keepsDefined_refl _
        · rw [if_neg hd] at h
          by_cases hx : (x buffer (if isDelta ≠ 0 then domainPosition
              else wrap64 (domainPosition - current))).1 = FLX_OK
          · rw [if_pos hx] at h
            simp only [Option.some.injEq, Prod.mk.injEq] at h
            rw [← h.2]
            exact storeCurrent_keeps
              { trace with buffer := some (x buffer
                  (if isDelta ≠ 0 then domainPosition
                    else wrap64 (domainPosition - current))).2 } openId _
          · rw [if_neg hx] at h
            simp only [Option.some.injEq, Prod.mk.injEq] at h
            rw [← h.2]; exact keepsDefined_refl _

theorem setBuffer_keeps {σ : Type} (trace : flxTrace σ) (buffer : Option (flxBuffer σ)) :
    KeepsDefined trace.items (flxSetBuffer trace buffer).2.items := by
  unfold flxSetBuffer
  cases buffer with
  | none => exact keepsDefined_refl _
  | some b =>
    simp only
    split
    · exact keepsDefined_refl _
    · exact keepsDefined_refl _

/-- One public operation keeps type and parent of every defined item. -/
theorem op_run_keeps {σ : Type} (op : flxOp σ) (trace t1 : flxTrace σ) (r : Int)
    (h : op.run trace = some (r, t1)) : KeepsDefined trace.items t1.items := by
  cases op with
  | addScope itemId parentId name description =>
    exact addScope_keeps trace t1 itemId parentId name description r h
  | addSignal itemId parentId name description signalType signalDescriptor =>
    exact addSignal_keeps trace t1 itemId parentId name description signalType
      signalDescriptor r h
  | addSignals itemIdFrom itemIdTo parentId name description signalType signalDescriptor =>
    exact addSignals_keeps trace t1 itemIdFrom itemIdTo parentId name description signalType
      signalDescriptor r h
  | addSignalReference referenceId parentId name description =>
    exact addSignalReference_keeps trace t1 referenceId parentId name description r h
  | addScatteredSignal itemId parentId name description signalType signalDescriptor
      scatteredFrom scatteredTo =>
    exact addScatteredSignal_keeps trace t1 itemId parentId name description signalType
      signalDescriptor scatteredFrom scatteredTo r h
  | addScatteredSignalReference referenceId parentId name description scatteredFrom
      scatteredTo =>
    exact addScatteredSignalReference_keeps trace t1 referenceId parentId name description
      scatteredFrom scatteredTo r h
  | opening itemId domainBase start rate =>
    exact open_keeps trace t1 itemId domainBase start rate r h
  | closing itemId end_ => exact close_keeps trace t1 itemId end_ r h
  | writeAt x itemId domainPosition isDelta =>
    exact writeAt_keeps x trace t1 itemId domainPosition isDelta r h
  | setBuffer buffer =>
    simp only [flxOp.run, Option.some.injEq] at h
    have h2 : t1 = (flxSetBuffer trace buffer).2 := by rw [h]
    rw [h2]; exact setBuffer_keeps trace buffer

/-- C7. Item type is write-once: along every sequence of public trace operations
(item definitions, references, `flxOpen`, `flxClose`, writes, `flxSetBuffer`) that
stays inside defined behaviour, an item whose type is not UNDEFINED keeps its
type and its parentId, whatever the operations return. -/
theorem item_type_write_once {σ : Type} (ops : List (flxOp σ)) :
    ∀ (trace trace1 : flxTrace σ) (its : List flxTraceItem) (i : Nat) (item : flxTraceItem),
    flxRun ops trace = some trace1 → trace.items = some its → itemAt its i = some item →
    item.type ≠ FLX_ITEM_TYPE_UNDEFINED →
    ∃ its1 item1, trace1.items = some its1 ∧ itemAt its1 i = some item1 ∧
      item1.type = item.type ∧ item1.parentId = item.parentId := by
  induction ops with
  | nil =>
    intro trace trace1 its i item hrun hi hitem _
    simp only [flxRun, Option.some.injEq] at hrun
    subst hrun
    exact ⟨its, item, hi, hitem, rfl, rfl⟩
  | cons op ops ih =>
    intro trace trace1 its i item hrun hi hitem ht
    simp only [flxRun] at hrun
    cases hop : op.run trace with
    | none => rw [hop] at hrun; simp at hrun
    | some res =>
      rw [hop] at hrun
      simp only at hrun
      obtain ⟨r, t1⟩ := res
      obtain ⟨itsm, him, hk⟩ := op_run_keeps op trace t1 r hop its hi
      obtain ⟨itemm, hitemm, htm, hpm⟩ := hk i item hitem ht
      obtain ⟨its1, item1, h1, h2, h3, h4⟩ :=
        ih t1 trace1 itsm i itemm hrun him hitemm (by rw [htm]; exact ht)
      exact ⟨its1, item1, h1, h2, by rw [h3, htm], by rw [h4, hpm]⟩

set_option maxRecDepth 100000 in
theorem item_type_write_once_witness :
    ∃ t1 its1 item1, flxRun exOpsMixed exTraceAt10 = some t1 ∧ t1.items = some its1 ∧
      itemAt its1 2 = some item1 ∧ item1.type = FLX_ITEM_TYPE_SIGNAL ∧ item1.parentId = 1 := by
  obtain ⟨t1, h1⟩ := Option.isSome_iff_exists.mp
    (show (flxRun exOpsMixed exTraceAt10).isSome = true by decide)
  obtain ⟨its1, item1, h2, h3, h4, h5⟩ := item_type_write_once exOpsMixed exTraceAt10 t1 _ 2
    ⟨FLX_ITEM_TYPE_SIGNAL, FLX_ITEM_OPEN_CONTAINER, 1, 0⟩ h1 rfl rfl (by decide)
  exact ⟨t1, its1, item1, h1, h2, h3, h4, h5⟩


/-! ### Open and close of sequences -/

set_option maxRecDepth 100000 in
/-- C8, at the failing input. In a trace created for `maxItemId = 5` with scopes
1, 2 under 1, 3 under 2 and signals 4 under 2, 5 under 3 (all definitions return
`FLX_OK`), `flxOpen(trace, 2, 0, 7, 0)` returns `FLX_OK`, sets item 2 to
`LOCAL` with current 7 and items 3 and 4 to `CONTAINER` with openId 2, but
leaves item 5, whose parent chain 3, 2 reaches item 2, at `NONE`: the loops of
`flxOpen` end before `n = maxItemId`. In a trace created for six items the same
calls mark item 5. The triples are `(parentId, open, u)`. -/
theorem open_skips_last_item :
    exView ((exCreate 5).bind (flxRunResults (exTreeOps ++ [.opening 2 none 7 0]))) =
      some ([FLX_OK, FLX_OK, FLX_OK, FLX_OK, FLX_OK, FLX_OK],
        some [(0, FLX_ITEM_OPEN_NONE, 0), (1, FLX_ITEM_OPEN_LOCAL, 7),
          (2, FLX_ITEM_OPEN_CONTAINER, 2), (2, FLX_ITEM_OPEN_CONTAINER, 2),
          (3, FLX_ITEM_OPEN_NONE, 0)]) ∧
    exView ((exCreate 6).bind (flxRunResults (exTreeOps ++ [.opening 2 none 7 0]))) =
      some ([FLX_OK, FLX_OK, FLX_OK, FLX_OK, FLX_OK, FLX_OK],
        some [(0, FLX_ITEM_OPEN_NONE, 0), (1, FLX_ITEM_OPEN_LOCAL, 7),
          (2, FLX_ITEM_OPEN_CONTAINER, 2), (2, FLX_ITEM_OPEN_CONTAINER, 2),
          (3, FLX_ITEM_OPEN_CONTAINER, 2), (0, FLX_ITEM_OPEN_NONE, 0)]) := by
  exact ⟨by decide, by decide⟩

set_option maxRecDepth 100000 in
/-- C9, at the failing input. In a trace created for six items with the
hierarchy of scopes 1, 2, 3 and signals 4, 5, after `flxOpen(trace, 2, 0, 7, 0)`
the call `flxOpen(trace, 1, 0, 0, 0)` returns `FLX_OK`, not
`FLX_ERROR_CHILDREN_ALLREADY_OPEN`, and overwrites the open sequence of item 2:
item 1 is `LOCAL`, items 2 to 5 are `CONTAINER` with openId 1. The walk of the
check starts at the parent of `itemId`, not at the parent of the open item. -/
theorem open_accepts_open_children :
    exView ((exCreate 6).bind
        (flxRunResults (exTreeOps ++ [.opening 2 none 7 0, .opening 1 none 0 0]))) =
      some ([FLX_OK, FLX_OK, FLX_OK, FLX_OK, FLX_OK, FLX_OK, FLX_OK],
        some [(0, FLX_ITEM_OPEN_LOCAL, 0), (1, FLX_ITEM_OPEN_CONTAINER, 1),
          (2, FLX_ITEM_OPEN_CONTAINER, 1), (2, FLX_ITEM_OPEN_CONTAINER, 1),
          (3, FLX_ITEM_OPEN_CONTAINER, 1), (0, FLX_ITEM_OPEN_NONE, 0)]) := by
  decide

set_option maxRecDepth 100000 in
/-- C10, at the failing input. In a trace created for six items with the
hierarchy of scopes 1, 2, 3 and signals 4, 5: after `flxOpen(trace, 2, 0, 7, 0)`
and `flxClose(trace, 2, 9)`, both `FLX_OK`, item 2 is still `LOCAL` while its
descendants 3, 4, 5 are `NONE`; a following `flxOpen(trace, 3, 0, 10, 0)`
returns `FLX_OK` and makes item 3 `LOCAL` below the `LOCAL` item 2, so that
item 5 has two `LOCAL` ancestors and item 4 is `NONE` below a `LOCAL` item. -/
theorem close_leaves_target_local :
    exView ((exCreate 6).bind
        (flxRunResults (exTreeOps ++ [.opening 2 none 7 0, .closing 2 9]))) =
      some ([FLX_OK, FLX_OK, FLX_OK, FLX_OK, FLX_OK, FLX_OK, FLX_OK],
        some [(0, FLX_ITEM_OPEN_NONE, 0), (1, FLX_ITEM_OPEN_LOCAL, 7),
          (2, FLX_ITEM_OPEN_NONE, 0), (2, FLX_ITEM_OPEN_NONE, 0),
          (3, FLX_ITEM_OPEN_NONE, 0), (0, FLX_ITEM_OPEN_NONE, 0)]) ∧
    exView ((exCreate 6).bind (flxRunResults
        (exTreeOps ++ [.opening 2 none 7 0, .closing 2 9, .opening 3 none 10 0]))) =
      some ([FLX_OK, FLX_OK, FLX_OK, FLX_OK, FLX_OK, FLX_OK, FLX_OK, FLX_OK],
        some [(0, FLX_ITEM_OPEN_NONE, 0), (1, FLX_ITEM_OPEN_LOCAL, 7),
          (2, FLX_ITEM_OPEN_LOCAL, 10), (2, FLX_ITEM_OPEN_NONE, 0),
          (3, FLX_ITEM_OPEN_CONTAINER, 3), (0, FLX_ITEM_OPEN_NONE, 0)]) := by
  exact ⟨by decide, by decide⟩


/-! ### Fuel of the parent walk -/

theorem ancestorWalk_mono (items : List flxTraceItem) (itemId : Nat) :
    ∀ (f g p : Nat) (b : Bool), f ≤ g → ancestorWalk items itemId f p = some b →
      ancestorWalk items itemId g p = some b := by
  intro f
  induction f with
  | zero => intro g p b _ h; simp [ancestorWalk] at h
  | succ f ih =>
    intro g p b hfg h
    obtain ⟨g1, rfl⟩ : ∃ g1, g = g1 + 1 := ⟨g - 1, by omega⟩
    unfold ancestorWalk at h ⊢
    by_cases h1 : p = itemId
    · rw [if_pos h1] at h ⊢; exact h
    · rw [if_neg h1] at h ⊢
      by_cases h2 : p = 0
      · rw [if_pos h2] at h ⊢; exact h
      · rw [if_neg h2] at h ⊢
        cases hi : itemAt items p with
        | none => rw [hi] at h; simp at h
        | some item =>
          rw [hi] at h
          simp only at h ⊢
          exact ih g1 item.parentId b (by omega) h

/-- A walk that needs exactly `j + 2` rounds passes, for every `i ≤ j`, an item
of the table from which exactly `i + 2` rounds are needed. -/
theorem ancestorWalk_chain (items : List flxTraceItem) (itemId : Nat) (b : Bool) :
    ∀ (j q : Nat), ancestorWalk items itemId (j + 2) q = some b →
      ancestorWalk items itemId (j + 1) q = none →
      ∀ i, ∃ q1, i ≤ j → (q1 ≠ 0 ∧ q1 ≤ items.length ∧
        ancestorWalk items itemId (i + 2) q1 = some b ∧
        ancestorWalk items itemId (i + 1) q1 = none) := by
  intro j
  induction j with
  | zero =>
    intro q h2 h1 i
    refine ⟨q, fun hi => ?_⟩
    have hi0 : i = 0 := by omega
    subst hi0
    unfold ancestorWalk at h1
    by_cases c1 : q = itemId
    · rw [if_pos c1] at h1; simp at h1
    · rw [if_neg c1] at h1
      by_cases c2 : q = 0
      · rw [if_pos c2] at h1; simp at h1
      · unfold ancestorWalk at h2
        rw [if_neg c1, if_neg c2] at h2
        cases hq : itemAt items q with
        | none => rw [hq] at h2; simp at h2
        | some item =>
          have hlt := (itemAt_isSome_lt items q item hq).2
          refine ⟨c2, by omega, ?_, ?_⟩
          · unfold ancestorWalk
            rw [if_neg c1, if_neg c2, hq]
            rw [hq] at h2
            exact h2
          · unfold ancestorWalk
            rw [if_neg c1, if_neg c2, hq]
            rfl
  | succ j ih =>
    intro q h2 h1 i
    have h1c := h1
    have h2c := h2
    unfold ancestorWalk at h1
    by_cases c1 : q = itemId
    · rw [if_pos c1] at h1; simp at h1
    · rw [if_neg c1] at h1
      by_cases c2 : q = 0
      · rw [if_pos c2] at h1; simp at h1
      · rw [if_neg c2] at h1
        unfold ancestorWalk at h2
        rw [if_neg c1, if_neg c2] at h2
        cases hq : itemAt items q with
        | none => rw [hq] at h2; simp at h2
        | some item =>
          rw [hq] at h1 h2
          simp only at h1 h2
          have hlt := (itemAt_isSome_lt items q item hq).2
          by_cases hij : i = j + 1
          · subst hij
            exact ⟨q, fun _ => ⟨c2, by omega, h2c, h1c⟩⟩
          · obtain ⟨q1, hq1⟩ := ih item.parentId h2 h1 i
            exact ⟨q1, fun hi => hq1 (by omega)⟩

/-- The fuel `walkFuel items` is enough: a walk that ends with any fuel ends with
the same answer within `items.length + 1` rounds. -/
theorem ancestorWalk_fuel_enough (items : List flxTraceItem) (itemId f p : Nat) (b : Bool)
    (h : ancestorWalk items itemId f p = some b) :
    ancestorWalk items itemId (walkFuel items) p = some b := by
  have hex : ∃ k, ancestorWalk items itemId k p = some b := ⟨f, h⟩
  have hm := Nat.find_spec hex
  have hmin : ∀ k, k < Nat.find hex → ancestorWalk items itemId k p = none := by
    intro k hk
    cases hw : ancestorWalk items itemId k p with
    | none => rfl
    | some b1 =>
      have h3 := ancestorWalk_mono items itemId k (Nat.find hex) p b1 (by omega) hw
      rw [hm] at h3
      have hb : b = b1 := Option.some.inj h3
      subst hb
      exact absurd hw (Nat.find_min hex hk)
  suffices hle : Nat.find hex ≤ items.length + 1 from
    ancestorWalk_mono items itemId (Nat.find hex) (walkFuel items) p b hle hm
  by_contra hgt
  obtain ⟨j, hj⟩ : ∃ j, Nat.find hex = j + 2 := ⟨Nat.find hex - 2, by omega⟩
  rw [hj] at hm
  have h1 : ancestorWalk items itemId (j + 1) p = none := hmin (j + 1) (by omega)
  choose g hg using ancestorWalk_chain items itemId b j p hm h1
  have hcard : (Finset.range (j + 1)).card ≤ (Finset.Icc 1 items.length).card := by
    apply Finset.card_le_card_of_injOn g
    · intro i hi
      have hi1 : i ≤ j := by
        have := Finset.mem_range.mp hi
        omega
      obtain ⟨a, c, _, _⟩ := hg i hi1
      exact Finset.mem_Icc.mpr ⟨by omega, c⟩
    · intro i hi i2 hi2 heq
      have hi1 : i ≤ j := by
        have := Finset.mem_range.mp hi
        omega
      have hi3 : i2 ≤ j := by
        have := Finset.mem_range.mp hi2
        omega
      obtain ⟨_, _, e2, e1⟩ := hg i hi1
      obtain ⟨_, _, d2, d1⟩ := hg i2 hi3
      by_contra hne
      rcases Nat.lt_or_gt_of_ne hne with hlt | hlt
      · have := ancestorWalk_mono items itemId (i + 2) (i2 + 1) (g i) b (by omega) e2
        rw [heq, d1] at this
        simp at this
      · have := ancestorWalk_mono items itemId (i2 + 2) (i + 1) (g i2) b (by omega) d2
        rw [← heq, e1] at this
        simp at this
  simp only [Finset.card_range, Nat.card_Icc] at hcard
  omega


set_option maxRecDepth 100000 in
/-- C12, at the failing input. In a trace created for six items with the
hierarchy of scopes 1, 2, 3 and signals 4, 5, after `flxOpen(trace, 2, 0, 7, 0)`
and `flxClose(trace, 2, 9)`, both `FLX_OK`, item 2 still has `open = LOCAL`
(its descendants are `NONE`), `flxIsOpen(trace, 2)` is true, and
`flxOpen(trace, 2, 0, 20, 0)` returns `FLX_ERROR_ALLREADY_OPEN`: `flxClose`
assigns to the children only. -/
theorem close_keeps_target_open :
    exView ((exCreate 6).bind (flxRunResults
        (exTreeOps ++ [.opening 2 none 7 0, .closing 2 9, .opening 2 none 20 0]))) =
      some ([FLX_OK, FLX_OK, FLX_OK, FLX_OK, FLX_OK, FLX_OK, FLX_OK, FLX_ERROR_ALLREADY_OPEN],
        some [(0, FLX_ITEM_OPEN_NONE, 0), (1, FLX_ITEM_OPEN_LOCAL, 7),
          (2, FLX_ITEM_OPEN_NONE, 0), (2, FLX_ITEM_OPEN_NONE, 0),
          (3, FLX_ITEM_OPEN_NONE, 0), (0, FLX_ITEM_OPEN_NONE, 0)]) ∧
    ((exCreate 6).bind (flxRunResults (exTreeOps ++ [.opening 2 none 7 0, .closing 2 9]))).bind
        (fun q => flxIsOpen q.2 2) = some true := by
  exact ⟨by decide, by decide⟩

set_option maxRecDepth 100000 in
/-- C13, at the failing input. In a trace created for `maxItemId = 5` with item
table and bound buffer, `flxOpen(trace, 5, 0, 7, 0)` and `flxClose(trace, 5, 9)`
return `FLX_ERROR_INVALID_ID` although `5` is in `1..maxItemId` (item 4 passes
the check: open and close return `FLX_OK`); the test is
`itemId >= trace->maxItemId`. In a trace created for `maxItemId = 0` the root
itself is refused. -/
theorem open_close_reject_max_item :
    exView ((exCreate 5).bind (flxRunResults (exTreeOps ++
        [.opening 5 none 7 0, .closing 5 9, .opening 4 none 7 0, .closing 4 9]))) =
      some ([FLX_OK, FLX_OK, FLX_OK, FLX_OK, FLX_OK, FLX_ERROR_INVALID_ID,
          FLX_ERROR_INVALID_ID, FLX_OK, FLX_OK],
        some [(0, FLX_ITEM_OPEN_NONE, 0), (1, FLX_ITEM_OPEN_NONE, 0),
          (2, FLX_ITEM_OPEN_NONE, 0), (2, FLX_ITEM_OPEN_LOCAL, 7),
          (3, FLX_ITEM_OPEN_NONE, 0)]) ∧
    ((exCreate 0).bind (flxRunResults [.opening 0 none 7 0])).map (fun q => q.1) =
      some [FLX_ERROR_INVALID_ID] := by
  exact ⟨by decide, by decide⟩


/-! ### Layout of entries -/

theorem readBytes_add (bytes : Nat → Nat) (pos m n : Nat) :
    readBytes bytes pos (m + n) = readBytes bytes pos m ++ readBytes bytes (pos + m) n := by
  induction m generalizing pos with
  | zero => simp [readBytes]
  | succ m ih =>
    rw [show m + 1 + n = (m + n) + 1 from by omega, readBytes_succ, readBytes_succ, ih]
    rw [show pos + 1 + m = pos + (m + 1) from by omega]
    rfl

theorem emits_putByte (b : Nat) : Emits (putByte b) [b] := by
  intro bytes pos
  refine ⟨rfl, fun j hj => ?_, ?_⟩
  · simp only [putByte, store]
    rw [if_neg (by omega)]
  · simp [putByte, readBytes, store, List.range_succ]

/-- The loop of `_pluswrite` leaves the groups of `v` at `pos` and counts them. -/
theorem pluswrite_loop_bytes (f : Nat) : ∀ (g v : Nat) (bytes : Nat → Nat) (pos w : Nat),
    v < 128 ^ (f + 1) → f + 1 ≤ g →
    (_pluswrite_loop (f + 1) v bytes pos w).2 + 1 = w + (varintAux g v).length ∧
    readBytes (_pluswrite_loop (f + 1) v bytes pos w).1 pos (varintAux g v).length
      = varintAux g v := by
  induction f with
  | zero =>
    intro g v bytes pos w hv hg
    obtain ⟨g1, rfl⟩ : ∃ g1, g = g1 + 1 := ⟨g - 1, by omega⟩
    have hv1 : v < 128 := by simpa using hv
    rw [pluswrite_loop_last 0 v bytes pos w (by omega)]
    simp only [varintAux, if_pos hv1, List.length_singleton]
    exact ⟨trivial, by simp [readBytes, store, List.range_succ]⟩
  | succ f ih =>
    intro g v bytes pos w hv hg
    obtain ⟨g1, rfl⟩ : ∃ g1, g = g1 + 1 := ⟨g - 1, by omega⟩
    by_cases hv1 : v < 128
    · rw [pluswrite_loop_last (f + 1) v bytes pos w (by omega)]
      simp only [varintAux, if_pos hv1, List.length_singleton]
      exact ⟨trivial, by simp [readBytes, store, List.range_succ]⟩
    · rw [pluswrite_loop_cont (f + 1) v bytes pos w (by omega)]
      have hv2 : v / 128 < 128 ^ (f + 1) := by
        rw [Nat.div_lt_iff_lt_mul (by norm_num)]
        calc v < 128 ^ (f + 1 + 1) := hv
          _ = 128 ^ (f + 1) * 128 := by rw [pow_succ]
      obtain ⟨h1, h2⟩ := ih g1 (v / 128) (store bytes pos (v % 128 + 128)) (pos + 1) (w + 1)
        hv2 (by omega)
      simp only [varintAux, if_neg hv1, List.length_cons]
      refine ⟨by omega, ?_⟩
      rw [readBytes_succ, h2]
      congr 1
      rw [pluswrite_loop_frame (f + 1) (v / 128) _ (pos + 1) (w + 1) pos (by omega)]
      simp [store]

theorem emits_pluswrite (v : Nat) (hv : v < 2 ^ 32) : Emits (_pluswrite v) (varintBytes v) := by
  intro bytes pos
  have hv5 : v < 128 ^ (4 + 1) := by norm_num at hv ⊢; omega
  obtain ⟨h1, h2⟩ := pluswrite_loop_bytes 4 10 v bytes pos 1 hv5 (by omega)
  refine ⟨?_, fun j hj => pluswrite_loop_frame 5 v bytes pos 1 j hj, h2⟩
  show (_pluswrite_loop (4 + 1) v bytes pos 1).2 = (varintAux 10 v).length
  omega

theorem emits_deltawrite (v : Nat) (hv : v < 2 ^ 32) : Emits (_deltawrite v) (varintBytes v) :=
  emits_pluswrite v hv

theorem emits_textwrite (text : flxtext) (hlen : (text.getD []).length < 2 ^ 32) :
    Emits (_textwrite text) (textEntryBytes text) := by
  intro bytes pos
  have hsize : _textlen text false = (text.getD []).length := by
    cases text with
    | none => rfl
    | some l => simp [_textlen]
  obtain ⟨h1, h2, h3⟩ := emits_pluswrite (text.getD []).length hlen bytes pos
  unfold _textwrite textEntryBytes
  simp only [hsize, List.length_append]
  refine ⟨by rw [h1], fun j hj => ?_, ?_⟩
  · rw [arraycopy_apply, if_neg (by omega)]
    exact h2 j hj
  · rw [readBytes_add]
    congr 1
    · refine Eq.trans (readBytes_congr _ _ _ _ ?_) h3
      intro j hj1 hj2
      rw [arraycopy_apply, if_neg (by omega)]
    · apply List.ext_getElem
      · rw [readBytes_length]
      · intro i hi1 hi2
        simp only [readBytes, List.getElem_map, List.getElem_range]
        rw [arraycopy_apply, if_pos (by rw [h1]; omega)]
        simp only [textBytes, h1]
        rw [show 0 + (pos + (varintBytes (text.getD []).length).length + i
          - (pos + (varintBytes (text.getD []).length).length)) = i from by omega]
        exact (List.getD_eq_getElem _ 0 hi2)

theorem writeSeq_foldl_shift (fs : List ((Nat → Nat) → Nat → (Nat → Nat) × Nat)) :
    ∀ (bytes : Nat → Nat) (pos a : Nat),
    fs.foldl (fun w f => ((f w.1 (pos + w.2)).1, w.2 + (f w.1 (pos + w.2)).2)) (bytes, a)
      = ((writeSeq fs bytes (pos + a)).1, a + (writeSeq fs bytes (pos + a)).2) := by
  induction fs with
  | nil => intro bytes pos a; simp [writeSeq]
  | cons f fs ih =>
    intro bytes pos a
    have e1 := ih (f bytes (pos + a)).1 pos (a + (f bytes (pos + a)).2)
    have e2 := ih (f bytes (pos + a)).1 (pos + a) (f bytes (pos + a)).2
    simp only [writeSeq, List.foldl_cons, Nat.add_zero, Nat.zero_add] at e1 e2 ⊢
    rw [e1, e2]
    simp only [Nat.add_assoc]

theorem writeSeq_nil (bytes : Nat → Nat) (pos : Nat) : writeSeq [] bytes pos = (bytes, 0) := rfl

theorem writeSeq_cons (f : (Nat → Nat) → Nat → (Nat → Nat) × Nat)
    (fs : List ((Nat → Nat) → Nat → (Nat → Nat) × Nat)) (bytes : Nat → Nat) (pos : Nat) :
    writeSeq (f :: fs) bytes pos
      = ((writeSeq fs (f bytes pos).1 (pos + (f bytes pos).2)).1,
         (f bytes pos).2 + (writeSeq fs (f bytes pos).1 (pos + (f bytes pos).2)).2) := by
  have h := writeSeq_foldl_shift fs (f bytes pos).1 pos (f bytes pos).2
  simp only [writeSeq, List.foldl_cons, Nat.add_zero, Nat.zero_add]
  exact h

theorem emits_nil : Emits (writeSeq []) [] := by
  intro bytes pos
  exact ⟨rfl, fun _ _ => rfl, rfl⟩

theorem emits_cons (f : (Nat → Nat) → Nat → (Nat → Nat) × Nat)
    (fs : List ((Nat → Nat) → Nat → (Nat → Nat) × Nat)) (l ls : List Nat)
    (hf : Emits f l) (hfs : Emits (writeSeq fs) ls) : Emits (writeSeq (f :: fs)) (l ++ ls) := by
  intro bytes pos
  obtain ⟨h1, h2, h3⟩ := hf bytes pos
  obtain ⟨g1, g2, g3⟩ := hfs (f bytes pos).1 (pos + (f bytes pos).2)
  rw [writeSeq_cons]
  simp only [List.length_append]
  refine ⟨by rw [g1, h1], fun j hj => ?_, ?_⟩
  · rw [g2 j (by omega)]
    exact h2 j hj
  · rw [readBytes_add]
    congr 1
    · refine Eq.trans (readBytes_congr _ _ _ _ ?_) h3
      intro j hj1 hj2
      exact g2 j (by rw [h1]; omega)
    · rw [← h1]
      exact g3

theorem writeSeq_append (fs gs : List ((Nat → Nat) → Nat → (Nat → Nat) × Nat)) :
    ∀ (bytes : Nat → Nat) (pos : Nat),
    writeSeq (fs ++ gs) bytes pos
      = ((writeSeq gs (writeSeq fs bytes pos).1 (pos + (writeSeq fs bytes pos).2)).1,
         (writeSeq fs bytes pos).2
           + (writeSeq gs (writeSeq fs bytes pos).1 (pos + (writeSeq fs bytes pos).2)).2) := by
  induction fs with
  | nil => intro bytes pos; simp [writeSeq_nil]
  | cons f fs ih =>
    intro bytes pos
    rw [List.cons_append, writeSeq_cons, ih, writeSeq_cons]
    simp only [Nat.add_assoc]

theorem emits_append (fs gs : List ((Nat → Nat) → Nat → (Nat → Nat) × Nat)) (l ls : List Nat)
    (hf : Emits (writeSeq fs) l) (hg : Emits (writeSeq gs) ls) :
    Emits (writeSeq (fs ++ gs)) (l ++ ls) := by
  intro bytes pos
  obtain ⟨h1, h2, h3⟩ := hf bytes pos
  obtain ⟨g1, g2, g3⟩ := hg (writeSeq fs bytes pos).1 (pos + (writeSeq fs bytes pos).2)
  rw [writeSeq_append]
  simp only [List.length_append]
  refine ⟨by rw [g1, h1], fun j hj => ?_, ?_⟩
  · rw [g2 j (by omega)]
    exact h2 j hj
  · rw [readBytes_add]
    congr 1
    · refine Eq.trans (readBytes_congr _ _ _ _ ?_) h3
      intro j hj1 hj2
      exact g2 j (by rw [h1]; omega)
    · rw [← h1]
      exact g3

/-! ### Linear buffer -/

/-- The shifting loop of a partial flush moves the cells `[n, n + k)` down by
`len` and leaves every other cell. -/
theorem flushShift_apply (len : Nat) : ∀ (k n : Nat) (bytes : Nat → Nat) (j : Nat), len ≤ n →
    flushShift len k n bytes j
      = if n - len ≤ j ∧ j < n - len + k then bytes (j + len) else bytes j := by
  intro k
  induction k with
  | zero =>
    intro n bytes j _
    simp only [flushShift, Nat.add_zero]
    rw [if_neg (by omega)]
  | succ k ih =>
    intro n bytes j hn
    simp only [flushShift]
    rw [ih (n + 1) _ j (by omega)]
    by_cases h1 : n + 1 - len ≤ j ∧ j < n + 1 - len + k
    · rw [if_pos h1, if_pos (by omega)]
      simp only [store]
      rw [if_neg (by omega)]
    · rw [if_neg h1]
      simp only [store]
      by_cases h2 : j = n - len
      · rw [if_pos h2, if_pos (by omega)]
        congr 1
        omega
      · rw [if_neg h2, if_neg (by omega)]

/-- The flush of a linear buffer with a handle: what it returns and what it
leaves, by the number `k` of bytes the handle reports. -/
theorem linearFlush_spec {σ : Type} (command : Nat) (buffer : flxBuffer σ)
    (handle : Nat → (Nat → Nat) → Nat → σ → Int × Nat × σ) (hh : buffer.handle = some handle) :
    (flxLinearFlush command buffer).1 = (handle command buffer.bytes buffer.pos buffer.user).1 ∧
    ((handle command buffer.bytes buffer.pos buffer.user).2.1 = 0 ∨
      buffer.pos < (handle command buffer.bytes buffer.pos buffer.user).2.1 →
      (flxLinearFlush command buffer).2 =
        { buffer with user := (handle command buffer.bytes buffer.pos buffer.user).2.2 }) ∧
    (0 < (handle command buffer.bytes buffer.pos buffer.user).2.1 ∧
      (handle command buffer.bytes buffer.pos buffer.user).2.1 = buffer.pos →
      (flxLinearFlush command buffer).2 =
        { buffer with user := (handle command buffer.bytes buffer.pos buffer.user).2.2,
                      pos := 0 }) ∧
    (0 < (handle command buffer.bytes buffer.pos buffer.user).2.1 ∧
      (handle command buffer.bytes buffer.pos buffer.user).2.1 < buffer.pos →
      (flxLinearFlush command buffer).2 =
        { buffer with user := (handle command buffer.bytes buffer.pos buffer.user).2.2,
                      bytes := flushShift (handle command buffer.bytes buffer.pos buffer.user).2.1
                        (buffer.pos - (handle command buffer.bytes buffer.pos buffer.user).2.1)
                        (handle command buffer.bytes buffer.pos buffer.user).2.1 buffer.bytes,
                      pos := buffer.pos
                        - (handle command buffer.bytes buffer.pos buffer.user).2.1 }) := by
  unfold flxLinearFlush
  rw [hh]
  simp only
  generalize handle command buffer.bytes buffer.pos buffer.user = h
  refine ⟨?_, ?_, ?_, ?_⟩
  · by_cases c1 : h.2.1 > 0
    · rw [if_pos c1]
      by_cases c2 : h.2.1 = buffer.pos
      · rw [if_pos c2]
      · rw [if_neg c2]
        by_cases c3 : h.2.1 > 0 ∧ h.2.1 < buffer.pos
        · rw [if_pos c3]
        · rw [if_neg c3]
    · rw [if_neg c1]
  · intro hk
    by_cases c1 : h.2.1 > 0
    · rw [if_pos c1, if_neg (by omega), if_neg (by omega)]
    · rw [if_neg c1]
  · intro hk
    rw [if_pos hk.1, if_pos hk.2]
  · intro hk
    rw [if_pos hk.1, if_neg (by omega), if_pos ⟨hk.1, hk.2⟩]

/-- C15. Linear FLUSH semantics: without a handle `FLX_BUFFER_FLUSH` returns
`FLX_OK` and changes nothing. With a handle that is given the bytes and the
cursor `pos` and reports `k` consumed bytes, the flush returns the result of the
handle; for `k = 0` cursor and bytes stay, for `k = pos` the cursor becomes `0`,
and for `0 < k < pos` the cursor becomes `pos - k` and the cells `[k, pos)`
are found, in order, in `[0, pos - k)`, the cells from `pos - k` on being
untouched. Only the `user` state of the handle changes besides. -/
theorem linear_flush_semantics {σ : Type} (buffer : flxBuffer σ) (len0 : Nat)
    (bytes0 : Option Nat) :
    (buffer.handle = none →
      (flxLinearBufferAccess FLX_BUFFER_FLUSH buffer len0 bytes0).result = FLX_OK ∧
      (flxLinearBufferAccess FLX_BUFFER_FLUSH buffer len0 bytes0).buffer = buffer) ∧
    (∀ (handle : Nat → (Nat → Nat) → Nat → σ → Int × Nat × σ) (res : Int) (k : Nat) (user1 : σ),
      buffer.handle = some handle →
      handle FLX_BUFFER_FLUSH buffer.bytes buffer.pos buffer.user = (res, k, user1) →
      (flxLinearBufferAccess FLX_BUFFER_FLUSH buffer len0 bytes0).result = res ∧
      (k = 0 → (flxLinearBufferAccess FLX_BUFFER_FLUSH buffer len0 bytes0).buffer
          = { buffer with user := user1 }) ∧
      (k = buffer.pos → (flxLinearBufferAccess FLX_BUFFER_FLUSH buffer len0 bytes0).buffer
          = { buffer with user := user1, pos := 0 }) ∧
      (0 < k ∧ k < buffer.pos →
        (flxLinearBufferAccess FLX_BUFFER_FLUSH buffer len0 bytes0).buffer.pos = buffer.pos - k ∧
        readBytes (flxLinearBufferAccess FLX_BUFFER_FLUSH buffer len0 bytes0).buffer.bytes 0
            (buffer.pos - k) = readBytes buffer.bytes k (buffer.pos - k) ∧
        (∀ j, buffer.pos - k ≤ j →
          (flxLinearBufferAccess FLX_BUFFER_FLUSH buffer len0 bytes0).buffer.bytes j
            = buffer.bytes j) ∧
        (flxLinearBufferAccess FLX_BUFFER_FLUSH buffer len0 bytes0).buffer
          = { buffer with user := user1,
                          bytes := (flxLinearBufferAccess FLX_BUFFER_FLUSH buffer len0
                            bytes0).buffer.bytes,
                          pos := buffer.pos - k })) := by
  have hacc : flxLinearBufferAccess FLX_BUFFER_FLUSH buffer len0 bytes0
      = ⟨(flxLinearFlush FLX_BUFFER_FLUSH buffer).1, (flxLinearFlush FLX_BUFFER_FLUSH buffer).2,
          len0, bytes0⟩ := by
    simp [flxLinearBufferAccess, FLX_BUFFER_FLUSH, FLX_BUFFER_GET, FLX_BUFFER_CLEAR]
  rw [hacc]
  refine ⟨fun hn => ?_, fun handle res k user1 hh hres => ?_⟩
  · simp only [flxLinearFlush, hn]
    exact ⟨trivial, trivial⟩
  · obtain ⟨h1, h2, h3, h4⟩ := linearFlush_spec FLX_BUFFER_FLUSH buffer handle hh
    rw [hres] at h1 h2 h3 h4
    simp only at h1 h2 h3 h4
    refine ⟨h1, fun hk => h2 (Or.inl hk), fun hk => ?_, fun hk => ?_⟩
    · by_cases hz : k = 0
      · rw [h2 (Or.inl hz)]
        have hp : buffer.pos = 0 := by omega
        cases buffer
        simp only at hp
        subst hp
        rfl
      · exact h3 ⟨by omega, hk⟩
    · rw [h4 hk]
      simp only
      refine ⟨trivial, ?_, fun j hj => ?_, trivial⟩
      · apply List.ext_getElem
        · rw [readBytes_length, readBytes_length]
        · intro i hi1 hi2
          rw [readBytes_length] at hi1
          simp only [readBytes, List.getElem_map, List.getElem_range]
          rw [flushShift_apply k _ k buffer.bytes _ (Nat.le_refl k), if_pos (by omega)]
          congr 1
          omega
      · rw [flushShift_apply k _ k buffer.bytes _ (Nat.le_refl k), if_neg (by omega)]

theorem linear_flush_semantics_witness :
    (exBufferFive 2).handle = some (fun _ _ _ _ => (FLX_OK, 2, ())) ∧
    (flxLinearBufferAccess FLX_BUFFER_FLUSH (exBufferFive 2) 0 none).result = FLX_OK ∧
    (flxLinearBufferAccess FLX_BUFFER_FLUSH (exBufferFive 2) 0 none).buffer.pos = 5 - 2 ∧
    readBytes (flxLinearBufferAccess FLX_BUFFER_FLUSH (exBufferFive 2) 0 none).buffer.bytes 0
      (5 - 2) = readBytes (exBufferFive 2).bytes 2 (5 - 2) :=
  ⟨rfl,
    ((linear_flush_semantics (exBufferFive 2) 0 none).2 (fun _ _ _ _ => (FLX_OK, 2, ()))
      FLX_OK 2 () rfl rfl).1,
    (((linear_flush_semantics (exBufferFive 2) 0 none).2 (fun _ _ _ _ => (FLX_OK, 2, ()))
      FLX_OK 2 () rfl rfl).2.2.2 ⟨by decide, by decide⟩).1,
    (((linear_flush_semantics (exBufferFive 2) 0 none).2 (fun _ _ _ _ => (FLX_OK, 2, ()))
      FLX_OK 2 () rfl rfl).2.2.2 ⟨by decide, by decide⟩).2.1⟩


theorem linearFlush_pos_le {σ : Type} (command : Nat) (buffer : flxBuffer σ) :
    (flxLinearFlush command buffer).2.pos ≤ buffer.pos ∧
    (flxLinearFlush command buffer).2.len = buffer.len ∧
    (flxLinearFlush command buffer).2.handle = buffer.handle ∧
    (flxLinearFlush command buffer).2.access = buffer.access := by
  unfold flxLinearFlush
  cases hh : buffer.handle with
  | none => exact ⟨Nat.le_refl _, rfl, hh, rfl⟩
  | some handle =>
    simp only
    generalize handle command buffer.bytes buffer.pos buffer.user = h
    by_cases c1 : h.2.1 > 0
    · rw [if_pos c1]
      by_cases c2 : h.2.1 = buffer.pos
      · rw [if_pos c2]
        exact ⟨Nat.zero_le _, rfl, rfl, rfl⟩
      · rw [if_neg c2]
        by_cases c3 : h.2.1 > 0 ∧ h.2.1 < buffer.pos
        · rw [if_pos c3]
          exact ⟨Nat.sub_le _ _, rfl, rfl, rfl⟩
        · rw [if_neg c3]
          exact ⟨Nat.le_refl _, rfl, rfl, rfl⟩
    · rw [if_neg c1]
      exact ⟨Nat.le_refl _, rfl, rfl, rfl⟩

/-- `case FLX_BUFFER_REQUEST` of the linear buffer, as one equation. -/
theorem linear_request_eq {σ : Type} (buffer : flxBuffer σ) (n : Nat) (bytes0 : Option Nat) :
    flxLinearBufferAccess FLX_BUFFER_REQUEST buffer n bytes0
      = if ((if buffer.handle.isSome ∧ (buffer.pos + n) % 2 ^ 32 > buffer.len then
              (flxLinearFlush FLX_BUFFER_FLUSH buffer).2 else buffer).pos + n) % 2 ^ 32
            ≤ (if buffer.handle.isSome ∧ (buffer.pos + n) % 2 ^ 32 > buffer.len then
              (flxLinearFlush FLX_BUFFER_FLUSH buffer).2 else buffer).len then
          ⟨FLX_OK, if buffer.handle.isSome ∧ (buffer.pos + n) % 2 ^ 32 > buffer.len then
              (flxLinearFlush FLX_BUFFER_FLUSH buffer).2 else buffer, n,
            some (if buffer.handle.isSome ∧ (buffer.pos + n) % 2 ^ 32 > buffer.len then
              (flxLinearFlush FLX_BUFFER_FLUSH buffer).2 else buffer).pos⟩
        else ⟨FLX_ERROR_BUFFER_NOT_AVAIL,
            if buffer.handle.isSome ∧ (buffer.pos + n) % 2 ^ 32 > buffer.len then
              (flxLinearFlush FLX_BUFFER_FLUSH buffer).2 else buffer, n, none⟩ := by
  simp [flxLinearBufferAccess, FLX_BUFFER_REQUEST, FLX_BUFFER_GET, FLX_BUFFER_CLEAR,
    FLX_BUFFER_FLUSH, FLX_BUFFER_DEEPFLUSH]

/-- `case FLX_BUFFER_COMMIT` of the linear buffer, as one equation. -/
theorem linear_commit_eq {σ : Type} (buffer : flxBuffer σ) (m : Nat) (bytes0 : Option Nat) :
    flxLinearBufferAccess FLX_BUFFER_COMMIT buffer m bytes0
      = if (buffer.pos + m) % 2 ^ 32 ≤ buffer.len then
          ⟨FLX_OK, { buffer with pos := (buffer.pos + m) % 2 ^ 32 }, m, bytes0⟩
        else ⟨FLX_ERROR_BUFFER_OVERFLOW, buffer, m, bytes0⟩ := by
  simp [flxLinearBufferAccess, FLX_BUFFER_REQUEST, FLX_BUFFER_GET, FLX_BUFFER_CLEAR,
    FLX_BUFFER_FLUSH, FLX_BUFFER_DEEPFLUSH, FLX_BUFFER_COMMIT, FLX_BUFFER_AVAIL]

/-- C16, amended. Linear REQUEST/COMMIT contract, for requests whose sum with
the cursor does not leave the 32 bit range of `flxbint`. Let `b1` be the buffer
after the one FLUSH that `REQUEST(n)` performs when there is a handle and
`pos + n > len` (else the buffer itself). `REQUEST(n)` leaves `b1`; it returns
`FLX_OK` with the region that starts at the cursor of `b1` when
`b1.pos + n ≤ len`, and `FLX_ERROR_BUFFER_NOT_AVAIL` with the null pointer
otherwise. After the successful `REQUEST(n)` every `COMMIT(m)` with `m ≤ n`
returns `FLX_OK` and advances the cursor by exactly `m`. A `COMMIT(m)` with
`pos + m > len` returns `FLX_ERROR_BUFFER_OVERFLOW` and changes nothing. -/
theorem linear_request_commit {σ : Type} (buffer : flxBuffer σ) (n : Nat) (bytes0 : Option Nat)
    (hn : buffer.pos + n < 2 ^ 32) :
    ∃ b1 : flxBuffer σ,
      b1 = (if buffer.handle.isSome ∧ buffer.pos + n > buffer.len then
        (flxLinearFlush FLX_BUFFER_FLUSH buffer).2 else buffer) ∧
      (flxLinearBufferAccess FLX_BUFFER_REQUEST buffer n bytes0).buffer = b1 ∧
      (b1.pos + n ≤ b1.len →
        (flxLinearBufferAccess FLX_BUFFER_REQUEST buffer n bytes0).result = FLX_OK ∧
        (flxLinearBufferAccess FLX_BUFFER_REQUEST buffer n bytes0).bytes = some b1.pos ∧
        ∀ (m : Nat) (written : Nat → Nat), m ≤ n →
          flxLinearBufferAccess FLX_BUFFER_COMMIT { b1 with bytes := written } m none
            = ⟨FLX_OK, { b1 with bytes := written, pos := b1.pos + m }, m, none⟩) ∧
      (¬ b1.pos + n ≤ b1.len →
        (flxLinearBufferAccess FLX_BUFFER_REQUEST buffer n bytes0).result
          = FLX_ERROR_BUFFER_NOT_AVAIL ∧
        (flxLinearBufferAccess FLX_BUFFER_REQUEST buffer n bytes0).bytes = none) ∧
      (∀ m : Nat, buffer.pos + m < 2 ^ 32 → buffer.pos + m > buffer.len →
        flxLinearBufferAccess FLX_BUFFER_COMMIT buffer m bytes0
          = ⟨FLX_ERROR_BUFFER_OVERFLOW, buffer, m, bytes0⟩) := by
  have hmod : (buffer.pos + n) % 2 ^ 32 = buffer.pos + n := Nat.mod_eq_of_lt hn
  refine ⟨_, rfl, ?_, ?_, ?_, ?_⟩
  · rw [linear_request_eq, hmod]
    generalize (if buffer.handle.isSome ∧ buffer.pos + n > buffer.len then
        (flxLinearFlush FLX_BUFFER_FLUSH buffer).2 else buffer) = b1
    split <;> rfl
  · intro hfit
    have hpos : (if buffer.handle.isSome ∧ buffer.pos + n > buffer.len then
        (flxLinearFlush FLX_BUFFER_FLUSH buffer).2 else buffer).pos ≤ buffer.pos := by
      split
      · exact (linearFlush_pos_le FLX_BUFFER_FLUSH buffer).1
      · exact Nat.le_refl _
    rw [linear_request_eq, hmod]
    rw [if_pos (by rw [Nat.mod_eq_of_lt (by omega)]; exact hfit)]
    refine ⟨rfl, rfl, fun m written hm => ?_⟩
    rw [linear_commit_eq]
    simp only
    rw [Nat.mod_eq_of_lt (by omega), if_pos (by omega)]
  · intro hfit
    have hpos : (if buffer.handle.isSome ∧ buffer.pos + n > buffer.len then
        (flxLinearFlush FLX_BUFFER_FLUSH buffer).2 else buffer).pos ≤ buffer.pos := by
      split
      · exact (linearFlush_pos_le FLX_BUFFER_FLUSH buffer).1
      · exact Nat.le_refl _
    rw [linear_request_eq, hmod]
    rw [if_neg (by rw [Nat.mod_eq_of_lt (by omega)]; exact hfit)]
    exact ⟨rfl, rfl⟩
  · intro m hm hgt
    rw [linear_commit_eq, Nat.mod_eq_of_lt hm, if_neg (by omega)]

theorem linear_request_commit_witness :
    (exBufferFive 2).pos + 12 < 2 ^ 32 ∧
    (flxLinearBufferAccess FLX_BUFFER_REQUEST (exBufferFive 2) 12 none).result = FLX_OK ∧
    (flxLinearBufferAccess FLX_BUFFER_REQUEST (exBufferFive 2) 12 none).bytes = some 3 := by
  obtain ⟨b1, hb1, _, hok, _, _⟩ := linear_request_commit (exBufferFive 2) 12 none (by decide)
  have hp : b1.pos = 3 := by rw [hb1]; decide
  have hl : b1.len = 16 := by rw [hb1]; decide
  have h := hok (by rw [hp, hl]; decide)
  exact ⟨by decide, h.1, by rw [h.2.1, hp]⟩

/-- Counterexample to C16 as stated: on a buffer of 16 bytes with the cursor at
5, whose handle takes nothing, `REQUEST(2 ^ 32 - 4)` returns `FLX_OK` with the
region at the cursor, although `pos + n > len`: the sums are 32 bit sums. -/
theorem linear_request_commit_counterexample :
    (flxLinearBufferAccess FLX_BUFFER_REQUEST (exBufferFive 0) (2 ^ 32 - 4) none).result = FLX_OK ∧
    (flxLinearBufferAccess FLX_BUFFER_REQUEST (exBufferFive 0) (2 ^ 32 - 4) none).bytes = some 5 ∧
    (flxLinearFlush FLX_BUFFER_FLUSH (exBufferFive 0)).2.pos = 5 ∧
    ¬ ((exBufferFive 0).pos + (2 ^ 32 - 4) ≤ (exBufferFive 0).len) := by
  refine ⟨by decide, by decide, by decide, by decide⟩


/-! ### The entry template -/

theorem ite_request_fail {σ : Type} (c : Prop) [Decidable c] (b b1 : flxBuffer σ) (n n1 : Nat)
    (x : Option Nat)
    (h : (if c then (⟨FLX_OK, b, n, x⟩ : flxAccessOut σ)
      else ⟨FLX_ERROR_BUFFER_NOT_AVAIL, b1, n1, none⟩).result ≠ FLX_OK) :
    (if c then (⟨FLX_OK, b, n, x⟩ : flxAccessOut σ)
      else ⟨FLX_ERROR_BUFFER_NOT_AVAIL, b1, n1, none⟩).result = FLX_ERROR_BUFFER_NOT_AVAIL ∧
    (if c then (⟨FLX_OK, b, n, x⟩ : flxAccessOut σ)
      else ⟨FLX_ERROR_BUFFER_NOT_AVAIL, b1, n1, none⟩).bytes = none := by
  by_cases hc : c
  · rw [if_pos hc] at h
    exact absurd rfl h
  · rw [if_neg hc]
    exact ⟨rfl, rfl⟩

/-- A `REQUEST` that does not return `FLX_OK` returns
`FLX_ERROR_BUFFER_NOT_AVAIL` and the null pointer, for each of the three access
functions of the library. -/
theorem request_fail_code {σ : Type} (buffer : flxBuffer σ) (n : Nat) (bytes0 : Option Nat)
    (h : (buffer.call FLX_BUFFER_REQUEST n bytes0).result ≠ FLX_OK) :
    (buffer.call FLX_BUFFER_REQUEST n bytes0).result = FLX_ERROR_BUFFER_NOT_AVAIL ∧
    (buffer.call FLX_BUFFER_REQUEST n bytes0).bytes = none := by
  unfold flxBuffer.call at h ⊢
  cases hacc : buffer.access with
  | simple =>
    rw [hacc] at h
    simp only [flxSimpleBufferAccess] at h ⊢
    rw [linear_request_eq] at h ⊢
    exact ite_request_fail _ _ _ _ _ _ h
  | linear =>
    rw [hacc] at h
    simp only at h ⊢
    rw [linear_request_eq] at h ⊢
    exact ite_request_fail _ _ _ _ _ _ h
  | ring =>
    rw [hacc] at h
    have hr : flxRingBufferAccess FLX_BUFFER_REQUEST buffer n bytes0 = flxRingRequest buffer n := by
      simp [flxRingBufferAccess, FLX_BUFFER_REQUEST, FLX_BUFFER_GET, FLX_BUFFER_CLEAR]
    simp only at h ⊢
    rw [hr] at h ⊢
    unfold flxRingRequest at h ⊢
    by_cases c1 : buffer.first = 2 ^ 32 - 1
    · rw [if_pos c1] at h ⊢
      exact ite_request_fail _ _ _ _ _ _ h
    · rw [if_neg c1] at h ⊢
      by_cases c2 : (buffer.rpos + n) % 2 ^ 32 ≤ buffer.rlen
      · rw [if_pos c2] at h
        exact absurd rfl h
      · rw [if_neg c2] at h ⊢
        exact ite_request_fail _ _ _ _ _ _ h

/-- With a failing `REQUEST` the template returns at once: the result is the
code of the `REQUEST`, the buffer is the one the `REQUEST` left, and the body is
not run. -/
theorem flxEntry_fail {σ : Type} (buffer : flxBuffer σ) (request : Nat)
    (body : List ((Nat → Nat) → Nat → (Nat → Nat) × Nat))
    (h : (buffer.call FLX_BUFFER_REQUEST (request % 2 ^ 32) none).result ≠ FLX_OK) :
    flxEntry buffer request body
      = ((buffer.call FLX_BUFFER_REQUEST (request % 2 ^ 32) none).result,
         (buffer.call FLX_BUFFER_REQUEST (request % 2 ^ 32) none).buffer) := by
  unfold flxEntry
  simp only
  rw [if_neg h, (request_fail_code buffer _ none h).1]

/-- What a flush leaves committed is an end piece of what was committed. -/
theorem linearFlush_suffix {σ : Type} (command : Nat) (buffer : flxBuffer σ) :
    ∃ k, k ≤ buffer.pos ∧ (flxLinearFlush command buffer).2.pos = buffer.pos - k ∧
      readBytes (flxLinearFlush command buffer).2.bytes 0 (buffer.pos - k)
        = readBytes buffer.bytes k (buffer.pos - k) := by
  cases hh : buffer.handle with
  | none =>
    refine ⟨0, Nat.zero_le _, ?_, ?_⟩
    · simp only [flxLinearFlush, hh, Nat.sub_zero]
    · simp only [flxLinearFlush, hh, Nat.sub_zero]
  | some handle =>
    obtain ⟨_, h2, h3, h4⟩ := linearFlush_spec command buffer handle hh
    by_cases c1 : (handle command buffer.bytes buffer.pos buffer.user).2.1 = 0 ∨
        buffer.pos < (handle command buffer.bytes buffer.pos buffer.user).2.1
    · refine ⟨0, Nat.zero_le _, ?_, ?_⟩
      · rw [h2 c1]
        rfl
      · rw [h2 c1]
    · by_cases c2 : (handle command buffer.bytes buffer.pos buffer.user).2.1 = buffer.pos
      · refine ⟨buffer.pos, Nat.le_refl _, ?_, ?_⟩
        · rw [h3 ⟨by omega, c2⟩]
          simp
        · simp [readBytes]
      · have c3 : 0 < (handle command buffer.bytes buffer.pos buffer.user).2.1 ∧
            (handle command buffer.bytes buffer.pos buffer.user).2.1 < buffer.pos := by omega
        refine ⟨(handle command buffer.bytes buffer.pos buffer.user).2.1, by omega, ?_, ?_⟩
        · rw [h4 c3]
        · rw [h4 c3]
          simp only
          apply List.ext_getElem
          · rw [readBytes_length, readBytes_length]
          · intro i hi1 hi2
            rw [readBytes_length] at hi1
            simp only [readBytes, List.getElem_map, List.getElem_range]
            rw [flushShift_apply _ _ _ buffer.bytes _ (Nat.le_refl _), if_pos (by omega)]
            congr 1
            omega

/-- The buffer a linear or simple `REQUEST` leaves: the buffer itself or the
buffer after one flush. -/
theorem request_buffer_linear {σ : Type} (buffer : flxBuffer σ) (n : Nat) (bytes0 : Option Nat)
    (hacc : buffer.access ≠ flxBufferAccess.ring) :
    (buffer.call FLX_BUFFER_REQUEST n bytes0).buffer = buffer ∨
    (buffer.call FLX_BUFFER_REQUEST n bytes0).buffer = (flxLinearFlush FLX_BUFFER_FLUSH buffer).2 := by
  have hcall : buffer.call FLX_BUFFER_REQUEST n bytes0
      = flxLinearBufferAccess FLX_BUFFER_REQUEST buffer n bytes0 := by
    unfold flxBuffer.call
    cases h : buffer.access with
    | simple => rfl
    | linear => rfl
    | ring => exact absurd h hacc
  rw [hcall, linear_request_eq]
  by_cases c : buffer.handle.isSome ∧ (buffer.pos + n) % 2 ^ 32 > buffer.len
  · right
    rw [if_pos c]
    split <;> rfl
  · left
    rw [if_neg c]
    split <;> rfl

/-- C17. Failed entry writes are atomic. Every entry writer of `flux.c` is the
template `flxEntry` with its own request size and body (the data entry writers
after their argument checks). When the `REQUEST` of the buffer fails, the
writer returns the code of the `REQUEST`, which is
`FLX_ERROR_BUFFER_NOT_AVAIL`, and the buffer is as the `REQUEST` left it: the
body is not run and no `COMMIT` is made, whatever the body is. For a linear or
simple buffer the `REQUEST` called the handle at most once, in a flush of the
committed bytes, and what is committed afterwards is an end piece of what was
committed before. Instances: `flxWriteHeadEntry` and `flxWriteIntDataEntry`. -/
theorem entry_write_fails_atomically {σ : Type} (buffer : flxBuffer σ) (request : Nat)
    (body : List ((Nat → Nat) → Nat → (Nat → Nat) × Nat))
    (h : (buffer.call FLX_BUFFER_REQUEST (request % 2 ^ 32) none).result ≠ FLX_OK) :
    flxEntry buffer request body
      = ((buffer.call FLX_BUFFER_REQUEST (request % 2 ^ 32) none).result,
         (buffer.call FLX_BUFFER_REQUEST (request % 2 ^ 32) none).buffer) ∧
    (buffer.call FLX_BUFFER_REQUEST (request % 2 ^ 32) none).result
      = FLX_ERROR_BUFFER_NOT_AVAIL ∧
    (buffer.access ≠ flxBufferAccess.ring →
      ((buffer.call FLX_BUFFER_REQUEST (request % 2 ^ 32) none).buffer = buffer ∨
        (buffer.call FLX_BUFFER_REQUEST (request % 2 ^ 32) none).buffer
          = (flxLinearFlush FLX_BUFFER_FLUSH buffer).2) ∧
      ∃ k, k ≤ buffer.pos ∧
        (buffer.call FLX_BUFFER_REQUEST (request % 2 ^ 32) none).buffer.pos = buffer.pos - k ∧
        readBytes (buffer.call FLX_BUFFER_REQUEST (request % 2 ^ 32) none).buffer.bytes 0
            (buffer.pos - k) = readBytes buffer.bytes k (buffer.pos - k)) ∧
    (∀ (itemId conflict delta : Nat) (value : Nat → Nat) (size signd : Nat), itemId ≠ 0 →
      request = REQ1_flxid + REQ1_flxdelta + 2 + size →
      flxWriteIntDataEntry buffer itemId conflict delta value size signd
        = (FLX_ERROR_BUFFER_NOT_AVAIL,
           (buffer.call FLX_BUFFER_REQUEST (request % 2 ^ 32) none).buffer)) ∧
    (∀ (format4 : flxtext) (traceId : Nat) (name description : flxtext)
      (mode maxItemId maxEntrySize : Nat),
      request = 6 + REQ1_flxid * 2 + REQ1_flxbint + _textlen name true
        + _textlen description true →
      flxWriteHeadEntry buffer format4 traceId name description mode maxItemId maxEntrySize
        = some (FLX_ERROR_BUFFER_NOT_AVAIL,
           (buffer.call FLX_BUFFER_REQUEST (request % 2 ^ 32) none).buffer)) := by
  have hcode := (request_fail_code buffer (request % 2 ^ 32) none h).1
  have hfail : ∀ body1 : List ((Nat → Nat) → Nat → (Nat → Nat) × Nat),
      flxEntry buffer request body1
        = (FLX_ERROR_BUFFER_NOT_AVAIL,
           (buffer.call FLX_BUFFER_REQUEST (request % 2 ^ 32) none).buffer) := by
    intro body1
    rw [flxEntry_fail buffer request body1 h, hcode]
  refine ⟨flxEntry_fail buffer request body h, hcode, fun hacc => ⟨?_, ?_⟩, ?_, ?_⟩
  · exact request_buffer_linear buffer _ none hacc
  · rcases request_buffer_linear buffer (request % 2 ^ 32) none hacc with e | e
    · rw [e]
      exact ⟨0, Nat.zero_le _, rfl, rfl⟩
    · rw [e]
      exact linearFlush_suffix FLX_BUFFER_FLUSH buffer
  · intro itemId conflict delta value size signd hid hreq
    unfold flxWriteIntDataEntry
    rw [if_neg hid, ← hreq]
    exact hfail _
  · intro format4 traceId name description mode maxItemId maxEntrySize hreq
    unfold flxWriteHeadEntry
    simp only
    rw [← hreq, if_neg (fun hc => h hc.1)]
    rw [hfail _]

theorem entry_write_fails_atomically_witness :
    ((exBufferFive 0).call FLX_BUFFER_REQUEST
      ((REQ1_flxid + REQ1_flxdelta + 2 + 8) % 2 ^ 32) none).result ≠ FLX_OK ∧
    (flxWriteIntDataEntry (exBufferFive 0) 1 0 0 (fun _ => 0xff) 8 0).1
      = FLX_ERROR_BUFFER_NOT_AVAIL ∧
    (flxWriteIntDataEntry (exBufferFive 0) 1 0 0 (fun _ => 0xff) 8 0).2.pos = 5 := by
  have h := entry_write_fails_atomically (exBufferFive 0) (REQ1_flxid + REQ1_flxdelta + 2 + 8)
    [] (by decide)
  have h4 := h.2.2.2.1 1 0 0 (fun _ => 0xff) 8 0 (by decide) rfl
  rw [h4]
  exact ⟨by decide, rfl, by decide⟩


/-- `COMMIT` of any of the three access functions leaves the cells from the
granted region on (`p` is the offset a successful `REQUEST` returned). -/
theorem commit_bytes_above {σ : Type} (buffer : flxBuffer σ) (m : Nat) (p : Nat)
    (hp : buffer.access = flxBufferAccess.ring → buffer.first ≠ 2 ^ 32 - 1 →
      buffer.current + SECTION_HEADER_SIZE ≤ p) :
    ∀ j, p ≤ j → (buffer.call FLX_BUFFER_COMMIT m none).buffer.bytes j = buffer.bytes j := by
  intro j hj
  unfold flxBuffer.call
  cases hacc : buffer.access with
  | simple =>
    simp only [flxSimpleBufferAccess]
    rw [linear_commit_eq]
    split <;> rfl
  | linear =>
    simp only
    rw [linear_commit_eq]
    split <;> rfl
  | ring =>
    have hr : flxRingBufferAccess FLX_BUFFER_COMMIT buffer m none
        = (if buffer.first = 2 ^ 32 - 1 then
            if (buffer.pos + m) % 2 ^ 32 ≤ buffer.len then
              ⟨FLX_OK, { buffer with pos := (buffer.pos + m) % 2 ^ 32 }, m, none⟩
            else ⟨FLX_ERROR_BUFFER_OVERFLOW, buffer, m, none⟩
          else if (buffer.rpos + m) % 2 ^ 32 ≤ buffer.rlen then
            ⟨FLX_OK, { buffer with
                rpos := (buffer.rpos + m) % 2 ^ 32
                bytes := store (store buffer.bytes (buffer.current + 5)
                  (((buffer.rpos + m) % 2 ^ 32) &&& 0xff))
                  (buffer.current + 6) ((((buffer.rpos + m) % 2 ^ 32) >>> 8) &&& 0xff) }, m, none⟩
          else ⟨FLX_ERROR_BUFFER_OVERFLOW, buffer, m, none⟩) := by
      simp [flxRingBufferAccess, FLX_BUFFER_REQUEST, FLX_BUFFER_GET, FLX_BUFFER_CLEAR,
        FLX_BUFFER_COMMIT, FLX_BUFFER_AVAIL]
    simp only
    rw [hr]
    by_cases c1 : buffer.first = 2 ^ 32 - 1
    · rw [if_pos c1]
      split <;> rfl
    · rw [if_neg c1]
      have hcur := hp hacc c1
      simp only [SECTION_HEADER_SIZE] at hcur
      by_cases c2 : (buffer.rpos + m) % 2 ^ 32 ≤ buffer.rlen
      · rw [if_pos c2]
        simp only [store]
        rw [if_neg (by omega), if_neg (by omega)]
      · rw [if_neg c2]

theorem ite_region {σ : Type} (c : Prop) [Decidable c] (A B : flxAccessOut σ) (p : Nat)
    (hA : c → A.bytes = some p → A.buffer.first ≠ 2 ^ 32 - 1 →
      A.buffer.current + SECTION_HEADER_SIZE ≤ p)
    (hB : ¬ c → B.bytes = some p → B.buffer.first ≠ 2 ^ 32 - 1 →
      B.buffer.current + SECTION_HEADER_SIZE ≤ p) :
    (if c then A else B).bytes = some p → (if c then A else B).buffer.first ≠ 2 ^ 32 - 1 →
      (if c then A else B).buffer.current + SECTION_HEADER_SIZE ≤ p := by
  by_cases hc : c
  · rw [if_pos hc]; exact hA hc
  · rw [if_neg hc]; exact hB hc

theorem region_some {σ : Type} (res : Int) (b : flxBuffer σ) (n p : Nat) :
    (⟨res, b, n, some (b.current + SECTION_HEADER_SIZE + b.rpos)⟩ : flxAccessOut σ).bytes
      = some p →
    (⟨res, b, n, some (b.current + SECTION_HEADER_SIZE + b.rpos)⟩ : flxAccessOut σ).buffer.first
      ≠ 2 ^ 32 - 1 →
    (⟨res, b, n, some (b.current + SECTION_HEADER_SIZE + b.rpos)⟩ : flxAccessOut σ).buffer.current
      + SECTION_HEADER_SIZE ≤ p := by
  intro h _
  simp only [Option.some.injEq] at h
  simp only
  omega

theorem ringRequest_region {σ : Type} (buffer : flxBuffer σ) (n p : Nat) :
    (flxRingRequest buffer n).bytes = some p →
      (flxRingRequest buffer n).buffer.first ≠ 2 ^ 32 - 1 →
      (flxRingRequest buffer n).buffer.current + SECTION_HEADER_SIZE ≤ p := by
  unfold flxRingRequest
  apply ite_region
  · intro c1
    apply ite_region
    · intro _ _ hf; exact absurd c1 hf
    · intro _ h; simp at h
  · intro _
    apply ite_region
    · intro _; exact region_some _ _ _ _
    · intro _
      apply ite_region
      · intro _; exact region_some _ _ _ _
      · intro _ h; simp at h

theorem call_linear {σ : Type} (buffer : flxBuffer σ) (command n : Nat) (bytes0 : Option Nat)
    (hacc : buffer.access ≠ flxBufferAccess.ring) :
    buffer.call command n bytes0 = flxLinearBufferAccess command buffer n bytes0 := by
  unfold flxBuffer.call
  cases h : buffer.access with
  | simple => rfl
  | linear => rfl
  | ring => exact absurd h hacc

theorem ite_out {σ : Type} (P : flxAccessOut σ → Prop) (c : Prop) [Decidable c]
    (A B : flxAccessOut σ) (hA : c → P A) (hB : ¬ c → P B) : P (if c then A else B) := by
  by_cases hc : c
  · rw [if_pos hc]; exact hA hc
  · rw [if_neg hc]; exact hB hc

theorem not_avail_ne_ok : FLX_ERROR_BUFFER_NOT_AVAIL ≠ FLX_OK := by decide

theorem ringRequest_ok {σ : Type} (buffer : flxBuffer σ) (n : Nat) :
    (flxRingRequest buffer n).result = FLX_OK →
      ∃ p, (flxRingRequest buffer n).bytes = some p ∧
        (flxRingRequest buffer n).buffer.access = buffer.access := by
  unfold flxRingRequest
  refine ite_out (fun out => out.result = FLX_OK →
    ∃ p, out.bytes = some p ∧ out.buffer.access = buffer.access) _ _ _ (fun _ => ?_) (fun _ => ?_)
  · refine ite_out (fun out => out.result = FLX_OK →
      ∃ p, out.bytes = some p ∧ out.buffer.access = buffer.access) _ _ _ (fun _ => ?_)
      (fun _ => ?_)
    · intro _; exact ⟨_, rfl, rfl⟩
    · intro h; exact absurd h not_avail_ne_ok
  · refine ite_out (fun out => out.result = FLX_OK →
      ∃ p, out.bytes = some p ∧ out.buffer.access = buffer.access) _ _ _ (fun _ => ?_)
      (fun _ => ?_)
    · intro _; exact ⟨_, rfl, rfl⟩
    · refine ite_out (fun out => out.result = FLX_OK →
        ∃ p, out.bytes = some p ∧ out.buffer.access = buffer.access) _ _ _ (fun _ => ?_)
        (fun _ => ?_)
      · intro _; exact ⟨_, rfl, rfl⟩
      · intro h; exact absurd h not_avail_ne_ok

/-- A successful `REQUEST` returns a region; for a linear or simple buffer it
starts at the cursor. -/
theorem request_ok_region {σ : Type} (buffer : flxBuffer σ) (n : Nat)
    (hok : (buffer.call FLX_BUFFER_REQUEST n none).result = FLX_OK) :
    ∃ p, (buffer.call FLX_BUFFER_REQUEST n none).bytes = some p ∧
      (buffer.access ≠ flxBufferAccess.ring →
        p = (buffer.call FLX_BUFFER_REQUEST n none).buffer.pos) ∧
      ((buffer.call FLX_BUFFER_REQUEST n none).buffer.access = flxBufferAccess.ring →
        (buffer.call FLX_BUFFER_REQUEST n none).buffer.first ≠ 2 ^ 32 - 1 →
        (buffer.call FLX_BUFFER_REQUEST n none).buffer.current + SECTION_HEADER_SIZE ≤ p) ∧
      (buffer.call FLX_BUFFER_REQUEST n none).buffer.access = buffer.access := by
  by_cases hacc : buffer.access = flxBufferAccess.ring
  · have hcall : buffer.call FLX_BUFFER_REQUEST n none = flxRingRequest buffer n := by
      unfold flxBuffer.call
      rw [hacc]
      simp [flxRingBufferAccess, FLX_BUFFER_REQUEST, FLX_BUFFER_GET, FLX_BUFFER_CLEAR]
    rw [hcall] at hok ⊢
    obtain ⟨p, hp, ha⟩ := ringRequest_ok buffer n hok
    exact ⟨p, hp, fun h => absurd hacc h, fun _ hf => ringRequest_region buffer n p hp hf, ha⟩
  · rw [call_linear buffer _ _ _ hacc] at hok ⊢
    rw [linear_request_eq] at hok ⊢
    have hb1 : (if buffer.handle.isSome ∧ (buffer.pos + n) % 2 ^ 32 > buffer.len then
        (flxLinearFlush FLX_BUFFER_FLUSH buffer).2 else buffer).access = buffer.access := by
      split
      · exact (linearFlush_pos_le FLX_BUFFER_FLUSH buffer).2.2.2
      · rfl
    generalize (if buffer.handle.isSome ∧ (buffer.pos + n) % 2 ^ 32 > buffer.len then
        (flxLinearFlush FLX_BUFFER_FLUSH buffer).2 else buffer) = b1 at hok hb1 ⊢
    by_cases c : (b1.pos + n) % 2 ^ 32 ≤ b1.len
    · rw [if_pos c]
      exact ⟨_, rfl, fun _ => rfl, fun h => absurd (hb1.symm.trans h) hacc, hb1⟩
    · rw [if_neg c] at hok
      exact absurd hok not_avail_ne_ok

/-- A template run that returns `FLX_OK`: the `REQUEST` succeeded with a region
at `p`, the cells from `p` on are as the body left them, and for a linear or
simple buffer the region starts at the cursor, which the `COMMIT` moved by the
number of bytes the body wrote. -/
theorem flxEntry_ok {σ : Type} (buffer b1 : flxBuffer σ) (request : Nat)
    (body : List ((Nat → Nat) → Nat → (Nat → Nat) × Nat))
    (h : flxEntry buffer request body = (FLX_OK, b1)) :
    (buffer.call FLX_BUFFER_REQUEST (request % 2 ^ 32) none).result = FLX_OK ∧
    ∃ p, (buffer.call FLX_BUFFER_REQUEST (request % 2 ^ 32) none).bytes = some p ∧
      (∀ j, p ≤ j → b1.bytes j
        = (writeSeq body (buffer.call FLX_BUFFER_REQUEST (request % 2 ^ 32) none).buffer.bytes
            p).1 j) ∧
      (buffer.access ≠ flxBufferAccess.ring →
        p = (buffer.call FLX_BUFFER_REQUEST (request % 2 ^ 32) none).buffer.pos ∧
        b1 = { (buffer.call FLX_BUFFER_REQUEST (request % 2 ^ 32) none).buffer with
          bytes := (writeSeq body
            (buffer.call FLX_BUFFER_REQUEST (request % 2 ^ 32) none).buffer.bytes p).1,
          pos := (p + (writeSeq body
            (buffer.call FLX_BUFFER_REQUEST (request % 2 ^ 32) none).buffer.bytes p).2)
              % 2 ^ 32 } ∧
        (p + (writeSeq body
            (buffer.call FLX_BUFFER_REQUEST (request % 2 ^ 32) none).buffer.bytes p).2) % 2 ^ 32
          ≤ buffer.len) := by
  unfold flxEntry at h
  simp only at h
  have hreg := request_ok_region buffer (request % 2 ^ 32)
  have hlen : buffer.access ≠ flxBufferAccess.ring →
      (buffer.call FLX_BUFFER_REQUEST (request % 2 ^ 32) none).buffer.len = buffer.len := by
    intro hnr
    rcases request_buffer_linear buffer (request % 2 ^ 32) none hnr with e | e
    · rw [e]
    · rw [e]; exact (linearFlush_pos_le FLX_BUFFER_FLUSH buffer).2.1
  generalize buffer.call FLX_BUFFER_REQUEST (request % 2 ^ 32) none = r at h hreg hlen ⊢
  by_cases hok : r.result = FLX_OK
  · rw [if_pos hok] at h
    obtain ⟨p, hp, hlin, hring, hacc⟩ := hreg hok
    rw [hp] at h
    simp only [Option.getD_some, Prod.mk.injEq] at h
    obtain ⟨w, hw⟩ : ∃ w, writeSeq body r.buffer.bytes p = w := ⟨_, rfl⟩
    rw [hw] at h
    refine ⟨hok, p, hp, ?_, ?_⟩
    · intro j hj
      rw [hw, ← h.2]
      exact commit_bytes_above { r.buffer with bytes := w.1 } w.2 p
        (fun ha hf => hring ha hf) j hj
    · intro hnr
      rw [hw]
      have hp1 := hlin hnr
      have hnr1 : ({ r.buffer with bytes := w.1 } : flxBuffer σ).access
          ≠ flxBufferAccess.ring := by
        show r.buffer.access ≠ flxBufferAccess.ring
        rw [hacc]
        exact hnr
      rw [call_linear { r.buffer with bytes := w.1 } _ _ _ hnr1, linear_commit_eq] at h
      have hl := hlen hnr
      have hh : (if (p + w.2) % 2 ^ 32 ≤ buffer.len then
            (⟨FLX_OK, { r.buffer with bytes := w.1, pos := (p + w.2) % 2 ^ 32 }, w.2, none⟩
              : flxAccessOut σ)
          else ⟨FLX_ERROR_BUFFER_OVERFLOW, { r.buffer with bytes := w.1 }, w.2, none⟩).result
            = FLX_OK ∧
          (if (p + w.2) % 2 ^ 32 ≤ buffer.len then
            (⟨FLX_OK, { r.buffer with bytes := w.1, pos := (p + w.2) % 2 ^ 32 }, w.2, none⟩
              : flxAccessOut σ)
          else ⟨FLX_ERROR_BUFFER_OVERFLOW, { r.buffer with bytes := w.1 }, w.2, none⟩).buffer
            = b1 := by
        rw [hp1, ← hl]
        exact h
      by_cases c : (p + w.2) % 2 ^ 32 ≤ buffer.len
      · rw [if_pos c] at hh
        exact ⟨hp1, hh.2.symm, c⟩
      · rw [if_neg c] at hh
        exact absurd hh.1 (show FLX_ERROR_BUFFER_OVERFLOW ≠ FLX_OK by decide)
  · rw [if_neg hok] at h
    simp only [Prod.mk.injEq] at h
    exact absurd h.1 not_avail_ne_ok

/-! ### Data samples -/

theorem data_tag_lt (itemId conflict delta : Nat) :
    (((itemId <<< 3) % 2 ^ 32) ||| (if conflict ≠ 0 then 1 else 0))
      ||| (if delta ≠ 0 then 2 else 0) < 2 ^ 32 := by
  apply Nat.or_lt_two_pow
  · apply Nat.or_lt_two_pow
    · exact Nat.mod_lt _ (by norm_num)
    · split <;> norm_num
  · split <;> norm_num

theorem data_tag_value (itemId conflict delta : Nat) (hid : itemId < 2 ^ 29) :
    (((itemId <<< 3) % 2 ^ 32) ||| (if conflict ≠ 0 then 1 else 0))
      ||| (if delta ≠ 0 then 2 else 0)
      = 8 * itemId + (if conflict ≠ 0 then 1 else 0) + (if delta ≠ 0 then 2 else 0) := by
  have h1 : (itemId <<< 3) % 2 ^ 32 = 2 ^ 3 * itemId := by
    rw [Nat.shiftLeft_eq, Nat.mod_eq_of_lt (by omega), Nat.mul_comm]
  have h2 : (if conflict ≠ 0 then 1 else 0) ||| (if delta ≠ 0 then 2 else 0)
      = (if conflict ≠ 0 then 1 else 0) + (if delta ≠ 0 then 2 else 0) := by
    by_cases c1 : conflict = 0 <;> by_cases c2 : delta = 0 <;> simp [c1, c2]
  have h3 : (if conflict ≠ 0 then 1 else 0) + (if delta ≠ 0 then 2 else 0) < 2 ^ 3 := by
    by_cases c1 : conflict = 0 <;> by_cases c2 : delta = 0 <;> simp [c1, c2]
  rw [h1, Nat.or_assoc, h2, ← Nat.mul_add_lt_is_or h3]
  norm_num
  omega

theorem emits_single (f : (Nat → Nat) → Nat → (Nat → Nat) × Nat) (l : List Nat)
    (hf : Emits f l) : Emits (writeSeq [f]) l := by
  have h := emits_cons f [] l [] hf emits_nil
  rw [List.append_nil] at h
  exact h

theorem emits_dataHead (itemId conflict delta : Nat) (hd : delta < 2 ^ 32) :
    Emits (writeSeq (dataHead itemId conflict delta)) (dataHeadBytes itemId conflict delta) := by
  unfold dataHead dataHeadBytes
  apply emits_append
  · exact emits_single _ _ (emits_pluswrite _ (data_tag_lt itemId conflict delta))
  · by_cases c : delta ≠ 0
    · rw [if_pos c, if_pos c]
      exact emits_single _ _ (emits_deltawrite delta hd)
    · rw [if_neg c, if_neg c]
      exact emits_nil

theorem logicstates_data_frame (per bits fill : Nat) (value : Nat → Nat) (start pos : Nat) :
    ∀ (k : Nat) (t : Int) (bytes : Nat → Nat) (written j : Nat), j < pos + written →
      (_logicstates_data per bits fill value start pos k t bytes written).1 j = bytes j := by
  intro k
  induction k with
  | zero => intro t bytes written j _; rfl
  | succ k ih =>
    intro t bytes written j hj
    simp only [_logicstates_data]
    rw [ih _ _ _ j (by omega)]
    simp only [store]
    rw [if_neg (by omega)]

theorem ite_frame (c : Prop) [Decidable c] (A B : (Nat → Nat) × Nat) (bytes : Nat → Nat)
    (j : Nat) (hA : A.1 j = bytes j) (hB : B.1 j = bytes j) :
    (if c then A else B).1 j = bytes j := by
  by_cases hc : c
  · rw [if_pos hc]; exact hA
  · rw [if_neg hc]; exact hB

theorem logicstateswrite_frame (stateLevel p : Nat) (value : Nat → Nat) (size : Nat)
    (bytes : Nat → Nat) (pos j : Nat) (hj : j < pos) :
    (_logicstateswrite stateLevel p value size bytes pos).1 j = bytes j := by
  unfold _logicstateswrite
  have hdata : ∀ (per bits fill start k : Nat) (t : Int) (v : Nat),
      (_logicstates_data per bits fill value start pos k t (_pluswrite v bytes pos).1
        (_pluswrite v bytes pos).2).1 j = bytes j := by
    intro per bits fill start k t v
    rw [logicstates_data_frame _ _ _ _ _ _ _ _ _ _ j (by omega)]
    exact pluswrite_loop_frame 5 _ bytes pos 1 j hj
  have hplus : ∀ v, (_pluswrite v bytes pos).1 j = bytes j :=
    fun v => pluswrite_loop_frame 5 v bytes pos 1 j hj
  refine ite_frame _ _ _ _ _ (hplus _) (ite_frame _ _ _ _ _ (hplus _) ?_)
  exact ite_frame _ _ _ _ _ (hdata _ _ _ _ _ _ _)
    (ite_frame _ _ _ _ _ (hdata _ _ _ _ _ _ _)
      (ite_frame _ _ _ _ _ (hdata _ _ _ _ _ _ _) (hplus _)))

theorem intwrite_frame (value : Nat → Nat) (size signd szDf : Nat) (bytes : Nat → Nat)
    (pos j : Nat) (hj : j < pos) :
    (_intwrite value size signd szDf bytes pos).1 j = bytes j := by
  unfold _intwrite
  simp only
  rw [arraycopy_apply, if_neg (by omega)]
  unfold szDfwrite
  split
  · exact pluswrite_loop_frame 5 _ bytes pos 1 j hj
  · rfl

theorem writeSeq_single_frame (f : (Nat → Nat) → Nat → (Nat → Nat) × Nat)
    (hf : ∀ bytes pos j, j < pos → (f bytes pos).1 j = bytes j) :
    ∀ bytes pos j, j < pos → (writeSeq [f] bytes pos).1 j = bytes j := by
  intro bytes pos j hj
  rw [writeSeq_cons, writeSeq_nil]
  exact hf bytes pos j hj

/-- C18. Data-sample header. Every data entry writer is, after its argument
checks, the entry template with the body `dataHead itemId conflict delta`
followed by its payload writer. When such an entry is written (`FLX_OK`), the
region granted by the `REQUEST` starts with the varint of
`(itemId << 3) | (conflict ? 1 : 0) | (delta ? 2 : 0)` (computed on the 32 bit
`flxid`; for `itemId < 2 ^ 29` this is `8 * itemId` plus the two flags),
followed by the varint of `delta` exactly when `delta ≠ 0`, and the payload
writer ran right behind this head. `flxWriteNoneDataEntry`,
`flxWriteIntDataEntry` and `flxWriteLogicStatesDataEntry` are instances, their
payload writers leave the cells below their position, and with `itemId = 0`
they return `FLX_ERROR_INVALID_ID` and leave the buffer as it is. -/
theorem data_sample_header {σ : Type} (buffer b1 : flxBuffer σ)
    (itemId conflict delta request : Nat) (payload : (Nat → Nat) → Nat → (Nat → Nat) × Nat)
    (hd : delta < 2 ^ 32)
    (hpay : ∀ bytes pos j, j < pos → (payload bytes pos).1 j = bytes j)
    (h : flxEntry buffer request (dataHead itemId conflict delta ++ [payload]) = (FLX_OK, b1)) :
    (∃ p, (buffer.call FLX_BUFFER_REQUEST (request % 2 ^ 32) none).bytes = some p ∧
      readBytes b1.bytes p (dataHeadBytes itemId conflict delta).length
        = dataHeadBytes itemId conflict delta ∧
      ∀ j, p + (dataHeadBytes itemId conflict delta).length ≤ j →
        b1.bytes j = (payload (writeSeq (dataHead itemId conflict delta)
            (buffer.call FLX_BUFFER_REQUEST (request % 2 ^ 32) none).buffer.bytes p).1
          (p + (dataHeadBytes itemId conflict delta).length)).1 j) ∧
    (itemId < 2 ^ 29 →
      (((itemId <<< 3) % 2 ^ 32) ||| (if conflict ≠ 0 then 1 else 0))
        ||| (if delta ≠ 0 then 2 else 0)
        = 8 * itemId + (if conflict ≠ 0 then 1 else 0) + (if delta ≠ 0 then 2 else 0)) ∧
    (itemId ≠ 0 →
      flxWriteNoneDataEntry buffer itemId conflict delta
        = flxEntry buffer (REQ1_flxid + REQ1_flxdelta + 1)
            (dataHead itemId conflict delta ++ [putByte FLX_DF_NONE]) ∧
      (∀ (value : Nat → Nat) (size signd : Nat),
        flxWriteIntDataEntry buffer itemId conflict delta value size signd
          = flxEntry buffer (REQ1_flxid + REQ1_flxdelta + 2 + size)
              (dataHead itemId conflict delta ++ [_intwrite value size signd FLX_DF_DEFAULT])) ∧
      (∀ (precedingStates : Nat) (value : Nat → Nat) (size : Nat),
        flxWriteLogicStatesDataEntry buffer itemId conflict delta precedingStates value size
          = flxEntry buffer (REQ1_flxid + REQ1_flxdelta + REQ1_flxuint + size)
              (dataHead itemId conflict delta ++
                [_logicstateswrite FLX_STATE_LEVEL_UNKNOWN precedingStates value size]))) ∧
    (flxWriteNoneDataEntry buffer 0 conflict delta = (FLX_ERROR_INVALID_ID, buffer) ∧
      (∀ (value : Nat → Nat) (size signd : Nat),
        flxWriteIntDataEntry buffer 0 conflict delta value size signd
          = (FLX_ERROR_INVALID_ID, buffer)) ∧
      (∀ (precedingStates : Nat) (value : Nat → Nat) (size : Nat),
        flxWriteLogicStatesDataEntry buffer 0 conflict delta precedingStates value size
          = (FLX_ERROR_INVALID_ID, buffer))) ∧
    ((∀ (b : Nat) (bytes : Nat → Nat) (pos j : Nat), j < pos → (putByte b bytes pos).1 j = bytes j) ∧
      (∀ (value : Nat → Nat) (size signd szDf : Nat) (bytes : Nat → Nat) (pos j : Nat), j < pos →
        (_intwrite value size signd szDf bytes pos).1 j = bytes j) ∧
      (∀ (stateLevel p : Nat) (value : Nat → Nat) (size : Nat) (bytes : Nat → Nat) (pos j : Nat),
        j < pos → (_logicstateswrite stateLevel p value size bytes pos).1 j = bytes j)) := by
  refine ⟨?_, data_tag_value itemId conflict delta, ?_, ?_, ?_⟩
  · obtain ⟨_, p, hp, hbytes, _⟩ := flxEntry_ok buffer b1 request _ h
    obtain ⟨e1, e2, e3⟩ := emits_dataHead itemId conflict delta hd
      (buffer.call FLX_BUFFER_REQUEST (request % 2 ^ 32) none).buffer.bytes p
    have hw : ∀ j, p ≤ j → b1.bytes j = (payload (writeSeq (dataHead itemId conflict delta)
        (buffer.call FLX_BUFFER_REQUEST (request % 2 ^ 32) none).buffer.bytes p).1
        (p + (dataHeadBytes itemId conflict delta).length)).1 j := by
      intro j hj
      rw [hbytes j hj, writeSeq_append, writeSeq_cons, writeSeq_nil, e1]
    refine ⟨p, hp, ?_, fun j hj => hw j (by omega)⟩
    refine Eq.trans (readBytes_congr _ _ _ _ ?_) e3
    intro j hj1 hj2
    rw [hw j hj1]
    exact hpay _ _ j hj2
  · intro hid
    refine ⟨?_, fun value size signd => ?_, fun precedingStates value size => ?_⟩
    · simp only [flxWriteNoneDataEntry, if_neg hid]
    · simp only [flxWriteIntDataEntry, if_neg hid]
    · simp only [flxWriteLogicStatesDataEntry, if_neg hid]
  · exact ⟨rfl, fun _ _ _ => rfl, fun _ _ _ => rfl⟩
  · refine ⟨fun b bytes pos j hj => ?_, intwrite_frame, logicstateswrite_frame⟩
    simp only [putByte, store]
    rw [if_neg (by omega)]

set_option maxRecDepth 100000 in
theorem data_sample_header_witness :
    (10 : Nat) < 2 ^ 32 ∧
    flxWriteNoneDataEntry (exBufferFive 0) 2 0 10
      = (FLX_OK, (flxWriteNoneDataEntry (exBufferFive 0) 2 0 10).2) ∧
    readBytes (flxWriteNoneDataEntry (exBufferFive 0) 2 0 10).2.bytes 5 2 = [0x12, 0x0a] := by
  have hres : flxWriteNoneDataEntry (exBufferFive 0) 2 0 10
      = (FLX_OK, (flxWriteNoneDataEntry (exBufferFive 0) 2 0 10).2) :=
    Prod.ext (by decide) rfl
  have h := data_sample_header (exBufferFive 0) (flxWriteNoneDataEntry (exBufferFive 0) 2 0 10).2
    2 0 10 (REQ1_flxid + REQ1_flxdelta + 1) (putByte FLX_DF_NONE) (by decide)
    (fun bytes pos j hj => by simp only [putByte, store]; rw [if_neg (by omega)]) hres
  obtain ⟨p, hp, hread, _⟩ := h.1
  have hp5 : ((exBufferFive 0).call FLX_BUFFER_REQUEST
      ((REQ1_flxid + REQ1_flxdelta + 1) % 2 ^ 32) none).bytes = some 5 := by decide
  rw [hp5] at hp
  have hpe : p = 5 := (Option.some.inj hp).symm
  subst hpe
  have hl : dataHeadBytes 2 0 10 = [0x12, 0x0a] := by decide
  rw [hl] at hread
  exact ⟨by decide, hres, hread⟩


/-! ### Head entry -/

theorem emits_copyFormat4 (l : List Nat) (hl : l.length = 4) :
    Emits (copyFormat4 (some l)) l := by
  intro bytes pos
  refine ⟨by rw [hl]; rfl, fun j hj => ?_, ?_⟩
  · simp only [copyFormat4]
    rw [arraycopy_apply, if_neg (by omega)]
  · apply List.ext_getElem
    · rw [readBytes_length]
    · intro i hi1 hi2
      simp only [readBytes, List.getElem_map, List.getElem_range, copyFormat4]
      rw [arraycopy_apply, if_pos (by omega)]
      simp only [textBytes, Option.getD_some]
      rw [show 0 + (pos + i - pos) = i from by omega]
      exact List.getD_eq_getElem _ 0 hi2

theorem emits_head_body (traceId : Nat) (name description : flxtext)
    (mode maxItemId maxEntrySize : Nat)
    (hid : traceId < 2 ^ 32) (hmax : maxItemId < 2 ^ 32) (hsz : maxEntrySize < 2 ^ 32)
    (hn : (name.getD []).length < 2 ^ 32) (hd : (description.getD []).length < 2 ^ 32) :
    Emits (writeSeq [putByte 0, putByte FLX_ENTRY_HEAD, copyFormat4 (some fluxFormat),
        putByte FLX_VERSION, _pluswrite traceId, _textwrite name, _textwrite description,
        putByte mode, _pluswrite maxItemId, _pluswrite maxEntrySize])
      (headEntryBytes traceId name description mode maxItemId maxEntrySize) := by
  have h := emits_cons _ _ _ _ (emits_putByte 0)
    (emits_cons _ _ _ _ (emits_putByte FLX_ENTRY_HEAD)
    (emits_cons _ _ _ _ (emits_copyFormat4 fluxFormat rfl)
    (emits_cons _ _ _ _ (emits_putByte FLX_VERSION)
    (emits_cons _ _ _ _ (emits_pluswrite traceId hid)
    (emits_cons _ _ _ _ (emits_textwrite name hn)
    (emits_cons _ _ _ _ (emits_textwrite description hd)
    (emits_cons _ _ _ _ (emits_putByte mode)
    (emits_cons _ _ _ _ (emits_pluswrite maxItemId hmax)
    (emits_cons _ _ _ _ (emits_pluswrite maxEntrySize hsz) emits_nil)))))))))
  have he : headEntryBytes traceId name description mode maxItemId maxEntrySize
      = [0] ++ ([FLX_ENTRY_HEAD] ++ (fluxFormat ++ ([FLX_VERSION] ++ (varintBytes traceId ++
        (textEntryBytes name ++ (textEntryBytes description ++ ([mode] ++
          (varintBytes maxItemId ++ (varintBytes maxEntrySize ++ []))))))))) := by
    simp [headEntryBytes, FLX_ENTRY_HEAD, fluxFormat, FLX_VERSION]
  rw [he]
  exact h

/-- C19. Head entry layout: when `flxAddHead(trace, name, description)` returns
`FLX_OK`, the region the buffer granted holds exactly the bytes `0x00`, `0x01`,
`f`, `l`, `u`, `x`, `0x04`, the varint of the trace id, the varint of the
length of the name and the name, the same for the description, the mode byte
`0`, the varint of `maxItemId` and the varint of `maxEntrySize`, without any
terminator; the trace is unchanged apart from its buffer. On a linear or simple
buffer the region starts at the cursor, the cells below it are untouched and
the cursor is moved by exactly the number of these bytes. -/
theorem head_entry_layout {σ : Type} (trace t1 : flxTrace σ) (buffer : flxBuffer σ)
    (name description : flxtext) (hb : trace.buffer = some buffer)
    (hid : trace.id < 2 ^ 32) (hmax : trace.maxItemId < 2 ^ 32)
    (hsz : trace.maxEntrySize < 2 ^ 32)
    (hn : (name.getD []).length < 2 ^ 32) (hd : (description.getD []).length < 2 ^ 32)
    (h : flxAddHead trace name description = some (FLX_OK, t1)) :
    ∃ (b1 : flxBuffer σ) (p : Nat), t1 = { trace with buffer := some b1 } ∧
      (buffer.call FLX_BUFFER_REQUEST
        ((6 + REQ1_flxid * 2 + REQ1_flxbint + _textlen name true + _textlen description true)
          % 2 ^ 32) none).bytes = some p ∧
      readBytes b1.bytes p
          (headEntryBytes trace.id name description 0 trace.maxItemId trace.maxEntrySize).length
        = headEntryBytes trace.id name description 0 trace.maxItemId trace.maxEntrySize ∧
      (buffer.access ≠ flxBufferAccess.ring →
        p = (buffer.call FLX_BUFFER_REQUEST
          ((6 + REQ1_flxid * 2 + REQ1_flxbint + _textlen name true + _textlen description true)
            % 2 ^ 32) none).buffer.pos ∧
        b1.pos = (p + (headEntryBytes trace.id name description 0 trace.maxItemId
          trace.maxEntrySize).length) % 2 ^ 32 ∧
        ∀ j, j < p → b1.bytes j = (buffer.call FLX_BUFFER_REQUEST
          ((6 + REQ1_flxid * 2 + REQ1_flxbint + _textlen name true + _textlen description true)
            % 2 ^ 32) none).buffer.bytes j) := by
  unfold flxAddHead at h
  rw [hb] at h
  simp only [flxWriteHeadEntry] at h
  split at h
  · simp at h
  · simp only [Option.map_some', Option.some.injEq, Prod.mk.injEq] at h
    have hres : flxEntry buffer
        (6 + REQ1_flxid * 2 + REQ1_flxbint + _textlen name true + _textlen description true)
        [putByte 0, putByte FLX_ENTRY_HEAD, copyFormat4 (some fluxFormat), putByte FLX_VERSION,
          _pluswrite trace.id, _textwrite name, _textwrite description,
          putByte FLX_MODE_HEAD_NORMAL, _pluswrite trace.maxItemId,
          _pluswrite trace.maxEntrySize]
        = (FLX_OK, (flxEntry buffer
        (6 + REQ1_flxid * 2 + REQ1_flxbint + _textlen name true + _textlen description true)
        [putByte 0, putByte FLX_ENTRY_HEAD, copyFormat4 (some fluxFormat), putByte FLX_VERSION,
          _pluswrite trace.id, _textwrite name, _textwrite description,
          putByte FLX_MODE_HEAD_NORMAL, _pluswrite trace.maxItemId,
          _pluswrite trace.maxEntrySize]).2) := Prod.ext h.1 rfl
    obtain ⟨_, p, hp, hbytes, hlin⟩ := flxEntry_ok buffer _ _ _ hres
    obtain ⟨e1, e2, e3⟩ := emits_head_body trace.id name description FLX_MODE_HEAD_NORMAL
      trace.maxItemId trace.maxEntrySize hid hmax hsz hn hd
      (buffer.call FLX_BUFFER_REQUEST
        ((6 + REQ1_flxid * 2 + REQ1_flxbint + _textlen name true + _textlen description true)
          % 2 ^ 32) none).buffer.bytes p
    refine ⟨_, p, h.2.symm, hp, ?_, fun hnr => ?_⟩
    · refine Eq.trans (readBytes_congr _ _ _ _ ?_) e3
      intro j hj1 _
      exact hbytes j hj1
    · obtain ⟨hp1, hb1, _⟩ := hlin hnr
      refine ⟨hp1, ?_, fun j hj => ?_⟩
      · rw [hb1]
        simp only
        rw [e1]
        rfl
      · rw [hb1]
        simp only
        exact e2 j hj

set_option maxRecDepth 100000 in
theorem head_entry_layout_witness :
    ∃ (t1 : flxTrace Unit) (b1 : flxBuffer Unit),
      flxAddHead exTraceHead (some [0x70, 0x72, 0x6f, 0x62, 0x65]) (some [0x74])
        = some (FLX_OK, t1) ∧
      t1.buffer = some b1 ∧
      readBytes b1.bytes 0 20 = [0x00, 0x01, 0x66, 0x6c, 0x75, 0x78, 0x04, 0x00, 0x05, 0x70, 0x72,
        0x6f, 0x62, 0x65, 0x01, 0x74, 0x00, 0x00, 0xff, 0x1f] := by
  obtain ⟨t1, h1⟩ := exists_of_map_fst
    (flxAddHead exTraceHead (some [0x70, 0x72, 0x6f, 0x62, 0x65]) (some [0x74])) FLX_OK
    (by decide)
  obtain ⟨b1, p, ht, hp, hread, _⟩ := head_entry_layout exTraceHead t1 _
    (some [0x70, 0x72, 0x6f, 0x62, 0x65]) (some [0x74]) rfl (by decide) (by decide) (by decide)
    (by decide) (by decide) h1
  have hp0 : (({ flxCreateLinearBuffer 0 (fun _ => 0) 4096 none () with trace := 1000 }
        : flxBuffer Unit).call FLX_BUFFER_REQUEST
      ((6 + REQ1_flxid * 2 + REQ1_flxbint + _textlen (some [0x70, 0x72, 0x6f, 0x62, 0x65]) true
        + _textlen (some [0x74]) true) % 2 ^ 32) none).bytes = some 0 := by decide
  rw [hp0] at hp
  have hpe : p = 0 := (Option.some.inj hp).symm
  subst hpe
  have hl : headEntryBytes exTraceHead.id (some [0x70, 0x72, 0x6f, 0x62, 0x65]) (some [0x74]) 0
      exTraceHead.maxItemId exTraceHead.maxEntrySize
      = [0x00, 0x01, 0x66, 0x6c, 0x75, 0x78, 0x04, 0x00, 0x05, 0x70, 0x72,
        0x6f, 0x62, 0x65, 0x01, 0x74, 0x00, 0x00, 0xff, 0x1f] := by decide
  rw [hl] at hread
  exact ⟨t1, b1, h1, by rw [ht], hread⟩


/-! ### Minimal signal scenario -/

set_option maxRecDepth 100000 in
/-- C20, amended. Minimal signal scenario: in a trace with item table, scope 1
under the root and logic signal 2 under scope 1, after
`flxOpen(trace, 0, "ns", 0, 0)` (all calls `FLX_OK`, 22 bytes committed), the call
`flxWriteLogicStatesAt(trace, 2, 0, 10, 0, FLX_STATE_0_BITS, [1], 1)` returns
`FLX_OK` and appends exactly the four bytes `0x12, 0x0a, 0x19, 0x01`: sample
header, delta 10, logic header `(1 << 4) | level 2 | right aligned (8)`, one
data byte. -/
theorem minimal_signal_scenario :
    exMinimal.map (fun q => (q.1, exCommitted q.2)) =
      some ([FLX_OK, FLX_OK, FLX_OK],
        [0, 16, 1, 0, 0, 0, 0, 17, 2, 1, 0, 0, 3, 0, 0, 32, 0, 2, 110, 115, 0, 0]) ∧
    (exMinimal.bind (fun q => flxWriteLogicStatesAt q.2 2 0 10 0 FLX_STATE_0_BITS
        (fun i => [1].getD i 0) 1)).map (fun w => (w.1, exCommitted w.2)) =
      some (FLX_OK,
        [0, 16, 1, 0, 0, 0, 0, 17, 2, 1, 0, 0, 3, 0, 0, 32, 0, 2, 110, 115, 0, 0]
          ++ [0x12, 0x0a, 0x19, 0x01]) := by
  exact ⟨by decide, by decide⟩

set_option maxRecDepth 100000 in
/-- Counterexample to C20 as stated: the four bytes appended by the write are
not `0x12, 0x0a, 0x11, 0x01`; the third byte carries the right-aligned bit. -/
theorem minimal_signal_scenario_counterexample :
    ¬ ((exMinimal.bind (fun q => flxWriteLogicStatesAt q.2 2 0 10 0 FLX_STATE_0_BITS
        (fun i => [1].getD i 0) 1)).map (fun w => (w.1, (exCommitted w.2).drop 22)) =
      some (FLX_OK, [0x12, 0x0a, 0x11, 0x01])) := by
  decide


/-! ### Close entry -/

theorem plusread_loop_congr_above (m1 m2 : Nat → Nat) (start : Nat) :
    ∀ (left pos acc shift : Nat), (∀ j, pos ≤ j → m1 j = m2 j) →
    _plusread_loop m1 start left pos acc shift = _plusread_loop m2 start left pos acc shift := by
  intro left
  induction left with
  | zero => intro pos acc shift _; rfl
  | succ left ih =>
    intro pos acc shift h
    simp only [_plusread_loop]
    rw [h pos (Nat.le_refl _), ih (pos + 1) _ _ (fun j hj => h j (by omega))]

theorem intread_fill_congr (m1 m2 : Nat → Nat) (pos rsize signd : Nat) (v : Nat → Nat)
    (h : ∀ j, pos ≤ j → m1 j = m2 j) :
    ∀ n, _intread_fill m1 pos rsize signd v n = _intread_fill m2 pos rsize signd v n := by
  intro n
  induction n with
  | zero => rfl
  | succ n ih =>
    simp only [_intread_fill]
    rw [ih, h (pos + n) (by omega)]

/-- `_intread` reads from its start on only. -/
theorem intread_congr_above (dst : Nat → Nat) (size signd : Nat) (m1 m2 : Nat → Nat)
    (start e : Nat) (h : ∀ j, start ≤ j → m1 j = m2 j) :
    _intread dst size signd m1 start e = _intread dst size signd m2 start e := by
  have hp : _plusread m1 start e = _plusread m2 start e :=
    plusread_loop_congr_above m1 m2 start _ start 0 0 h
  unfold _intread
  simp only
  rw [hp, h (start + (_plusread m2 start e).2 + ((_plusread m2 start e).1 - 1)) (by omega)]
  split
  · rfl
  · congr 1
    exact intread_fill_congr m1 m2 _ _ _ dst (fun j hj => h j (by omega)) size

theorem intwrite_len_le (value : Nat → Nat) (size signd : Nat) (bytes : Nat → Nat) (pos : Nat)
    (hsize : size < 128) :
    (_intwrite value size signd FLX_SZDF_SIZEONLY bytes pos).2 ≤ size + 1 := by
  unfold _intwrite
  simp only
  have hr := (intwrite_rsize_spec value (signdAnd signd size (value (size - 1))) size).1
  have hw : (szDfwrite (_intwrite_rsize value (signdAnd signd size (value (size - 1))) size size)
      FLX_SZDF_SIZEONLY bytes pos).2 = 1 := by
    simp only [szDfwrite, FLX_SZDF_SIZEONLY, FLX_SZDF_NONE, ne_eq,
      show ¬ ((0 : Nat) = 255) from by decide, not_false_eq_true, if_true, not_true_eq_false,
      if_false]
    show (_pluswrite_loop (4 + 1) (_intwrite_rsize value
      (signdAnd signd size (value (size - 1))) size size) bytes pos 1).2 = 1
    rw [pluswrite_loop_last 4 (_intwrite_rsize value
      (signdAnd signd size (value (size - 1))) size size) bytes pos 1 (by omega)]
  rw [hw]
  omega

/-- C11, amended. Close end adjustment: when `flxClose(trace, itemId, end)`
returns `FLX_OK` for an item whose open sequence has the current position `c`,
the Close entry in the granted region is `0x00`, `0x21`, the varint of
`itemId`, and the minimal integer whose decoding with `_intread` (8 bytes,
signed) gives the bytes of `end` when `end ≥ c`, and of `c + 1` (in `int64_t`
arithmetic) when `end < c`. -/
theorem close_end_adjustment {σ : Type} (trace t1 : flxTrace σ) (buffer : flxBuffer σ)
    (itemId : Nat) (end_ c : Int) (dst : Nat → Nat)
    (hb : trace.buffer = some buffer) (hid : itemId < 2 ^ 32)
    (hc : (itemId = 0 ∧ c = trace.current) ∨
      (∃ its item, itemId ≠ 0 ∧ trace.items = some its ∧ itemAt its itemId = some item ∧
        c = item.current))
    (h : flxClose trace itemId end_ = some (FLX_OK, t1)) :
    ∃ (b1 : flxBuffer σ) (p : Nat), t1.buffer = some b1 ∧
      (buffer.call FLX_BUFFER_REQUEST ((2 + REQ1_flxid + REQ1_flxdomain) % 2 ^ 32) none).bytes
        = some p ∧
      readBytes b1.bytes p (2 + (varintBytes itemId).length)
        = [0x00, 0x21] ++ varintBytes itemId ∧
      (_intread dst 8 1 b1.bytes (p + (2 + (varintBytes itemId).length))
          (p + (2 + (varintBytes itemId).length) + 8)).2 ≠ 0 ∧
      ∀ n, n < 8 →
        (_intread dst 8 1 b1.bytes (p + (2 + (varintBytes itemId).length))
          (p + (2 + (varintBytes itemId).length) + 8)).1 n
          = domainBytes (if end_ < c then wrap64 (c + 1) else end_) n := by
  rcases flxClose_inv trace t1 itemId end_ FLX_OK h with
    ⟨_, hne⟩ | ⟨buffer0, current, items1, hb0, _, hcase, _, hres, ht1⟩
  · exact absurd rfl hne
  · have hbe : buffer0 = buffer := by
      rw [hb] at hb0
      exact (Option.some.inj hb0).symm
    subst hbe
    have hcur : current = c := by
      rcases hcase with ⟨h0, _, e⟩ | ⟨its, item, h0, hi, hitem, _, e⟩
      · rcases hc with ⟨_, e1⟩ | ⟨_, _, h1, _⟩
        · rw [e, e1]
        · exact absurd h0 h1
      · rcases hc with ⟨h1, _⟩ | ⟨its1, item1, _, hi1, hitem1, e1⟩
        · exact absurd h1 h0
        · rw [hi] at hi1
          have := Option.some.inj hi1
          subst this
          rw [hitem] at hitem1
          have := Option.some.inj hitem1
          subst this
          rw [e, e1]
    subst hcur
    have hentry : flxEntry buffer0 (2 + REQ1_flxid + REQ1_flxdomain)
        ([putByte 0, putByte FLX_ENTRY_CLOS, _pluswrite itemId] ++
          [_intwrite (domainBytes (if end_ < current then wrap64 (current + 1) else end_)) 8 1
            FLX_SZDF_SIZEONLY])
        = (FLX_OK, (flxWriteCloseEntry buffer0 itemId
            (if end_ < current then wrap64 (current + 1) else end_)).2) :=
      Prod.ext hres.symm rfl
    obtain ⟨_, p, hp, hbytes, _⟩ := flxEntry_ok buffer0 _ _ _ hentry
    have hpre : Emits (writeSeq [putByte 0, putByte FLX_ENTRY_CLOS, _pluswrite itemId])
        ([0x00] ++ ([0x21] ++ (varintBytes itemId ++ []))) :=
      emits_cons _ _ _ _ (emits_putByte 0) (emits_cons _ _ _ _ (emits_putByte FLX_ENTRY_CLOS)
        (emits_cons _ _ _ _ (emits_pluswrite itemId hid) emits_nil))
    obtain ⟨e1, _, e3⟩ := hpre (buffer0.call FLX_BUFFER_REQUEST
      ((2 + REQ1_flxid + REQ1_flxdomain) % 2 ^ 32) none).buffer.bytes p
    have hlen : ([0x00] ++ ([0x21] ++ (varintBytes itemId ++ []))).length
        = 2 + (varintBytes itemId).length := by
      simp only [List.append_nil, List.singleton_append, List.length_cons]
      omega
    rw [hlen] at e1 e3
    rw [writeSeq_append, writeSeq_cons, writeSeq_nil, e1] at hbytes
    simp only at hbytes
    refine ⟨_, p, by rw [ht1], hp, ?_, ?_⟩
    · rw [show [0x00, 0x21] ++ varintBytes itemId
        = [0x00] ++ ([0x21] ++ (varintBytes itemId ++ [])) from by simp, ← e3]
      apply readBytes_congr
      intro j hj1 hj2
      rw [hbytes j hj1]
      exact intwrite_frame _ _ _ _ _ _ j hj2
    · have hcongr := intread_congr_above dst 8 1
        (flxWriteCloseEntry buffer0 itemId
          (if end_ < current then wrap64 (current + 1) else end_)).2.bytes _
        (p + (2 + (varintBytes itemId).length)) (p + (2 + (varintBytes itemId).length) + 8)
        (fun j hj => hbytes j (by omega))
      rw [hcongr]
      have hle := intwrite_len_le
        (domainBytes (if end_ < current then wrap64 (current + 1) else end_)) 8 1
        (writeSeq [putByte 0, putByte FLX_ENTRY_CLOS, _pluswrite itemId]
          (buffer0.call FLX_BUFFER_REQUEST
            ((2 + REQ1_flxid + REQ1_flxdomain) % 2 ^ 32) none).buffer.bytes p).1
        (p + (2 + (varintBytes itemId).length)) (by norm_num)
      exact intwrite_intread _ dst 8 1 _ _ _ (by norm_num) (Nat.le_refl 1) (by omega)

set_option maxRecDepth 100000 in
theorem close_end_adjustment_witness :
    ∃ (t1 : flxTrace Unit) (b1 : flxBuffer Unit),
      flxClose exTraceOpen5 0 3 = some (FLX_OK, t1) ∧ t1.buffer = some b1 ∧
      (∀ n, n < 8 → (_intread (fun _ => 0) 8 1 b1.bytes 3 11).1 n = domainBytes 6 n) := by
  obtain ⟨t1, h1⟩ := exists_of_map_fst (flxClose exTraceOpen5 0 3) FLX_OK (by decide)
  obtain ⟨b1, p, hb1, hp, _, _, hdec⟩ := close_end_adjustment exTraceOpen5 t1 _ 0 3 5
    (fun _ => 0) rfl (by decide) (Or.inl ⟨rfl, rfl⟩) h1
  have hp0 : ((flxCreateLinearBuffer 0 (fun _ => 0) 64 none () : flxBuffer Unit).call
      FLX_BUFFER_REQUEST ((2 + REQ1_flxid + REQ1_flxdomain) % 2 ^ 32) none).bytes = some 0 := by
    decide
  rw [hp0] at hp
  have hpe : p = 0 := (Option.some.inj hp).symm
  subst hpe
  have hl : (varintBytes 0).length = 1 := by decide
  rw [hl] at hdec
  have hv : (if (3 : Int) < 5 then wrap64 (5 + 1) else 3) = 6 := by decide
  rw [hv] at hdec
  exact ⟨t1, b1, h1, hb1, hdec⟩

set_option maxRecDepth 100000 in
/-- Counterexample to C11 as stated: with the root sequence open at position 5,
`flxClose(trace, 0, 5)` returns `FLX_OK` and emits the Close entry
`00 21 00 01 05`, whose end value is `5`, not `max(5, 5 + 1) = 6`. -/
theorem close_end_adjustment_counterexample :
    (flxClose exTraceOpen5 0 5).map (fun r => (r.1, exCommitted r.2))
      = some (FLX_OK, [0x00, 0x21, 0x00, 0x01, 0x05]) ∧
    (∀ n, n < 8 →
      (_intread (fun _ => 0) 8 1 (fun i => [0x00, 0x21, 0x00, 0x01, 0x05].getD i 0) 3 4).1 n
        = domainBytes 5 n) ∧
    max (5 : Int) (5 + 1) = 6 := by
  refine ⟨by decide, ?_, by decide⟩
  intro n hn
  have h8 : n = 0 ∨ n = 1 ∨ n = 2 ∨ n = 3 ∨ n = 4 ∨ n = 5 ∨ n = 6 ∨ n = 7 := by omega
  rcases h8 with h | h | h | h | h | h | h | h <;> subst h <;> decide


/-! ### Buffer binding -/

theorem symmetric_init : Symmetric flxLinks0 := by
  refine ⟨rfl, fun t b ht _ => ?_⟩
  simp only [flxLinks0]
  constructor
  · intro h; cases h
  · intro h; exact absurd h.symm ht

/-- What `flxSetBuffer` does in a state with symmetric bindings. -/
theorem setBufferAt_spec (m : flxLinks) (trace buffer old : Nat) (hs : Symmetric m)
    (hold : m.traceBuffer trace = some old) :
    ((buffer ≠ 0 ∧ m.bufferTrace buffer ≠ 0 ∧ m.bufferTrace buffer ≠ trace) →
      flxSetBufferAt m trace buffer = some (FLX_ERROR_BUFFER_ALLREADY_USED, m)) ∧
    (¬ (buffer ≠ 0 ∧ m.bufferTrace buffer ≠ 0 ∧ m.bufferTrace buffer ≠ trace) →
      ∃ m1, flxSetBufferAt m trace buffer = some (FLX_OK, m1) ∧
        m1.traceBuffer trace = some buffer ∧
        (buffer ≠ 0 → m1.bufferTrace buffer = trace) ∧
        (old ≠ 0 → old ≠ buffer → m1.bufferTrace old = 0) ∧
        Symmetric m1) := by
  have ht0 : trace ≠ 0 := by
    intro h0
    rw [h0, hs.1] at hold
    cases hold
  refine ⟨fun hc => ?_, fun hc => ?_⟩
  · simp only [flxSetBufferAt, hold]
    rw [if_pos hc]
  · refine ⟨_, by simp only [flxSetBufferAt, hold]; rw [if_neg hc], ?_, ?_, ?_, ?_⟩
    · simp
    · intro hb
      show (if buffer ≠ 0 ∧ buffer = buffer then trace
        else if old ≠ 0 ∧ buffer = old then 0 else m.bufferTrace buffer) = trace
      rw [if_pos ⟨hb, rfl⟩]
    · intro ho hob
      show (if buffer ≠ 0 ∧ old = buffer then trace
        else if old ≠ 0 ∧ old = old then 0 else m.bufferTrace old) = 0
      rw [if_neg (fun h => hob h.2), if_pos ⟨ho, rfl⟩]
    · refine ⟨?_, fun t b ht hb => ?_⟩
      · simp only
        rw [if_neg (fun h => ht0 h.symm)]
        exact hs.1
      · simp only
        by_cases c1 : t = trace
        · subst c1
          rw [if_pos rfl]
          by_cases c2 : b = buffer
          · subst c2
            rw [if_pos ⟨hb, rfl⟩]
            exact ⟨fun _ => rfl, fun _ => rfl⟩
          · rw [if_neg (fun h => c2 h.2)]
            constructor
            · intro h
              exact absurd (Option.some.inj h).symm c2
            · intro h
              exfalso
              by_cases c3 : old ≠ 0 ∧ b = old
              · rw [if_pos c3] at h
                exact ht h.symm
              · rw [if_neg c3] at h
                have := (hs.2 t b ht hb).mpr h
                rw [hold] at this
                have hbo : old = b := Option.some.inj this
                exact c3 ⟨by rw [hbo]; exact hb, hbo.symm⟩
        · rw [if_neg c1]
          by_cases c2 : b = buffer
          · subst c2
            rw [if_pos ⟨hb, rfl⟩]
            constructor
            · intro h
              have h1 := (hs.2 t b ht hb).mp h
              exfalso
              apply hc
              refine ⟨hb, ?_, ?_⟩
              · rw [h1]; exact ht
              · rw [h1]; exact c1
            · intro h
              exact absurd h.symm c1
          · rw [if_neg (fun h => c2 h.2)]
            by_cases c3 : old ≠ 0 ∧ b = old
            · rw [if_pos c3]
              constructor
              · intro h
                exfalso
                have h1 := (hs.2 t b ht hb).mp h
                have h2 := (hs.2 trace old ht0 c3.1).mp hold
                rw [c3.2, h2] at h1
                exact c1 h1.symm
              · intro h
                exact absurd h.symm ht
            · rw [if_neg c3]
              exact hs.2 t b ht hb

theorem createTraceAt_symmetric (szTrace : Nat) (m : flxLinks)
    (traceBytes traceBytesLen buffer : Nat) (hs : Symmetric m)
    (hfresh : m.traceBuffer traceBytes = none) :
    Symmetric (flxCreateTraceAt szTrace m traceBytes traceBytesLen buffer).1 := by
  unfold flxCreateTraceAt
  by_cases c : traceBytesLen < szTrace ∨ traceBytes = 0
  · rw [if_pos c]
    exact hs
  · rw [if_neg c]
    have ht0 : traceBytes ≠ 0 := fun h => c (Or.inr h)
    have hs1 : Symmetric
        { m with traceBuffer := fun t => if t = traceBytes then some 0 else m.traceBuffer t } := by
      refine ⟨?_, fun t b ht hb => ?_⟩
      · simp only
        rw [if_neg (fun h => ht0 h.symm)]
        exact hs.1
      · simp only
        by_cases c1 : t = traceBytes
        · subst c1
          rw [if_pos rfl]
          constructor
          · intro h
            exact absurd (Option.some.inj h).symm hb
          · intro h
            have := (hs.2 t b ht hb).mpr h
            rw [hfresh] at this
            cases this
        · rw [if_neg c1]
          exact hs.2 t b ht hb
    have hold : ({ m with traceBuffer := fun t => if t = traceBytes then some 0
        else m.traceBuffer t } : flxLinks).traceBuffer traceBytes = some 0 := by
      simp
    obtain ⟨herr, hok⟩ := setBufferAt_spec _ traceBytes buffer 0 hs1 hold
    simp only
    by_cases c2 : buffer ≠ 0 ∧ m.bufferTrace buffer ≠ 0 ∧ m.bufferTrace buffer ≠ traceBytes
    · rw [herr c2]
      exact hs1
    · obtain ⟨m1, hm1, _, _, _, hs2⟩ := hok c2
      rw [hm1]
      exact hs2

/-- C14, amended. Buffer binding is exclusive and symmetric. In every state
reached from the memory without traces by `flxCreateTrace` on memory that holds
no trace yet and by `flxSetBuffer`, binding is symmetric (`t->buffer == b`
exactly when `b->trace == t`), and `flxSetBuffer(trace, b)` on a trace returns
`FLX_ERROR_BUFFER_ALLREADY_USED` exactly when `b` is not null and `b->trace` is
another trace, changing nothing; otherwise it returns `FLX_OK`, and afterwards
`trace->buffer == b`, `b->trace == trace`, the back pointer of the buffer bound
before is null and binding is symmetric again. -/
theorem buffer_binding_exclusive_symmetric (szTrace : Nat) (ops : List flxLinkOp)
    (m : flxLinks) (hfresh : FreshCreates szTrace flxLinks0 ops)
    (hrun : flxLinksRun szTrace ops flxLinks0 = some m) :
    Symmetric m ∧
    ∀ trace buffer old, m.traceBuffer trace = some old →
      ((buffer ≠ 0 ∧ m.bufferTrace buffer ≠ 0 ∧ m.bufferTrace buffer ≠ trace) →
        flxSetBufferAt m trace buffer = some (FLX_ERROR_BUFFER_ALLREADY_USED, m)) ∧
      (¬ (buffer ≠ 0 ∧ m.bufferTrace buffer ≠ 0 ∧ m.bufferTrace buffer ≠ trace) →
        ∃ m1, flxSetBufferAt m trace buffer = some (FLX_OK, m1) ∧
          m1.traceBuffer trace = some buffer ∧
          (buffer ≠ 0 → m1.bufferTrace buffer = trace) ∧
          (old ≠ 0 → old ≠ buffer → m1.bufferTrace old = 0) ∧
          Symmetric m1) := by
  have hkey : ∀ (ops : List flxLinkOp) (m m1 : flxLinks),
      Symmetric m → FreshCreates szTrace m ops → flxLinksRun szTrace ops m = some m1 →
      Symmetric m1 := by
    intro ops
    induction ops with
    | nil =>
      intro m m1 hs _ hrun
      simp only [flxLinksRun, Option.some.injEq] at hrun
      rw [← hrun]
      exact hs
    | cons op ops ih =>
      intro m m1 hs hfresh hrun
      simp only [flxLinksRun] at hrun
      simp only [FreshCreates] at hfresh
      cases hop : op.run szTrace m with
      | none => rw [hop] at hrun; cases hrun
      | some m2 =>
        rw [hop] at hrun hfresh
        simp only at hrun hfresh
        refine ih m2 m1 ?_ hfresh.2 hrun
        cases op with
        | create traceBytes traceBytesLen buffer =>
          simp only [flxLinkOp.run, Option.some.injEq] at hop
          rw [← hop]
          exact createTraceAt_symmetric szTrace m traceBytes traceBytesLen buffer hs hfresh.1
        | setBuffer trace buffer =>
          simp only [flxLinkOp.run] at hop
          cases hold : m.traceBuffer trace with
          | none =>
            simp only [flxSetBufferAt, hold, Option.map_none'] at hop
            cases hop
          | some old =>
            obtain ⟨herr, hok⟩ := setBufferAt_spec m trace buffer old hs hold
            by_cases c : buffer ≠ 0 ∧ m.bufferTrace buffer ≠ 0 ∧ m.bufferTrace buffer ≠ trace
            · rw [herr c] at hop
              simp only [Option.map_some', Option.some.injEq] at hop
              rw [← hop]
              exact hs
            · obtain ⟨m3, hm3, _, _, _, hs3⟩ := hok c
              rw [hm3] at hop
              simp only [Option.map_some', Option.some.injEq] at hop
              rw [← hop]
              exact hs3
  have hs := hkey ops flxLinks0 m symmetric_init hfresh hrun
  exact ⟨hs, fun trace buffer old hold => setBufferAt_spec m trace buffer old hs hold⟩

theorem buffer_binding_exclusive_symmetric_witness :
    ∃ m, flxLinksRun 56 [.create 1000 56 2000, .create 3000 56 2000, .setBuffer 3000 2000,
        .setBuffer 1000 0, .setBuffer 3000 2000] flxLinks0 = some m ∧
      Symmetric m ∧ m.traceBuffer 3000 = some 2000 ∧ m.bufferTrace 2000 = 3000 ∧
      m.traceBuffer 1000 = some 0 := by
  refine ⟨_, rfl, ?_, by decide, by decide, by decide⟩
  exact (buffer_binding_exclusive_symmetric 56 [.create 1000 56 2000, .create 3000 56 2000,
    .setBuffer 3000 2000, .setBuffer 1000 0, .setBuffer 3000 2000] _
    ⟨rfl, rfl, trivial, trivial, trivial, trivial⟩ rfl).1

/-- Counterexample to C14 as stated: `flxCreateTrace` on the memory of a trace
that is bound to buffer `2000` assigns `trace->buffer = 0` without touching the
buffer; afterwards `b->trace == t` although `t->buffer` is null. -/
theorem buffer_binding_exclusive_symmetric_counterexample :
    ∃ m, flxLinksRun 56 [.create 1000 56 2000, .create 1000 56 0] flxLinks0 = some m ∧
      m.traceBuffer 1000 = some 0 ∧ m.bufferTrace 2000 = 1000 ∧ ¬ Symmetric m := by
  refine ⟨_, rfl, by decide, by decide, fun hs => ?_⟩
  have h := (hs.2 1000 2000 (by decide) (by decide)).mpr (by decide)
  exact absurd h (by decide)

/-! ### Varint decode boundary -/

theorem plusread_loop_none (m : Nat → Nat) (start : Nat) : ∀ (left pos acc shift : Nat),
    (∀ j, pos ≤ j → j < pos + left → m j &&& MASK_PLUS ≠ 0) →
    (_plusread_loop m start left pos acc shift).2 = 0 := by
  intro left
  induction left with
  | zero => intro pos acc shift _; rfl
  | succ l ih =>
    intro pos acc shift h
    unfold _plusread_loop
    simp only
    rw [if_neg (h pos (le_refl _) (by omega))]
    exact ih _ _ _ (fun j hj hlt => h j (by omega) (by omega))

theorem plusread_loop_first (m : Nat → Nat) (start : Nat) : ∀ (left pos acc shift i : Nat),
    pos ≤ i → i < pos + left → m i &&& MASK_PLUS = 0 →
    (∀ j, pos ≤ j → j < i → m j &&& MASK_PLUS ≠ 0) →
    (_plusread_loop m start left pos acc shift).2 = i + 1 - start := by
  intro left
  induction left with
  | zero => intro pos acc shift i h1 h2; omega
  | succ l ih =>
    intro pos acc shift i h1 h2 hi hbefore
    unfold _plusread_loop
    simp only
    by_cases hc : m pos &&& MASK_PLUS = 0
    · rw [if_pos hc]
      have : i = pos := by
        by_contra hne
        exact hbefore pos (le_refl _) (by omega) hc
      rw [this]
    · rw [if_neg hc]
      have hne : i ≠ pos := fun e => hc (e ▸ hi)
      exact ih _ _ _ i (by omega) (by omega) hi (fun j hj hlt => hbefore j (by omega) hlt)

theorem plusread_loop_congr_range (m1 m2 : Nat → Nat) (start : Nat) :
    ∀ (left pos acc shift : Nat), (∀ j, pos ≤ j → j < pos + left → m2 j = m1 j) →
    _plusread_loop m2 start left pos acc shift = _plusread_loop m1 start left pos acc shift := by
  intro left
  induction left with
  | zero => intro pos acc shift _; rfl
  | succ l ih =>
    intro pos acc shift h
    unfold _plusread_loop
    simp only
    rw [h pos (le_refl _) (by omega)]
    by_cases hc : m1 pos &&& MASK_PLUS = 0
    · rw [if_pos hc, if_pos hc]
    · rw [if_neg hc, if_neg hc]
      exact ih _ _ _ (fun j hj hlt => h j (by omega) (by omega))

/-- C25. Varint decode boundary: `_plusread(val, bytes, end)` returns a non-zero
count exactly when some byte in `[bytes, end]` has its high bit clear, the
count being the offset just past the first such byte; when every byte up to
and including `end` has the high bit set (or `end < bytes`) it returns 0; and
the outcome is the same on every region that agrees on `[bytes, end]`, so no
byte beyond `end` is read. -/
theorem plusread_boundary (bytes : Nat → Nat) (start end_ : Nat) :
    ((_plusread bytes start end_).2 ≠ 0 ↔
      ∃ i, start ≤ i ∧ i ≤ end_ ∧ bytes i &&& 0x80 = 0) ∧
    (∀ i, start ≤ i → i ≤ end_ → bytes i &&& 0x80 = 0 →
      (∀ j, start ≤ j → j < i → bytes j &&& 0x80 ≠ 0) →
      (_plusread bytes start end_).2 = i + 1 - start) ∧
    ((∀ i, start ≤ i → i ≤ end_ → bytes i &&& 0x80 ≠ 0) → (_plusread bytes start end_).2 = 0) ∧
    (end_ < start → (_plusread bytes start end_).2 = 0) ∧
    (∀ other : Nat → Nat, (∀ i, start ≤ i → i ≤ end_ → other i = bytes i) →
      _plusread other start end_ = _plusread bytes start end_) := by
  have hfirst : ∀ i, start ≤ i → i ≤ end_ → bytes i &&& 0x80 = 0 →
      (∀ j, start ≤ j → j < i → bytes j &&& 0x80 ≠ 0) →
      (_plusread bytes start end_).2 = i + 1 - start := by
    intro i h1 h2 hi hb
    exact plusread_loop_first bytes start _ start 0 0 i h1 (by omega) hi hb
  have hnone : (∀ i, start ≤ i → i ≤ end_ → bytes i &&& 0x80 ≠ 0) →
      (_plusread bytes start end_).2 = 0 := by
    intro h
    exact plusread_loop_none bytes start _ start 0 0 (fun j hj hlt => h j hj (by omega))
  refine ⟨⟨?_, ?_⟩, hfirst, hnone, ?_, ?_⟩
  · intro hne
    by_contra hex
    exact hne (hnone (fun i h1 h2 hc => hex ⟨i, h1, h2, hc⟩))
  · rintro ⟨i, h1, h2, hc⟩
    have hex : ∃ k, start ≤ k ∧ k ≤ end_ ∧ bytes k &&& 0x80 = 0 := ⟨i, h1, h2, hc⟩
    have hspec := Nat.find_spec hex
    have hmin := fun j => @Nat.find_min _ _ hex j
    rw [hfirst (Nat.find hex) hspec.1 hspec.2.1 hspec.2.2
      (fun j hj hlt hcj => hmin j hlt ⟨hj, by omega, hcj⟩)]
    omega
  · intro h
    exact hnone (fun i h1 h2 => by omega)
  · intro other h
    exact plusread_loop_congr_range bytes other start _ start 0 0
      (fun j hj hlt => h j hj (by omega))

/-! ### Integer minimisation rule -/

theorem emits_szDfwrite (size szDf : Nat) (hsize : size < 2 ^ 28) :
    Emits (szDfwrite size szDf) (sizePrefixBytes size szDf) := by
  by_cases h1 : szDf = FLX_SZDF_NONE
  · have e1 : szDfwrite size szDf = fun bytes _ => (bytes, 0) := by
      funext bytes pos
      unfold szDfwrite
      rw [if_neg (not_not.mpr h1)]
    have e2 : sizePrefixBytes size szDf = [] := by
      unfold sizePrefixBytes
      rw [if_pos h1]
    rw [e1, e2]
    intro bytes pos
    exact ⟨rfl, fun _ _ => rfl, rfl⟩
  · by_cases h0 : szDf = 0
    · have e1 : szDfwrite size szDf = _pluswrite size := by
        funext bytes pos
        unfold szDfwrite
        rw [if_pos h1, if_neg (not_not.mpr h0)]
      have e2 : sizePrefixBytes size szDf = varintBytes size := by
        unfold sizePrefixBytes
        rw [if_neg h1, if_pos (by rw [h0]; rfl)]
      rw [e1, e2]
      exact emits_pluswrite size (by omega)
    · have hsh : (size <<< 4) % 2 ^ 32 = size <<< 4 := by
        rw [Nat.shiftLeft_eq]
        exact Nat.mod_eq_of_lt (by omega)
      have e1 : szDfwrite size szDf = _pluswrite ((size <<< 4) ||| (szDf &&& 0x0f)) := by
        funext bytes pos
        unfold szDfwrite
        rw [if_pos h1, if_pos h0, hsh]
      have e2 : sizePrefixBytes size szDf = varintBytes ((size <<< 4) ||| (szDf &&& 0x0f)) := by
        unfold sizePrefixBytes
        rw [if_neg h1, if_neg (by rw [FLX_SZDF_SIZEONLY]; exact h0)]
      rw [e1, e2]
      refine emits_pluswrite _ ?_
      apply Nat.or_lt_two_pow
      · rw [Nat.shiftLeft_eq]; omega
      · exact lt_of_le_of_lt Nat.and_le_right (by norm_num)

theorem readBytes_arraycopy (source target : Nat → Nat) (tPos n : Nat) :
    readBytes (_arraycopy source 0 target tPos n) tPos n = (List.range n).map source := by
  unfold readBytes
  apply List.map_congr_left
  intro i hi
  have hi2 : i < n := List.mem_range.mp hi
  rw [arraycopy_apply, if_pos ⟨by omega, by omega⟩]
  congr 1
  omega

/-- A prefix followed by the copy of `n` cells of `source`. -/
theorem emits_then_copy (f : (Nat → Nat) → Nat → (Nat → Nat) × Nat) (source : Nat → Nat)
    (n : Nat) (l : List Nat) (hf : Emits f l) :
    Emits (fun bytes pos =>
      (_arraycopy source 0 (f bytes pos).1 (pos + (f bytes pos).2) n, (f bytes pos).2 + n))
      (l ++ (List.range n).map source) := by
  intro bytes pos
  obtain ⟨h1, h2, h3⟩ := hf bytes pos
  simp only [List.length_append, List.length_map, List.length_range]
  refine ⟨by rw [h1], fun j hj => ?_, ?_⟩
  · rw [arraycopy_apply, if_neg (by omega)]
    exact h2 j hj
  · rw [readBytes_add]
    congr 1
    · refine Eq.trans (readBytes_congr _ _ _ _ ?_) h3
      intro i hi hlt
      rw [arraycopy_apply, if_neg (by omega)]
    · rw [← h1]
      exact readBytes_arraycopy _ _ _ _

theorem map_getD_range_take (l : List Nat) (k : Nat) (hk : k ≤ l.length) :
    (List.range k).map (fun i => l.getD i 0) = l.take k := by
  apply List.ext_getElem
  · simp [hk]
  · intro i h1 h2
    simp only [List.length_map, List.length_range] at h1
    simp only [List.getElem_map, List.getElem_range, List.getElem_take]
    rw [List.getD_eq_getElem?_getD, List.getElem?_eq_getElem (by omega)]
    rfl

theorem take_succ_reverse (l : List Nat) (n : Nat) (hn : n < l.length) :
    (l.take (n + 1)).reverse = l.getD n 0 :: (l.take n).reverse := by
  rw [List.take_succ, List.reverse_append]
  rw [List.getD_eq_getElem?_getD, List.getElem?_eq_getElem hn]
  rfl

/-- The minimising loop computes the statement-side rule. -/
theorem intwrite_rsize_minimal (l : List Nat) (neg : Bool) : ∀ n, n ≤ l.length →
    _intwrite_rsize (fun i => l.getD i 0) (if neg then 1 else 0) n n
      = minimalFromTop neg (l.take n).reverse := by
  intro n
  induction n with
  | zero => intro _; simp [_intwrite_rsize, minimalFromTop]
  | succ n ih =>
    intro hn
    have ihn := ih (by omega)
    rw [take_succ_reverse l n (by omega)]
    unfold _intwrite_rsize
    simp only [Nat.add_sub_cancel]
    cases n with
    | zero =>
      simp only [List.take_zero, List.reverse_nil, minimalFromTop]
      cases neg
      · simp [_intwrite_rsize]
      · simp
    | succ m =>
      rw [take_succ_reverse l m (by omega)] at ihn ⊢
      simp only [minimalFromTop, Nat.add_sub_cancel, List.length_reverse, List.length_take,
        Nat.min_eq_left (show m ≤ l.length by omega)]
      cases neg
      · simp only [Bool.false_eq_true, if_false, true_and, false_and, or_false, ne_eq,
          not_true_eq_false, Nat.add_one_ne_zero, false_or]
        by_cases c : l.getD (m + 1) 0 = 0 ∧ l.getD m 0 &&& 0x80 = 0
        · rw [if_pos c, if_pos c]; exact ihn
        · rw [if_neg c, if_neg c]
      · simp only [if_true, show ¬ ((1 : Nat) = 0) from by decide, false_and, if_false,
          Bool.true_eq_false, or_false, false_or, ne_eq, not_false_eq_true, true_and,
          gt_iff_lt, Nat.zero_lt_succ]
        by_cases c : l.getD (m + 1) 0 = 0xff ∧ ¬ (l.getD m 0 &&& 0x80 = 0)
        · rw [if_pos c, if_pos c]; exact ihn
        · rw [if_neg c, if_neg c]

theorem minimalFromTop_le (neg : Bool) : ∀ l : List Nat, minimalFromTop neg l ≤ l.length := by
  intro l
  induction l with
  | nil => simp [minimalFromTop]
  | cons b t ih =>
    cases t with
    | nil =>
      simp only [minimalFromTop, List.length_singleton]
      split <;> omega
    | cons c rest =>
      simp only [minimalFromTop, List.length_cons]
      split
      · simp only [List.length_cons] at ih; omega
      · omega

theorem signdAnd_bool (signd : Bool) (l : List Nat) :
    signdAnd (if signd then 1 else 0) l.length (l.getD (l.length - 1) 0)
      = if (signd && decide (l.getLastD 0 &&& 0x80 ≠ 0)) then 1 else 0 := by
  unfold signdAnd
  cases l using List.reverseRecOn with
  | nil => cases signd <;> simp
  | append_singleton t b =>
    have hget : (t ++ [b]).getD ((t ++ [b]).length - 1) 0 = b := by
      simp [List.getD_eq_getElem?_getD]
    have hlast : (t ++ [b]).getLastD 0 = b := List.getLastD_concat 0 b t
    rw [hget, hlast]
    have hpos : (t ++ [b]).length > 0 := by simp
    by_cases hb : b &&& 0x80 = 0
    · cases signd <;> simp [hb]
    · cases signd <;> simp [hb]

theorem emits_intwrite (l : List Nat) (signd : Bool) (szDf : Nat) (hl : l.length ≤ 255) :
    Emits (_intwrite (fun i => l.getD i 0) l.length (if signd then 1 else 0) szDf)
      (sizePrefixBytes (minimalLen signd l) szDf ++ l.take (minimalLen signd l)) := by
  have hk : _intwrite_rsize (fun i => l.getD i 0)
      (signdAnd (if signd then 1 else 0) l.length ((fun i => l.getD i 0) (l.length - 1)))
      l.length l.length = minimalLen signd l := by
    show _intwrite_rsize (fun i => l.getD i 0)
      (signdAnd (if signd then 1 else 0) l.length (l.getD (l.length - 1) 0))
      l.length l.length = minimalLen signd l
    rw [signdAnd_bool, intwrite_rsize_minimal l _ l.length (le_refl _), List.take_length]
    rfl
  have hle : minimalLen signd l ≤ l.length := by
    have := minimalFromTop_le (signd && decide (l.getLastD 0 &&& 0x80 ≠ 0)) l.reverse
    simpa [minimalLen] using this
  have h := emits_then_copy (szDfwrite (minimalLen signd l) szDf) (fun i => l.getD i 0)
    (minimalLen signd l) _ (emits_szDfwrite (minimalLen signd l) szDf (by omega))
  rw [map_getD_range_take l _ hle] at h
  intro bytes pos
  have hb := h bytes pos
  unfold _intwrite
  simp only [hk]
  exact hb

theorem minimalFromTop_neg_pos : ∀ l : List Nat, l ≠ [] → 1 ≤ minimalFromTop true l := by
  intro l
  induction l with
  | nil => intro h; exact absurd rfl h
  | cons b t ih =>
    intro _
    cases t with
    | nil => simp [minimalFromTop]
    | cons c rest =>
      simp only [minimalFromTop]
      split
      · exact ih (by simp)
      · omega

theorem minimalFromTop_zeros : ∀ l : List Nat, (∀ b ∈ l, b = 0) → minimalFromTop false l = 0 := by
  intro l
  induction l with
  | nil => intro _; rfl
  | cons b t ih =>
    intro hz
    have hb : b = 0 := hz b (by simp)
    cases t with
    | nil => simp [minimalFromTop, hb]
    | cons c rest =>
      have hc : c = 0 := hz c (by simp)
      simp only [minimalFromTop]
      rw [if_pos (Or.inl ⟨trivial, hb, by rw [hc]; rfl⟩)]
      exact ih (fun x hx => hz x (List.mem_cons_of_mem _ hx))

/-- C24. Integer minimisation rule: for a little endian value of `size` bytes
and a sign flag, `_intwrite` retains the low `k` bytes, `k` being what is left
after stripping from the most significant end every `0x00` byte (value not
negative) whose next lower byte has its most significant bit clear, or every
`0xff` byte (signed and negative) whose next lower byte has it set, up to the
first byte that does not qualify; a value that is not negative may shrink to
`k = 0`, a negative one keeps at least one byte. The bytes written are the
prefix (`varint(k)` for `FLX_SZDF_SIZEONLY`, `varint((k << 4) | (szDf & 0x0f))`
for another `szDf`, nothing for `FLX_SZDF_NONE`) followed by the `k` retained
bytes in little endian order. -/
theorem int_minimization_rule (value : List Nat) (signd : Bool) (szDf : Nat)
    (hsize : value.length ≤ 255) :
    Emits (_intwrite (fun i => value.getD i 0) value.length (if signd then 1 else 0) szDf)
      ((if szDf = FLX_SZDF_NONE then []
        else if szDf = FLX_SZDF_SIZEONLY then varintBytes (minimalLen signd value)
        else varintBytes ((minimalLen signd value <<< 4) ||| (szDf &&& 0x0f)))
        ++ value.take (minimalLen signd value)) ∧
    minimalLen signd value ≤ value.length ∧
    (signd = true → value.getLastD 0 &&& 0x80 ≠ 0 → 1 ≤ minimalLen signd value) ∧
    ((∀ b ∈ value, b = 0) → minimalLen signd value = 0) := by
  refine ⟨emits_intwrite value signd szDf hsize, ?_, ?_, ?_⟩
  · have := minimalFromTop_le (signd && decide (value.getLastD 0 &&& 0x80 ≠ 0)) value.reverse
    simpa [minimalLen] using this
  · intro hs htop
    have hne : value.reverse ≠ [] := by
      intro h
      rw [List.reverse_eq_nil_iff] at h
      rw [h] at htop
      exact htop rfl
    have hneg : (signd && decide (value.getLastD 0 &&& 0x80 ≠ 0)) = true := by
      rw [hs, Bool.true_and]
      exact decide_eq_true htop
    unfold minimalLen
    rw [hneg]
    exact minimalFromTop_neg_pos value.reverse hne
  · intro hz
    have hlast : value.getLastD 0 = 0 := by
      cases value using List.reverseRecOn with
      | nil => rfl
      | append_singleton t b =>
        rw [List.getLastD_concat]
        exact hz b (by simp)
    have hneg : (signd && decide (value.getLastD 0 &&& 0x80 ≠ 0)) = false := by
      rw [hlast]
      cases signd <;> rfl
    unfold minimalLen
    rw [hneg]
    exact minimalFromTop_zeros value.reverse (fun b hb => hz b (List.mem_reverse.mp hb))

theorem int_minimization_rule_witness :
    Emits (_intwrite (fun i => [0x34, 0x12, 0, 0].getD i 0) 4 0 FLX_SZDF_SIZEONLY)
      [2, 0x34, 0x12] ∧
    Emits (_intwrite (fun i => [0x80, 0xff, 0xff, 0xff].getD i 0) 4 1 FLX_DF_DEFAULT)
      [0x11, 0x80] :=
  ⟨(int_minimization_rule [0x34, 0x12, 0, 0] false FLX_SZDF_SIZEONLY (by decide)).1,
   (int_minimization_rule [0x80, 0xff, 0xff, 0xff] true FLX_DF_DEFAULT (by decide)).1⟩

/-! ### Crop and promote, payload size -/

theorem logicstates_shift_congr (bits : Nat) (v1 v2 : Nat → Nat) (s1 s2 : Nat)
    (h : ∀ i, v1 (s1 + i) = v2 (s2 + i)) : ∀ (k i d : Nat),
    _logicstates_shift bits v1 s1 k i d = _logicstates_shift bits v2 s2 k i d := by
  intro k
  induction k with
  | zero => intro i d; rfl
  | succ k ih =>
    intro i d
    simp only [_logicstates_shift]
    rw [h i, ih]

theorem logicstates_data_congr (per bits fill : Nat) (v1 v2 : Nat → Nat) (s1 s2 pos : Nat)
    (h : ∀ i, v1 (s1 + i) = v2 (s2 + i)) : ∀ (k : Nat) (t : Int) (bytes : Nat → Nat) (w : Nat),
    _logicstates_data per bits fill v1 s1 pos k t bytes w
      = _logicstates_data per bits fill v2 s2 pos k t bytes w := by
  intro k
  induction k with
  | zero => intro t bytes w; rfl
  | succ k ih =>
    intro t bytes w
    simp only [_logicstates_data]
    rw [logicstates_shift_congr bits v1 v2 s1 s2 h, ih]

theorem logicstates_data_len (per bits fill : Nat) (value : Nat → Nat) (start pos : Nat) :
    ∀ (k : Nat) (t : Int) (bytes : Nat → Nat) (w : Nat),
    (_logicstates_data per bits fill value start pos k t bytes w).2 = w + k := by
  intro k
  induction k with
  | zero => intro t bytes w; rfl
  | succ k ih =>
    intro t bytes w
    simp only [_logicstates_data]
    rw [ih]
    omega

/-- The writer at an explicit level: no cropping, marker or header and data. -/
theorem logicstateswrite_explicit (p : Nat) (value : Nat → Nat) (size : Nat) (bytes : Nat → Nat)
    (pos : Nat) :
    (∀ L, L ≠ 0 → size = 0 ∧ p = 0 →
      _logicstateswrite L p value size bytes pos = _pluswrite 1 bytes pos) ∧
    (∀ L, L ≠ 0 → size = 0 ∧ p = 1 →
      _logicstateswrite L p value size bytes pos = _pluswrite 5 bytes pos) ∧
    (¬ (size = 0 ∧ p ≤ 1) →
      _logicstateswrite 1 p value size bytes pos
        = _logicstates_data 8 1 (FLX_LOGIC_L2_BYTE_FILL.getD p 0) value 0 pos
            ((size + 8) / 8) ((size : Int) - ((size + 8) / 8 : Nat) * (8 : Nat))
            (_pluswrite (((((size + 8) / 8) <<< 4) % 2 ^ 32 ||| 1)
              ||| FLX_XDF_LOGIC_PACK_RIGHT_ALLIGNED) bytes pos).1
            (_pluswrite (((((size + 8) / 8) <<< 4) % 2 ^ 32 ||| 1)
              ||| FLX_XDF_LOGIC_PACK_RIGHT_ALLIGNED) bytes pos).2) ∧
    (¬ (size = 0 ∧ p ≤ 1) →
      _logicstateswrite 2 p value size bytes pos
        = _logicstates_data 4 2 (FLX_LOGIC_L4_BYTE_FILL.getD p 0) value 0 pos
            ((size + 4) / 4) ((size : Int) - ((size + 4) / 4 : Nat) * (4 : Nat))
            (_pluswrite (((((size + 4) / 4) <<< 4) % 2 ^ 32 ||| 2)
              ||| FLX_XDF_LOGIC_PACK_RIGHT_ALLIGNED) bytes pos).1
            (_pluswrite (((((size + 4) / 4) <<< 4) % 2 ^ 32 ||| 2)
              ||| FLX_XDF_LOGIC_PACK_RIGHT_ALLIGNED) bytes pos).2) ∧
    (¬ (size = 0 ∧ p ≤ 1) →
      _logicstateswrite 3 p value size bytes pos
        = _logicstates_data 2 4 (FLX_LOGIC_L16_BYTE_FILL.getD p 0) value 0 pos
            ((size + 2) / 2) ((size : Int) - ((size + 2) / 2 : Nat) * (2 : Nat))
            (_pluswrite (((((size + 2) / 2) <<< 4) % 2 ^ 32 ||| 3)
              ||| FLX_XDF_LOGIC_PACK_RIGHT_ALLIGNED) bytes pos).1
            (_pluswrite (((((size + 2) / 2) <<< 4) % 2 ^ 32 ||| 3)
              ||| FLX_XDF_LOGIC_PACK_RIGHT_ALLIGNED) bytes pos).2) := by
  refine ⟨?_, ?_, ?_, ?_, ?_⟩
  · rintro L hL ⟨h1, h2⟩
    subst h2
    unfold _logicstateswrite
    simp only [hL, if_false, h1, FLX_STATE_0_BITS, and_self, if_true]
    rfl
  · rintro L hL ⟨h1, h2⟩
    subst h2
    unfold _logicstateswrite
    simp only [hL, if_false, h1, FLX_STATE_0_BITS, FLX_STATE_1_BITS, and_self, and_false,
      show ¬ ((1 : Nat) = 0) from by decide, if_true]
    rfl
  · intro h
    have h0 : ¬ (size = 0 ∧ p = FLX_STATE_0_BITS) := by
      simp only [FLX_STATE_0_BITS]; omega
    have h1 : ¬ (size = 0 ∧ p = FLX_STATE_1_BITS) := by
      simp only [FLX_STATE_1_BITS]; omega
    unfold _logicstateswrite
    simp only [show ¬ ((1 : Nat) = 0) from by decide, if_false, h0, h1, FLX_STATE_LEVEL_2,
      if_true]
    rfl
  · intro h
    have h0 : ¬ (size = 0 ∧ p = FLX_STATE_0_BITS) := by
      simp only [FLX_STATE_0_BITS]; omega
    have h1 : ¬ (size = 0 ∧ p = FLX_STATE_1_BITS) := by
      simp only [FLX_STATE_1_BITS]; omega
    unfold _logicstateswrite
    simp only [show ¬ ((2 : Nat) = 0) from by decide, if_false, h0, h1, FLX_STATE_LEVEL_2,
      FLX_STATE_LEVEL_4, show ¬ ((2 : Nat) = 1) from by decide, if_true]
    rfl
  · intro h
    have h0 : ¬ (size = 0 ∧ p = FLX_STATE_0_BITS) := by
      simp only [FLX_STATE_0_BITS]; omega
    have h1 : ¬ (size = 0 ∧ p = FLX_STATE_1_BITS) := by
      simp only [FLX_STATE_1_BITS]; omega
    unfold _logicstateswrite
    simp only [show ¬ ((3 : Nat) = 0) from by decide, if_false, h0, h1, FLX_STATE_LEVEL_2,
      FLX_STATE_LEVEL_4, FLX_STATE_LEVEL_16, show ¬ ((3 : Nat) = 1) from by decide,
      show ¬ ((3 : Nat) = 2) from by decide, if_true]
    rfl

theorem foldl_max_lt_iff (l : List Nat) (B m : Nat) :
    l.foldl max m < B ↔ m < B ∧ ∀ x ∈ l, x < B := by
  constructor
  · intro h
    obtain ⟨h1, h2⟩ := foldl_max_ge l m
    exact ⟨by omega, fun x hx => lt_of_le_of_lt (h2 x hx) h⟩
  · rintro ⟨h1, h2⟩
    exact foldl_max_lt l B m h1 h2

theorem forall_lt_dropWhile (p B : Nat) (l : List Nat) (hp : p < B) :
    (∀ x ∈ l, x < B) ↔ ∀ x ∈ l.dropWhile (fun x => decide (x = p)), x < B := by
  constructor
  · intro h x hx
    exact h x (List.IsSuffix.subset (List.dropWhile_suffix _) hx)
  · intro h x hx
    rw [← List.takeWhile_append_dropWhile (fun x => decide (x = p)) l, List.mem_append] at hx
    rcases hx with hx | hx
    · have := List.mem_takeWhile_imp hx
      have hxp : x = p := by simpa using this
      omega
    · exact h x hx

theorem autoLevel_eq (p : Nat) (l : List Nat) :
    autoLevel p (l.dropWhile (fun x => decide (x = p)))
      = if l.foldl max p < 2 then 1 else if l.foldl max p < 4 then 2 else 3 := by
  have key : ∀ B, l.foldl max p < B + 1 ↔
      (p ≤ B ∧ ∀ s ∈ l.dropWhile (fun x => decide (x = p)), s ≤ B) := by
    intro B
    rw [foldl_max_lt_iff]
    constructor
    · rintro ⟨h1, h2⟩
      exact ⟨by omega, fun s hs =>
        Nat.lt_succ_iff.mp ((forall_lt_dropWhile p (B + 1) l h1).mp h2 s hs)⟩
    · rintro ⟨h1, h2⟩
      exact ⟨by omega, (forall_lt_dropWhile p (B + 1) l (by omega)).mpr
        (fun s hs => Nat.lt_succ_iff.mpr (h2 s hs))⟩
  unfold autoLevel
  by_cases h2 : l.foldl max p < 2
  · rw [if_pos h2, if_pos ((key 1).mp h2)]; rfl
  · rw [if_neg h2, if_neg (fun h => h2 ((key 1).mpr h))]
    by_cases h4 : l.foldl max p < 4
    · rw [if_pos h4, if_pos ((key 3).mp h4)]; rfl
    · rw [if_neg h4, if_neg (fun h => h4 ((key 3).mpr h))]; rfl

theorem getD_dropWhile (p : Nat) (l : List Nat) (i : Nat) :
    l.getD ((l.takeWhile (fun x => decide (x = p))).length + i) 0
      = (l.dropWhile (fun x => decide (x = p))).getD i 0 := by
  rw [← drop_length_takeWhile]
  simp only [List.getD_eq_getElem?_getD, List.getElem?_drop]

/-- The writer with automatic level on a sequence is the writer at the chosen
level on the sequence without its leading run of preceding states. -/
theorem logicstateswrite_crop_eq (p : Nat) (l : List Nat) (bytes : Nat → Nat) (pos : Nat) :
    _logicstateswrite 0 p (fun i => l.getD i 0) l.length bytes pos
      = _logicstateswrite (autoLevel p (l.dropWhile (fun x => decide (x = p)))) p
          (fun i => (l.dropWhile (fun x => decide (x = p))).getD i 0)
          (l.dropWhile (fun x => decide (x = p))).length bytes pos := by
  have hlen := length_takeWhile_add_dropWhile (fun x => decide (x = p)) l
  have hc : _logicstates_crop p (fun i => l.getD i 0) l.length 0 true 0 l.length p
      = ((l.takeWhile (fun x => decide (x = p))).length,
         (l.dropWhile (fun x => decide (x = p))).length, l.foldl max p) := by
    rw [logicstates_crop_spec p l l.length 0 true 0 l.length p (by omega)]
    simp only [List.drop_zero, if_true, Nat.zero_add]
    refine Prod.ext rfl (Prod.ext ?_ rfl)
    simp only
    omega
  obtain ⟨a0, a1, a2, a4, a16⟩ := logicstateswrite_auto p (fun i => l.getD i 0) l.length bytes pos
    _ _ _ hc
  obtain ⟨e0, e1, e2, e4, e16⟩ := logicstateswrite_explicit p
    (fun i => (l.dropWhile (fun x => decide (x = p))).getD i 0)
    (l.dropWhile (fun x => decide (x = p))).length bytes pos
  have hv : ∀ i, (fun i => l.getD i 0) ((l.takeWhile (fun x => decide (x = p))).length + i)
      = (fun i => (l.dropWhile (fun x => decide (x = p))).getD i 0) (0 + i) := by
    intro i
    simp only [Nat.zero_add]
    exact getD_dropWhile p l i
  have hL : autoLevel p (l.dropWhile (fun x => decide (x = p))) ≠ 0 := by
    rw [autoLevel_eq]
    split
    · decide
    · split <;> decide
  by_cases hm : (l.dropWhile (fun x => decide (x = p))).length = 0 ∧ p ≤ 1
  · by_cases hp : p = 0
    · rw [a0 ⟨hm.1, hp⟩, e0 _ hL ⟨hm.1, hp⟩]
    · have hp1 : p = 1 := by omega
      rw [a1 ⟨hm.1, hp1⟩, e1 _ hL ⟨hm.1, hp1⟩]
  · rw [autoLevel_eq]
    by_cases h2 : l.foldl max p < 2
    · rw [if_pos h2, a2 hm h2, e2 hm]
      exact logicstates_data_congr _ _ _ _ _ _ _ _ hv _ _ _ _
    · rw [if_neg h2]
      by_cases h4 : l.foldl max p < 4
      · rw [if_pos h4, a4 hm (by omega) h4, e4 hm]
        exact logicstates_data_congr _ _ _ _ _ _ _ _ hv _ _ _ _
      · rw [if_neg h4, a16 hm (by omega), e16 hm]
        exact logicstates_data_congr _ _ _ _ _ _ _ _ hv _ _ _ _

theorem logicHeader_lt (stateLevel size : Nat) (hl : stateLevel ≤ 3) :
    logicHeader stateLevel size < 2 ^ 32 := by
  unfold logicHeader
  apply Nat.or_lt_two_pow
  · apply Nat.or_lt_two_pow
    · exact Nat.mod_lt _ (by norm_num)
    · omega
  · unfold FLX_XDF_LOGIC_PACK_RIGHT_ALLIGNED; norm_num

/-- Header and data of one `case` of the `switch`. -/
theorem logicPayload_data (per bits fill : Nat) (value : Nat → Nat) (start pos : Nat)
    (h : Nat) (hh : h < 2 ^ 32) (k : Nat) (t : Int) (bytes : Nat → Nat) :
    (_logicstates_data per bits fill value start pos k t (_pluswrite h bytes pos).1
        (_pluswrite h bytes pos).2).2 = (varintBytes h).length + k ∧
    readBytes (_logicstates_data per bits fill value start pos k t (_pluswrite h bytes pos).1
        (_pluswrite h bytes pos).2).1 pos (varintBytes h).length = varintBytes h ∧
    ∀ j, j < pos → (_logicstates_data per bits fill value start pos k t (_pluswrite h bytes pos).1
        (_pluswrite h bytes pos).2).1 j = bytes j := by
  obtain ⟨w1, w2, w3⟩ := emits_pluswrite h hh bytes pos
  refine ⟨by rw [logicstates_data_len, w1], ?_, fun j hj => ?_⟩
  · refine Eq.trans (readBytes_congr _ _ _ _ ?_) w3
    intro j hj hlt
    exact logicstates_data_frame _ _ _ _ _ _ _ _ _ _ j (by omega)
  · rw [logicstates_data_frame _ _ _ _ _ _ _ _ _ _ j (by omega)]
    exact w2 j hj

theorem logicPayload_explicit (stateLevel p size : Nat) (bytes : Nat → Nat) (pos : Nat)
    (hl : stateLevel = 1 ∨ stateLevel = 2 ∨ stateLevel = 3) (hnm : ¬ (size = 0 ∧ p ≤ 1))
    (value : Nat → Nat) :
    LogicPayload stateLevel size bytes pos (_logicstateswrite stateLevel p value size bytes pos) := by
  obtain ⟨_, _, e2, e4, e16⟩ := logicstateswrite_explicit p value size bytes pos
  have hlt := logicHeader_lt stateLevel size (by omega)
  unfold LogicPayload
  rcases hl with h | h | h <;> subst h
  · rw [e2 hnm]
    have hd : (size + 8) / 8 = logicDataBytes 1 size := by
      unfold logicDataBytes; exact Nat.add_div_right size (by norm_num)
    rw [hd]
    exact logicPayload_data 8 1 _ value 0 pos (logicHeader 1 size) hlt _ _ bytes
  · rw [e4 hnm]
    have hd : (size + 4) / 4 = logicDataBytes 2 size := by
      unfold logicDataBytes; exact Nat.add_div_right size (by norm_num)
    rw [hd]
    exact logicPayload_data 4 2 _ value 0 pos (logicHeader 2 size) hlt _ _ bytes
  · rw [e16 hnm]
    have hd : (size + 2) / 2 = logicDataBytes 3 size := by
      unfold logicDataBytes; exact Nat.add_div_right size (by norm_num)
    rw [hd]
    exact logicPayload_data 2 4 _ value 0 pos (logicHeader 3 size) hlt _ _ bytes

/-- C21, amended. Logic payload size: whenever `_logicstateswrite` emits the
form that is not a marker for a cropped sequence of `size` states at a level
with 8, 4 or 2 states per byte (the level given by the caller, or chosen
automatically after cropping), the header varint is
`(dataBytes << 4) | stateLevel | FLX_XDF_LOGIC_PACK_RIGHT_ALLIGNED` with
`dataBytes = size / statesPerByte + 1`, one more than the bytes the states
fill completely, and exactly `dataBytes` data bytes follow the header. -/
theorem logic_payload_size (stateLevel p size : Nat) (bytes : Nat → Nat) (pos : Nat)
    (hl : stateLevel = FLX_STATE_LEVEL_2 ∨ stateLevel = FLX_STATE_LEVEL_4 ∨
      stateLevel = FLX_STATE_LEVEL_16)
    (hnm : ¬ (size = 0 ∧ (p = FLX_STATE_0_BITS ∨ p = FLX_STATE_1_BITS))) :
    (∀ value : Nat → Nat,
      LogicPayload stateLevel size bytes pos
        (_logicstateswrite stateLevel p value size bytes pos)) ∧
    (∀ l : List Nat, (l.dropWhile (fun x => decide (x = p))).length = size →
      autoLevel p (l.dropWhile (fun x => decide (x = p))) = stateLevel →
      LogicPayload stateLevel size bytes pos
        (_logicstateswrite FLX_STATE_LEVEL_UNKNOWN p (fun i => l.getD i 0) l.length bytes pos)) := by
  have hnm1 : ¬ (size = 0 ∧ p ≤ 1) := by
    intro h
    apply hnm
    refine ⟨h.1, ?_⟩
    unfold FLX_STATE_0_BITS FLX_STATE_1_BITS
    omega
  refine ⟨fun value => logicPayload_explicit stateLevel p size bytes pos hl hnm1 value, ?_⟩
  intro l hlen hlevel
  show LogicPayload stateLevel size bytes pos
    (_logicstateswrite 0 p (fun i => l.getD i 0) l.length bytes pos)
  rw [logicstateswrite_crop_eq, hlevel, hlen]
  exact logicPayload_explicit stateLevel p size bytes pos hl hnm1 _

theorem logic_payload_size_witness :
    LogicPayload 1 8 (fun _ => 0) 0 (_logicstateswrite 1 0 (fun _ => 1) 8 (fun _ => 0) 0) ∧
    LogicPayload 2 1 (fun _ => 0) 0
      (_logicstateswrite 0 0 (fun i => [0, 0, 2].getD i 0) 3 (fun _ => 0) 0) :=
  ⟨(logic_payload_size 1 0 8 (fun _ => 0) 0 (Or.inl rfl) (by decide)).1 (fun _ => 1),
   (logic_payload_size 2 0 1 (fun _ => 0) 0 (Or.inr (Or.inl rfl)) (by decide)).2 [0, 0, 2]
     (by decide) (by decide)⟩

set_option maxRecDepth 100000 in
/-- Counterexample to C21 as stated: eight states at the 2-state level fill one byte, yet
the header `0x29` announces two data bytes and two are written, where
`ceil(8 / 8) = 1` would give the header `0x19` and one data byte. -/
theorem logic_payload_size_counterexample :
    readBytes (_logicstateswrite 1 0 (fun _ => 1) 8 (fun _ => 0) 0).1 0 3 = [0x29, 0x00, 0xff] ∧
    (_logicstateswrite 1 0 (fun _ => 1) 8 (fun _ => 0) 0).2 = 3 ∧
    (8 + 8 - 1) / 8 = 1 ∧
    ((((8 + 8 - 1) / 8) <<< 4) ||| FLX_STATE_LEVEL_2) ||| FLX_XDF_LOGIC_PACK_RIGHT_ALLIGNED = 0x19 :=
  ⟨by decide, by decide, by decide, by decide⟩

/-- C22. Crop and promote: with automatic level, `_logicstateswrite` writes what
it writes for the sequence without its maximal leading run of entries equal to
the preceding state `p`, at the 2-state level if `p` and all remaining states
are in `{0, 1}`, at the 4-state level if they are all in `{0, 1, Z, X}` but not
all in `{0, 1}`, at the 16-state level otherwise; when nothing remains and `p`
is 0-bits or 1-bits the output is the single byte `LEVEL_2 | PACK_0` (`0x01`)
or `LEVEL_2 | PACK_1` (`0x05`), and in every other case the header written
carries the chosen level. -/
theorem logic_crop_and_promote (p : Nat) (l : List Nat) (bytes : Nat → Nat) (pos : Nat) :
    _logicstateswrite FLX_STATE_LEVEL_UNKNOWN p (fun i => l.getD i 0) l.length bytes pos
      = _logicstateswrite (autoLevel p (l.dropWhile (fun x => decide (x = p)))) p
          (fun i => (l.dropWhile (fun x => decide (x = p))).getD i 0)
          (l.dropWhile (fun x => decide (x = p))).length bytes pos ∧
    (l.dropWhile (fun x => decide (x = p)) = [] → p = FLX_STATE_0_BITS →
      _logicstateswrite FLX_STATE_LEVEL_UNKNOWN p (fun i => l.getD i 0) l.length bytes pos
        = (store bytes pos 0x01, 1)) ∧
    (l.dropWhile (fun x => decide (x = p)) = [] → p = FLX_STATE_1_BITS →
      _logicstateswrite FLX_STATE_LEVEL_UNKNOWN p (fun i => l.getD i 0) l.length bytes pos
        = (store bytes pos 0x05, 1)) ∧
    (¬ (l.dropWhile (fun x => decide (x = p)) = [] ∧ p ≤ 1) →
      LogicPayload (autoLevel p (l.dropWhile (fun x => decide (x = p))))
        (l.dropWhile (fun x => decide (x = p))).length bytes pos
        (_logicstateswrite FLX_STATE_LEVEL_UNKNOWN p (fun i => l.getD i 0) l.length bytes pos)) := by
  have hL : autoLevel p (l.dropWhile (fun x => decide (x = p))) ≠ 0 ∧
      (autoLevel p (l.dropWhile (fun x => decide (x = p))) = 1 ∨
       autoLevel p (l.dropWhile (fun x => decide (x = p))) = 2 ∨
       autoLevel p (l.dropWhile (fun x => decide (x = p))) = 3) := by
    rw [autoLevel_eq]
    split
    · exact ⟨by decide, Or.inl rfl⟩
    · split
      · exact ⟨by decide, Or.inr (Or.inl rfl)⟩
      · exact ⟨by decide, Or.inr (Or.inr rfl)⟩
  obtain ⟨e0, e1, _, _, _⟩ := logicstateswrite_explicit p
    (fun i => (l.dropWhile (fun x => decide (x = p))).getD i 0)
    (l.dropWhile (fun x => decide (x = p))).length bytes pos
  refine ⟨logicstateswrite_crop_eq p l bytes pos, ?_, ?_, ?_⟩
  · intro hr hp
    show _logicstateswrite 0 p (fun i => l.getD i 0) l.length bytes pos = _
    rw [logicstateswrite_crop_eq, e0 _ hL.1 ⟨by rw [hr]; rfl, hp⟩]
    exact pluswrite_loop_last 4 1 bytes pos 1 (by omega)
  · intro hr hp
    show _logicstateswrite 0 p (fun i => l.getD i 0) l.length bytes pos = _
    rw [logicstateswrite_crop_eq, e1 _ hL.1 ⟨by rw [hr]; rfl, hp⟩]
    exact pluswrite_loop_last 4 5 bytes pos 1 (by omega)
  · intro hnm
    show LogicPayload _ _ bytes pos (_logicstateswrite 0 p (fun i => l.getD i 0) l.length bytes pos)
    rw [logicstateswrite_crop_eq]
    refine logicPayload_explicit _ p _ bytes pos hL.2 ?_ _
    intro h
    exact hnm ⟨List.length_eq_zero.mp h.1, h.2⟩

/-! ### Control entry layout -/

/-- Layout of an entry written through the template: the bytes of a body that
emits `l` are found at the region the buffer granted. -/
theorem flxEntry_emits {σ : Type} (buffer b1 : flxBuffer σ) (request : Nat)
    (body : List ((Nat → Nat) → Nat → (Nat → Nat) × Nat)) (l : List Nat)
    (hbody : Emits (writeSeq body) l) (h : flxEntry buffer request body = (FLX_OK, b1)) :
    ∃ p, (buffer.call FLX_BUFFER_REQUEST (request % 2 ^ 32) none).bytes = some p ∧
      readBytes b1.bytes p l.length = l ∧
      (buffer.access ≠ flxBufferAccess.ring →
        p = (buffer.call FLX_BUFFER_REQUEST (request % 2 ^ 32) none).buffer.pos ∧
        b1.pos = (p + l.length) % 2 ^ 32 ∧
        ∀ j, j < p →
          b1.bytes j = (buffer.call FLX_BUFFER_REQUEST (request % 2 ^ 32) none).buffer.bytes j) := by
  obtain ⟨_, p, hp, hbytes, hlin⟩ := flxEntry_ok buffer b1 request body h
  obtain ⟨e1, e2, e3⟩ := hbody
    (buffer.call FLX_BUFFER_REQUEST (request % 2 ^ 32) none).buffer.bytes p
  refine ⟨p, hp, ?_, fun hnr => ?_⟩
  · refine Eq.trans (readBytes_congr _ _ _ _ ?_) e3
    intro j hj1 _
    exact hbytes j hj1
  · obtain ⟨hp1, hb1, _⟩ := hlin hnr
    refine ⟨hp1, ?_, fun j hj => ?_⟩
    · rw [hb1]
      simp only
      rw [e1]
    · rw [hb1]
      simp only
      exact e2 j hj

theorem emits_szDfwrite_sizeonly (size : Nat) (hsize : size < 2 ^ 32) :
    Emits (szDfwrite size FLX_SZDF_SIZEONLY) (varintBytes size) := by
  have e1 : szDfwrite size FLX_SZDF_SIZEONLY = _pluswrite size := by
    funext bytes pos
    unfold szDfwrite FLX_SZDF_SIZEONLY FLX_SZDF_NONE
    rw [if_pos (by decide), if_neg (by decide)]
  rw [e1]
  exact emits_pluswrite size hsize

theorem intwrite_rsize_congr (v1 v2 : Nat → Nat) (s : Nat) : ∀ n r,
    (∀ i, i < n → v1 i = v2 i) → _intwrite_rsize v1 s n r = _intwrite_rsize v2 s n r := by
  intro n
  induction n with
  | zero => intro r _; rfl
  | succ n ih =>
    intro r h
    unfold _intwrite_rsize
    rw [h n (by omega), ih _ (fun i hi => h i (by omega))]
    by_cases hn : n = 0
    · subst hn
      simp
    · rw [h (n - 1) (by omega)]

theorem arraycopy_congr (s1 s2 target : Nat → Nat) (tPos n : Nat)
    (h : ∀ i, i < n → s1 i = s2 i) :
    _arraycopy s1 0 target tPos n = _arraycopy s2 0 target tPos n := by
  funext j
  rw [arraycopy_apply, arraycopy_apply]
  by_cases c : tPos ≤ j ∧ j < tPos + n
  · rw [if_pos c, if_pos c]
    simp only [Nat.zero_add]
    exact h _ (by omega)
  · rw [if_neg c, if_neg c]

theorem signdAnd_mod2 (signd size top : Nat) :
    signdAnd signd size top
      = signdAnd (if decide (signd % 2 = 1) then 1 else 0) size top := by
  unfold signdAnd
  by_cases c : size > 0 ∧ top &&& 0x80 ≠ 0
  · rw [if_pos c]
    have h1 : signd &&& 1 = signd % 2 := Nat.and_one_is_mod signd
    rw [h1]
    by_cases h : signd % 2 = 1
    · simp [h]
    · have : signd % 2 = 0 := by omega
      simp [this]
  · rw [if_neg c]
    simp

/-- The integer writer reads its value below `size` only and its sign flag by
the lowest bit. -/
theorem intwrite_congr (v1 v2 : Nat → Nat) (size signd szDf : Nat)
    (h : ∀ i, i < size → v1 i = v2 i) :
    _intwrite v1 size signd szDf
      = _intwrite v2 size (if decide (signd % 2 = 1) then 1 else 0) szDf := by
  funext bytes pos
  unfold _intwrite
  simp only
  have htop : signdAnd signd size (v1 (size - 1))
      = signdAnd (if decide (signd % 2 = 1) then 1 else 0) size (v2 (size - 1)) := by
    rw [signdAnd_mod2]
    by_cases hs : size = 0
    · subst hs
      simp [signdAnd]
    · rw [h (size - 1) (by omega)]
  rw [htop, intwrite_rsize_congr v1 v2 _ size size h]
  have hle := (intwrite_rsize_spec v2
    (signdAnd (if decide (signd % 2 = 1) then 1 else 0) size (v2 (size - 1))) size).1
  rw [arraycopy_congr v1 v2 _ _ _ (fun i hi => h i (by omega))]

theorem getD_map_range (f : Nat → Nat) (n i : Nat) (hi : i < n) :
    ((List.range n).map f).getD i 0 = f i := by
  rw [List.getD_eq_getElem?_getD, List.getElem?_eq_getElem (by simpa using hi)]
  simp

theorem emits_memberwrite_payload (m : flxMemberValueStruct) (hsize : m.size < 2 ^ 32) :
    Emits (_memberwrite_payload m) (memberPayloadBytes m) := by
  by_cases c1 : m.type &&& FLX_STRUCTTYPE_MASK_BASE = FLX_STRUCTTYPE_ENUM ∨
      m.type &&& FLX_STRUCTTYPE_MASK_BASE = FLX_STRUCTTYPE_LOCAL_ENUM ∨
      m.type &&& FLX_STRUCTTYPE_MASK_BASE = FLX_STRUCTTYPE_MERGE_ENUM ∨
      m.type &&& FLX_STRUCTTYPE_MASK_BASE = FLX_STRUCTTYPE_INTEGER
  · have hw : _memberwrite_payload m
        = _intwrite m.value (m.size % 256) m.option FLX_SZDF_SIZEONLY := by
      funext bytes pos
      unfold _memberwrite_payload
      simp only
      rw [if_pos c1]
    have hl : memberPayloadBytes m
        = varintBytes (minimalLen (decide (m.option % 2 = 1))
            (memberValueBytes m (m.size % 256))) ++
          (memberValueBytes m (m.size % 256)).take
            (minimalLen (decide (m.option % 2 = 1)) (memberValueBytes m (m.size % 256))) := by
      unfold memberPayloadBytes
      simp only
      rw [if_pos c1]
    rw [hw, hl]
    have hlen : (memberValueBytes m (m.size % 256)).length = m.size % 256 := by
      simp [memberValueBytes]
    have hcongr := intwrite_congr m.value
      (fun i => (memberValueBytes m (m.size % 256)).getD i 0) (m.size % 256) m.option
      FLX_SZDF_SIZEONLY (fun i hi => (getD_map_range m.value _ i hi).symm)
    have he := emits_intwrite (memberValueBytes m (m.size % 256)) (decide (m.option % 2 = 1))
      FLX_SZDF_SIZEONLY (by rw [hlen]; omega)
    rw [hlen] at he
    rw [hcongr]
    have hp : sizePrefixBytes
        (minimalLen (decide (m.option % 2 = 1)) (memberValueBytes m (m.size % 256)))
        FLX_SZDF_SIZEONLY
        = varintBytes (minimalLen (decide (m.option % 2 = 1))
            (memberValueBytes m (m.size % 256))) := by
      unfold sizePrefixBytes FLX_SZDF_SIZEONLY FLX_SZDF_NONE
      rw [if_neg (by decide), if_pos rfl]
    rw [hp] at he
    exact he
  · by_cases c2 : m.type &&& FLX_STRUCTTYPE_MASK_BASE = FLX_STRUCTTYPE_FLOAT
    · by_cases c3 : m.size % 256 = 4 ∨ m.size % 256 = 8
      · have hw : _memberwrite_payload m
            = fun bytes pos =>
              (_arraycopy m.value 0 (szDfwrite (m.size % 256) FLX_SZDF_SIZEONLY bytes pos).1
                (pos + (szDfwrite (m.size % 256) FLX_SZDF_SIZEONLY bytes pos).2) (m.size % 256),
              (szDfwrite (m.size % 256) FLX_SZDF_SIZEONLY bytes pos).2 + m.size % 256) := by
          funext bytes pos
          unfold _memberwrite_payload _floatwrite
          simp only
          rw [if_neg c1, if_pos c2, if_neg (by omega)]
        have hl : memberPayloadBytes m
            = varintBytes (m.size % 256) ++ memberValueBytes m (m.size % 256) := by
          unfold memberPayloadBytes
          simp only
          rw [if_neg c1, if_pos c2, if_pos c3]
        rw [hw, hl]
        exact emits_then_copy _ m.value _ _ (emits_szDfwrite_sizeonly _ (by omega))
      · have hw : _memberwrite_payload m = fun bytes _ => (bytes, 0) := by
          funext bytes pos
          unfold _memberwrite_payload _floatwrite
          simp only
          rw [if_neg c1, if_pos c2, if_pos (by omega)]
        have hl : memberPayloadBytes m = [] := by
          unfold memberPayloadBytes
          simp only
          rw [if_neg c1, if_pos c2, if_neg c3]
        rw [hw, hl]
        intro bytes pos
        exact ⟨rfl, fun _ _ => rfl, rfl⟩
    · by_cases c4 : m.type &&& FLX_STRUCTTYPE_MASK_BASE = FLX_STRUCTTYPE_TEXT ∨
          m.type &&& FLX_STRUCTTYPE_MASK_BASE = FLX_STRUCTTYPE_BINARY
      · have hw : _memberwrite_payload m
            = fun bytes pos =>
              (_arraycopy m.value 0 (szDfwrite m.size FLX_SZDF_SIZEONLY bytes pos).1
                (pos + (szDfwrite m.size FLX_SZDF_SIZEONLY bytes pos).2) m.size,
              (szDfwrite m.size FLX_SZDF_SIZEONLY bytes pos).2 + m.size) := by
          funext bytes pos
          unfold _memberwrite_payload _textnwrite _binwrite
          simp only
          rw [if_neg c1, if_neg c2]
          rcases c4 with c4 | c4
          · rw [if_pos c4]
          · by_cases c5 : m.type &&& FLX_STRUCTTYPE_MASK_BASE = FLX_STRUCTTYPE_TEXT
            · rw [if_pos c5]
            · rw [if_neg c5, if_pos c4]
        have hl : memberPayloadBytes m = varintBytes m.size ++ memberValueBytes m m.size := by
          unfold memberPayloadBytes
          simp only
          rw [if_neg c1, if_neg c2, if_pos c4]
        rw [hw, hl]
        exact emits_then_copy _ m.value _ _ (emits_szDfwrite_sizeonly _ hsize)
      · have hw : _memberwrite_payload m = fun bytes _ => (bytes, 0) := by
          funext bytes pos
          unfold _memberwrite_payload
          simp only
          rw [if_neg c1, if_neg c2, if_neg (fun h => c4 (Or.inl h)),
            if_neg (fun h => c4 (Or.inr h))]
        have hl : memberPayloadBytes m = [] := by
          unfold memberPayloadBytes
          simp only
          rw [if_neg c1, if_neg c2, if_neg c4]
        rw [hw, hl]
        intro bytes pos
        exact ⟨rfl, fun _ _ => rfl, rfl⟩

theorem emits_memberwrite_member (m : flxMemberValueStruct) (hid : m.memberId < 2 ^ 32)
    (hsize : m.size < 2 ^ 32) :
    Emits (writeSeq (_memberwrite_member m)) (if m.valid ≠ 0 then memberBytes m else []) := by
  unfold _memberwrite_member
  by_cases hv : m.valid ≠ 0
  · rw [if_pos hv, if_pos hv]
    unfold memberBytes
    rw [List.append_assoc]
    exact emits_cons _ _ _ _ (emits_pluswrite _ hid)
      (emits_cons _ _ _ _ (emits_putByte _)
        (emits_single _ _ (emits_memberwrite_payload m hsize)))
  · rw [if_neg hv, if_neg hv]
    exact emits_nil

theorem validMembers_succ (value : Nat → flxMemberValueStruct) (n : Nat) :
    validMembers value (n + 1)
      = validMembers value n ++ (if (value n).valid ≠ 0 then [value n] else []) := by
  unfold validMembers
  rw [List.range_succ, List.map_append, List.filter_append]
  congr 1
  by_cases h : (value n).valid ≠ 0
  · simp [h]
  · simp [h]

theorem emits_memberwrite_loop (value : Nat → flxMemberValueStruct) : ∀ count,
    (∀ n, n < count → (value n).memberId < 2 ^ 32 ∧ (value n).size < 2 ^ 32) →
    Emits (writeSeq ((List.range count).flatMap (fun n => _memberwrite_member (value n))))
      ((validMembers value count).flatMap memberBytes) := by
  intro count
  induction count with
  | zero => intro _; exact emits_nil
  | succ n ih =>
    intro h
    rw [List.range_succ, List.flatMap_append, validMembers_succ, List.flatMap_append]
    apply emits_append _ _ _ _ (ih (fun k hk => h k (by omega)))
    have hm := emits_memberwrite_member (value n) (h n (by omega)).1 (h n (by omega)).2
    simp only [List.flatMap_cons, List.flatMap_nil, List.append_nil]
    by_cases hv : (value n).valid ≠ 0
    · rw [if_pos hv] at hm ⊢
      simpa using hm
    · rw [if_neg hv] at hm ⊢
      simpa using hm

theorem emits_memberwrite_none (value : Nat → flxMemberValueStruct) (count : Nat)
    (h : ∀ n, n < count → (value n).memberId < 2 ^ 32 ∧ (value n).size < 2 ^ 32) :
    Emits (_memberwrite value count FLX_SZDF_NONE)
      ((validMembers value count).flatMap memberBytes) := by
  intro bytes pos
  obtain ⟨h1, h2, h3⟩ := emits_memberwrite_loop value count h bytes pos
  unfold _memberwrite
  simp only [ne_eq, not_true_eq_false, if_false, Nat.add_zero, Nat.zero_add]
  exact ⟨h1, h2, h3⟩

theorem controlEntry_rcount (value : Nat → flxMemberValueStruct) : ∀ count, count < 2 ^ 32 →
    (flxWriteControlEntry_request value count).2 = (validMembers value count).length ∧
    (validMembers value count).length ≤ count := by
  intro count
  induction count with
  | zero => intro _; exact ⟨rfl, le_refl _⟩
  | succ n ih =>
    intro hn
    obtain ⟨ih1, ih2⟩ := ih (by omega)
    rw [validMembers_succ, List.length_append]
    unfold flxWriteControlEntry_request
    simp only
    by_cases hv : (value n).valid ≠ 0
    · rw [if_pos hv, if_pos hv]
      simp only [List.length_singleton]
      rw [ih1]
      exact ⟨Nat.mod_eq_of_lt (by omega), by omega⟩
    · rw [if_neg hv, if_neg hv]
      simp only [List.length_nil, Nat.add_zero]
      exact ⟨ih1, by omega⟩

/-- C29. Control entry layout: when `flxWriteControlEntry` returns `FLX_OK`, the
region the buffer granted holds exactly `0x00`, the tag (`0x80` request, `0x81`
response), `varint(controlId)`, `varint(messageId)`, `varint(c)` with `c` the
number of members whose `valid` is not 0, followed by exactly those members in
array order, each as `varint(memberId)`, type byte and the payload of its type,
with no length prefix for the whole; a member that is not valid contributes no
byte. On a linear or simple buffer the region starts at the cursor, the cells
below it are untouched and the cursor moves by the number of these bytes. -/
theorem control_entry_layout {σ : Type} (buffer b1 : flxBuffer σ)
    (entryTag controlId messageId : Nat) (value : Nat → flxMemberValueStruct) (count : Nat)
    (hc : controlId < 2 ^ 32) (hm : messageId < 2 ^ 32) (hcount : count < 2 ^ 32)
    (hmem : ∀ n, n < count → (value n).memberId < 2 ^ 32 ∧ (value n).size < 2 ^ 32)
    (h : flxWriteControlEntry buffer entryTag controlId messageId value count = (FLX_OK, b1)) :
    ∃ p, (buffer.call FLX_BUFFER_REQUEST
        (((flxWriteControlEntry_request value count).1
          + _pluslen (flxWriteControlEntry_request value count).2) % 2 ^ 32) none).bytes = some p ∧
      readBytes b1.bytes p (controlEntryBytes entryTag controlId messageId value count).length
        = controlEntryBytes entryTag controlId messageId value count ∧
      (buffer.access ≠ flxBufferAccess.ring →
        p = (buffer.call FLX_BUFFER_REQUEST
          (((flxWriteControlEntry_request value count).1
            + _pluslen (flxWriteControlEntry_request value count).2) % 2 ^ 32) none).buffer.pos ∧
        b1.pos = (p + (controlEntryBytes entryTag controlId messageId value count).length)
          % 2 ^ 32 ∧
        ∀ j, j < p → b1.bytes j = (buffer.call FLX_BUFFER_REQUEST
          (((flxWriteControlEntry_request value count).1
            + _pluslen (flxWriteControlEntry_request value count).2) % 2 ^ 32) none).buffer.bytes
              j) := by
  obtain ⟨hr1, hr2⟩ := controlEntry_rcount value count hcount
  have hbody : Emits (writeSeq [putByte 0, putByte entryTag, _pluswrite controlId,
      _pluswrite messageId, _pluswrite (flxWriteControlEntry_request value count).2,
      _memberwrite value count FLX_SZDF_NONE])
      (controlEntryBytes entryTag controlId messageId value count) := by
    have e := emits_cons _ _ _ _ (emits_putByte 0)
      (emits_cons _ _ _ _ (emits_putByte entryTag)
        (emits_cons _ _ _ _ (emits_pluswrite controlId hc)
          (emits_cons _ _ _ _ (emits_pluswrite messageId hm)
            (emits_cons _ _ _ _
              (emits_pluswrite (flxWriteControlEntry_request value count).2
                (by rw [hr1]; omega))
              (emits_single _ _ (emits_memberwrite_none value count hmem))))))
    have hl : controlEntryBytes entryTag controlId messageId value count
        = [0] ++ ([entryTag] ++ (varintBytes controlId ++ (varintBytes messageId ++
            (varintBytes (validMembers value count).length ++
              (validMembers value count).flatMap memberBytes)))) := by
      simp [controlEntryBytes]
    rw [hl, ← hr1]
    exact e
  exact flxEntry_emits buffer b1 _ _ _ hbody h

set_option maxRecDepth 100000 in
theorem control_entry_layout_witness :
    ∃ b1 : flxBuffer Unit,
      flxWriteControlResEntry exBufferEmpty 1 2 exNoMembers 0 = (FLX_OK, b1) ∧
      readBytes b1.bytes 0 5 = [0x00, 0x81, 0x01, 0x02, 0x00] ∧ b1.pos = 5 := by
  have h1 : flxWriteControlEntry exBufferEmpty FLX_ENTRY_CRES 1 2 exNoMembers 0
      = (FLX_OK, (flxWriteControlEntry exBufferEmpty FLX_ENTRY_CRES 1 2 exNoMembers 0).2) :=
    Prod.ext (by decide) rfl
  obtain ⟨p, hp, hread, hlin⟩ := control_entry_layout exBufferEmpty _ FLX_ENTRY_CRES 1 2
    exNoMembers 0 (by decide) (by decide) (by decide) (fun n hn => absurd hn (by omega)) h1
  have hp0 : p = 0 := by
    have : (exBufferEmpty.call FLX_BUFFER_REQUEST
        (((flxWriteControlEntry_request exNoMembers 0).1
          + _pluslen (flxWriteControlEntry_request exNoMembers 0).2) % 2 ^ 32) none).bytes
        = some 0 := by decide
    rw [this] at hp
    exact (Option.some.inj hp).symm
  subst hp0
  refine ⟨_, h1, hread, ?_⟩
  exact (hlin (by decide)).2.1

/-! ### Control parsing -/

theorem readBytes_split (bytes : Nat → Nat) (pos : Nat) (l1 l2 : List Nat)
    (h : readBytes bytes pos (l1 ++ l2).length = l1 ++ l2) :
    readBytes bytes pos l1.length = l1 ∧ readBytes bytes (pos + l1.length) l2.length = l2 := by
  rw [List.length_append, readBytes_add] at h
  exact List.append_inj h (readBytes_length _ _ _)

theorem readBytes_getD (bytes : Nat → Nat) (pos : Nat) (l : List Nat)
    (h : readBytes bytes pos l.length = l) (i : Nat) (hi : i < l.length) :
    bytes (pos + i) = l.getD i 0 := by
  have h1 : (readBytes bytes pos l.length).getD i 0 = l.getD i 0 := by rw [h]
  rw [← h1]
  unfold readBytes
  rw [List.getD_eq_getElem?_getD, List.getElem?_eq_getElem (by simpa using hi)]
  simp

theorem varintBytes_length_pos (v : Nat) : 1 ≤ (varintBytes v).length := by
  unfold varintBytes varintAux
  split <;> simp

/-- Reading a varint that stands in the region. -/
theorem plusread_varint (bytes : Nat → Nat) (pos end_ v : Nat) (hv : v < 2 ^ 32)
    (hb : readBytes bytes pos (varintBytes v).length = varintBytes v)
    (he : pos + (varintBytes v).length ≤ end_ + 1) :
    _plusread bytes pos end_ = (v, (varintBytes v).length) := by
  obtain ⟨w1, _, w3⟩ := emits_pluswrite v hv bytes pos
  obtain ⟨_, _, _, hr⟩ := pluswrite_plusread v bytes pos end_ hv (by rw [w1]; exact he)
  have hpos := varintBytes_length_pos v
  have hagree := readBytes_eq_pointwise (_pluswrite v bytes pos).1 bytes pos
    (varintBytes v).length (by rw [w3, hb])
  have hc := plusread_congr (_pluswrite v bytes pos).1 bytes pos end_
    (by rw [hr, w1]; show (varintBytes v).length ≠ 0; omega)
    (fun j hj hlt => hagree j hj (by rw [hr, w1] at hlt; exact hlt))
  rw [hc, hr, w1]

theorem signdAnd_ne_zero_iff (opt size top : Nat) :
    signdAnd opt size top ≠ 0 ↔ opt % 2 = 1 ∧ size > 0 ∧ top &&& 0x80 ≠ 0 := by
  unfold signdAnd
  by_cases c : size > 0 ∧ top &&& 0x80 ≠ 0
  · rw [if_pos c, Nat.and_one_is_mod]
    constructor
    · intro h; exact ⟨by omega, c.1, c.2⟩
    · intro h; omega
  · rw [if_neg c]
    simp only [Nat.and_zero, ne_eq, not_true_eq_false, false_iff]
    tauto

theorem getLastD_eq_getD (l : List Nat) (h : 0 < l.length) :
    l.getLastD 0 = l.getD (l.length - 1) 0 := by
  cases l using List.reverseRecOn with
  | nil => simp at h
  | append_singleton t b =>
    rw [List.getLastD_concat]
    simp [List.getD_eq_getElem?_getD]

/-- What stands behind a size varint and its payload in the region. -/
theorem payload_segment (bytes : Nat → Nat) (p2 end_ : Nat) (payload : List Nat)
    (hseg : readBytes bytes p2 (varintBytes payload.length ++ payload).length
      = varintBytes payload.length ++ payload)
    (hend : p2 + (varintBytes payload.length ++ payload).length ≤ end_ + 1)
    (h32 : end_ + 1 < 2 ^ 32) :
    _plusread bytes p2 end_ = (payload.length, (varintBytes payload.length).length) ∧
    1 ≤ (varintBytes payload.length).length ∧
    p2 + (varintBytes payload.length).length + payload.length ≤ end_ + 1 ∧
    (∀ i, i < payload.length →
      bytes (p2 + (varintBytes payload.length).length + i) = payload.getD i 0) := by
  obtain ⟨hs1, hs2⟩ := readBytes_split bytes p2 _ _ hseg
  rw [List.length_append] at hend
  refine ⟨plusread_varint bytes p2 end_ _ (by omega) hs1 (by omega),
    varintBytes_length_pos _, by omega, fun i hi => readBytes_getD bytes _ payload hs2 i hi⟩

theorem intread_segment (dst : Nat → Nat) (D opt : Nat) (payload : List Nat) (bytes : Nat → Nat)
    (p2 end_ : Nat)
    (hseg : readBytes bytes p2 (varintBytes payload.length ++ payload).length
      = varintBytes payload.length ++ payload)
    (hend : p2 + (varintBytes payload.length ++ payload).length ≤ end_ + 1)
    (h32 : end_ + 1 < 2 ^ 32) (hD : payload.length ≤ D) :
    _intread dst D opt bytes p2 end_
      = (fun n => if n < D then
            (if n < payload.length then payload.getD n 0
             else if opt % 2 = 1 ∧ payload.getLastD 0 &&& 0x80 ≠ 0 then 0xff else 0)
          else dst n, (varintBytes payload.length).length) := by
  obtain ⟨hread, hl1, hfit, hbytes⟩ := payload_segment bytes p2 end_ payload hseg hend h32
  unfold _intread
  simp only [hread]
  rw [if_neg (by omega)]
  refine Prod.ext ?_ (by simp)
  funext n
  simp only
  rw [intread_fill_apply]
  by_cases hn : n < D
  · rw [if_pos hn, if_pos hn]
    by_cases hn2 : n < payload.length
    · rw [if_pos hn2, if_pos hn2]
      exact hbytes n hn2
    · rw [if_neg hn2, if_neg hn2]
      have hiff := signdAnd_ne_zero_iff opt payload.length
        (bytes (p2 + (varintBytes payload.length).length + (payload.length - 1)))
      by_cases hp : 0 < payload.length
      · have htop : bytes (p2 + (varintBytes payload.length).length + (payload.length - 1))
            = payload.getLastD 0 := by
          rw [hbytes _ (by omega), getLastD_eq_getD payload hp]
        rw [htop] at hiff ⊢
        by_cases hs : opt % 2 = 1 ∧ payload.getLastD 0 &&& 0x80 ≠ 0
        · rw [if_pos (hiff.mpr ⟨hs.1, hp, hs.2⟩), if_pos hs]
        · rw [if_neg (fun h => hs ⟨(hiff.mp h).1, (hiff.mp h).2.2⟩), if_neg hs]
      · have hp0 : payload = [] := List.length_eq_zero.mp (by omega)
        have h1 : ¬ (signdAnd opt payload.length
            (bytes (p2 + (varintBytes payload.length).length + (payload.length - 1))) ≠ 0) :=
          fun h => hp (hiff.mp h).2.1
        have h2 : ¬ (opt % 2 = 1 ∧ payload.getLastD 0 &&& 0x80 ≠ 0) := by
          rw [hp0]
          intro h
          exact h.2 rfl
        rw [if_neg h1, if_neg h2]
  · rw [if_neg hn, if_neg hn]

theorem floatread_segment (dst : Nat → Nat) (payload : List Nat) (bytes : Nat → Nat)
    (p2 end_ : Nat)
    (hseg : readBytes bytes p2 (varintBytes payload.length ++ payload).length
      = varintBytes payload.length ++ payload)
    (hend : p2 + (varintBytes payload.length ++ payload).length ≤ end_ + 1)
    (h32 : end_ + 1 < 2 ^ 32) :
    _floatread dst payload.length bytes p2 end_
      = (fun n => if n < payload.length then payload.getD n 0 else dst n,
          (varintBytes payload.length).length) := by
  obtain ⟨hread, hl1, hfit, hbytes⟩ := payload_segment bytes p2 end_ payload hseg hend h32
  unfold _floatread
  simp only [hread]
  rw [if_neg (by omega)]
  refine Prod.ext ?_ (by simp)
  funext n
  simp only
  rw [arraycopy_apply]
  by_cases hn : n < payload.length
  · rw [if_pos ⟨by omega, by omega⟩, if_pos hn, Nat.sub_zero]
    exact hbytes n hn
  · rw [if_neg (by omega), if_neg hn]

theorem binread_segment (dst : Nat → Nat) (rsize : Nat) (payload : List Nat) (bytes : Nat → Nat)
    (p2 end_ : Nat)
    (hseg : readBytes bytes p2 (varintBytes payload.length ++ payload).length
      = varintBytes payload.length ++ payload)
    (hend : p2 + (varintBytes payload.length ++ payload).length ≤ end_ + 1)
    (h32 : end_ + 1 < 2 ^ 32) (hr : payload.length ≤ rsize) :
    _binread dst rsize bytes p2 end_
      = (fun n => if n < payload.length then payload.getD n 0 else dst n, payload.length,
          (varintBytes payload.length).length + payload.length) := by
  obtain ⟨hread, hl1, hfit, hbytes⟩ := payload_segment bytes p2 end_ payload hseg hend h32
  unfold _binread
  simp only [hread]
  rw [if_neg (by omega)]
  refine Prod.ext ?_ (Prod.ext rfl ?_)
  · funext n
    simp only
    rw [arraycopy_apply]
    by_cases hn : n < payload.length
    · rw [if_pos ⟨by omega, by omega⟩, if_pos hn, Nat.sub_zero]
      exact hbytes n hn
    · rw [if_neg (by omega), if_neg hn]
  · simp only
    rw [Nat.mod_eq_of_lt (by omega)]
    omega

/-- The `switch` of the parser delivers what the statement side says. -/
theorem decode_deliver (type a rsize opt : Nat) (payload : List Nat) (bytes : Nat → Nat)
    (p2 end_ : Nat) (objs : Nat → Nat → Nat) (obj : Nat → Nat)
    (hseg : readBytes bytes p2 (varintBytes payload.length ++ payload).length
      = varintBytes payload.length ++ payload)
    (hend : p2 + (varintBytes payload.length ++ payload).length ≤ end_ + 1)
    (h32 : end_ + 1 < 2 ^ 32)
    (hd : deliverPayload type payload rsize opt (objs a) = some obj) :
    ∃ read, read ≠ 0 ∧
      flxHandleControl_decode type a rsize payload.length opt bytes p2 end_ objs
        = some (setObj objs a obj, read) := by
  have hl1 := varintBytes_length_pos payload.length
  unfold deliverPayload at hd
  unfold flxHandleControl_decode
  simp only at hd ⊢
  by_cases c1 : type &&& FLX_STRUCTTYPE_MASK_BASE = FLX_STRUCTTYPE_ENUM ∨
      type &&& FLX_STRUCTTYPE_MASK_BASE = FLX_STRUCTTYPE_LOCAL_ENUM ∨
      type &&& FLX_STRUCTTYPE_MASK_BASE = FLX_STRUCTTYPE_MERGE_ENUM ∨
      type &&& FLX_STRUCTTYPE_MASK_BASE = FLX_STRUCTTYPE_INTEGER
  · rw [if_pos c1] at hd ⊢
    by_cases hc : payload.length ≤ rsize ∧ payload.length ≤ rsize % 256
    · rw [if_pos hc] at hd
      rw [if_pos hc.1, intread_segment (objs a) (rsize % 256) opt payload bytes p2 end_ hseg hend
        h32 hc.2]
      exact ⟨(varintBytes payload.length).length, by omega, by rw [← Option.some.inj hd]⟩
    · rw [if_neg hc] at hd
      exact absurd hd (by simp)
  · rw [if_neg c1] at hd ⊢
    by_cases c2 : type &&& FLX_STRUCTTYPE_MASK_BASE = FLX_STRUCTTYPE_FLOAT
    · rw [if_pos c2] at hd ⊢
      by_cases hc : payload.length = rsize ∧ rsize < 256
      · rw [if_pos hc] at hd
        rw [if_pos hc.1.symm, Nat.mod_eq_of_lt hc.2, ← hc.1,
          floatread_segment (objs a) payload bytes p2 end_ hseg hend h32]
        exact ⟨(varintBytes payload.length).length, by omega, by rw [← Option.some.inj hd]⟩
      · rw [if_neg hc] at hd
        exact absurd hd (by simp)
    · rw [if_neg c2] at hd ⊢
      by_cases c3 : type &&& FLX_STRUCTTYPE_MASK_BASE = FLX_STRUCTTYPE_TEXT ∨
          type &&& FLX_STRUCTTYPE_MASK_BASE = FLX_STRUCTTYPE_BINARY
      · rw [if_pos c3] at hd
        by_cases hc : payload.length ≤ rsize
        · rw [if_pos hc] at hd
          have hb := binread_segment (objs a) rsize payload bytes p2 end_ hseg hend h32 hc
          by_cases c4 : type &&& FLX_STRUCTTYPE_MASK_BASE = FLX_STRUCTTYPE_TEXT
          · rw [if_pos c4, if_pos hc]
            unfold _textread
            rw [hb]
            exact ⟨(varintBytes payload.length).length + payload.length, by omega,
              by rw [← Option.some.inj hd]⟩
          · rw [if_neg c4, if_pos (by tauto), if_pos hc, hb]
            exact ⟨(varintBytes payload.length).length + payload.length, by omega,
              by rw [← Option.some.inj hd]⟩
        · rw [if_neg hc] at hd
          exact absurd hd (by simp)
      · rw [if_neg c3] at hd
        exact absurd hd (by simp)

theorem controlMemberBytes_length (m : controlMember) :
    (controlMemberBytes m).length
      = (varintBytes m.memberId).length + 1 + ((varintBytes m.payload.length).length
          + m.payload.length) := by
  simp only [controlMemberBytes, List.length_append, List.length_singleton]
  omega

/-- What stands at a member tuple in the region. -/
theorem member_segment (bytes : Nat → Nat) (pos end_ : Nat) (m : controlMember)
    (hseg : readBytes bytes pos (controlMemberBytes m).length = controlMemberBytes m)
    (hend : pos + (controlMemberBytes m).length ≤ end_ + 1) (hid : m.memberId < 2 ^ 32) :
    _plusread bytes pos end_ = (m.memberId, (varintBytes m.memberId).length) ∧
    1 ≤ (varintBytes m.memberId).length ∧
    bytes (pos + (varintBytes m.memberId).length) = m.type ∧
    readBytes bytes (pos + (varintBytes m.memberId).length + 1)
        (varintBytes m.payload.length ++ m.payload).length
      = varintBytes m.payload.length ++ m.payload ∧
    pos + (varintBytes m.memberId).length + 1
      + (varintBytes m.payload.length ++ m.payload).length ≤ end_ + 1 := by
  have hlen := controlMemberBytes_length m
  have hassoc : controlMemberBytes m
      = varintBytes m.memberId ++ ([m.type] ++ (varintBytes m.payload.length ++ m.payload)) := by
    simp [controlMemberBytes]
  rw [hassoc] at hseg
  obtain ⟨s1, s2⟩ := readBytes_split bytes pos _ _ hseg
  obtain ⟨s3, s4⟩ := readBytes_split bytes _ _ _ s2
  have htype := readBytes_getD bytes _ [m.type] s3 0 (by simp)
  simp only [Nat.add_zero, List.getD_cons_zero] at htype
  refine ⟨plusread_varint bytes pos end_ _ hid s1 (by omega), varintBytes_length_pos _, htype,
    s4, ?_⟩
  rw [List.length_append]
  omega

/-- One turn of the member loop on a member tuple that stands in the region. -/
theorem handleControl_members_step {σ : Type} (parse : Option (flxHandleControlParse σ))
    (bytes : Nat → Nat) (end_ cid mid k pos opt : Nat) (w : flxControlWorld σ)
    (m : controlMember)
    (hseg : readBytes bytes pos (controlMemberBytes m).length = controlMemberBytes m)
    (hend : pos + (controlMemberBytes m).length ≤ end_ + 1) (h32 : end_ + 1 < 2 ^ 32)
    (hid : m.memberId < 2 ^ 32) :
    flxHandleControl_members parse bytes end_ cid mid (k + 1) pos opt w
      = match parse with
        | none =>
          flxHandleControl_members parse bytes end_ cid mid k
            (pos + (controlMemberBytes m).length) opt w
        | some h =>
          match (if (h FLX_CONTROL_HANDLE_PARSE_PARAMETER cid mid m.memberId m.type
              m.payload.length opt w.objs w.user).result = FLX_OK ∧
              (h FLX_CONTROL_HANDLE_PARSE_PARAMETER cid mid m.memberId m.type
              m.payload.length opt w.objs w.user).size > 0
            then (h FLX_CONTROL_HANDLE_PARSE_PARAMETER cid mid m.memberId m.type
              m.payload.length opt w.objs w.user).value else none) with
          | some a =>
            match flxHandleControl_decode m.type a
              (h FLX_CONTROL_HANDLE_PARSE_PARAMETER cid mid m.memberId m.type
                m.payload.length opt w.objs w.user).size m.payload.length
              (h FLX_CONTROL_HANDLE_PARSE_PARAMETER cid mid m.memberId m.type
                m.payload.length opt w.objs w.user).opt bytes
              (pos + (varintBytes m.memberId).length + 1) end_
              (h FLX_CONTROL_HANDLE_PARSE_PARAMETER cid mid m.memberId m.type
                m.payload.length opt w.objs w.user).objs with
            | none => (some FLX_ERROR_COMMAND_PARSE_ERROR, pos + (varintBytes m.memberId).length + 1,
                (h FLX_CONTROL_HANDLE_PARSE_PARAMETER cid mid m.memberId m.type
                  m.payload.length opt w.objs w.user).opt,
                ⟨(h FLX_CONTROL_HANDLE_PARSE_PARAMETER cid mid m.memberId m.type
                  m.payload.length opt w.objs w.user).objs,
                 (h FLX_CONTROL_HANDLE_PARSE_PARAMETER cid mid m.memberId m.type
                  m.payload.length opt w.objs w.user).user⟩)
            | some d =>
              if d.2 = 0 then
                (some FLX_ERROR_COMMAND_PARSE_NEED_MORE_DATA,
                  pos + (varintBytes m.memberId).length + 1,
                  (h FLX_CONTROL_HANDLE_PARSE_PARAMETER cid mid m.memberId m.type
                    m.payload.length opt w.objs w.user).opt,
                  ⟨d.1, (h FLX_CONTROL_HANDLE_PARSE_PARAMETER cid mid m.memberId m.type
                    m.payload.length opt w.objs w.user).user⟩)
              else
                flxHandleControl_members parse bytes end_ cid mid k
                  (pos + (controlMemberBytes m).length)
                  (h FLX_CONTROL_HANDLE_PARSE_PARAMETER cid mid m.memberId m.type
                    m.payload.length opt w.objs w.user).opt
                  ⟨d.1, (h FLX_CONTROL_HANDLE_PARSE_PARAMETER cid mid m.memberId m.type
                    m.payload.length opt w.objs w.user).user⟩
          | none =>
            flxHandleControl_members parse bytes end_ cid mid k
              (pos + (controlMemberBytes m).length)
              (h FLX_CONTROL_HANDLE_PARSE_PARAMETER cid mid m.memberId m.type
                m.payload.length opt w.objs w.user).opt
              ⟨(h FLX_CONTROL_HANDLE_PARSE_PARAMETER cid mid m.memberId m.type
                m.payload.length opt w.objs w.user).objs,
               (h FLX_CONTROL_HANDLE_PARSE_PARAMETER cid mid m.memberId m.type
                m.payload.length opt w.objs w.user).user⟩ := by
  obtain ⟨hr1, hl1, htype, hseg2, hend2⟩ := member_segment bytes pos end_ m hseg hend hid
  obtain ⟨hr2, hl2, hfit, _⟩ := payload_segment bytes _ end_ m.payload hseg2 hend2 h32
  have hlen := controlMemberBytes_length m
  have hskip : pos + (varintBytes m.memberId).length + 1
      + ((varintBytes m.payload.length).length + m.payload.length) % 2 ^ 32
      = pos + (controlMemberBytes m).length := by
    rw [Nat.mod_eq_of_lt (by omega)]
    omega
  have hne1 : ¬ ((varintBytes m.memberId).length = 0) := by omega
  have hne2 : ¬ ((varintBytes m.payload.length).length = 0) := by omega
  cases parse with
  | none =>
    simp only [flxHandleControl_members, hr1, hr2, hne1, hne2, if_false, htype, hskip]
  | some h =>
    simp only [flxHandleControl_members, hr1, hr2, hne1, hne2, if_false, htype, hskip]

/-- The member loop on member tuples that stand in the region does what the
statement side says, and ends behind the last tuple. -/
theorem handleControl_members_spec {σ : Type} (parse : Option (flxHandleControlParse σ))
    (bytes : Nat → Nat) (end_ cid mid : Nat) (h32 : end_ + 1 < 2 ^ 32) :
    ∀ (members : List controlMember) (pos opt : Nat) (w : flxControlWorld σ)
      (r : Nat × flxControlWorld σ),
      readBytes bytes pos (members.flatMap controlMemberBytes).length
        = members.flatMap controlMemberBytes →
      pos + (members.flatMap controlMemberBytes).length ≤ end_ + 1 →
      (∀ m ∈ members, m.memberId < 2 ^ 32) →
      controlDeliver parse cid mid members opt w = some r →
      flxHandleControl_members parse bytes end_ cid mid members.length pos opt w
        = (none, pos + (members.flatMap controlMemberBytes).length, r.1, r.2) := by
  intro members
  induction members with
  | nil =>
    intro pos opt w r _ _ _ hd
    simp only [controlDeliver, Option.some.injEq] at hd
    subst hd
    rfl
  | cons m ms ih =>
    intro pos opt w r hseg hend hid hd
    rw [List.flatMap_cons] at hseg hend ⊢
    obtain ⟨s1, s2⟩ := readBytes_split bytes pos _ _ hseg
    rw [List.length_append] at hend ⊢
    rw [List.length_cons, handleControl_members_step parse bytes end_ cid mid ms.length pos opt w m
      s1 (by omega) h32 (hid m (List.mem_cons_self _ _))]
    have hid2 : ∀ x ∈ ms, x.memberId < 2 ^ 32 := fun x hx => hid x (List.mem_cons_of_mem _ hx)
    cases parse with
    | none =>
      simp only [controlDeliver] at hd
      simp only
      rw [ih _ opt w r s2 (by omega) hid2 hd, Nat.add_assoc]
    | some h =>
      simp only [controlDeliver] at hd
      simp only
      cases hv : (if (h FLX_CONTROL_HANDLE_PARSE_PARAMETER cid mid m.memberId m.type
          m.payload.length opt w.objs w.user).result = FLX_OK ∧
          (h FLX_CONTROL_HANDLE_PARSE_PARAMETER cid mid m.memberId m.type
          m.payload.length opt w.objs w.user).size > 0
        then (h FLX_CONTROL_HANDLE_PARSE_PARAMETER cid mid m.memberId m.type
          m.payload.length opt w.objs w.user).value else none) with
      | none =>
        rw [hv] at hd
        simp only at hd ⊢
        rw [ih _ _ _ r s2 (by omega) hid2 hd, Nat.add_assoc]
      | some a =>
        rw [hv] at hd
        simp only at hd ⊢
        cases hdel : deliverPayload m.type m.payload
            (h FLX_CONTROL_HANDLE_PARSE_PARAMETER cid mid m.memberId m.type
              m.payload.length opt w.objs w.user).size
            (h FLX_CONTROL_HANDLE_PARSE_PARAMETER cid mid m.memberId m.type
              m.payload.length opt w.objs w.user).opt
            ((h FLX_CONTROL_HANDLE_PARSE_PARAMETER cid mid m.memberId m.type
              m.payload.length opt w.objs w.user).objs a) with
        | none =>
          rw [hdel] at hd
          exact absurd hd (by simp)
        | some obj =>
          rw [hdel] at hd
          simp only at hd
          obtain ⟨_, _, _, hseg2, hend2⟩ := member_segment bytes pos end_ m s1 (by omega)
            (hid m (List.mem_cons_self _ _))
          obtain ⟨read, hread, hdec⟩ := decode_deliver m.type a _ _ m.payload bytes _ end_ _ obj
            hseg2 hend2 h32 hdel
          rw [hdec]
          simp only [hread, if_false]
          rw [ih _ _ _ r s2 (by omega) hid2 hd, Nat.add_assoc]

theorem flxHandleControl_loop_done {σ : Type} (parse : Option (flxHandleControlParse σ))
    (bytes : Nat → Nat) (len fuel pos consumed opt : Nat) (w : flxControlWorld σ)
    (h : ¬ (pos + 1 < len)) :
    flxHandleControl_loop parse bytes len fuel pos consumed opt w = (FLX_OK, consumed, w) := by
  cases fuel with
  | zero => rfl
  | succ f =>
    unfold flxHandleControl_loop
    rw [if_pos h]

theorem controlRequestBytes_length (controlId messageId : Nat) (members : List controlMember) :
    (controlRequestBytes controlId messageId members).length
      = 2 + (varintBytes controlId).length + (varintBytes messageId).length
        + (varintBytes members.length).length + (members.flatMap controlMemberBytes).length := by
  simp only [controlRequestBytes, List.length_append, List.length_cons, List.length_nil]

theorem members_length_le (members : List controlMember) :
    members.length ≤ (members.flatMap controlMemberBytes).length := by
  induction members with
  | nil => simp
  | cons m ms ih =>
    rw [List.flatMap_cons, List.length_append, List.length_cons, controlMemberBytes_length]
    omega

/-- One complete control request at the front of the region: a turn of the
outer loop dispatches it and moves on behind it. -/
theorem flxHandleControl_loop_request {σ : Type} (parse : Option (flxHandleControlParse σ))
    (bytes : Nat → Nat) (len fuel consumed opt : Nat) (w : flxControlWorld σ)
    (controlId messageId : Nat) (members : List controlMember) (r : Nat × flxControlWorld σ)
    (hbytes : readBytes bytes 0 (controlRequestBytes controlId messageId members).length
      = controlRequestBytes controlId messageId members)
    (hlen : (controlRequestBytes controlId messageId members).length ≤ len)
    (h32 : len < 2 ^ 32)
    (hc : controlId < 2 ^ 32) (hm : messageId < 2 ^ 32)
    (hid : ∀ m ∈ members, m.memberId < 2 ^ 32)
    (hd : controlDeliver parse controlId messageId members opt
      (flxHandleControl_message parse FLX_CONTROL_HANDLE_ENTER_MESSAGE controlId messageId w)
        = some r) :
    flxHandleControl_loop parse bytes len (fuel + 1) 0 consumed opt w
      = flxHandleControl_loop parse bytes len fuel
          (controlRequestBytes controlId messageId members).length
          (controlRequestBytes controlId messageId members).length r.1
          (flxHandleControl_message parse FLX_CONTROL_HANDLE_LEAVE_MESSAGE controlId messageId
            r.2) := by
  have hL := controlRequestBytes_length controlId messageId members
  have hassoc : controlRequestBytes controlId messageId members
      = [0x00, 0x80] ++ (varintBytes controlId ++ (varintBytes messageId ++
          (varintBytes members.length ++ members.flatMap controlMemberBytes))) := by
    simp [controlRequestBytes]
  rw [hassoc] at hbytes
  obtain ⟨s0, s1⟩ := readBytes_split bytes 0 _ _ hbytes
  obtain ⟨s2, s3⟩ := readBytes_split bytes _ _ _ s1
  obtain ⟨s4, s5⟩ := readBytes_split bytes _ _ _ s3
  obtain ⟨s6, s7⟩ := readBytes_split bytes _ _ _ s5
  have hb0 := readBytes_getD bytes 0 [0x00, 0x80] s0 0 (by simp)
  have hb1 := readBytes_getD bytes 0 [0x00, 0x80] s0 1 (by simp)
  simp only [Nat.zero_add, List.getD_cons_zero] at hb0
  simp only [Nat.zero_add, List.getD_cons_succ, List.getD_cons_zero] at hb1
  have hl1 := varintBytes_length_pos controlId
  have hl2 := varintBytes_length_pos messageId
  have hl3 := varintBytes_length_pos members.length
  simp only [Nat.zero_add, List.length_cons, List.length_nil] at s2 s4 s6 s7
  have hmlen : members.length < 2 ^ 32 := by
    have := members_length_le members
    omega
  have hrc := plusread_varint bytes 2 (len - 1) controlId hc s2 (by omega)
  have hrm := plusread_varint bytes (2 + (varintBytes controlId).length) (len - 1) messageId hm s4
    (by omega)
  have hrn := plusread_varint bytes
    (2 + (varintBytes controlId).length + (varintBytes messageId).length) (len - 1)
    members.length hmlen s6 (by omega)
  have hmem := handleControl_members_spec parse bytes (len - 1) controlId messageId (by omega)
    members (2 + (varintBytes controlId).length + (varintBytes messageId).length
      + (varintBytes members.length).length) opt
    (flxHandleControl_message parse FLX_CONTROL_HANDLE_ENTER_MESSAGE controlId messageId w) r s7
    (by omega) hid hd
  have hne1 : ¬ ((varintBytes controlId).length = 0) := by omega
  have hne2 : ¬ ((varintBytes messageId).length = 0) := by omega
  have hne3 : ¬ ((varintBytes members.length).length = 0) := by omega
  have hpos : 2 + (varintBytes controlId).length + (varintBytes messageId).length
      + (varintBytes members.length).length + (members.flatMap controlMemberBytes).length
      = (controlRequestBytes controlId messageId members).length := by omega
  rw [hpos] at hmem
  conv_lhs => unfold flxHandleControl_loop
  rw [if_neg (by omega), if_neg (by omega), if_neg (by rw [hb0]; decide), if_pos hb1]
  simp only [Nat.zero_add, hrc, hrm, hrn, hne1, hne2, hne3, if_false, hmem]
  rw [Nat.mod_eq_of_lt (by omega)]

theorem handleControl_members_pos_ge {σ : Type} (parse : Option (flxHandleControlParse σ))
    (bytes : Nat → Nat) (end_ cid mid : Nat) : ∀ (k pos opt : Nat) (w : flxControlWorld σ),
    pos ≤ (flxHandleControl_members parse bytes end_ cid mid k pos opt w).2.1 := by
  intro k
  induction k with
  | zero => intro pos opt w; exact le_refl _
  | succ k ih =>
    intro pos opt w
    unfold flxHandleControl_members
    simp only
    split
    · exact le_refl _
    · split
      · simp only; omega
      · cases parse with
        | none =>
          simp only
          exact le_trans (by omega) (ih _ _ _)
        | some h =>
          simp only
          split
          · split
            · simp only; omega
            · split
              · simp only; omega
              · exact le_trans (by omega) (ih _ _ _)
          · exact le_trans (by omega) (ih _ _ _)

/-- The fuel of the outer loop does not matter once it covers what is left of
the input: every turn moves `pos` by at least 2. -/
theorem flxHandleControl_loop_fuel {σ : Type} (parse : Option (flxHandleControlParse σ))
    (bytes : Nat → Nat) (len : Nat) : ∀ (f1 f2 pos consumed opt : Nat) (w : flxControlWorld σ),
    len ≤ f1 + pos + 1 → len ≤ f2 + pos + 1 →
    flxHandleControl_loop parse bytes len f1 pos consumed opt w
      = flxHandleControl_loop parse bytes len f2 pos consumed opt w := by
  intro f1
  induction f1 with
  | zero =>
    intro f2 pos consumed opt w h1 _
    rw [flxHandleControl_loop_done parse bytes len 0 pos consumed opt w (by omega),
      flxHandleControl_loop_done parse bytes len f2 pos consumed opt w (by omega)]
  | succ f1 ih =>
    intro f2 pos consumed opt w h1 h2
    cases f2 with
    | zero =>
      rw [flxHandleControl_loop_done parse bytes len (f1 + 1) pos consumed opt w (by omega),
        flxHandleControl_loop_done parse bytes len 0 pos consumed opt w (by omega)]
    | succ f2 =>
      unfold flxHandleControl_loop
      simp only
      split
      · rfl
      · split
        · rfl
        · split
          · rfl
          · split
            · split
              · rfl
              · split
                · rfl
                · split
                  · rfl
                  · split
                    · rfl
                    · have hge := handleControl_members_pos_ge parse bytes (len - 1)
                        (_plusread bytes (pos + 2) (len - 1)).1
                        (_plusread bytes (pos + 2 + (_plusread bytes (pos + 2) (len - 1)).2)
                          (len - 1)).1
                        (_plusread bytes (pos + 2 + (_plusread bytes (pos + 2) (len - 1)).2
                          + (_plusread bytes (pos + 2 + (_plusread bytes (pos + 2) (len - 1)).2)
                            (len - 1)).2) (len - 1)).1
                        (pos + 2 + (_plusread bytes (pos + 2) (len - 1)).2
                          + (_plusread bytes (pos + 2 + (_plusread bytes (pos + 2) (len - 1)).2)
                            (len - 1)).2
                          + (_plusread bytes (pos + 2 + (_plusread bytes (pos + 2) (len - 1)).2
                            + (_plusread bytes (pos + 2 + (_plusread bytes (pos + 2) (len - 1)).2)
                              (len - 1)).2) (len - 1)).2) opt
                        (flxHandleControl_message parse FLX_CONTROL_HANDLE_ENTER_MESSAGE
                          (_plusread bytes (pos + 2) (len - 1)).1
                          (_plusread bytes (pos + 2 + (_plusread bytes (pos + 2) (len - 1)).2)
                            (len - 1)).1 w)
                      exact ih _ _ _ _ _ (by omega) (by omega)
            · split
              · exact ih _ _ _ _ _ (by omega) (by omega)
              · rfl

theorem controlDeliver_nothing {σ : Type} (parse : Option (flxHandleControlParse σ))
    (hn : SuppliesNothing parse) (cid mid : Nat) :
    ∀ (members : List controlMember) (opt : Nat) (w : flxControlWorld σ),
    ∃ r, controlDeliver parse cid mid members opt w = some r := by
  intro members
  induction members with
  | nil => intro opt w; exact ⟨_, rfl⟩
  | cons m ms ih =>
    intro opt w
    cases parse with
    | none =>
      simp only [controlDeliver]
      exact ih opt w
    | some h =>
      simp only [controlDeliver]
      rw [hn h rfl]
      simp only [ite_self]
      exact ih _ _

/-- C26, amended. Control request dispatch: for a region that holds one complete
well-formed control request entry (`0x00`, `0x80`, control id, message id,
count, then count member tuples), `flxHandleControl` calls the handler with
`ENTER_MESSAGE` once, then with `PARSE_PARAMETER` once per member in stream
order with the member's id, type byte and size, then with `LEAVE_MESSAGE`
once, returns `FLX_OK` and reports the whole entry as consumed, provided that
every destination the handler supplies can take the member it is supplied for
(`controlDispatch` is then defined; it is the world these calls leave). A
handler that supplies no destination always qualifies. The number of turns
allowed to the loop is enough. -/
theorem control_request_dispatch {σ : Type} (parse : Option (flxHandleControlParse σ))
    (opt0 command : Nat) (bytes : Nat → Nat) (controlId messageId : Nat)
    (members : List controlMember) (w0 : flxControlWorld σ)
    (hbytes : readBytes bytes 0 (controlRequestBytes controlId messageId members).length
      = controlRequestBytes controlId messageId members)
    (h32 : (controlRequestBytes controlId messageId members).length < 2 ^ 32)
    (hc : controlId < 2 ^ 32) (hm : messageId < 2 ^ 32)
    (hid : ∀ m ∈ members, m.memberId < 2 ^ 32) :
    (∀ w1, controlDispatch parse controlId messageId members opt0 w0 = some w1 →
      flxHandleControl parse opt0 command bytes
          (controlRequestBytes controlId messageId members).length w0
        = (FLX_OK, (controlRequestBytes controlId messageId members).length, w1)) ∧
    (SuppliesNothing parse →
      ∃ w1, controlDispatch parse controlId messageId members opt0 w0 = some w1) ∧
    (∀ fuel, (controlRequestBytes controlId messageId members).length ≤ fuel →
      flxHandleControl_loop parse bytes (controlRequestBytes controlId messageId members).length
          fuel 0 0 opt0 w0
        = flxHandleControl parse opt0 command bytes
            (controlRequestBytes controlId messageId members).length w0) := by
  refine ⟨fun w1 hd => ?_, fun hn => ?_, fun fuel hf => ?_⟩
  · unfold controlDispatch at hd
    cases hr : controlDeliver parse controlId messageId members opt0
        (flxHandleControl_message parse FLX_CONTROL_HANDLE_ENTER_MESSAGE controlId messageId w0)
      with
    | none =>
      rw [hr] at hd
      exact absurd hd (by simp)
    | some r =>
      rw [hr] at hd
      simp only [Option.map_some', Option.some.injEq] at hd
      have hL := controlRequestBytes_length controlId messageId members
      have hpos : 0 < (controlRequestBytes controlId messageId members).length := by omega
      obtain ⟨f, hf⟩ : ∃ f, (controlRequestBytes controlId messageId members).length = f + 1 :=
        ⟨(controlRequestBytes controlId messageId members).length - 1, by omega⟩
      unfold flxHandleControl
      rw [flxHandleControl_loop_fuel parse bytes _ _ (f + 1) 0 0 opt0 w0 (by omega) (by omega),
        flxHandleControl_loop_request parse bytes _ f 0 opt0 w0 controlId messageId members
        r hbytes (le_refl _) h32 hc hm hid hr, flxHandleControl_loop_done _ _ _ _ _ _ _ _
        (by omega), hd]
  · obtain ⟨r, hr⟩ := controlDeliver_nothing parse hn controlId messageId members opt0
      (flxHandleControl_message parse FLX_CONTROL_HANDLE_ENTER_MESSAGE controlId messageId w0)
    exact ⟨_, by unfold controlDispatch; rw [hr]; rfl⟩
  · unfold flxHandleControl
    exact flxHandleControl_loop_fuel parse bytes _ fuel _ 0 0 opt0 w0 (by omega) (by omega)

set_option maxRecDepth 100000 in
theorem control_request_dispatch_witness :
    flxHandleControl (some exLogHandler) 0 FLX_BUFFER_FLUSH
        (fun i => [0x00, 0x80, 0x01, 0x02, 0x00].getD i 0) 5 exLogWorld
      = (FLX_OK, 5, ⟨fun _ _ => 0, [[FLX_CONTROL_HANDLE_ENTER_MESSAGE, 1, 2, 0, 0],
          [FLX_CONTROL_HANDLE_LEAVE_MESSAGE, 1, 2, 0, 0]]⟩) ∧
    flxHandleControl (some exLogHandler) 0 FLX_BUFFER_FLUSH
        (fun i => [0x00, 0x80, 0x01, 0x02, 0x02, 0x05, 0x03, 0x02, 0x34, 0x12, 0x09, 0x01, 0x03,
          0x41, 0x41, 0x41].getD i 0) 16 exLogWorld
      = (FLX_OK, 16, ⟨fun _ _ => 0, [[FLX_CONTROL_HANDLE_ENTER_MESSAGE, 1, 2, 0, 0],
          [FLX_CONTROL_HANDLE_PARSE_PARAMETER, 1, 2, 5, 3],
          [FLX_CONTROL_HANDLE_PARSE_PARAMETER, 1, 2, 9, 1],
          [FLX_CONTROL_HANDLE_LEAVE_MESSAGE, 1, 2, 0, 0]]⟩) :=
  ⟨(control_request_dispatch (some exLogHandler) 0 FLX_BUFFER_FLUSH
      (fun i => [0x00, 0x80, 0x01, 0x02, 0x00].getD i 0) 1 2 [] exLogWorld (by decide) (by decide)
      (by decide) (by decide) (fun m hm => absurd hm (by simp))).1 _ rfl,
   (control_request_dispatch (some exLogHandler) 0 FLX_BUFFER_FLUSH
      (fun i => [0x00, 0x80, 0x01, 0x02, 0x02, 0x05, 0x03, 0x02, 0x34, 0x12, 0x09, 0x01, 0x03,
          0x41, 0x41, 0x41].getD i 0) 1 2 [⟨5, 3, [0x34, 0x12]⟩, ⟨9, 1, [0x41, 0x41, 0x41]⟩]
      exLogWorld (by decide) (by decide) (by decide) (by decide)
      (by decide)).1 _ rfl⟩

set_option maxRecDepth 100000 in
/-- Counterexample to C26 as stated: the region holds the complete request
`00 80 01 02 01 05 03 02 34 12` (one integer member of two bytes); with a
handler that supplies a destination of one byte the result is
`FLX_ERROR_COMMAND_PARSE_NEED_MORE_DATA`, nothing is reported as consumed and
`LEAVE_MESSAGE` is never called. -/
theorem control_request_dispatch_counterexample :
    readBytes (fun i => [0x00, 0x80, 0x01, 0x02, 0x01, 0x05, 0x03, 0x02, 0x34, 0x12].getD i 0) 0 10
      = controlRequestBytes 1 2 [⟨5, FLX_STRUCTTYPE_INTEGER, [0x34, 0x12]⟩] ∧
    (flxHandleControl (some exSmallHandler) 0 FLX_BUFFER_FLUSH
        (fun i => [0x00, 0x80, 0x01, 0x02, 0x01, 0x05, 0x03, 0x02, 0x34, 0x12].getD i 0) 10
        exLogWorld).1 = FLX_ERROR_COMMAND_PARSE_NEED_MORE_DATA ∧
    (flxHandleControl (some exSmallHandler) 0 FLX_BUFFER_FLUSH
        (fun i => [0x00, 0x80, 0x01, 0x02, 0x01, 0x05, 0x03, 0x02, 0x34, 0x12].getD i 0) 10
        exLogWorld).2.1 = 0 ∧
    (flxHandleControl (some exSmallHandler) 0 FLX_BUFFER_FLUSH
        (fun i => [0x00, 0x80, 0x01, 0x02, 0x01, 0x05, 0x03, 0x02, 0x34, 0x12].getD i 0) 10
        exLogWorld).2.2.user
      = [[FLX_CONTROL_HANDLE_ENTER_MESSAGE, 0], [FLX_CONTROL_HANDLE_PARSE_PARAMETER, 5]] :=
  ⟨by decide, by decide, by decide, by decide⟩

/-! ### Control round trip -/

theorem minimalLen_le (signd : Bool) (l : List Nat) : minimalLen signd l ≤ l.length := by
  have := minimalFromTop_le (signd && decide (l.getLastD 0 &&& 0x80 ≠ 0)) l.reverse
  simpa [minimalLen] using this

theorem memberValueBytes_length (m : flxMemberValueStruct) (n : Nat) :
    (memberValueBytes m n).length = n := by
  simp [memberValueBytes]

set_option maxRecDepth 100000 in
/-- C28, at the failing inputs. The nine bytes `00 80 01 02 01 05 03 04 aa` are a
proper prefix of a control request whose only member (id 5, size 4) is cut
after its first payload byte. With a handler that supplies no destination
`flxHandleControl` returns `FLX_OK`, not
`FLX_ERROR_COMMAND_PARSE_NEED_MORE_DATA`, calls `LEAVE_MESSAGE` and reports 12
bytes as consumed, more than the 9 it was given; behind the complete request
`00 80 01 02 00` the same prefix gives `FLX_OK` and 17 of 14 bytes. The
`FLUSH` of a linear buffer with this handle then leaves all nine bytes and the
cursor where they were. A prefix of one byte gives `FLX_OK` too. -/
theorem truncated_control_input :
    (flxHandleControl (some exLogHandler) 0 FLX_BUFFER_FLUSH
      (fun i => [0x00, 0x80, 0x01, 0x02, 0x01, 0x05, 0x03, 0x04, 0xaa].getD i 0) 9 exLogWorld).1
        = FLX_OK ∧
    (flxHandleControl (some exLogHandler) 0 FLX_BUFFER_FLUSH
      (fun i => [0x00, 0x80, 0x01, 0x02, 0x01, 0x05, 0x03, 0x04, 0xaa].getD i 0) 9 exLogWorld).2.1
        = 12 ∧
    (flxHandleControl (some exLogHandler) 0 FLX_BUFFER_FLUSH
      (fun i => [0x00, 0x80, 0x01, 0x02, 0x01, 0x05, 0x03, 0x04, 0xaa].getD i 0) 9
        exLogWorld).2.2.user
        = [[FLX_CONTROL_HANDLE_ENTER_MESSAGE, 1, 2, 0, 0],
          [FLX_CONTROL_HANDLE_PARSE_PARAMETER, 1, 2, 5, 3],
          [FLX_CONTROL_HANDLE_LEAVE_MESSAGE, 1, 2, 0, 0]] ∧
    (flxHandleControl none 0 FLX_BUFFER_FLUSH
      (fun i => [0x00, 0x80, 0x01, 0x02, 0x01, 0x05, 0x03, 0x04, 0xaa].getD i 0) 9 exLogWorld).1
        = FLX_OK ∧
    (flxHandleControl none 0 FLX_BUFFER_FLUSH
      (fun i => [0x00, 0x80, 0x01, 0x02, 0x01, 0x05, 0x03, 0x04, 0xaa].getD i 0) 9 exLogWorld).2.1
        = 12 ∧
    (flxHandleControl (some exLogHandler) 0 FLX_BUFFER_FLUSH
      (fun i => [0x00, 0x80, 0x01, 0x02, 0x00,
        0x00, 0x80, 0x01, 0x02, 0x01, 0x05, 0x03, 0x04, 0xaa].getD i 0) 14 exLogWorld).1
        = FLX_OK ∧
    (flxHandleControl (some exLogHandler) 0 FLX_BUFFER_FLUSH
      (fun i => [0x00, 0x80, 0x01, 0x02, 0x00,
        0x00, 0x80, 0x01, 0x02, 0x01, 0x05, 0x03, 0x04, 0xaa].getD i 0) 14 exLogWorld).2.1
        = 17 ∧
    (flxLinearFlush FLX_BUFFER_FLUSH
      (exControlBuffer [0x00, 0x80, 0x01, 0x02, 0x01, 0x05, 0x03, 0x04, 0xaa])).1 = FLX_OK ∧
    (flxLinearFlush FLX_BUFFER_FLUSH
      (exControlBuffer [0x00, 0x80, 0x01, 0x02, 0x01, 0x05, 0x03, 0x04, 0xaa])).2.pos = 9 ∧
    readBytes (flxLinearFlush FLX_BUFFER_FLUSH
      (exControlBuffer [0x00, 0x80, 0x01, 0x02, 0x01, 0x05, 0x03, 0x04, 0xaa])).2.bytes 0 9
        = [0x00, 0x80, 0x01, 0x02, 0x01, 0x05, 0x03, 0x04, 0xaa] ∧
    (flxHandleControl (some exLogHandler) 0 FLX_BUFFER_FLUSH (fun i => [0x00].getD i 0) 1
      exLogWorld).1 = FLX_OK ∧
    (flxHandleControl (some exLogHandler) 0 FLX_BUFFER_FLUSH
      (fun i => [0x00, 0x80, 0x01, 0x02, 0x00, 0x00].getD i 0) 6 exLogWorld).1 = FLX_OK ∧
    (flxHandleControl (some exLogHandler) 0 FLX_BUFFER_FLUSH
      (fun i => [0x00, 0x80, 0x01, 0x02, 0x00, 0x00].getD i 0) 6 exLogWorld).2.1 = 5 ∧
    FLX_OK ≠ FLX_ERROR_COMMAND_PARSE_NEED_MORE_DATA :=
  ⟨by decide, by decide, by decide, by decide, by decide, by decide, by decide, by decide,
    by decide, by decide, by decide, by decide, by decide, by decide⟩

/-! ### Ring sections -/

theorem sectionOffset_succ (pos s k : Nat) :
    sectionOffset pos s (k + 1) = sectionOffset pos s k + s := by
  unfold sectionOffset
  rw [Nat.succ_mul]
  omega

theorem sectionOffset_mono (pos s : Nat) {k j : Nat} (h : k ≤ j) :
    sectionOffset pos s k ≤ sectionOffset pos s j := by
  unfold sectionOffset
  exact Nat.add_le_add_left (Nat.mul_le_mul_right s h) pos

/-- The sections lie side by side: a section ends where the next one starts,
the last one at the end of the buffer. -/
theorem section_end {pos S s L len : Nat} (hl : SectionLayout pos S s L len) (k : Nat)
    (hk : k < S) :
    (k + 1 < S → sectionOffset pos s k + SECTION_HEADER_SIZE + sectionContent S s L k
      = sectionOffset pos s (k + 1)) ∧
    (k + 1 = S → sectionOffset pos s k + SECTION_HEADER_SIZE + sectionContent S s L k = len) ∧
    sectionOffset pos s k + SECTION_HEADER_SIZE + sectionContent S s L k ≤ len ∧
    sectionContent S s L k ≤ 0xffff := by
  have hh := hl.header
  have h1 := hl.lastLow
  have h2 := hl.lastHigh
  have ht := hl.total
  have hlast : sectionOffset pos s (S - 1) = pos + (S - 1) * s := rfl
  have hmono := sectionOffset_mono pos s (show k ≤ S - 1 by omega)
  have hsucc := sectionOffset_succ pos s k
  unfold sectionContent
  unfold SECTION_HEADER_SIZE at *
  by_cases hlk : k + 1 = S
  · have hk1 : k = S - 1 := by omega
    rw [if_pos hlk]
    subst hk1
    refine ⟨fun h => by omega, fun _ => by omega, by omega, by omega⟩
  · rw [if_neg hlk]
    have hmono2 := sectionOffset_mono pos s (show k + 1 ≤ S - 1 by omega)
    refine ⟨fun _ => by omega, fun h => absurd h hlk, by omega, by omega⟩

/-- The counter, length and `0x80` cells of a header are not in the part of any
section that calls write to. -/
theorem header_apart {pos S s L len : Nat} (hl : SectionLayout pos S s L len) (k j c i : Nat)
    (hk : k < S) (hj : j < S) (hc : c < 5)
    (hi1 : sectionOffset pos s j + 5 ≤ i)
    (hi2 : i < sectionOffset pos s j + SECTION_HEADER_SIZE + sectionContent S s L j) :
    sectionOffset pos s k + c ≠ i := by
  have hh := hl.header
  unfold SECTION_HEADER_SIZE at *
  rcases Nat.lt_trichotomy k j with h | h | h
  · have e := (section_end hl k hk).1 (by omega)
    have hm := sectionOffset_mono pos s (show k + 1 ≤ j by omega)
    have hs := sectionOffset_succ pos s k
    unfold SECTION_HEADER_SIZE at e
    omega
  · subst h; omega
  · have e := (section_end hl j hj).1 (by omega)
    have hm := sectionOffset_mono pos s (show j + 1 ≤ k by omega)
    unfold SECTION_HEADER_SIZE at e
    omega

theorem sectionOffset_inj {pos S s L len : Nat} (hl : SectionLayout pos S s L len) (k j : Nat)
    (h : sectionOffset pos s k = sectionOffset pos s j) : k = j := by
  have hh := hl.header
  unfold SECTION_HEADER_SIZE at hh
  rcases Nat.lt_trichotomy k j with hlt | heq | hgt
  · have hm := sectionOffset_mono pos s (show k + 1 ≤ j by omega)
    have hs := sectionOffset_succ pos s k
    omega
  · exact heq
  · have hm := sectionOffset_mono pos s (show j + 1 ≤ k by omega)
    have hs := sectionOffset_succ pos s j
    omega

/-- Cells of different headers are different cells. -/
theorem header_cells_apart {pos S s L len : Nat} (hl : SectionLayout pos S s L len)
    (k j c d : Nat) (hc : c < 7) (hd : d < 7)
    (h : sectionOffset pos s k + c = sectionOffset pos s j + d) : k = j ∧ c = d := by
  have hh := hl.header
  unfold SECTION_HEADER_SIZE at hh
  rcases Nat.lt_trichotomy k j with hlt | heq | hgt
  · have hm := sectionOffset_mono pos s (show k + 1 ≤ j by omega)
    have hs := sectionOffset_succ pos s k
    omega
  · subst heq; exact ⟨rfl, by omega⟩
  · have hm := sectionOffset_mono pos s (show j + 1 ≤ k by omega)
    have hs := sectionOffset_succ pos s j
    omega

theorem sectionLen_bytes (c : Nat) (h : c ≤ 0xffff) :
    (c &&& 0xff) + (((c >>> 8) &&& 0xff) <<< 8) = c := by
  have e1 : c &&& 0xff = c % 256 := Nat.and_pow_two_sub_one_eq_mod c 8
  have e2 : (c >>> 8) &&& 0xff = (c >>> 8) % 256 := Nat.and_pow_two_sub_one_eq_mod _ 8
  rw [e1, e2, Nat.shiftRight_eq_div_pow, Nat.shiftLeft_eq]
  omega

/-- The header loop of `flxWriteSectionEntries` from section `n` on: nothing
below section `n` changes, and the counter and length cells of the sections
from `n` on hold the `0x80` mark of the last section and the content size. -/
theorem writeSections_loop_spec {pos S s L len : Nat} (hl : SectionLayout pos S s L len) :
    ∀ (k n : Nat) (bytes : Nat → Nat) (written : Nat), n + k = S →
      (k ≠ 0 → written = n * s) →
      (∀ i, i < sectionOffset pos s n →
        (flxWriteSectionEntries_loop S (s - SECTION_HEADER_SIZE) L pos k n bytes written).1 i
          = bytes i) ∧
      (∀ j, n ≤ j → j < S →
        (flxWriteSectionEntries_loop S (s - SECTION_HEADER_SIZE) L pos k n bytes written).1
            (sectionOffset pos s j) = 0 ∧
        (flxWriteSectionEntries_loop S (s - SECTION_HEADER_SIZE) L pos k n bytes written).1
            (sectionOffset pos s j + 1) = FLX_ENTRY_SECT ∧
        (flxWriteSectionEntries_loop S (s - SECTION_HEADER_SIZE) L pos k n bytes written).1
            (sectionOffset pos s j + 2) = (if j + 1 = S then 0x80 else 0) ∧
        ringSectionLen
          (flxWriteSectionEntries_loop S (s - SECTION_HEADER_SIZE) L pos k n bytes written).1
            (sectionOffset pos s j) = sectionContent S s L j) := by
  intro k
  induction k with
  | zero =>
    intro n bytes written hn _
    refine ⟨fun i _ => rfl, fun j h1 h2 => ?_⟩
    omega
  | succ k ih =>
    intro n bytes written hn hw
    have hw1 : written = n * s := hw (by omega)
    have hS := hl.sections
    have hS32 := hl.sections32
    have hh := hl.header
    have hlen := hl.len32
    have hend := section_end hl n (by omega)
    have hoff : sectionOffset pos s n = pos + written := by rw [hw1]; rfl
    have hsucc := sectionOffset_succ pos s n
    have hlast : (n = (S + 2 ^ 32 - 1) % 2 ^ 32) = (n + 1 = S) := by
      have : (S + 2 ^ 32 - 1) % 2 ^ 32 = S - 1 := by omega
      rw [this]
      exact propext ⟨fun h => by omega, fun h => by omega⟩
    have hcs : (if n + 1 = S then L else s - SECTION_HEADER_SIZE)
        = sectionContent S s L n := rfl
    have hcle := hend.2.2.2
    have hle := hend.2.2.1
    unfold SECTION_HEADER_SIZE at hh hle
    have hm : ∀ c, c < 7 → (written + c) % 2 ^ 32 = written + c := by
      intro c hc
      apply Nat.mod_eq_of_lt
      omega
    have hnext : k ≠ 0 → (written + 7 + sectionContent S s L n) % 2 ^ 32 = (n + 1) * s := by
      intro hk
      have e := hend.1 (by omega)
      unfold SECTION_HEADER_SIZE at e
      have e3 : sectionOffset pos s (n + 1) = pos + (n + 1) * s := rfl
      have : written + 7 + sectionContent S s L n = (n + 1) * s := by omega
      rw [this]
      apply Nat.mod_eq_of_lt
      omega
    unfold flxWriteSectionEntries_loop
    simp only [hlast, hcs, hm 1 (by omega), hm 2 (by omega), hm 3 (by omega), hm 4 (by omega),
      hm 5 (by omega), hm 6 (by omega)]
    obtain ⟨ih1, ih2⟩ := ih (n + 1)
      (store (store (store (store (store (store (store bytes (pos + written) 0)
        (pos + (written + 1)) FLX_ENTRY_SECT)
        (pos + (written + 2)) (if n + 1 = S then 0x80 else 0))
        (pos + (written + 3)) (sectionContent S s L n &&& 0xff))
        (pos + (written + 4)) ((sectionContent S s L n >>> 8) &&& 0xff))
        (pos + (written + 5)) 0)
        (pos + (written + 6)) 0)
      ((written + 7 + sectionContent S s L n) % 2 ^ 32) (by omega) hnext
    refine ⟨fun i hi => ?_, fun j h1 h2 => ?_⟩
    · rw [ih1 i (by omega)]
      simp only [store]
      rw [if_neg (by omega), if_neg (by omega), if_neg (by omega), if_neg (by omega),
        if_neg (by omega), if_neg (by omega), if_neg (by omega)]
    · by_cases hj : j = n
      · subst hj
        unfold ringSectionLen
        rw [ih1 _ (by omega), ih1 _ (by omega), ih1 _ (by omega), ih1 _ (by omega),
          ih1 _ (by omega)]
        simp only [store]
        refine ⟨?_, ?_, ?_, ?_⟩
        · rw [if_neg (by omega), if_neg (by omega), if_neg (by omega), if_neg (by omega),
            if_neg (by omega), if_neg (by omega), if_pos (by omega)]
        · rw [if_neg (by omega), if_neg (by omega), if_neg (by omega), if_neg (by omega),
            if_neg (by omega), if_pos (by omega)]
        · rw [if_neg (by omega), if_neg (by omega), if_neg (by omega), if_neg (by omega),
            if_pos (by omega)]
        · rw [if_neg (by omega), if_neg (by omega), if_neg (by omega), if_pos (by omega),
            if_neg (by omega), if_neg (by omega), if_pos (by omega)]
          exact sectionLen_bytes _ hcle
      · exact ih2 j (by omega) h2

/-- `flxWriteSectionEntries` on a ring buffer that is not yet in section mode. -/
theorem writeSectionEntries_ring {σ : Type} (b0 : flxBuffer σ) (S : Nat)
    (hacc : b0.access = flxBufferAccess.ring) (hf : b0.first = 2 ^ 32 - 1) (hS0 : S ≠ 0) :
    flxWriteSectionEntries b0 S =
      if (((b0.len + 2 ^ 32 - b0.pos) % 2 ^ 32 + 2 * 2 ^ 32
            - ((b0.len + 2 ^ 32 - b0.pos) % 2 ^ 32 / S * ((S + 2 ^ 32 - 1) % 2 ^ 32)) % 2 ^ 32
            - SECTION_HEADER_SIZE) % 2 ^ 32 < 16 ∨
          ((b0.len + 2 ^ 32 - b0.pos) % 2 ^ 32 + 2 * 2 ^ 32
            - ((b0.len + 2 ^ 32 - b0.pos) % 2 ^ 32 / S * ((S + 2 ^ 32 - 1) % 2 ^ 32)) % 2 ^ 32
            - SECTION_HEADER_SIZE) % 2 ^ 32 > 0xffff) then
        some (FLX_ERROR_BUFFER_NOT_AVAIL, b0)
      else
        some (FLX_OK, { b0 with
          first := b0.pos, current := b0.pos, pos := b0.len
          bytes := store (flxWriteSectionEntries_loop S
              (((b0.len + 2 ^ 32 - b0.pos) % 2 ^ 32 / S + 2 ^ 32 - SECTION_HEADER_SIZE) % 2 ^ 32)
              (((b0.len + 2 ^ 32 - b0.pos) % 2 ^ 32 + 2 * 2 ^ 32
                - ((b0.len + 2 ^ 32 - b0.pos) % 2 ^ 32 / S * ((S + 2 ^ 32 - 1) % 2 ^ 32)) % 2 ^ 32
                - SECTION_HEADER_SIZE) % 2 ^ 32)
              b0.pos S 0 b0.bytes 0).1 (b0.pos + 2)
            (((flxWriteSectionEntries_loop S
              (((b0.len + 2 ^ 32 - b0.pos) % 2 ^ 32 / S + 2 ^ 32 - SECTION_HEADER_SIZE) % 2 ^ 32)
              (((b0.len + 2 ^ 32 - b0.pos) % 2 ^ 32 + 2 * 2 ^ 32
                - ((b0.len + 2 ^ 32 - b0.pos) % 2 ^ 32 / S * ((S + 2 ^ 32 - 1) % 2 ^ 32)) % 2 ^ 32
                - SECTION_HEADER_SIZE) % 2 ^ 32)
              b0.pos S 0 b0.bytes 0).1 (b0.pos + 2) + 1) % 256)
          rlen := ringSectionLen (store (flxWriteSectionEntries_loop S
              (((b0.len + 2 ^ 32 - b0.pos) % 2 ^ 32 / S + 2 ^ 32 - SECTION_HEADER_SIZE) % 2 ^ 32)
              (((b0.len + 2 ^ 32 - b0.pos) % 2 ^ 32 + 2 * 2 ^ 32
                - ((b0.len + 2 ^ 32 - b0.pos) % 2 ^ 32 / S * ((S + 2 ^ 32 - 1) % 2 ^ 32)) % 2 ^ 32
                - SECTION_HEADER_SIZE) % 2 ^ 32)
              b0.pos S 0 b0.bytes 0).1 (b0.pos + 2)
            (((flxWriteSectionEntries_loop S
              (((b0.len + 2 ^ 32 - b0.pos) % 2 ^ 32 / S + 2 ^ 32 - SECTION_HEADER_SIZE) % 2 ^ 32)
              (((b0.len + 2 ^ 32 - b0.pos) % 2 ^ 32 + 2 * 2 ^ 32
                - ((b0.len + 2 ^ 32 - b0.pos) % 2 ^ 32 / S * ((S + 2 ^ 32 - 1) % 2 ^ 32)) % 2 ^ 32
                - SECTION_HEADER_SIZE) % 2 ^ 32)
              b0.pos S 0 b0.bytes 0).1 (b0.pos + 2) + 1) % 256)) b0.pos
          rpos := 0 }) := by
  unfold flxWriteSectionEntries flxBuffer.call
  rw [hacc]
  have e1 : flxRingBufferAccess FLX_BUFFER_AVAIL b0 0 none
      = ⟨FLX_OK, b0, (b0.len + 2 ^ 32 - b0.pos) % 2 ^ 32, some b0.pos⟩ := by
    unfold flxRingBufferAccess
    rw [if_neg (by decide), if_neg (by decide), if_neg (by decide), if_pos rfl, if_pos hf]
  simp only [e1, if_true, if_neg hS0, Option.getD_some]
  split
  · rfl
  · unfold flxRingBufferAccess
    rw [if_neg (by decide), if_neg (by decide), if_neg (by decide), if_neg (by decide),
      if_neg (by decide), if_pos rfl]
    simp only [hf, if_true, hacc]

/-- A successful `flxWriteSectionEntries` with sections of at least the header
size: the layout of the sections and the state of the ring. -/
theorem writeSectionEntries_inv {σ : Type} (b0 b1 : flxBuffer σ) (S : Nat)
    (hlen : b0.len < 2 ^ 32) (hpos : b0.pos ≤ b0.len) (hS : S < 2 ^ 32)
    (hsec : SECTION_HEADER_SIZE ≤ (b0.len - b0.pos) / S)
    (hw : flxWriteSectionEntries b0 S = some (FLX_OK, b1)) :
    ∃ L, SectionLayout b0.pos S ((b0.len - b0.pos) / S) L b0.len ∧
      RingInv b0.pos S ((b0.len - b0.pos) / S) L b0.len b0.init b1 [b0.pos] := by
  have hS1 : 1 ≤ S := by
    rcases Nat.eq_zero_or_pos S with h | h
    · subst h; simp [SECTION_HEADER_SIZE] at hsec
    · exact h
  have hA : (b0.len + 2 ^ 32 - b0.pos) % 2 ^ 32 = b0.len - b0.pos := by omega
  have hsS : (b0.len - b0.pos) / S * S ≤ b0.len - b0.pos := Nat.div_mul_le_self _ _
  have hS0 : S ≠ 0 := by omega
  cases hacc : b0.access with
  | simple =>
    simp [flxWriteSectionEntries, flxBuffer.call, hacc, flxSimpleBufferAccess,
      flxLinearBufferAccess, FLX_BUFFER_AVAIL, FLX_BUFFER_GET, FLX_BUFFER_CLEAR,
      FLX_BUFFER_FLUSH, FLX_BUFFER_DEEPFLUSH, FLX_BUFFER_REQUEST, FLX_BUFFER_COMMIT,
      FLX_BUFFER_SECCOMMIT, FLX_OK, FLX_ERROR_BUFFER_UNKNOWN_COMMAND,
      FLX_ERROR_BUFFER_NOT_AVAIL, hS0] at hw
    split at hw <;> simp at hw
  | linear =>
    simp [flxWriteSectionEntries, flxBuffer.call, hacc,
      flxLinearBufferAccess, FLX_BUFFER_AVAIL, FLX_BUFFER_GET, FLX_BUFFER_CLEAR,
      FLX_BUFFER_FLUSH, FLX_BUFFER_DEEPFLUSH, FLX_BUFFER_REQUEST, FLX_BUFFER_COMMIT,
      FLX_BUFFER_SECCOMMIT, FLX_OK, FLX_ERROR_BUFFER_UNKNOWN_COMMAND,
      FLX_ERROR_BUFFER_NOT_AVAIL, hS0] at hw
    split at hw <;> simp at hw
  | ring =>
    by_cases hf : b0.first = 2 ^ 32 - 1
    · rw [writeSectionEntries_ring b0 S hacc hf hS0, hA] at hw
      have hSm : (S + 2 ^ 32 - 1) % 2 ^ 32 = S - 1 := by omega
      have hms : (b0.len - b0.pos) / S * (S - 1) + (b0.len - b0.pos) / S
          = (b0.len - b0.pos) / S * S := by
        have e : (S - 1) + 1 = S := by omega
        have h := Nat.mul_succ ((b0.len - b0.pos) / S) (S - 1)
        rw [Nat.succ_eq_add_one, e] at h
        exact h.symm
      have hcomm : (S - 1) * ((b0.len - b0.pos) / S) = (b0.len - b0.pos) / S * (S - 1) :=
        Nat.mul_comm _ _
      rw [hSm] at hw
      generalize hs : (b0.len - b0.pos) / S = s at *
      generalize hm : s * (S - 1) = m at *
      have h7 : SECTION_HEADER_SIZE = 7 := rfl
      have hmm : m % 2 ^ 32 = m := by omega
      have hL : (b0.len - b0.pos + 2 * 2 ^ 32 - m - SECTION_HEADER_SIZE) % 2 ^ 32
          = b0.len - b0.pos - m - SECTION_HEADER_SIZE := by omega
      have hcs : (s + 2 ^ 32 - SECTION_HEADER_SIZE) % 2 ^ 32 = s - SECTION_HEADER_SIZE := by
        omega
      rw [hmm, hL, hcs] at hw
      split at hw
      · simp [FLX_OK, FLX_ERROR_BUFFER_NOT_AVAIL] at hw
      · rename_i hnot
        have hb1 := (Prod.mk.inj (Option.some.inj hw)).2
        have hl : SectionLayout b0.pos S s (b0.len - b0.pos - m - SECTION_HEADER_SIZE) b0.len :=
          { sections := hS1, sections32 := hS, header := hsec
            lastLow := by omega
            lastHigh := by omega
            total := by rw [hcomm]; omega
            len32 := hlen }
        obtain ⟨hw1, hw2⟩ := writeSections_loop_spec hl S 0 b0.bytes 0 (by omega)
          (fun _ => by simp)
        generalize (flxWriteSectionEntries_loop S (s - SECTION_HEADER_SIZE)
          (b0.len - b0.pos - m - SECTION_HEADER_SIZE) b0.pos S 0 b0.bytes 0).1 = w at *
        have hoff0 : sectionOffset b0.pos s 0 = b0.pos := by simp [sectionOffset]
        have hge : ∀ k, b0.pos ≤ sectionOffset b0.pos s k := fun k => Nat.le_add_right _ _
        have hsz : ∀ k, k < S → ringSectionLen (store w (b0.pos + 2)
            ((w (b0.pos + 2) + 1) % 256)) (sectionOffset b0.pos s k)
            = sectionContent S s (b0.len - b0.pos - m - SECTION_HEADER_SIZE) k := by
          intro k hk
          rw [← (hw2 k (by omega) hk).2.2.2]
          unfold ringSectionLen
          have := hge k
          rw [store_other _ _ _ _ (by omega), store_other _ _ _ _ (by omega)]
        have hc0 : (w (b0.pos + 2) + 1) % 256 = if 0 + 1 = S then 0x81 else 1 := by
          have := (hw2 0 (by omega) (by omega)).2.2.1
          rw [hoff0] at this
          rw [this]
          split <;> rfl
        refine ⟨_, hl, ?_⟩
        subst hb1
        refine
          { access := hacc, len := rfl, first := rfl, init := rfl
            current := ⟨0, by omega, hoff0.symm, ?_⟩
            marks := ?_
            sizes := hsz
            last := ?_
            nibble := ?_ }
        · have := hsz 0 (by omega)
          rw [hoff0] at this
          exact this
        · intro k hk
          have h0 : sectionOffset b0.pos s k ≠ b0.pos + 2 := by
            intro e
            have := (header_cells_apart hl k 0 0 2 (by omega) (by omega)
              (by rw [hoff0]; exact e)).2
            omega
          have h1 : sectionOffset b0.pos s k + 1 ≠ b0.pos + 2 := by
            intro e
            have := (header_cells_apart hl k 0 1 2 (by omega) (by omega)
              (by rw [hoff0]; exact e)).2
            omega
          show store w (b0.pos + 2) ((w (b0.pos + 2) + 1) % 256) (sectionOffset b0.pos s k) = 0 ∧
            store w (b0.pos + 2) ((w (b0.pos + 2) + 1) % 256) (sectionOffset b0.pos s k + 1)
              = FLX_ENTRY_SECT
          rw [store_other _ _ _ _ h0, store_other _ _ _ _ h1]
          exact ⟨(hw2 k (by omega) hk).1, (hw2 k (by omega) hk).2.1⟩
        · intro k hk
          show store w (b0.pos + 2) ((w (b0.pos + 2) + 1) % 256) (sectionOffset b0.pos s k + 2) &&& 0x80
            = _
          by_cases hk0 : k = 0
          · subst hk0
            rw [hoff0, store_same, hc0]
            split <;> rfl
          · have hne : sectionOffset b0.pos s k + 2 ≠ b0.pos + 2 := by
              intro e
              have := (header_cells_apart hl k 0 2 2 (by omega) (by omega) (by rw [hoff0]; exact e)).1
              exact hk0 this
            rw [store_other _ _ _ _ hne, (hw2 k (by omega) hk).2.2.1]
            split <;> rfl
        · intro o ho
          have ho1 : o = b0.pos := by simpa using ho
          subst ho1
          refine ⟨⟨0, by omega, hoff0.symm⟩, ?_⟩
          show 1 ≤ store w (b0.pos + 2) ((w (b0.pos + 2) + 1) % 256) (b0.pos + 2) &&& 0xf
          rw [store_same, hc0]
          split <;> decide
    · exfalso
      unfold flxWriteSectionEntries flxBuffer.call at hw
      rw [hacc] at hw
      have e1 : flxRingBufferAccess FLX_BUFFER_AVAIL b0 0 none
          = ⟨FLX_OK, b0, (b0.rlen + 2 ^ 32 - b0.rpos) % 2 ^ 32, some b0.rpos⟩ := by
        unfold flxRingBufferAccess
        rw [if_neg (by decide), if_neg (by decide), if_neg (by decide), if_pos rfl, if_neg hf]
      simp only [e1, if_true, if_neg hS0, Option.getD_some] at hw
      split at hw
      · simp [FLX_OK, FLX_ERROR_BUFFER_NOT_AVAIL] at hw
      · unfold flxRingBufferAccess at hw
        rw [if_neg (by decide), if_neg (by decide), if_neg (by decide), if_neg (by decide),
          if_neg (by decide), if_pos rfl] at hw
        simp only [hf, if_false, hacc] at hw
        simp [FLX_OK, FLX_ERROR_BUFFER_OVERFLOW] at hw

theorem and_0x80_cases (x : Nat) : x &&& 0x80 = 0 ∨ x &&& 0x80 = 0x80 := by
  have h := Nat.and_two_pow x 7
  rcases hb : x.testBit 7 with _ | _ <;> simp [hb] at h <;> omega

/-- The counter byte written on entering a section keeps the `0x80` bit of the
old byte and has the new counter as its low nibble. -/
theorem counter_bits (c x : Nat) (h1 : 1 ≤ c) (h2 : c ≤ 15) :
    (c ||| (x &&& 0x80)) &&& 0x80 = x &&& 0x80 ∧ (c ||| (x &&& 0x80)) &&& 0xf = c := by
  rcases and_0x80_cases x with h | h <;> rw [h] <;> interval_cases c <;> decide

/-- The counter after the increment `counter++; if (counter >= 16) counter = 1`. -/
theorem counter_next (x : Nat) :
    (if (x &&& 0xf) + 1 ≥ 16 then 1 else (x &&& 0xf) + 1)
      = (if x &&& 0xf = 15 then 1 else (x &&& 0xf) + 1) ∧
    1 ≤ (if (x &&& 0xf) + 1 ≥ 16 then 1 else (x &&& 0xf) + 1) ∧
    (if (x &&& 0xf) + 1 ≥ 16 then 1 else (x &&& 0xf) + 1) ≤ 15 := by
  have h : x &&& 0xf ≤ 0xf := Nat.and_le_right
  refine ⟨?_, ?_, ?_⟩
  · by_cases e : x &&& 0xf = 15
    · rw [if_pos (by omega), if_pos e]
    · rw [if_neg (by omega), if_neg e]
  · split <;> omega
  · split <;> omega

/-- The two cases of a ring `REQUEST` in section mode: the request fits into the
current section, or the next section is entered. -/
theorem ringRequest_cases {σ : Type} (b : flxBuffer σ) (n : Nat) (hf : b.first ≠ 2 ^ 32 - 1) :
    ((b.rpos + n) % 2 ^ 32 ≤ b.rlen ∧ (flxRingRequest b n).buffer = b) ∨
    (¬ (b.rpos + n) % 2 ^ 32 ≤ b.rlen ∧ ∃ (cur c : Nat) (bytes1 : Nat → Nat)
        (i : (Nat → Nat) × Nat),
      cur = (if (b.current + (SECTION_HEADER_SIZE + ringSectionLen b.bytes b.current)) % 2 ^ 32
          ≥ b.len then b.first
        else (b.current + (SECTION_HEADER_SIZE + ringSectionLen b.bytes b.current)) % 2 ^ 32) ∧
      c = (if (b.bytes (cur + 2) &&& 0xf) + 1 ≥ 16 then 1 else (b.bytes (cur + 2) &&& 0xf) + 1) ∧
      bytes1 = store b.bytes (cur + 2) (c ||| (b.bytes (cur + 2) &&& 0x80)) ∧
      i = (match b.init with
        | some init => init bytes1 cur (ringSectionLen bytes1 cur)
        | none => (bytes1, 0)) ∧
      (flxRingRequest b n).buffer
        = { b with current := cur, bytes := i.1, rlen := ringSectionLen bytes1 cur, rpos := i.2 }) := by
  unfold flxRingRequest
  rw [if_neg hf]
  by_cases hfit : (b.rpos + n) % 2 ^ 32 ≤ b.rlen
  · left
    rw [if_pos hfit]
    exact ⟨hfit, rfl⟩
  · right
    rw [if_neg hfit]
    refine ⟨hfit, _, _, _, _, rfl, rfl, rfl, rfl, ?_⟩
    simp only [apply_ite flxAccessOut.buffer, ite_self]

/-- Entering section `j` keeps the state of the ring: the counter byte of the
section gets the new counter `c`, the init callback writes into the section. -/
theorem ringInv_enter {σ : Type} {pos S s L len : Nat}
    {init : Option ((Nat → Nat) → Nat → Nat → (Nat → Nat) × Nat)}
    (hl : SectionLayout pos S s L len) (hinit : InitInSection init)
    (b : flxBuffer σ) (e : List Nat) (hinv : RingInv pos S s L len init b e)
    (j c : Nat) (hj : j < S) (hc1 : 1 ≤ c) (hc2 : c ≤ 15) (i : (Nat → Nat) × Nat)
    (hi : i = (match b.init with
        | some f => f (store b.bytes (sectionOffset pos s j + 2)
            (c ||| (b.bytes (sectionOffset pos s j + 2) &&& 0x80))) (sectionOffset pos s j)
            (ringSectionLen (store b.bytes (sectionOffset pos s j + 2)
              (c ||| (b.bytes (sectionOffset pos s j + 2) &&& 0x80))) (sectionOffset pos s j))
        | none => (store b.bytes (sectionOffset pos s j + 2)
            (c ||| (b.bytes (sectionOffset pos s j + 2) &&& 0x80)), 0))) :
    RingInv pos S s L len init
      { b with
        current := sectionOffset pos s j, bytes := i.1
        rlen := ringSectionLen (store b.bytes (sectionOffset pos s j + 2)
          (c ||| (b.bytes (sectionOffset pos s j + 2) &&& 0x80))) (sectionOffset pos s j)
        rpos := i.2 }
      (sectionOffset pos s j :: e) ∧
    i.1 (sectionOffset pos s j + 2) &&& 0xf = c := by
  have hlenj : ringSectionLen (store b.bytes (sectionOffset pos s j + 2)
      (c ||| (b.bytes (sectionOffset pos s j + 2) &&& 0x80))) (sectionOffset pos s j)
      = sectionContent S s L j := by
    rw [← hinv.sizes j hj]
    unfold ringSectionLen
    rw [store_other _ _ _ _ (by omega), store_other _ _ _ _ (by omega)]
  rw [hlenj] at hi ⊢
  -- the callback leaves the counter and length cells of all headers
  have hframe : ∀ k d, k < S → d < 5 → i.1 (sectionOffset pos s k + d)
      = store b.bytes (sectionOffset pos s j + 2)
          (c ||| (b.bytes (sectionOffset pos s j + 2) &&& 0x80)) (sectionOffset pos s k + d) := by
    intro k d hk hd
    rw [hi]
    cases hb : b.init with
    | none => rfl
    | some f =>
      simp only []
      apply hinit f (hinv.init.symm.trans hb)
      by_contra hcon
      have h1 : sectionOffset pos s j + 5 ≤ sectionOffset pos s k + d := by omega
      have h2 : sectionOffset pos s k + d
          < sectionOffset pos s j + SECTION_HEADER_SIZE + sectionContent S s L j := by omega
      exact header_apart hl k j d _ hk hj hd h1 h2 rfl
  have hcell : ∀ k d, k < S → d < 5 → (k ≠ j ∨ d ≠ 2) →
      i.1 (sectionOffset pos s k + d) = b.bytes (sectionOffset pos s k + d) := by
    intro k d hk hd hne
    rw [hframe k d hk hd, store_other]
    intro heq
    have := header_cells_apart hl k j d 2 (by omega) (by omega) heq
    omega
  have hcnt : i.1 (sectionOffset pos s j + 2)
      = c ||| (b.bytes (sectionOffset pos s j + 2) &&& 0x80) := by
    rw [hframe j 2 hj (by omega), store_same]
  have hbits := counter_bits c (b.bytes (sectionOffset pos s j + 2)) hc1 hc2
  refine ⟨?_, by rw [hcnt]; exact hbits.2⟩
  refine
    { access := hinv.access, len := hinv.len, first := hinv.first, init := hinv.init
      current := ⟨j, hj, rfl, rfl⟩
      marks := ?_
      sizes := ?_
      last := ?_
      nibble := ?_ }
  · intro k hk
    have h0 := hcell k 0 hk (by omega) (Or.inr (by omega))
    have h1 := hcell k 1 hk (by omega) (Or.inr (by omega))
    rw [Nat.add_zero] at h0
    show i.1 (sectionOffset pos s k) = 0 ∧ i.1 (sectionOffset pos s k + 1) = FLX_ENTRY_SECT
    rw [h0, h1]
    exact hinv.marks k hk
  · intro k hk
    rw [← hinv.sizes k hk]
    show i.1 (sectionOffset pos s k + 3) + (i.1 (sectionOffset pos s k + 4) <<< 8) = _
    rw [hcell k 3 hk (by omega) (Or.inr (by omega)),
      hcell k 4 hk (by omega) (Or.inr (by omega))]
    rfl
  · intro k hk
    rw [← hinv.last k hk]
    show i.1 (sectionOffset pos s k + 2) &&& 0x80 = _
    by_cases hkj : k = j
    · subst hkj
      rw [hcnt]
      exact hbits.1
    · rw [hcell k 2 hk (by omega) (Or.inl hkj)]
  · intro o ho
    rcases List.mem_cons.mp ho with ho1 | ho1
    · subst ho1
      refine ⟨⟨j, hj, rfl⟩, ?_⟩
      show 1 ≤ i.1 (sectionOffset pos s j + 2) &&& 0xf
      rw [hcnt, hbits.2]
      exact hc1
    · obtain ⟨⟨k, hk, hok⟩, hn⟩ := hinv.nibble o ho1
      refine ⟨⟨k, hk, hok⟩, ?_⟩
      subst hok
      show 1 ≤ i.1 (sectionOffset pos s k + 2) &&& 0xf
      by_cases hkj : k = j
      · subst hkj
        rw [hcnt, hbits.2]
        exact hc1
      · rw [hcell k 2 hk (by omega) (Or.inl hkj)]
        exact hn

/-- Writes that leave the first five cells of all headers keep the state of the
ring. -/
theorem ringInv_bytes {σ : Type} {pos S s L len : Nat}
    {init : Option ((Nat → Nat) → Nat → Nat → (Nat → Nat) × Nat)}
    (b : flxBuffer σ) (e : List Nat) (hinv : RingInv pos S s L len init b e)
    (bytes1 : Nat → Nat) (r : Nat)
    (h : ∀ k d, k < S → d < 5 →
      bytes1 (sectionOffset pos s k + d) = b.bytes (sectionOffset pos s k + d)) :
    RingInv pos S s L len init { b with bytes := bytes1, rpos := r } e := by
  refine
    { access := hinv.access, len := hinv.len, first := hinv.first, init := hinv.init
      current := hinv.current
      marks := ?_
      sizes := ?_
      last := ?_
      nibble := ?_ }
  · intro k hk
    have h0 := h k 0 hk (by omega)
    rw [Nat.add_zero] at h0
    show bytes1 (sectionOffset pos s k) = 0 ∧ bytes1 (sectionOffset pos s k + 1) = FLX_ENTRY_SECT
    rw [h0, h k 1 hk (by omega)]
    exact hinv.marks k hk
  · intro k hk
    rw [← hinv.sizes k hk]
    show bytes1 (sectionOffset pos s k + 3) + (bytes1 (sectionOffset pos s k + 4) <<< 8) = _
    rw [h k 3 hk (by omega), h k 4 hk (by omega)]
    rfl
  · intro k hk
    rw [← hinv.last k hk]
    show bytes1 (sectionOffset pos s k + 2) &&& 0x80 = _
    rw [h k 2 hk (by omega)]
  · intro o ho
    obtain ⟨⟨k, hk, hok⟩, hn⟩ := hinv.nibble o ho
    refine ⟨⟨k, hk, hok⟩, ?_⟩
    subst hok
    show 1 ≤ bytes1 (sectionOffset pos s k + 2) &&& 0xf
    rw [h k 2 hk (by omega)]
    exact hn

/-- One call keeps the state of the ring, and a call that enters a section
sets the low nibble of its counter to the next counter value. -/
theorem ringInv_step {σ : Type} {pos S s L len : Nat}
    {init : Option ((Nat → Nat) → Nat → Nat → (Nat → Nat) × Nat)}
    (hl : SectionLayout pos S s L len) (hinit : InitInSection init)
    (b : flxBuffer σ) (e : List Nat) (hinv : RingInv pos S s L len init b e) (op : flxRingOp) :
    RingInv pos S s L len init (op.run b)
      (if op.enters b then (op.run b).current :: e else e) ∧
    (op.enters b = true →
      (op.run b).bytes ((op.run b).current + 2) &&& 0xf
        = if b.bytes ((op.run b).current + 2) &&& 0xf = 15 then 1
          else (b.bytes ((op.run b).current + 2) &&& 0xf) + 1) := by
  have hS := hl.sections
  have hh := hl.header
  have hlen := hl.len32
  have htot := hl.total
  have h7 : SECTION_HEADER_SIZE = 7 := rfl
  have hfirst : b.first ≠ 2 ^ 32 - 1 := by
    rw [hinv.first]
    omega
  obtain ⟨j, hj, hcj, hrj⟩ := hinv.current
  cases op with
  | request n =>
    have hrun : (flxRingOp.request n).run b = (flxRingRequest b n).buffer := by
      simp only [flxRingOp.run, flxBuffer.call, hinv.access]
      unfold flxRingBufferAccess
      rw [if_neg (by decide), if_neg (by decide), if_pos rfl]
    rcases ringRequest_cases b n hfirst with ⟨hfit, hb⟩ | ⟨hfit, cur, c, bytes1, i, hcur, hc, hb1, hi, hb⟩
    · have hen : (flxRingOp.request n).enters b = false := by
        simp only [flxRingOp.enters, decide_eq_false_iff_not]
        exact fun h => h.2 hfit
      rw [hen, hrun, hb]
      exact ⟨hinv, fun h => by simp at h⟩
    · have hen : (flxRingOp.request n).enters b = true := by
        simp only [flxRingOp.enters, decide_eq_true_iff]
        exact ⟨hfirst, hfit⟩
      have hsz := hinv.sizes j hj
      rw [← hcj] at hsz
      have hend := section_end hl j hj
      obtain ⟨j1, hj1, hcur1⟩ : ∃ j1, j1 < S ∧ cur = sectionOffset pos s j1 := by
        rw [hsz, hinv.len, hinv.first, hcj] at hcur
        have hmod : (sectionOffset pos s j + (SECTION_HEADER_SIZE + sectionContent S s L j))
            % 2 ^ 32 = sectionOffset pos s j + SECTION_HEADER_SIZE + sectionContent S s L j := by
          have := hend.2.2.1
          omega
        rw [hmod] at hcur
        by_cases hlast : j + 1 = S
        · refine ⟨0, by omega, ?_⟩
          rw [hcur, if_pos (by have := hend.2.1 hlast; omega)]
          simp [sectionOffset]
        · refine ⟨j + 1, by omega, ?_⟩
          have e1 := hend.1 (by omega)
          have e2 := (section_end hl (j + 1) (by omega)).2.2.1
          rw [hcur, if_neg (by omega)]
          exact e1
      subst hcur1
      subst hb1
      have hcn := counter_next (b.bytes (sectionOffset pos s j1 + 2))
      rw [← hc] at hcn
      have hent := ringInv_enter hl hinit b e hinv j1 c hj1 hcn.2.1 hcn.2.2 i hi
      rw [hen, hrun, hb]
      refine ⟨hent.1, fun _ => ?_⟩
      show i.1 (sectionOffset pos s j1 + 2) &&& 0xf = _
      rw [hent.2, hc]
      exact hcn.1.symm ▸ (counter_next (b.bytes (sectionOffset pos s j1 + 2))).1
  | commit n =>
    have hen : (flxRingOp.commit n).enters b = false := rfl
    rw [hen]
    refine ⟨?_, fun h => by simp at h⟩
    have hrun : (flxRingOp.commit n).run b
        = if (b.rpos + n) % 2 ^ 32 ≤ b.rlen then
            { b with
              rpos := (b.rpos + n) % 2 ^ 32
              bytes := store (store b.bytes (b.current + 5) (((b.rpos + n) % 2 ^ 32) &&& 0xff))
                (b.current + 6) ((((b.rpos + n) % 2 ^ 32) >>> 8) &&& 0xff) }
          else b := by
      simp only [flxRingOp.run, flxBuffer.call, hinv.access]
      unfold flxRingBufferAccess
      rw [if_neg (by decide), if_neg (by decide), if_neg (by decide), if_neg (by decide),
        if_pos rfl, if_neg hfirst]
      simp only [apply_ite flxAccessOut.buffer, hinv.access]
    rw [hrun]
    split
    · have := ringInv_bytes b e hinv
        (store (store b.bytes (b.current + 5) (((b.rpos + n) % 2 ^ 32) &&& 0xff))
          (b.current + 6) ((((b.rpos + n) % 2 ^ 32) >>> 8) &&& 0xff)) ((b.rpos + n) % 2 ^ 32)
        (fun k d hk hd => by
          rw [hcj, store_other, store_other]
          · intro heq
            have := header_cells_apart hl k j d 5 (by omega) (by omega) heq
            omega
          · intro heq
            have := header_cells_apart hl k j d 6 (by omega) (by omega) heq
            omega)
      exact this
    · exact hinv
  | put i v =>
    have hen : (flxRingOp.put i v).enters b = false := rfl
    rw [hen]
    refine ⟨?_, fun h => by simp at h⟩
    show RingInv pos S s L len init
      (if b.current + SECTION_HEADER_SIZE ≤ i ∧ i < b.current + SECTION_HEADER_SIZE + b.rlen then
        { b with bytes := store b.bytes i v }
      else b) e
    split
    · rename_i hin
      have := ringInv_bytes b e hinv (store b.bytes i v) b.rpos
        (fun k d hk hd => by
          rw [store_other]
          rw [hcj, hrj] at hin
          exact header_apart hl k j d i hk hj hd (by omega) hin.2)
      exact this
    · exact hinv

/-- A sequence of calls keeps the state of the ring. -/
theorem ringInv_run {σ : Type} {pos S s L len : Nat}
    {init : Option ((Nat → Nat) → Nat → Nat → (Nat → Nat) × Nat)}
    (hl : SectionLayout pos S s L len) (hinit : InitInSection init) :
    ∀ (ops : List flxRingOp) (b : flxBuffer σ) (e : List Nat),
      RingInv pos S s L len init b e →
      RingInv pos S s L len init (flxRingRun ops b) (flxRingEntered ops b e) := by
  intro ops
  induction ops with
  | nil => intro b e h; exact h
  | cons op ops ih =>
    intro b e h
    exact ih _ _ (ringInv_step hl hinit b e h op).1

/-- C30, amended. Ring section counter invariant, for sections of at least the
seven header bytes (`avail / noOfSections ≥ 7`) and an init callback, if there
is one, that writes only into the section it is called for: in every state
reached after a successful `flxWriteSectionEntries` by `REQUEST` and `COMMIT`
calls (and writes into the content of the current section), every section
header still starts with `0x00, SECT`, the counter byte of the last section has
bit `0x80` set and no other section's has it, every section entered so far has
a counter low nibble in 1..15, and a call that enters a section enters one of
the sections and sets its nibble to one more than before, to 1 after 15. -/
theorem ring_section_counters {σ : Type} (b0 b1 : flxBuffer σ) (noOfSections : Nat)
    (ops : List flxRingOp)
    (hlen : b0.len < 2 ^ 32) (hS : noOfSections < 2 ^ 32)
    (hsec : SECTION_HEADER_SIZE ≤ (b0.len - b0.pos) / noOfSections)
    (hinit : InitInSection b0.init)
    (hw : flxWriteSectionEntries b0 noOfSections = some (FLX_OK, b1)) :
    (∀ k, k < noOfSections →
      (flxRingRun ops b1).bytes
          (sectionOffset b0.pos ((b0.len - b0.pos) / noOfSections) k) = 0 ∧
      (flxRingRun ops b1).bytes
          (sectionOffset b0.pos ((b0.len - b0.pos) / noOfSections) k + 1) = FLX_ENTRY_SECT ∧
      (flxRingRun ops b1).bytes
          (sectionOffset b0.pos ((b0.len - b0.pos) / noOfSections) k + 2) &&& 0x80
        = if k + 1 = noOfSections then 0x80 else 0) ∧
    (∀ o ∈ flxRingEntered ops b1 [b0.pos],
      (∃ k, k < noOfSections ∧
        o = sectionOffset b0.pos ((b0.len - b0.pos) / noOfSections) k) ∧
      1 ≤ (flxRingRun ops b1).bytes (o + 2) &&& 0xf ∧
      (flxRingRun ops b1).bytes (o + 2) &&& 0xf ≤ 15) ∧
    (∀ op : flxRingOp, op.enters (flxRingRun ops b1) = true →
      (∃ k, k < noOfSections ∧ (op.run (flxRingRun ops b1)).current
        = sectionOffset b0.pos ((b0.len - b0.pos) / noOfSections) k) ∧
      (op.run (flxRingRun ops b1)).bytes ((op.run (flxRingRun ops b1)).current + 2) &&& 0xf
        = if (flxRingRun ops b1).bytes ((op.run (flxRingRun ops b1)).current + 2) &&& 0xf = 15
          then 1
          else ((flxRingRun ops b1).bytes ((op.run (flxRingRun ops b1)).current + 2) &&& 0xf)
            + 1) := by
  have hpos : b0.pos ≤ b0.len := by
    by_contra hcon
    have h0 : b0.len - b0.pos = 0 := by omega
    rw [h0, Nat.zero_div] at hsec
    exact absurd hsec (by decide)
  obtain ⟨L, hl, hinv0⟩ := writeSectionEntries_inv b0 b1 noOfSections hlen hpos hS hsec hw
  have hinv := ringInv_run hl hinit ops b1 [b0.pos] hinv0
  refine ⟨fun k hk => ⟨(hinv.marks k hk).1, (hinv.marks k hk).2, hinv.last k hk⟩,
    fun o ho => ⟨(hinv.nibble o ho).1, (hinv.nibble o ho).2, Nat.and_le_right⟩,
    fun op hop => ?_⟩
  have hstep := ringInv_step hl hinit _ _ hinv op
  exact ⟨hstep.1.current.imp (fun k hk => ⟨hk.1, hk.2.1⟩), hstep.2 hop⟩

theorem ring_section_counters_witness :
    flxWriteSectionEntries exRing256 4 = some (FLX_OK, exRing256Sections) ∧
    (∀ k, k < 4 →
      (flxRingRun exRingOps exRing256Sections).bytes (sectionOffset 0 64 k) = 0 ∧
      (flxRingRun exRingOps exRing256Sections).bytes (sectionOffset 0 64 k + 1)
        = FLX_ENTRY_SECT ∧
      (flxRingRun exRingOps exRing256Sections).bytes (sectionOffset 0 64 k + 2) &&& 0x80
        = if k + 1 = 4 then 0x80 else 0) ∧
    (∀ o ∈ flxRingEntered exRingOps exRing256Sections [0],
      (∃ k, k < 4 ∧ o = sectionOffset 0 64 k) ∧
      1 ≤ (flxRingRun exRingOps exRing256Sections).bytes (o + 2) &&& 0xf ∧
      (flxRingRun exRingOps exRing256Sections).bytes (o + 2) &&& 0xf ≤ 15) ∧
    flxRingEntered exRingOps exRing256Sections [0] = [64, 0, 192, 128, 64, 0] ∧
    (List.range 4).map (fun k => (flxRingRun exRingOps exRing256Sections).bytes
      (sectionOffset 0 64 k + 2)) = [2, 2, 1, 0x81] :=
  ⟨rfl,
    (ring_section_counters exRing256 exRing256Sections 4 exRingOps (by decide) (by decide)
      (by decide) (fun f h => by cases h) rfl).1,
    (ring_section_counters exRing256 exRing256Sections 4 exRingOps (by decide) (by decide)
      (by decide) (fun f h => by cases h) rfl).2.1,
    by decide, by decide⟩

set_option maxRecDepth 100000 in
/-- Counterexample to C30 as stated: `flxWriteSectionEntries(buffer, 21)` on a
ring of 83 bytes succeeds with sections of 3 bytes, whose headers of 7 bytes lie
over each other; the length field of the first one reads 1536, `REQUEST` and
`COMMIT` of 128 bytes succeed, and the `COMMIT` writes `0x80` into the used field
at byte 5, which is the counter byte of the second of the 21 sections. And on a
ring of 256 bytes with four sections, whose init callback clears the counter
byte of its section, the section entered by the second `REQUEST` of 50 bytes has
the counter 0. -/
theorem ring_section_counters_counterexample :
    (flxWriteSectionEntries exRing83 21).map (fun r => (r.1, r.2.first, r.2.rlen))
      = some (FLX_OK, 0, 1536) ∧
    (flxWriteSectionEntries exRing83 21).map (fun r =>
        ((r.2.call FLX_BUFFER_REQUEST 128 none).result,
          (((flxRingOp.request 128).run r.2).call FLX_BUFFER_COMMIT 128 none).result))
      = some (FLX_OK, FLX_OK) ∧
    (flxWriteSectionEntries exRing83 21).map (fun r =>
        (flxRingRun [flxRingOp.request 128, flxRingOp.commit 128] r.2).bytes
          (sectionOffset 0 3 1 + 2) &&& 0x80) = some 0x80 ∧
    (flxWriteSectionEntries exRingClear 4).map (fun r =>
        (r.1,
          ((flxRingRun [flxRingOp.request 50, flxRingOp.commit 50] r.2).call
            FLX_BUFFER_REQUEST 50 none).result,
          (flxRingOp.request 50).enters
            (flxRingRun [flxRingOp.request 50, flxRingOp.commit 50] r.2)))
      = some (FLX_OK, FLX_OK, true) ∧
    (flxWriteSectionEntries exRingClear 4).map (fun r =>
        ((flxRingRun [flxRingOp.request 50, flxRingOp.commit 50, flxRingOp.request 50]
            r.2).current,
          (flxRingRun [flxRingOp.request 50, flxRingOp.commit 50, flxRingOp.request 50]
            r.2).bytes (sectionOffset 0 64 1 + 2)))
      = some (64, 0) :=
  ⟨by decide, by decide, by decide, by decide, by decide⟩


/-! ### Current position of an item -/

set_option maxRecDepth 100000 in
/-- C34, at the failing input. With nothing open `flxGetCurrent` returns
`FLX_ERROR_NOT_OPEN` (-13), not 0: for an item of a trace with an item table
(`exTraceFour`, item 2), for the root of a trace without item table
(`exTraceRoot`), and for an item marked `CONTAINER` whose opening item is not
`LOCAL`. With a sequence open it returns its position: 5 for the open root of
`exTraceOpen5`, 10 for item 2 below the open root of `exTraceAt10`. -/
theorem get_current_not_open :
    flxGetCurrent exTraceFour 2 = some FLX_ERROR_NOT_OPEN ∧
    exTraceRoot.bind (fun t => flxGetCurrent t 0) = some FLX_ERROR_NOT_OPEN ∧
    flxGetCurrent { exTraceFour with
      items := some [⟨FLX_ITEM_TYPE_SCOPE, FLX_ITEM_OPEN_NONE, 0, 0⟩,
        ⟨FLX_ITEM_TYPE_SIGNAL, FLX_ITEM_OPEN_CONTAINER, 1, 1⟩] } 2 = some FLX_ERROR_NOT_OPEN ∧
    FLX_ERROR_NOT_OPEN = -13 ∧
    flxGetCurrent exTraceOpen5 0 = some 5 ∧
    flxGetCurrent exTraceAt10 2 = some 10 := by
  refine ⟨by decide, by decide, by decide, by decide, by decide, by decide⟩

/-! ### Request and written bytes -/

set_option maxRecDepth 100000 in
/-- C35, at the failing inputs. For a null text `_textlen(text, 1)` is 0 while
`_textwrite` writes one byte. `flxWriteDefaultOpenDomainEntry(buffer, 0)` so
requests 2 bytes and writes 3: on a buffer of 2 bytes the `REQUEST` is granted,
the cell behind the buffer is written and `COMMIT(3)` fails with
`FLX_ERROR_BUFFER_OVERFLOW`; on a larger buffer the call returns `FLX_OK` with 3
bytes committed. With two null texts the body of `flxWriteScopeDefEntry` writes
14 bytes for ids of five groups against a request of 12, that of
`flxWriteHeadEntry` 25 against 21. -/
theorem request_upper_bound :
    _textlen none true = 0 ∧ (_textwrite none (exBufferOf 2).bytes 0).2 = 1 ∧
    ((exBufferOf 2).call FLX_BUFFER_REQUEST (2 + _textlen none true) none).result = FLX_OK ∧
    (writeSeq [putByte 0, putByte FLX_ENTRY_DOMD, _textwrite none] (exBufferOf 2).bytes 0).2
      = 3 ∧
    (flxWriteDefaultOpenDomainEntry (exBufferOf 2) none).1 = FLX_ERROR_BUFFER_OVERFLOW ∧
    (exBufferOf 2).len = 2 ∧ (exBufferOf 2).bytes 2 = 0xaa ∧
    (flxWriteDefaultOpenDomainEntry (exBufferOf 2) none).2.bytes 2 = 0 ∧
    (flxWriteDefaultOpenDomainEntry (exBufferOf 64) none).1 = FLX_OK ∧
    (flxWriteDefaultOpenDomainEntry (exBufferOf 64) none).2.pos = 3 ∧
    2 + REQ1_flxid * 2 + _textlen none true + _textlen none true = 12 ∧
    (writeSeq [putByte 0, putByte FLX_ENTRY_SCPD, _pluswrite (2 ^ 28), _pluswrite (2 ^ 28),
      _textwrite none, _textwrite none] (exBufferOf 12).bytes 0).2 = 14 ∧
    6 + REQ1_flxid * 2 + REQ1_flxbint + _textlen none true + _textlen none true = 21 ∧
    (writeSeq [putByte 0, putByte FLX_ENTRY_HEAD, copyFormat4 (some fluxFormat),
      putByte FLX_VERSION, _pluswrite (2 ^ 32 - 1), _textwrite none, _textwrite none,
      putByte FLX_MODE_HEAD_NORMAL, _pluswrite (2 ^ 32 - 1), _pluswrite (2 ^ 32 - 1)]
      (exBufferOf 21).bytes 0).2 = 25 := by
  refine ⟨by decide, by decide, by decide, by decide, by decide, by decide, by decide,
    by decide, by decide, by decide, by decide, by decide, by decide, by decide⟩

/-! ### Trace operations that fail -/

set_option maxRecDepth 100000 in
/-- C39, at the failing inputs. On a trace for four items whose buffer of 8 bytes
takes no entry: `flxAddScope(trace, 1, 0, 0, 0)` returns
`FLX_ERROR_BUFFER_NOT_AVAIL` and leaves item 1 defined as a scope, so that the
same call then returns `FLX_ERROR_ITEM_ALLREADY_DEFINED`;
`flxAddSignals(trace, 2, 5, 1, ...)` returns `FLX_ERROR_INVALID_ID` at item 5 and
leaves items 2, 3, 4 defined as signals; `flxOpen(trace, 1, 0, 7, 0)` returns
`FLX_ERROR_BUFFER_NOT_AVAIL` and leaves item 1 `LOCAL` at position 7 and items
2, 3 `CONTAINER`. -/
theorem failing_operation_changes_trace :
    exTraceTiny.map exItems
      = some (some [[0, 0, 0, 0], [0, 0, 0, 0], [0, 0, 0, 0], [0, 0, 0, 0]]) ∧
    (exTraceTiny.bind (flxRunResults [.addScope 1 0 none none])).map
        (fun r => (r.1, exItems r.2))
      = some ([FLX_ERROR_BUFFER_NOT_AVAIL],
          some [[1, 0, 0, 0], [0, 0, 0, 0], [0, 0, 0, 0], [0, 0, 0, 0]]) ∧
    (exTraceTiny.bind (flxRunResults [.addScope 1 0 none none, .addScope 1 0 none none])).map
        (fun r => r.1)
      = some [FLX_ERROR_BUFFER_NOT_AVAIL, FLX_ERROR_ITEM_ALLREADY_DEFINED] ∧
    (exTraceTiny.bind (flxRunResults [.addScope 1 0 none none,
        .addSignals 2 5 1 none none FLX_TYPE_LOGIC none])).map (fun r => (r.1, exItems r.2))
      = some ([FLX_ERROR_BUFFER_NOT_AVAIL, FLX_ERROR_INVALID_ID],
          some [[1, 0, 0, 0], [2, 1, 0, 0], [2, 1, 0, 0], [2, 1, 0, 0]]) ∧
    (exTraceTiny.bind (flxRunResults [.addScope 1 0 none none,
        .addSignals 2 5 1 none none FLX_TYPE_LOGIC none, .opening 1 none 7 0])).map
        (fun r => (r.1, exItems r.2))
      = some ([FLX_ERROR_BUFFER_NOT_AVAIL, FLX_ERROR_INVALID_ID, FLX_ERROR_BUFFER_NOT_AVAIL],
          some [[1, 0, 1, 7], [2, 1, 2, 1], [2, 1, 2, 1], [2, 1, 0, 0]]) := by
  refine ⟨by decide, by decide, by decide, by decide, by decide⟩


/-! ### The handle `flxCopy` -/

set_option maxRecDepth 100000 in
/-- C33, at the failing input. A `DEEPFLUSH` of a buffer of five bytes chained by
`flxCopy` to a downstream buffer of 16 bytes returns `FLX_OK` and appends the
five bytes downstream, where they stay: the downstream handle is not called,
just as for `FLUSH` (`flxCopy` returns the result of `COMMIT` before it comes
to the deep flush). The downstream buffer is deep-flushed only when the copy
fails: with a downstream buffer of 4 bytes its handle sees the `FLUSH` of the
failing `REQUEST` and then the `DEEPFLUSH`, both without bytes. -/
theorem copy_deep_flush :
    (flxDeepFlushBuffer (exChain (exSink 16))).1 = FLX_OK ∧
    (flxDeepFlushBuffer (exChain (exSink 16))).2.pos = 0 ∧
    (flxDeepFlushBuffer (exChain (exSink 16))).2.user.pos = 5 ∧
    readBytes (flxDeepFlushBuffer (exChain (exSink 16))).2.user.bytes 0 5 = [1, 2, 3, 4, 5] ∧
    (flxDeepFlushBuffer (exChain (exSink 16))).2.user.user = [] ∧
    (flxFlushBuffer (exChain (exSink 16))).1 = FLX_OK ∧
    (flxFlushBuffer (exChain (exSink 16))).2.user.pos = 5 ∧
    (flxFlushBuffer (exChain (exSink 16))).2.user.user = [] ∧
    (flxDeepFlushBuffer (exChain (exSink 4))).1 = FLX_ERROR_BUFFER_NOT_AVAIL ∧
    (flxDeepFlushBuffer (exChain (exSink 4))).2.user.user
      = [[FLX_BUFFER_FLUSH], [FLX_BUFFER_DEEPFLUSH]] ∧
    (flxDeepFlushBuffer (exChain (exSink 16))).2.user.user
      ≠ [FLX_BUFFER_DEEPFLUSH :: [1, 2, 3, 4, 5]] := by
  refine ⟨by decide, by decide, by decide, by decide, by decide, by decide, by decide,
    by decide, by decide, by decide, by decide⟩

set_option maxRecDepth 100000 in
/-- C40, at the failing input. A buffer holds the five bytes `1, 2, 3, 4, 5` and
is chained by `flxCopy` to a downstream buffer of 4 bytes without handle.
`FLUSH` returns `FLX_ERROR_BUFFER_NOT_AVAIL`, nothing arrives downstream, and
the cursor of the upstream buffer is 0, not 5: `flxCopy` leaves `*len` at the
number of bytes offered, which the flush takes for the number consumed. The
next entry is written over the five bytes, and so is the entry whose `REQUEST`
runs into the flush. -/
theorem copy_failure_drops_data :
    (exChain (flxCreateLinearBuffer 0 (fun _ => 0) 4 none ())).pos = 5 ∧
    (flxCopy FLX_BUFFER_FLUSH (exChain (flxCreateLinearBuffer 0 (fun _ => 0) 4 none ())).bytes 5
      (flxCreateLinearBuffer 0 (fun _ => 0) 4 none ())).1 = FLX_ERROR_BUFFER_NOT_AVAIL ∧
    (flxCopy FLX_BUFFER_FLUSH (exChain (flxCreateLinearBuffer 0 (fun _ => 0) 4 none ())).bytes 5
      (flxCreateLinearBuffer 0 (fun _ => 0) 4 none ())).2.1 = 5 ∧
    (flxFlushBuffer (exChain (flxCreateLinearBuffer 0 (fun _ => 0) 4 none ()))).1
      = FLX_ERROR_BUFFER_NOT_AVAIL ∧
    (flxFlushBuffer (exChain (flxCreateLinearBuffer 0 (fun _ => 0) 4 none ()))).2.pos = 0 ∧
    (flxFlushBuffer (exChain (flxCreateLinearBuffer 0 (fun _ => 0) 4 none ()))).2.user.pos = 0 ∧
    (flxWriteDefaultOpenDomainEntry
      (flxFlushBuffer (exChain (flxCreateLinearBuffer 0 (fun _ => 0) 4 none ()))).2
      (some [0x6e, 0x73])).1 = FLX_OK ∧
    readBytes (flxWriteDefaultOpenDomainEntry
      (flxFlushBuffer (exChain (flxCreateLinearBuffer 0 (fun _ => 0) 4 none ()))).2
      (some [0x6e, 0x73])).2.bytes 0 5 = [0x00, 0x22, 0x02, 0x6e, 0x73] ∧
    ((exChain (flxCreateLinearBuffer 0 (fun _ => 0) 4 none ())).call
      FLX_BUFFER_REQUEST 12 none).result = FLX_OK ∧
    ((exChain (flxCreateLinearBuffer 0 (fun _ => 0) 4 none ())).call
      FLX_BUFFER_REQUEST 12 none).bytes = some 0 ∧
    ((exChain (flxCreateLinearBuffer 0 (fun _ => 0) 4 none ())).call
      FLX_BUFFER_REQUEST 12 none).buffer.user.pos = 0 := by
  refine ⟨by decide, by decide, by decide, by decide, by decide, by decide, by decide,
    by decide, by decide, by decide, by decide⟩


/-! ### The delta of a sample and the advance of the position -/

theorem storeCurrent_buffer {σ : Type} (trace : flxTrace σ) (openId : Nat) (d : Int) :
    (flxStoreCurrent trace openId d).buffer = trace.buffer := by
  unfold flxStoreCurrent
  by_cases h0 : openId = 0
  · rw [if_pos h0]
  · rw [if_neg h0]
    cases trace.items with
    | none => rfl
    | some its =>
      simp only
      cases itemAt its openId with
      | none => rfl
      | some item => rfl

theorem toFlxdelta_lt (delta : Int) : toFlxdelta delta < 2 ^ 32 := by
  unfold toFlxdelta
  omega

theorem toFlxdelta_eq (delta : Int) (h0 : 0 ≤ delta) (h1 : delta < 2 ^ 32) :
    (toFlxdelta delta : Int) = delta := by
  unfold toFlxdelta
  omega

/-- C38, amended. The delta of a sample and the advance of the position, for
advances below `2 ^ 32`: when a `flxWrite...At` call (`FLX_WRITE_AT` with an
entry writer `x` that takes the delta as a `flxdelta`) returns `FLX_OK` for an
item governed by an open sequence at `current`, the sequence afterwards stands
at `current1` (`domainPosition` in absolute mode, `current + domainPosition`
in delta mode, in 64 bit arithmetic), the entry writer ran on the buffer of the
trace with a delta `d` and returned `FLX_OK`, and `d = current1 - current`
whenever `0 ≤ current1 - current < 2 ^ 32`. For `flxWriteNoneAt` the entry
written is the head of `itemId` with the delta `d` (the varint of `d` when
`d ≠ 0`, no delta field when `d = 0`) and the format byte. -/
theorem emitted_delta_matches_advance {σ : Type} (x : flxBuffer σ → Nat → Int × flxBuffer σ)
    (trace trace1 : flxTrace σ) (itemId openId : Nat) (current dp : Int) (isDelta : Nat)
    (hopen : OpenAt trace itemId openId current)
    (hres : FLX_WRITE_AT (fun buffer delta => x buffer (toFlxdelta delta)) trace itemId dp
      isDelta = some (FLX_OK, trace1))
    (hcur : InS64 current) (hdp : InS64 dp) :
    ∃ (buffer b1 : flxBuffer σ) (current1 : Int) (d : Nat),
      trace.buffer = some buffer ∧ trace1.buffer = some b1 ∧
      current1 = (if isDelta ≠ 0 then wrap64 (current + dp) else dp) ∧
      OpenAt trace1 itemId openId current1 ∧
      x buffer d = (FLX_OK, b1) ∧ d < 2 ^ 32 ∧
      (0 ≤ current1 - current → current1 - current < 2 ^ 32 → (d : Int) = current1 - current) ∧
      (∀ conflict, x = (fun buffer d => flxWriteNoneDataEntry buffer itemId conflict d) →
        ∃ p, readBytes b1.bytes p (dataHeadBytes itemId conflict d ++ [FLX_DF_NONE]).length
          = dataHeadBytes itemId conflict d ++ [FLX_DF_NONE]) := by
  obtain ⟨buffer, hb, hnn, ht⟩ := write_at_ok_inv _ trace trace1 itemId openId current dp isDelta
    hopen hres
  have hok : (x buffer (toFlxdelta (if isDelta ≠ 0 then dp else wrap64 (dp - current)))).1
      = FLX_OK := by
    unfold FLX_WRITE_AT at hres
    rw [hb] at hres
    simp only [resolveCurrent_of_openAt trace itemId openId current hopen] at hres
    have hneg : ¬ (if isDelta ≠ 0 then dp else wrap64 (dp - current)) < 0 := by omega
    simp only [hneg, if_false] at hres
    by_contra hne
    simp only [hne, if_false, Option.some.injEq, Prod.mk.injEq] at hres
    exact hres.1
  have hin1 : InS64 (if isDelta ≠ 0 then wrap64 (current + dp) else dp) := by
    split
    · unfold wrap64 toS64 InS64
      split <;> omega
    · exact hdp
  have hd : (0 : Int) ≤ (if isDelta ≠ 0 then wrap64 (current + dp) else dp) - current →
      (if isDelta ≠ 0 then wrap64 (current + dp) else dp) - current < 2 ^ 32 →
      (toFlxdelta (if isDelta ≠ 0 then dp else wrap64 (dp - current)) : Int)
        = (if isDelta ≠ 0 then wrap64 (current + dp) else dp) - current := by
    intro h0 h1
    obtain ⟨hd1, hd2⟩ := hdp
    by_cases hdel : isDelta = 0
    · simp only [ne_eq, hdel, not_true_eq_false, if_false] at h0 h1 hnn ⊢
      have hw : wrap64 (dp - current) = dp - current :=
        wrap64_eq _ ⟨by omega, by omega⟩
      rw [hw]
      exact toFlxdelta_eq _ h0 h1
    · simp only [ne_eq, hdel, not_false_eq_true, if_true] at h0 h1 hnn ⊢
      obtain ⟨hc1, hc2⟩ := hcur
      have hw : wrap64 (current + dp) = current + dp ∨
          wrap64 (current + dp) = current + dp - 2 ^ 64 := by
        by_cases hov : current + dp < 2 ^ 63
        · exact Or.inl (wrap64_eq _ ⟨by omega, hov⟩)
        · right
          unfold wrap64 toS64 ofS64
          split <;> omega
      rcases hw with hw | hw
      · rw [hw] at h0 h1 ⊢
        have e : current + dp - current = dp := by omega
        rw [e] at h0 h1 ⊢
        exact toFlxdelta_eq _ h0 h1
      · rw [hw] at h0
        omega
  have hpair : x buffer (toFlxdelta (if isDelta ≠ 0 then dp else wrap64 (dp - current)))
      = (FLX_OK, (x buffer (toFlxdelta (if isDelta ≠ 0 then dp else wrap64 (dp - current)))).2) :=
    Prod.ext hok rfl
  have hnn1 : (if isDelta ≠ 0 then wrap64 (current + (if isDelta ≠ 0 then dp
      else wrap64 (dp - current))) else dp)
      = (if isDelta ≠ 0 then wrap64 (current + dp) else dp) := by
    by_cases hdel : isDelta = 0
    · simp only [ne_eq, hdel, not_true_eq_false, if_false]
    · simp only [ne_eq, hdel, not_false_eq_true, if_true]
  rw [hnn1] at ht
  refine ⟨buffer, (x buffer (toFlxdelta (if isDelta ≠ 0 then dp else wrap64 (dp - current)))).2,
    _, toFlxdelta (if isDelta ≠ 0 then dp else wrap64 (dp - current)), hb, ?_, rfl, ?_,
    hpair, toFlxdelta_lt _, hd, ?_⟩
  · rw [ht, storeCurrent_buffer]
  · rw [ht]
    exact openAt_storeCurrent trace _ itemId openId current _ hin1 hopen
  · intro conflict hx
    have hentry := hpair
    rw [hx] at hentry ⊢
    simp only [] at hentry ⊢
    by_cases h0 : itemId = 0
    · unfold flxWriteNoneDataEntry at hentry
      rw [if_pos h0] at hentry
      have e : FLX_ERROR_INVALID_ID = FLX_OK := congrArg Prod.fst hentry
      exact absurd e (by decide)
    · have hdef : flxWriteNoneDataEntry buffer itemId conflict
          (toFlxdelta (if isDelta ≠ 0 then dp else wrap64 (dp - current)))
          = flxEntry buffer (REQ1_flxid + REQ1_flxdelta + 1)
            (dataHead itemId conflict
              (toFlxdelta (if isDelta ≠ 0 then dp else wrap64 (dp - current)))
              ++ [putByte FLX_DF_NONE]) := by
        unfold flxWriteNoneDataEntry
        rw [if_neg h0]
      rw [hdef] at hentry ⊢
      have hem : Emits (writeSeq (dataHead itemId conflict
          (toFlxdelta (if isDelta ≠ 0 then dp else wrap64 (dp - current))) ++ [putByte FLX_DF_NONE]))
          (dataHeadBytes itemId conflict
            (toFlxdelta (if isDelta ≠ 0 then dp else wrap64 (dp - current))) ++ [FLX_DF_NONE]) :=
        emits_append _ _ _ _ (emits_dataHead _ _ _ (toFlxdelta_lt _))
          (emits_single _ _ (emits_putByte _))
      obtain ⟨p, _, hp, _⟩ := flxEntry_emits buffer _ _ _ _ hem hentry
      exact ⟨p, hp⟩

set_option maxRecDepth 100000 in
theorem emitted_delta_matches_advance_witness :
    ∃ (t1 : flxTrace Unit) (buffer b1 : flxBuffer Unit) (d : Nat),
      OpenAt exTraceOpen5 1 0 5 ∧
      flxWriteNoneAt exTraceOpen5 1 0 10 0 = some (FLX_OK, t1) ∧
      exTraceOpen5.buffer = some buffer ∧ t1.buffer = some b1 ∧ OpenAt t1 1 0 10 ∧
      flxWriteNoneDataEntry buffer 1 0 d = (FLX_OK, b1) ∧ (d : Int) = 10 - 5 ∧
      ∃ p, readBytes b1.bytes p (dataHeadBytes 1 0 d ++ [FLX_DF_NONE]).length
        = dataHeadBytes 1 0 d ++ [FLX_DF_NONE] := by
  obtain ⟨t1, h1⟩ := exists_of_map_fst (flxWriteNoneAt exTraceOpen5 1 0 10 0) FLX_OK (by decide)
  have ho : OpenAt exTraceOpen5 1 0 5 := Or.inl ⟨rfl, rfl, rfl⟩
  obtain ⟨buffer, b1, current1, d, hb, hb1, hc, hop, hx, _, hd, hbytes⟩ :=
    emitted_delta_matches_advance (fun buffer d => flxWriteNoneDataEntry buffer 1 0 d)
      exTraceOpen5 t1 1 0 5 10 0 ho h1 ⟨by decide, by decide⟩ ⟨by decide, by decide⟩
  have hc1 : current1 = 10 := hc
  subst hc1
  exact ⟨t1, buffer, b1, d, ho, h1, hb, hb1, hop, hx, hd (by decide) (by decide),
    hbytes 0 rfl⟩

set_option maxRecDepth 100000 in
/-- Counterexample to C38 as stated: with the root sequence open at 5, a delta
write of `2 ^ 32 + 3` returns `FLX_OK` and moves the position to `2 ^ 32 + 8`,
while the sample written is `0a 03 00`, with the delta 3; an absolute write at
`2 ^ 32 + 5` returns `FLX_OK` and the sample `08 00` has no delta at all. -/
theorem emitted_delta_matches_advance_counterexample :
    (flxWriteNoneAt exTraceOpen5 1 0 (2 ^ 32 + 3) 1).map
        (fun r => (r.1, r.2.current, exCommitted r.2))
      = some (FLX_OK, 2 ^ 32 + 8, [0x0a, 0x03, 0x00]) ∧
    (flxWriteNoneAt exTraceOpen5 1 0 (2 ^ 32 + 5) 0).map
        (fun r => (r.1, r.2.current, exCommitted r.2))
      = some (FLX_OK, 2 ^ 32 + 5, [0x08, 0x00]) ∧
    exTraceOpen5.current = 5 := by
  refine ⟨by decide, by decide, by decide⟩


/-! ### Parent chains -/

theorem storeCurrent_maxItemId {σ : Type} (trace : flxTrace σ) (openId : Nat) (d : Int) :
    (flxStoreCurrent trace openId d).maxItemId = trace.maxItemId := by
  unfold flxStoreCurrent
  by_cases h0 : openId = 0
  · rw [if_pos h0]
  · rw [if_neg h0]
    cases trace.items with
    | none => rfl
    | some its =>
      simp only
      cases itemAt its openId with
      | none => rfl
      | some item => rfl

theorem setBuffer_maxItemId {σ : Type} (trace : flxTrace σ) (buffer : Option (flxBuffer σ)) :
    (flxSetBuffer trace buffer).2.maxItemId = trace.maxItemId := by
  unfold flxSetBuffer
  cases buffer with
  | none => rfl
  | some b =>
    simp only
    split <;> rfl

theorem addSignals_loop_step 
    {R : Option (List flxTraceItem) → Option (List flxTraceItem) → Prop} (hR : ItemStep R)
    (maxItemId parentId : Nat) : ∀ (k itemId : Nat)
    (items items1 : Option (List flxTraceItem)) (e : Option Int),
    flxAddSignals_loop maxItemId parentId k itemId items = some (e, items1) →
    R items items1 := by
  intro k
  induction k with
  | zero =>
    intro itemId items items1 e h
    simp only [flxAddSignals_loop, Option.some.injEq, Prod.mk.injEq] at h
    rw [← h.2]
    exact hR.refl _
  | succ k ih =>
    intro itemId items items1 e h
    unfold flxAddSignals_loop at h
    cases hd : flxDefineItem maxItemId items itemId parentId FLX_ITEM_TYPE_SIGNAL with
    | none => rw [hd] at h; simp at h
    | some r =>
      rw [hd] at h
      cases r with
      | error err =>
        simp only [Option.some.injEq, Prod.mk.injEq] at h
        rw [← h.2]
        exact hR.refl _
      | ok items2 =>
        simp only at h
        exact hR.trans _ _ _ (hR.define _ _ _ _ _ _ (Or.inr rfl) hd) (ih _ _ _ _ h)

theorem markChildren_step 
    {R : Option (List flxTraceItem) → Option (List flxTraceItem) → Prop} (hR : ItemStep R)
    (itemId : Nat) (mark : flxTraceItem → flxTraceItem)
    (hmark : ∀ item, (mark item).type = item.type ∧ (mark item).parentId = item.parentId) :
    ∀ (k n : Nat) (its its1 : List flxTraceItem),
    flxMarkChildren itemId mark k n its = some its1 → R (some its) (some its1) := by
  intro k
  induction k with
  | zero =>
    intro n its its1 h
    simp only [flxMarkChildren, Option.some.injEq] at h
    subst h
    exact hR.refl _
  | succ k ih =>
    intro n its its1 h
    unfold flxMarkChildren at h
    cases hn : itemAt its n with
    | none => rw [hn] at h; simp at h
    | some item =>
      rw [hn] at h
      simp only at h
      cases hw : ancestorWalk its itemId (walkFuel its) item.parentId with
      | none => rw [hw] at h; simp at h
      | some b =>
        rw [hw] at h
        cases b with
        | true =>
          simp only at h
          exact hR.trans _ _ _
            (hR.set its n item (mark item) hn (hmark item).1 (hmark item).2)
            (ih _ _ _ h)
        | false =>
          simp only at h
          exact ih _ _ _ h

theorem addScope_step 
    {R : Option (List flxTraceItem) → Option (List flxTraceItem) → Prop} (hR : ItemStep R)
    {σ : Type} (trace t1 : flxTrace σ) (itemId parentId : Nat)
    (name description : flxtext) (r : Int)
    (h : flxAddScope trace itemId parentId name description = some (r, t1)) :
    R trace.items t1.items ∧ t1.maxItemId = trace.maxItemId := by
  unfold flxAddScope at h
  cases hb : trace.buffer with
  | none =>
    rw [hb] at h
    simp only [Option.some.injEq, Prod.mk.injEq] at h
    rw [← h.2]; exact ⟨hR.refl _, rfl⟩
  | some buffer =>
    rw [hb] at h
    simp only at h
    cases hd : flxDefineItem trace.maxItemId trace.items itemId parentId FLX_ITEM_TYPE_SCOPE with
    | none => rw [hd] at h; simp at h
    | some res =>
      rw [hd] at h
      cases res with
      | error e =>
        simp only [Option.some.injEq, Prod.mk.injEq] at h
        rw [← h.2]; exact ⟨hR.refl _, rfl⟩
      | ok items1 =>
        simp only [Option.some.injEq, Prod.mk.injEq] at h
        rw [← h.2]
        exact ⟨hR.define _ _ _ _ _ _ (Or.inl rfl) hd, rfl⟩

theorem addSignal_step 
    {R : Option (List flxTraceItem) → Option (List flxTraceItem) → Prop} (hR : ItemStep R)
    {σ : Type} (trace t1 : flxTrace σ) (itemId parentId : Nat)
    (name description : flxtext) (signalType : Nat) (signalDescriptor : flxtext) (r : Int)
    (h : flxAddSignal trace itemId parentId name description signalType signalDescriptor
      = some (r, t1)) :
    R trace.items t1.items ∧ t1.maxItemId = trace.maxItemId := by
  unfold flxAddSignal at h
  cases hb : trace.buffer with
  | none =>
    rw [hb] at h
    simp only [Option.some.injEq, Prod.mk.injEq] at h
    rw [← h.2]; exact ⟨hR.refl _, rfl⟩
  | some buffer =>
    rw [hb] at h
    simp only at h
    cases hd : flxDefineItem trace.maxItemId trace.items itemId parentId FLX_ITEM_TYPE_SIGNAL with
    | none => rw [hd] at h; simp at h
    | some res =>
      rw [hd] at h
      cases res with
      | error e =>
        simp only [Option.some.injEq, Prod.mk.injEq] at h
        rw [← h.2]; exact ⟨hR.refl _, rfl⟩
      | ok items1 =>
        simp only [Option.some.injEq, Prod.mk.injEq] at h
        rw [← h.2]
        exact ⟨hR.define _ _ _ _ _ _ (Or.inr rfl) hd, rfl⟩

theorem addScatteredSignal_step 
    {R : Option (List flxTraceItem) → Option (List flxTraceItem) → Prop} (hR : ItemStep R)
    {σ : Type} (trace t1 : flxTrace σ) (itemId parentId : Nat)
    (name description : flxtext) (signalType : Nat) (signalDescriptor : flxtext)
    (scatteredFrom scatteredTo : Nat) (r : Int)
    (h : flxAddScatteredSignal trace itemId parentId name description signalType
      signalDescriptor scatteredFrom scatteredTo = some (r, t1)) :
    R trace.items t1.items ∧ t1.maxItemId = trace.maxItemId := by
  unfold flxAddScatteredSignal at h
  cases hb : trace.buffer with
  | none =>
    rw [hb] at h
    simp only [Option.some.injEq, Prod.mk.injEq] at h
    rw [← h.2]; exact ⟨hR.refl _, rfl⟩
  | some buffer =>
    rw [hb] at h
    simp only at h
    cases hd : flxDefineItem trace.maxItemId trace.items itemId parentId FLX_ITEM_TYPE_SIGNAL with
    | none => rw [hd] at h; simp at h
    | some res =>
      rw [hd] at h
      cases res with
      | error e =>
        simp only [Option.some.injEq, Prod.mk.injEq] at h
        rw [← h.2]; exact ⟨hR.refl _, rfl⟩
      | ok items1 =>
        simp only [Option.some.injEq, Prod.mk.injEq] at h
        rw [← h.2]
        exact ⟨hR.define _ _ _ _ _ _ (Or.inr rfl) hd, rfl⟩

theorem addSignals_step 
    {R : Option (List flxTraceItem) → Option (List flxTraceItem) → Prop} (hR : ItemStep R)
    {σ : Type} (trace t1 : flxTrace σ) (itemIdFrom itemIdTo parentId : Nat)
    (name description : flxtext) (signalType : Nat) (signalDescriptor : flxtext) (r : Int)
    (h : flxAddSignals trace itemIdFrom itemIdTo parentId name description signalType
      signalDescriptor = some (r, t1)) :
    R trace.items t1.items ∧ t1.maxItemId = trace.maxItemId := by
  unfold flxAddSignals at h
  cases hb : trace.buffer with
  | none =>
    rw [hb] at h
    simp only [Option.some.injEq, Prod.mk.injEq] at h
    rw [← h.2]; exact ⟨hR.refl _, rfl⟩
  | some buffer =>
    rw [hb] at h
    simp only at h
    cases hd : flxAddSignals_loop trace.maxItemId parentId (itemIdTo + 1 - itemIdFrom)
        itemIdFrom trace.items with
    | none => rw [hd] at h; simp at h
    | some res =>
      rw [hd] at h
      obtain ⟨e, items1⟩ := res
      have hk := addSignals_loop_step hR _ _ _ _ _ _ _ hd
      cases e with
      | none =>
        simp only [Option.some.injEq, Prod.mk.injEq] at h
        rw [← h.2]; exact ⟨hk, rfl⟩
      | some err =>
        simp only [Option.some.injEq, Prod.mk.injEq] at h
        rw [← h.2]; exact ⟨hk, rfl⟩

theorem addSignalReference_step 
    {R : Option (List flxTraceItem) → Option (List flxTraceItem) → Prop} (hR : ItemStep R)
    {σ : Type} (trace t1 : flxTrace σ) (referenceId parentId : Nat)
    (name description : flxtext) (r : Int)
    (h : flxAddSignalReference trace referenceId parentId name description = some (r, t1)) :
    R trace.items t1.items ∧ t1.maxItemId = trace.maxItemId := by
  unfold flxAddSignalReference at h
  cases hb : trace.buffer with
  | none =>
    rw [hb] at h
    simp only [Option.some.injEq, Prod.mk.injEq] at h
    rw [← h.2]; exact ⟨hR.refl _, rfl⟩
  | some buffer =>
    rw [hb] at h
    simp only at h
    cases hd : flxCheckReference trace.maxItemId trace.items referenceId parentId with
    | none => rw [hd] at h; simp at h
    | some res =>
      rw [hd] at h
      cases res with
      | none =>
        simp only [Option.some.injEq, Prod.mk.injEq] at h
        rw [← h.2]; exact ⟨hR.refl _, rfl⟩
      | some e =>
        simp only [Option.some.injEq, Prod.mk.injEq] at h
        rw [← h.2]; exact ⟨hR.refl _, rfl⟩

theorem addScatteredSignalReference_step 
    {R : Option (List flxTraceItem) → Option (List flxTraceItem) → Prop} (hR : ItemStep R)
    {σ : Type} (trace t1 : flxTrace σ)
    (referenceId parentId : Nat) (name description : flxtext) (scatteredFrom scatteredTo : Nat)
    (r : Int)
    (h : flxAddScatteredSignalReference trace referenceId parentId name description
      scatteredFrom scatteredTo = some (r, t1)) :
    R trace.items t1.items ∧ t1.maxItemId = trace.maxItemId := by
  unfold flxAddScatteredSignalReference at h
  cases hb : trace.buffer with
  | none =>
    rw [hb] at h
    simp only [Option.some.injEq, Prod.mk.injEq] at h
    rw [← h.2]; exact ⟨hR.refl _, rfl⟩
  | some buffer =>
    rw [hb] at h
    simp only at h
    cases hd : flxCheckReference trace.maxItemId trace.items referenceId parentId with
    | none => rw [hd] at h; simp at h
    | some res =>
      rw [hd] at h
      cases res with
      | none =>
        simp only [Option.some.injEq, Prod.mk.injEq] at h
        rw [← h.2]; exact ⟨hR.refl _, rfl⟩
      | some e =>
        simp only [Option.some.injEq, Prod.mk.injEq] at h
        rw [← h.2]; exact ⟨hR.refl _, rfl⟩

theorem open_step 
    {R : Option (List flxTraceItem) → Option (List flxTraceItem) → Prop} (hR : ItemStep R)
    {σ : Type} (trace t1 : flxTrace σ) (itemId : Nat) (domainBase : flxtext)
    (start : Int) (rate : Nat) (r : Int)
    (h : flxOpen trace itemId domainBase start rate = some (r, t1)) :
    R trace.items t1.items ∧ t1.maxItemId = trace.maxItemId := by
  rcases flxOpen_inv trace t1 itemId domainBase start rate r h with
    ⟨h1, _⟩ | ⟨buffer, _, hi, _, _, _, h1⟩ |
    ⟨buffer, its, its1, its2, opn1, cur1, _, hi, _, _, hcase, hm, _, h1⟩
  · rw [h1]; exact ⟨hR.refl _, rfl⟩
  · rw [h1]; exact ⟨hR.refl _, rfl⟩
  · rw [h1, hi]
    refine ⟨?_, rfl⟩
    have hk2 := markChildren_step hR itemId (markOpen itemId) (markOpen_fields itemId)
      (trace.maxItemId - 1) 1 its1 its2 hm
    refine hR.trans _ (some its1) _ ?_ hk2
    rcases hcase with ⟨_, _, _, _, e⟩ | ⟨item, _, hitem, _, _, _, e⟩
    · rw [e]; exact hR.refl _
    · rw [e]; exact hR.set its itemId item _ hitem rfl rfl

theorem close_step 
    {R : Option (List flxTraceItem) → Option (List flxTraceItem) → Prop} (hR : ItemStep R)
    {σ : Type} (trace t1 : flxTrace σ) (itemId : Nat) (end_ : Int) (r : Int)
    (h : flxClose trace itemId end_ = some (r, t1)) :
    R trace.items t1.items ∧ t1.maxItemId = trace.maxItemId := by
  rcases flxClose_inv trace t1 itemId end_ r h with
    ⟨h1, _⟩ | ⟨buffer, current, items1, _, _, _, hitems, _, h1⟩
  · rw [h1]; exact ⟨hR.refl _, rfl⟩
  · rw [h1]
    refine ⟨?_, rfl⟩
    rcases hitems with ⟨hi, e⟩ | ⟨its, its2, hi, hm, e⟩
    · rw [hi, e]; exact hR.refl _
    · rw [hi, e]
      exact markChildren_step hR itemId markClosed markClosed_fields (trace.maxItemId - 1) 1
        its its2 hm

theorem storeCurrent_step 
    {R : Option (List flxTraceItem) → Option (List flxTraceItem) → Prop} (hR : ItemStep R)
    {σ : Type} (trace : flxTrace σ) (openId : Nat) (d : Int) :
    R trace.items (flxStoreCurrent trace openId d).items := by
  unfold flxStoreCurrent
  by_cases h0 : openId = 0
  · rw [if_pos h0]; exact hR.refl _
  · rw [if_neg h0]
    cases hi : trace.items with
    | none => simp only; rw [hi]; exact hR.refl _
    | some its =>
      simp only
      cases hitem : itemAt its openId with
      | none => simp only; rw [hi]; exact hR.refl _
      | some item =>
        simp only
        exact hR.set its openId item _ hitem rfl rfl

theorem writeAt_step 
    {R : Option (List flxTraceItem) → Option (List flxTraceItem) → Prop} (hR : ItemStep R)
    {σ : Type} (x : flxBuffer σ → Int → Int × flxBuffer σ)
    (trace t1 : flxTrace σ) (itemId : Nat) (domainPosition : Int) (isDelta : Nat) (r : Int)
    (h : FLX_WRITE_AT x trace itemId domainPosition isDelta = some (r, t1)) :
    R trace.items t1.items ∧ t1.maxItemId = trace.maxItemId := by
  unfold FLX_WRITE_AT at h
  cases hb : trace.buffer with
  | none =>
    rw [hb] at h
    simp only [Option.some.injEq, Prod.mk.injEq] at h
    rw [← h.2]; exact ⟨hR.refl _, rfl⟩
  | some buffer =>
    rw [hb] at h
    simp only at h
    cases hr : flxResolveCurrent trace itemId with
    | none => rw [hr] at h; simp at h
    | some res =>
      rw [hr] at h
      cases res with
      | error e =>
        simp only [Option.some.injEq, Prod.mk.injEq] at h
        rw [← h.2]; exact ⟨hR.refl _, rfl⟩
      | ok oc =>
        obtain ⟨openId, current⟩ := oc
        simp only at h
        by_cases hd : (if isDelta ≠ 0 then domainPosition
            else wrap64 (domainPosition - current)) < 0
        · rw [if_pos hd] at h
          simp only [Option.some.injEq, Prod.mk.injEq] at h
          rw [← h.2]; exact ⟨hR.refl _, rfl⟩
        · rw [if_neg hd] at h
          by_cases hx : (x buffer (if isDelta ≠ 0 then domainPosition
              else wrap64 (domainPosition - current))).1 = FLX_OK
          · rw [if_pos hx] at h
            simp only [Option.some.injEq, Prod.mk.injEq] at h
            rw [← h.2]
            exact ⟨storeCurrent_step hR
              { trace with buffer := some (x buffer
                  (if isDelta ≠ 0 then domainPosition
                    else wrap64 (domainPosition - current))).2 } openId _,
              storeCurrent_maxItemId _ _ _⟩
          · rw [if_neg hx] at h
            simp only [Option.some.injEq, Prod.mk.injEq] at h
            rw [← h.2]; exact ⟨hR.refl _, rfl⟩

theorem setBuffer_step 
    {R : Option (List flxTraceItem) → Option (List flxTraceItem) → Prop} (hR : ItemStep R)
    {σ : Type} (trace : flxTrace σ) (buffer : Option (flxBuffer σ)) :
    R trace.items (flxSetBuffer trace buffer).2.items := by
  unfold flxSetBuffer
  cases buffer with
  | none => exact hR.refl _
  | some b =>
    simp only
    split
    · exact hR.refl _
    · exact hR.refl _

theorem op_run_step 
    {R : Option (List flxTraceItem) → Option (List flxTraceItem) → Prop} (hR : ItemStep R)
    {σ : Type} (op : flxOp σ) (trace t1 : flxTrace σ) (r : Int)
    (h : op.run trace = some (r, t1)) : R trace.items t1.items ∧ t1.maxItemId = trace.maxItemId := by
  cases op with
  | addScope itemId parentId name description =>
    exact addScope_step hR trace t1 itemId parentId name description r h
  | addSignal itemId parentId name description signalType signalDescriptor =>
    exact addSignal_step hR trace t1 itemId parentId name description signalType
      signalDescriptor r h
  | addSignals itemIdFrom itemIdTo parentId name description signalType signalDescriptor =>
    exact addSignals_step hR trace t1 itemIdFrom itemIdTo parentId name description signalType
      signalDescriptor r h
  | addSignalReference referenceId parentId name description =>
    exact addSignalReference_step hR trace t1 referenceId parentId name description r h
  | addScatteredSignal itemId parentId name description signalType signalDescriptor
      scatteredFrom scatteredTo =>
    exact addScatteredSignal_step hR trace t1 itemId parentId name description signalType
      signalDescriptor scatteredFrom scatteredTo r h
  | addScatteredSignalReference referenceId parentId name description scatteredFrom
      scatteredTo =>
    exact addScatteredSignalReference_step hR trace t1 referenceId parentId name description
      scatteredFrom scatteredTo r h
  | opening itemId domainBase start rate =>
    exact open_step hR trace t1 itemId domainBase start rate r h
  | closing itemId end_ => exact close_step hR trace t1 itemId end_ r h
  | writeAt x itemId domainPosition isDelta =>
    exact writeAt_step hR x trace t1 itemId domainPosition isDelta r h
  | setBuffer buffer =>
    simp only [flxOp.run, Option.some.injEq] at h
    have h2 : t1 = (flxSetBuffer trace buffer).2 := by rw [h]
    rw [h2]; exact ⟨setBuffer_step hR trace buffer, setBuffer_maxItemId trace buffer⟩

/-- The items of a table after a new value for an item with the same type and
parent, seen from both sides. -/
theorem itemSet_fields (its : List flxTraceItem) (n : Nat) (old new : flxTraceItem)
    (hn : itemAt its n = some old) (ht : new.type = old.type)
    (hp : new.parentId = old.parentId) (i : Nat) :
    (∀ item, itemAt its i = some item → ∃ item1, itemAt (itemSet its n new) i = some item1 ∧
      item1.type = item.type ∧ item1.parentId = item.parentId) ∧
    (∀ item1, itemAt (itemSet its n new) i = some item1 → ∃ item, itemAt its i = some item ∧
      item1.type = item.type ∧ item1.parentId = item.parentId) := by
  obtain ⟨hne, _⟩ := itemAt_isSome_lt its n old hn
  by_cases hin : i = n
  · subst hin
    refine ⟨fun item hi => ?_, fun item1 hi => ?_⟩
    · rw [hn] at hi
      have e : old = item := Option.some.inj hi
      subst e
      exact ⟨new, itemAt_itemSet_same its i old new hn, ht, hp⟩
    · rw [itemAt_itemSet_same its i old new hn] at hi
      have e : new = item1 := Option.some.inj hi
      subst e
      exact ⟨old, hn, ht, hp⟩
  · rw [itemAt_itemSet_other its n i new hne hin]
    exact ⟨fun item hi => ⟨item, hi, rfl, rfl⟩, fun item hi => ⟨item, hi, rfl, rfl⟩⟩

theorem ranked_itemSet (its : List flxTraceItem) (n : Nat) (old new : flxTraceItem)
    (hn : itemAt its n = some old) (ht : new.type = old.type)
    (hp : new.parentId = old.parentId) (hr : RankedItems its) :
    RankedItems (itemSet its n new) := by
  obtain ⟨rank, hrank⟩ := hr
  refine ⟨rank, fun i item1 hi => ?_⟩
  obtain ⟨item, hitem, e1, e2⟩ := (itemSet_fields its n old new hn ht hp i).2 item1 hi
  obtain ⟨h1, h2⟩ := hrank i item hitem
  rw [e1, e2]
  refine ⟨h1, fun hne => ?_⟩
  obtain ⟨pitem, hp1, hp2, hp3⟩ := h2 hne
  obtain ⟨pitem1, hq1, hq2, _⟩ := (itemSet_fields its n old new hn ht hp item.parentId).1 pitem hp1
  exact ⟨pitem1, hq1, by rw [hq2]; exact hp2, hp3⟩

/-- What a definition that passes its checks found and did. -/
theorem defineItem_ok_inv (maxItemId : Nat) (items items1 : Option (List flxTraceItem))
    (itemId parentId newType : Nat)
    (h : flxDefineItem maxItemId items itemId parentId newType = some (Except.ok items1)) :
    (items = none ∧ items1 = none) ∨
    (∃ its item, items = some its ∧ itemAt its itemId = some item ∧
      item.type = FLX_ITEM_TYPE_UNDEFINED ∧
      (parentId = 0 ∨ ∃ p, itemAt its parentId = some p ∧ p.type = FLX_ITEM_TYPE_SCOPE) ∧
      items1 = some (itemSet its itemId
        { item with type := newType, opn := FLX_ITEM_OPEN_NONE, parentId := parentId })) := by
  unfold flxDefineItem at h
  by_cases hval : itemId = 0 ∨ itemId > maxItemId ∨ parentId > maxItemId
  · rw [if_pos hval] at h
    simp at h
  · rw [if_neg hval] at h
    cases items with
    | none =>
      simp only [Option.some.injEq, Except.ok.injEq] at h
      exact Or.inl ⟨rfl, h.symm⟩
    | some its =>
      right
      simp only at h
      cases hitem : itemAt its itemId with
      | none => rw [hitem] at h; simp at h
      | some item =>
        rw [hitem] at h
        simp only at h
        by_cases ht : item.type ≠ FLX_ITEM_TYPE_UNDEFINED
        · rw [if_pos ht] at h; simp at h
        · rw [if_neg ht] at h
          have hund : item.type = FLX_ITEM_TYPE_UNDEFINED := by simpa using ht
          by_cases hp0 : parentId = 0
          · simp only [hp0, ne_eq, not_true_eq_false, if_false, Option.some.injEq,
              Except.ok.injEq] at h
            exact ⟨its, item, rfl, hitem, hund, Or.inl hp0, by rw [hp0]; exact h.symm⟩
          · simp only [hp0, ne_eq, not_false_eq_true, if_true] at h
            cases hpar : itemAt its parentId with
            | none => rw [hpar] at h; simp at h
            | some p =>
              rw [hpar] at h
              simp only [Option.map_some'] at h
              by_cases hpt : p.type = FLX_ITEM_TYPE_SCOPE
              · simp only [hpt, ne_eq, not_true_eq_false, decide_False, Option.some.injEq,
                  Except.ok.injEq] at h
                exact ⟨its, item, rfl, hitem, hund, Or.inr ⟨p, hpar, hpt⟩, h.symm⟩
              · simp [hpt] at h

theorem ranked_define (its : List flxTraceItem) (item : flxTraceItem)
    (itemId parentId newType : Nat)
    (hnew : newType = FLX_ITEM_TYPE_SCOPE ∨ newType = FLX_ITEM_TYPE_SIGNAL)
    (hitem : itemAt its itemId = some item) (hund : item.type = FLX_ITEM_TYPE_UNDEFINED)
    (hpar : parentId = 0 ∨ ∃ p, itemAt its parentId = some p ∧ p.type = FLX_ITEM_TYPE_SCOPE)
    (hr : RankedItems its) :
    RankedItems (itemSet its itemId
      { item with type := newType, opn := FLX_ITEM_OPEN_NONE, parentId := parentId }) := by
  obtain ⟨rank, hrank⟩ := hr
  obtain ⟨hne, _⟩ := itemAt_isSome_lt its itemId item hitem
  have hscope : ∀ q pitem, itemAt its q = some pitem → pitem.type = FLX_ITEM_TYPE_SCOPE →
      q ≠ itemId := by
    intro q pitem hq hs heq
    subst heq
    rw [hitem] at hq
    have e : item = pitem := Option.some.inj hq
    subst e
    rw [hund] at hs
    exact absurd hs (by decide)
  refine ⟨fun x => if x = itemId then rank parentId + 1 else rank x, fun i item1 hi => ?_⟩
  by_cases hin : i = itemId
  · subst hin
    rw [itemAt_itemSet_same its i item _ hitem] at hi
    have e := Option.some.inj hi
    subst e
    refine ⟨fun h => ?_, fun hp0 => ?_⟩
    · exfalso
      have h2 : newType = FLX_ITEM_TYPE_UNDEFINED := h
      rcases hnew with h1 | h1
      · rw [h1] at h2; exact absurd h2 (by decide)
      · rw [h1] at h2; exact absurd h2 (by decide)
    · rcases hpar with h0 | ⟨p, hp1, hp2⟩
      · exact absurd h0 hp0
      · have hq := hscope parentId p hp1 hp2
        refine ⟨p, ?_, hp2, ?_⟩
        · show itemAt (itemSet its i _) parentId = some p
          rw [itemAt_itemSet_other its i parentId _ hne hq]
          exact hp1
        · show (if parentId = i then rank parentId + 1 else rank parentId)
            < (if i = i then rank parentId + 1 else rank i)
          rw [if_neg hq, if_pos rfl]
          omega
  · rw [itemAt_itemSet_other its itemId i _ hne hin] at hi
    obtain ⟨h1, h2⟩ := hrank i item1 hi
    refine ⟨h1, fun hp0 => ?_⟩
    obtain ⟨pitem, hp1, hp2, hp3⟩ := h2 hp0
    have hq := hscope item1.parentId pitem hp1 hp2
    refine ⟨pitem, ?_, hp2, ?_⟩
    · rw [itemAt_itemSet_other its itemId item1.parentId _ hne hq]
      exact hp1
    · show (if item1.parentId = itemId then rank parentId + 1 else rank item1.parentId)
        < (if i = itemId then rank parentId + 1 else rank i)
      rw [if_neg hq, if_neg hin]
      exact hp3

/-- The public operations keep the number of items and the ranking of the parent
links. -/
theorem tableOk_step (m : Nat) : ItemStep (fun a b => TableOk m a → TableOk m b) where
  refl := fun _ h => h
  trans := fun _ _ _ h1 h2 h => h2 (h1 h)
  set := by
    intro its n old new hn ht hp h its1 h1
    have e := Option.some.inj h1
    subst e
    obtain ⟨hl, hr⟩ := h its rfl
    refine ⟨?_, ranked_itemSet its n old new hn ht hp hr⟩
    unfold itemSet
    rw [List.length_set]
    exact hl
  define := by
    intro maxItemId items items1 itemId parentId newType hnew hd h its1 h1
    rcases defineItem_ok_inv maxItemId items items1 itemId parentId newType hd with
      ⟨_, e⟩ | ⟨its, item, e0, hitem, hund, hpar, e⟩
    · rw [e] at h1
      simp at h1
    · rw [e] at h1
      have e1 := Option.some.inj h1
      subst e1
      obtain ⟨hl, hr⟩ := h its e0
      refine ⟨?_, ranked_define its item itemId parentId newType hnew hitem hund hpar hr⟩
      unfold itemSet
      rw [List.length_set]
      exact hl

theorem setBuffer_items {σ : Type} (trace : flxTrace σ) (buffer : Option (flxBuffer σ)) :
    (flxSetBuffer trace buffer).2.items = trace.items := by
  unfold flxSetBuffer
  cases buffer with
  | none => rfl
  | some b =>
    simp only
    split <;> rfl

theorem itemAt_replicate (n i : Nat) (x item : flxTraceItem)
    (h : itemAt (List.replicate n x) i = some item) : item = x := by
  unfold itemAt at h
  by_cases hi : i = 0
  · simp [hi] at h
  · simp only [hi, if_false] at h
    rw [List.getElem?_replicate] at h
    split at h
    · exact (Option.some.inj h).symm
    · simp at h

theorem createTrace_tableOk {σ : Type} (szTrace szItem traceId maxItemId maxEntrySize traceBytes
    traceBytesLen : Nat) (buffer : Option (flxBuffer σ)) (t0 : flxTrace σ)
    (hc : flxCreateTrace szTrace szItem traceId maxItemId maxEntrySize traceBytes traceBytesLen
      buffer = some t0) :
    TableOk t0.maxItemId t0.items := by
  unfold flxCreateTrace at hc
  split at hc
  · simp at hc
  · have e := Option.some.inj hc
    subst e
    rw [setBuffer_maxItemId, setBuffer_items]
    intro its hits
    simp only at hits
    split at hits
    · simp at hits
    · have e := Option.some.inj hits
      subst e
      refine ⟨List.length_replicate _ _, fun _ => 0, fun i item hi => ?_⟩
      have hx := itemAt_replicate _ _ _ _ hi
      subst hx
      exact ⟨fun _ => rfl, fun h => absurd rfl h⟩

theorem run_tableOk {σ : Type} : ∀ (ops : List (flxOp σ)) (t0 t : flxTrace σ),
    flxRun ops t0 = some t → TableOk t0.maxItemId t0.items → TableOk t.maxItemId t.items := by
  intro ops
  induction ops with
  | nil =>
    intro t0 t h hok
    simp only [flxRun, Option.some.injEq] at h
    subst h
    exact hok
  | cons op ops ih =>
    intro t0 t h hok
    unfold flxRun at h
    cases hop : op.run t0 with
    | none => rw [hop] at h; simp at h
    | some r =>
      rw [hop] at h
      simp only at h
      obtain ⟨h1, h2⟩ := op_run_step (tableOk_step t0.maxItemId) op t0 r.2 r.1 hop
      apply ih r.2 t h
      rw [h2]
      exact h1 hok

/-- The parent of an item of a ranked table is `0` or an item of the table. -/
theorem ranked_parent_le (its : List flxTraceItem) (hr : RankedItems its) (p : Nat)
    (item : flxTraceItem) (hp : itemAt its p = some item) : item.parentId ≤ its.length := by
  obtain ⟨rank, hrank⟩ := hr
  by_cases h0 : item.parentId = 0
  · omega
  · obtain ⟨pitem, hq, _, _⟩ := (hrank p item hp).2 h0
    have := (itemAt_isSome_lt its item.parentId pitem hq).2
    omega

/-- In a ranked table the walk over the parents ends, from `0` and from every
item of the table, whatever item it looks for. -/
theorem ranked_walk_ends (its : List flxTraceItem) (hr : RankedItems its) (itemId : Nat) :
    ∀ p, p ≤ its.length → ∃ b, ancestorWalk its itemId (walkFuel its) p = some b := by
  obtain ⟨rank, hrank⟩ := hr
  have hroot : ∃ b, ancestorWalk its itemId 1 0 = some b := by
    unfold ancestorWalk
    by_cases h3 : (0 : Nat) = itemId
    · exact ⟨true, by rw [if_pos h3]⟩
    · exact ⟨false, by rw [if_neg h3, if_pos rfl]⟩
  have hex : ∀ n p, rank p ≤ n → p ≤ its.length →
      ∃ f b, ancestorWalk its itemId f p = some b := by
    intro n
    induction n with
    | zero =>
      intro p hn hp
      by_cases h1 : p = itemId
      · exact ⟨1, true, by unfold ancestorWalk; rw [if_pos h1]⟩
      · by_cases h2 : p = 0
        · exact ⟨1, false, by unfold ancestorWalk; rw [if_neg h1, if_pos h2]⟩
        · obtain ⟨item, hitem⟩ := itemAt_of_le_length its p h2 hp
          by_cases hq : item.parentId = 0
          · obtain ⟨b, hb⟩ := hroot
            refine ⟨2, b, ?_⟩
            unfold ancestorWalk
            rw [if_neg h1, if_neg h2, hitem]
            simp only
            rw [hq]
            exact hb
          · obtain ⟨_, _, _, hlt⟩ := (hrank p item hitem).2 hq
            omega
    | succ n ih =>
      intro p hn hp
      by_cases h1 : p = itemId
      · exact ⟨1, true, by unfold ancestorWalk; rw [if_pos h1]⟩
      · by_cases h2 : p = 0
        · exact ⟨1, false, by unfold ancestorWalk; rw [if_neg h1, if_pos h2]⟩
        · obtain ⟨item, hitem⟩ := itemAt_of_le_length its p h2 hp
          have hle := ranked_parent_le its ⟨rank, hrank⟩ p item hitem
          by_cases hq : item.parentId = 0
          · obtain ⟨b, hb⟩ := hroot
            refine ⟨2, b, ?_⟩
            unfold ancestorWalk
            rw [if_neg h1, if_neg h2, hitem]
            simp only
            rw [hq]
            exact hb
          · obtain ⟨_, _, _, hlt⟩ := (hrank p item hitem).2 hq
            obtain ⟨f, b, hf⟩ := ih item.parentId (by omega) hle
            refine ⟨f + 1, b, ?_⟩
            unfold ancestorWalk
            rw [if_neg h1, if_neg h2, hitem]
            exact hf
  intro p hp
  obtain ⟨f, b, hf⟩ := hex (rank p) p (le_refl _) hp
  exact ⟨b, ancestorWalk_fuel_enough its itemId f p b hf⟩

/-- A walk from an item of a ranked table that looks for an id outside the table
ends at `0`. -/
theorem walk_reaches_zero (its : List flxTraceItem) (hr : RankedItems its) :
    ∀ (f p : Nat) (b : Bool), p ≤ its.length →
      ancestorWalk its (its.length + 1) f p = some b → b = false := by
  intro f
  induction f with
  | zero => intro p b _ h; simp [ancestorWalk] at h
  | succ f ih =>
    intro p b hp h
    unfold ancestorWalk at h
    rw [if_neg (by omega)] at h
    by_cases h2 : p = 0
    · rw [if_pos h2] at h
      exact (Option.some.inj h).symm
    · rw [if_neg h2] at h
      obtain ⟨item, hitem⟩ := itemAt_of_le_length its p h2 hp
      rw [hitem] at h
      exact ih item.parentId b (ranked_parent_le its hr p item hitem) h

/-- The marking loops of `flxOpen` and `flxClose` run to their end on a ranked
table, whatever item they mark for, and leave a ranked table of the same
length. -/
theorem markChildren_total (itemId : Nat) (mark : flxTraceItem → flxTraceItem)
    (hmark : ∀ item, (mark item).type = item.type ∧ (mark item).parentId = item.parentId) :
    ∀ (k n : Nat) (its : List flxTraceItem), RankedItems its → 1 ≤ n →
      n + k ≤ its.length + 1 →
      ∃ its1, flxMarkChildren itemId mark k n its = some its1 ∧ its1.length = its.length ∧
        RankedItems its1 := by
  intro k
  induction k with
  | zero =>
    intro n its hr _ _
    exact ⟨its, rfl, rfl, hr⟩
  | succ k ih =>
    intro n its hr hn hk
    obtain ⟨item, hitem⟩ := itemAt_of_le_length its n (by omega) (by omega)
    obtain ⟨b, hb⟩ := ranked_walk_ends its hr itemId item.parentId
      (ranked_parent_le its hr n item hitem)
    unfold flxMarkChildren
    rw [hitem]
    simp only
    rw [hb]
    cases b with
    | true =>
      simp only
      have hlen : (itemSet its n (mark item)).length = its.length := by
        unfold itemSet
        rw [List.length_set]
      obtain ⟨its1, h1, h2, h3⟩ := ih (n + 1) (itemSet its n (mark item))
        (ranked_itemSet its n item (mark item) hitem (hmark item).1 (hmark item).2 hr)
        (by omega) (by rw [hlen]; omega)
      exact ⟨its1, h1, by rw [h2, hlen], h3⟩
    | false =>
      simp only
      exact ih (n + 1) its hr (by omega) (by omega)

/-- The loop of `flxOpen` that looks for open children runs to its end on a
ranked table for every item of the table. -/
theorem open_check_total (its : List flxTraceItem) (hr : RankedItems its) (itemId : Nat)
    (h0 : itemId ≠ 0) (hle : itemId ≤ its.length) :
    ∀ (k n : Nat), 1 ≤ n → n + k ≤ its.length + 1 →
      ∃ b, flxOpen_check its itemId k n = some b := by
  obtain ⟨target, htarget⟩ := itemAt_of_le_length its itemId h0 hle
  obtain ⟨b, hb⟩ := ranked_walk_ends its hr itemId target.parentId
    (ranked_parent_le its hr itemId target htarget)
  intro k
  induction k with
  | zero => intro n _ _; exact ⟨false, rfl⟩
  | succ k ih =>
    intro n hn hk
    obtain ⟨item, hitem⟩ := itemAt_of_le_length its n (by omega) (by omega)
    unfold flxOpen_check
    rw [hitem]
    simp only
    by_cases hopn : item.opn ≠ FLX_ITEM_OPEN_NONE
    · rw [if_pos hopn, htarget]
      simp only
      rw [hb]
      cases b with
      | true => exact ⟨true, rfl⟩
      | false => exact ih (n + 1) (by omega) (by omega)
    · rw [if_neg hopn]
      exact ih (n + 1) (by omega) (by omega)

/-- `flxClose` returns for every item id on a trace whose table is ranked. -/
theorem close_total {σ : Type} (t : flxTrace σ) (hok : TableOk t.maxItemId t.items)
    (itemId : Nat) (end_ : Int) : ∃ r, flxClose t itemId end_ = some r := by
  unfold flxClose
  cases hb : t.buffer with
  | none => exact ⟨_, rfl⟩
  | some buffer =>
    simp only
    by_cases hcond : itemId ≥ t.maxItemId ∨ (t.items.isNone ∧ itemId > 0)
    · rw [if_pos hcond]
      exact ⟨_, rfl⟩
    · rw [if_neg hcond]
      cases hi : t.items with
      | none =>
        have h0 : itemId = 0 := by
          by_contra hne
          exact hcond (Or.inr ⟨by rw [hi]; rfl, by omega⟩)
        simp only [h0, if_true]
        split
        · exact ⟨_, rfl⟩
        · exact ⟨_, rfl⟩
      | some its =>
        obtain ⟨hlen, hr⟩ := hok its hi
        obtain ⟨its1, hm, _, _⟩ := markChildren_total itemId markClosed markClosed_fields
          (t.maxItemId - 1) 1 its hr (le_refl _) (by omega)
        by_cases h0 : itemId = 0
        · simp only [h0, if_true]
          rw [h0] at hm
          split
          · exact ⟨_, rfl⟩
          · rw [hm]
            exact ⟨_, rfl⟩
        · obtain ⟨item, hitem⟩ := itemAt_of_le_length its itemId h0 (by omega)
          simp only [h0, if_false, hitem, Option.map_some']
          split
          · exact ⟨_, rfl⟩
          · rw [hm]
            exact ⟨_, rfl⟩

/-- `flxOpen` returns for every item id but 0 on a trace whose table is ranked. -/
theorem open_total {σ : Type} (t : flxTrace σ) (hok : TableOk t.maxItemId t.items)
    (itemId : Nat) (h0 : itemId ≠ 0) (domainBase : flxtext) (start : Int) (rate : Nat) :
    ∃ r, flxOpen t itemId domainBase start rate = some r := by
  unfold flxOpen
  cases hb : t.buffer with
  | none => exact ⟨_, rfl⟩
  | some buffer =>
    simp only
    by_cases hcond : itemId ≥ t.maxItemId ∨ (t.items.isNone ∧ itemId > 0)
    · rw [if_pos hcond]
      exact ⟨_, rfl⟩
    · rw [if_neg hcond]
      cases hi : t.items with
      | none => exact absurd (Or.inr ⟨by rw [hi]; rfl, by omega⟩) hcond
      | some its =>
        obtain ⟨hlen, hr⟩ := hok its hi
        obtain ⟨item, hitem⟩ := itemAt_of_le_length its itemId h0 (by omega)
        obtain ⟨b, hchk⟩ := open_check_total its hr itemId h0 (by omega) (t.maxItemId - 1) 1
          (le_refl _) (by omega)
        have hlen1 : (itemSet its itemId
            (({ item with opn := FLX_ITEM_OPEN_LOCAL }).setCurrent start)).length = its.length := by
          unfold itemSet
          rw [List.length_set]
        obtain ⟨its2, hm, _, _⟩ := markChildren_total itemId (markOpen itemId)
          (markOpen_fields itemId) (t.maxItemId - 1) 1
          (itemSet its itemId (({ item with opn := FLX_ITEM_OPEN_LOCAL }).setCurrent start))
          (ranked_itemSet its itemId item _ hitem rfl rfl hr) (le_refl _)
          (by rw [hlen1]; omega)
        simp only [h0, if_false, hitem, Option.map_some']
        by_cases hopn : item.opn ≠ FLX_ITEM_OPEN_NONE
        · have hd : decide (item.opn ≠ FLX_ITEM_OPEN_NONE) = true := decide_eq_true hopn
          rw [hd]
          exact ⟨_, rfl⟩
        · simp only [hopn, decide_False, hchk]
          cases b with
          | true => exact ⟨_, rfl⟩
          | false =>
            simp only []
            rw [hm]
            exact ⟨_, rfl⟩

/-! ### Section tiling -/

/-- With sections of at least the header size a successful
`flxWriteSectionEntries` tiles the free bytes: the declared lengths are at most
`0xffff` and the sum of `7 + len` over the sections is `avail`. -/
theorem writeSectionEntries_tiles {σ : Type} (b0 b1 : flxBuffer σ) (S : Nat)
    (hlen : b0.len < 2 ^ 32) (hS : S < 2 ^ 32)
    (hsec : SECTION_HEADER_SIZE ≤ (b0.len - b0.pos) / S)
    (hw : flxWriteSectionEntries b0 S = some (FLX_OK, b1)) :
    (∀ k, k < S →
      ringSectionLen b1.bytes (sectionOffset b0.pos ((b0.len - b0.pos) / S) k) ≤ 0xffff) ∧
    sectionsTotal b1.bytes b0.pos ((b0.len - b0.pos) / S) S = b0.len - b0.pos := by
  have hpos : b0.pos ≤ b0.len := by
    by_contra hcon
    have h0 : b0.len - b0.pos = 0 := by omega
    rw [h0, Nat.zero_div] at hsec
    exact absurd hsec (by decide)
  obtain ⟨L, hl, hinv⟩ := writeSectionEntries_inv b0 b1 S hlen hpos hS hsec hw
  have hh := hl.header
  have hlow := hl.lastLow
  have hhigh := hl.lastHigh
  have htot := hl.total
  have hS1 := hl.sections
  simp only [SECTION_HEADER_SIZE] at hh hlow htot
  refine ⟨fun k hk => ?_, ?_⟩
  · rw [hinv.sizes k hk]
    unfold sectionContent
    simp only [SECTION_HEADER_SIZE]
    split
    · exact hhigh
    · omega
  · have hsum : ∀ n, n ≤ S →
        ((List.range n).map (fun k => SECTION_HEADER_SIZE +
          ringSectionLen b1.bytes (sectionOffset b0.pos ((b0.len - b0.pos) / S) k))).sum
        = if n = S then (S - 1) * ((b0.len - b0.pos) / S) + 7 + L
          else n * ((b0.len - b0.pos) / S) := by
      intro n
      induction n with
      | zero =>
        intro _
        rw [if_neg (by omega)]
        simp
      | succ n ih =>
        intro hn
        rw [List.range_succ, List.map_append, List.sum_append, ih (by omega),
          if_neg (by omega), List.map_singleton, List.sum_singleton, hinv.sizes n (by omega)]
        unfold sectionContent
        simp only [SECTION_HEADER_SIZE]
        by_cases e : n + 1 = S
        · rw [if_pos e, if_pos e]
          have e2 : S - 1 = n := by omega
          rw [e2]
          omega
        · rw [if_neg e, if_neg e, Nat.succ_mul]
          omega
    unfold sectionsTotal
    rw [hsum S (le_refl S), if_pos rfl]
    omega

set_option maxRecDepth 100000 in
/-- C32, at the failing input. `flxWriteSectionEntries(buffer, 21)` on an empty
ring of 83 bytes returns `FLX_OK`: the section size is `83 / 21 = 3`, the
content size `3 - 7` of the first 20 sections wraps around and only the content
size 16 of the last section is checked. The 21 headers of 7 bytes are written 3
bytes apart, each over the one before: the length field of the first 20 reads
`0x0600 = 1536`, and the sum of `7 + len` over the sections is 30883, not the
83 bytes of the buffer. For comparison, four sections on a ring of 256 bytes
sum up to 256, and five sections on the ring of 83 bytes, with a last content
size of 12, are refused with `FLX_ERROR_BUFFER_NOT_AVAIL`. -/
theorem section_prefill_tiles :
    (exRing83.call FLX_BUFFER_AVAIL 0 none).len = 83 ∧
    (flxWriteSectionEntries exRing83 21).map (fun r => r.1) = some FLX_OK ∧
    (flxWriteSectionEntries exRing83 21).map (fun r => (List.range 10).map r.2.bytes)
      = some [0, 6, 1, 0, 6, 0, 0, 6, 0, 0] ∧
    (flxWriteSectionEntries exRing83 21).map (fun r =>
        (List.range 21).map (fun k => ringSectionLen r.2.bytes (sectionOffset 0 3 k)))
      = some (List.replicate 20 1536 ++ [16]) ∧
    (flxWriteSectionEntries exRing83 21).map (fun r => sectionsTotal r.2.bytes 0 3 21)
      = some 30883 ∧
    (flxWriteSectionEntries exRing256 4).map (fun r => (r.1, sectionsTotal r.2.bytes 0 64 4))
      = some (FLX_OK, 256) ∧
    (flxWriteSectionEntries exRing83 5).map (fun r => r.1) = some FLX_ERROR_BUFFER_NOT_AVAIL := by
  refine ⟨by decide, by decide, by decide, by decide, by decide, by decide, by decide⟩


/-! ### Ring recycle scenario -/

/-- The ring of 768 bytes after `flxWriteSectionEntries(buffer, 3)`. -/
theorem recycle_start {σ : Type} (m : Nat) (bytes0 : Nat → Nat) (st : σ) :
    ∃ b1, flxWriteSectionEntries (flxCreateRingBuffer 0 bytes0 768 none st) 3
        = some (FLX_OK, b1) ∧ RecycleInv m b1 [] 0 ∧ b1.bytes 2 = 1 := by
  have hw := writeSectionEntries_ring (flxCreateRingBuffer 0 bytes0 768 none st) 3 rfl rfl
    (by decide)
  have hlen : (flxCreateRingBuffer 0 bytes0 768 none st).len = 768 := rfl
  have hpos : (flxCreateRingBuffer 0 bytes0 768 none st).pos = 0 := rfl
  rw [hlen, hpos] at hw
  norm_num [SECTION_HEADER_SIZE] at hw
  have hl : SectionLayout 0 3 256 249 768 :=
    ⟨by decide, by decide, by decide, by decide, by decide, by decide, by decide⟩
  have hspec := (writeSections_loop_spec hl 3 0
    (flxCreateRingBuffer 0 bytes0 768 none st).bytes 0 rfl (fun _ => rfl)).2
  have e : 256 - SECTION_HEADER_SIZE = 249 := rfl
  rw [e] at hspec
  generalize (flxWriteSectionEntries_loop 3 249 249 0 3 0
    (flxCreateRingBuffer 0 bytes0 768 none st).bytes 0).1 = lb at hw hspec
  have h0 := hspec 0 (by omega) (by omega)
  have h1 := hspec 1 (by omega) (by omega)
  have h2 := hspec 2 (by omega) (by omega)
  simp only [sectionOffset, sectionContent, SECTION_HEADER_SIZE] at h0 h1 h2
  norm_num at h0 h1 h2
  have hs : ∀ k, k < 3 → ringSectionLen (store lb 2 ((lb 2 + 1) % 256)) (256 * k) = 249 := by
    intro k hk
    unfold ringSectionLen
    rw [store_other _ _ _ _ (by omega), store_other _ _ _ _ (by omega)]
    have := h0.2.2.2
    have := h1.2.2.2
    have := h2.2.2.2
    unfold ringSectionLen at *
    interval_cases k <;> assumption
  refine ⟨_, hw, ⟨rfl, rfl, rfl, rfl, hs 0 (by omega), Nat.zero_le _, rfl, hs, ⟨fun _ => ?_,
    fun h => absurd h (by decide)⟩, Nat.zero_le _, ?_⟩, ?_⟩
  · show store lb 2 ((lb 2 + 1) % 256) 514 = 0x80
    rw [store_other _ _ _ _ (by omega)]
    exact h2.2.2.1
  · show (250 - m) * 0 + 0 ≤ 0
    omega
  · show store lb 2 ((lb 2 + 1) % 256) 2 = 1
    rw [store_same, h0.2.2.1]

/-- A `REQUEST` of at most `m` bytes is granted, in the current section or in
the next one. -/
theorem recycle_request {σ : Type} {m : Nat} (b : flxBuffer σ) (E : List Nat) (T : Nat)
    (h : RecycleInv m b E T) (r : Nat) (hr : r ≤ m) (hm : m ≤ 249) :
    (flxRingOp.request r).result b = FLX_OK ∧
    RecycleInv m ((flxRingOp.request r).run b)
      (if (flxRingOp.request r).enters b then ((flxRingOp.request r).run b).current :: E
        else E) T ∧
    ((flxRingOp.request r).run b).rpos + r ≤ 249 := by
  have hrp := h.rpos
  have hmod : (b.rpos + r) % 2 ^ 32 = b.rpos + r := by omega
  have hf : b.first ≠ 2 ^ 32 - 1 := by rw [h.first]; decide
  have hcall : b.call FLX_BUFFER_REQUEST r none = flxRingRequest b r := by
    unfold flxBuffer.call
    rw [h.access]
    rfl
  unfold flxRingOp.result flxRingOp.run flxRingOp.enters
  simp only [hcall]
  by_cases hfit : b.rpos + r ≤ 249
  · have e : flxRingRequest b r = ⟨FLX_OK, b, r, some (b.current + SECTION_HEADER_SIZE + b.rpos)⟩ := by
      unfold flxRingRequest
      rw [if_neg hf, hmod, h.rlen, if_pos hfit]
    rw [e, hmod, h.rlen]
    simp only [hfit, not_true_eq_false, and_false, decide_False, Bool.false_eq_true, if_false]
    exact ⟨trivial, h, trivial⟩
  · have hnf : ¬ (b.rpos + r) % 2 ^ 32 ≤ b.rlen := by rw [hmod, h.rlen]; exact hfit
    have ha3 : E.length % 3 < 3 := Nat.mod_lt _ (by decide)
    have hsl : ringSectionLen b.bytes b.current = 249 := by
      rw [h.current]
      exact h.sizes _ ha3
    have hlen := h.len
    have hfirst := h.first
    have hcurrent := h.current
    obtain ⟨cur, hcur⟩ : ∃ cur, cur = 256 * ((E.length + 1) % 3) := ⟨_, rfl⟩
    have hcur1 : (if (b.current + (SECTION_HEADER_SIZE + ringSectionLen b.bytes b.current))
          % 2 ^ 32 ≥ b.len then b.first
        else (b.current + (SECTION_HEADER_SIZE + ringSectionLen b.bytes b.current)) % 2 ^ 32)
        = cur := by
      rw [hsl, hcurrent, hlen, hfirst, hcur]
      simp only [SECTION_HEADER_SIZE]
      split <;> omega
    have hsl1 : ∀ v, ringSectionLen (store b.bytes (cur + 2) v) cur = 249 := by
      intro v
      have := h.sizes ((E.length + 1) % 3) (Nat.mod_lt _ (by decide))
      rw [← hcur] at this
      unfold ringSectionLen at this ⊢
      rw [store_other _ _ _ _ (by omega), store_other _ _ _ _ (by omega)]
      exact this
    unfold flxRingRequest
    rw [if_neg hf, if_neg hnf]
    simp only [h.init, hcur1, hsl1, hmod, h.rlen]
    have h0r : (0 + r) % 2 ^ 32 ≤ 249 := by omega
    have hd : decide (b.first ≠ 2 ^ 32 - 1 ∧ ¬ b.rpos + r ≤ 249) = true :=
      decide_eq_true ⟨hf, hfit⟩
    rw [if_pos h0r, hd]
    simp only [if_true]
    have hup := h.upper
    have hlow := h.lower
    refine ⟨trivial, ⟨h.access, h.first, h.len, rfl, rfl, Nat.zero_le _, ?_, ?_, ⟨?_, ?_⟩, ?_, ?_⟩,
      by omega⟩
    · show cur = 256 * ((cur :: E).length % 3)
      rw [List.length_cons]
      exact hcur
    · intro k hk
      have := h.sizes k hk
      show ringSectionLen (store b.bytes (cur + 2) _) (256 * k) = 249
      unfold ringSectionLen at this ⊢
      rw [store_other _ _ _ _ (by omega), store_other _ _ _ _ (by omega)]
      exact this
    · intro hl2
      rw [List.length_cons] at hl2
      have hE : E.length = 0 := by omega
      rw [hE] at hcur
      show store b.bytes (cur + 2) _ 514 = 0x80
      rw [store_other _ _ _ _ (by omega)]
      exact h.third.1 (by omega)
    · intro hl2
      rw [List.length_cons] at hl2
      have hE : E.length = 1 := by omega
      rw [hE] at hcur
      have hc2 : cur + 2 = 514 := by omega
      have hb := h.third.1 (by omega)
      show store b.bytes (cur + 2) _ 514 = 0x81
      rw [hc2, store_same, hb]
      decide
    · show T ≤ 249 * (cur :: E).length + 0
      rw [List.length_cons]
      omega
    · show (250 - m) * (cur :: E).length + 0 ≤ T
      rw [List.length_cons, Nat.mul_succ]
      omega

/-- A write into the content of the current section keeps the state. -/
theorem recycle_put {σ : Type} {m : Nat} (b : flxBuffer σ) (E : List Nat) (T : Nat)
    (h : RecycleInv m b E T) (i v : Nat) :
    RecycleInv m ((flxRingOp.put i v).run b) E T ∧
    ((flxRingOp.put i v).run b).rpos = b.rpos := by
  unfold flxRingOp.run
  simp only
  split
  · rename_i hin
    have hcur := h.current
    have hrl := h.rlen
    have ha3 : E.length % 3 < 3 := Nat.mod_lt _ (by decide)
    simp only [SECTION_HEADER_SIZE] at hin
    refine ⟨⟨h.access, h.first, h.len, h.init, h.rlen, h.rpos, h.current, ?_, ⟨?_, ?_⟩,
      h.upper, h.lower⟩, rfl⟩
    · intro k hk
      have := h.sizes k hk
      show ringSectionLen (store b.bytes i v) (256 * k) = 249
      unfold ringSectionLen at this ⊢
      rw [store_other _ _ _ _ (by omega), store_other _ _ _ _ (by omega)]
      exact this
    · intro hl2
      show store b.bytes i v 514 = 0x80
      rw [store_other _ _ _ _ (by omega)]
      exact h.third.1 hl2
    · intro hl2
      show store b.bytes i v 514 = 0x81
      rw [store_other _ _ _ _ (by omega)]
      exact h.third.2 hl2
  · exact ⟨h, rfl⟩

/-- A `COMMIT` of bytes that fit into the current section succeeds. -/
theorem recycle_commit {σ : Type} {m : Nat} (b : flxBuffer σ) (E : List Nat) (T : Nat)
    (h : RecycleInv m b E T) (w : Nat) (hw : b.rpos + w ≤ 249) :
    (flxRingOp.commit w).result b = FLX_OK ∧
    RecycleInv m ((flxRingOp.commit w).run b) E (T + w) := by
  have hmod : (b.rpos + w) % 2 ^ 32 = b.rpos + w := by omega
  have hf : b.first ≠ 2 ^ 32 - 1 := by rw [h.first]; decide
  have ha3 : E.length % 3 < 3 := Nat.mod_lt _ (by decide)
  have hcur := h.current
  have hcall : b.call FLX_BUFFER_COMMIT w none
      = ⟨FLX_OK, { b with
          rpos := b.rpos + w
          bytes := store (store b.bytes (b.current + 5) ((b.rpos + w) &&& 0xff))
            (b.current + 6) (((b.rpos + w) >>> 8) &&& 0xff) }, w, none⟩ := by
    unfold flxBuffer.call
    rw [h.access]
    show flxRingBufferAccess FLX_BUFFER_COMMIT b w none = _
    unfold flxRingBufferAccess
    rw [if_neg (by decide), if_neg (by decide), if_neg (by decide), if_neg (by decide),
      if_pos rfl, if_neg hf, hmod, h.rlen, if_pos hw]
    simp only [h.access]
  unfold flxRingOp.result flxRingOp.run
  simp only [hcall]
  have hup := h.upper
  have hlow := h.lower
  refine ⟨trivial, ⟨h.access, h.first, h.len, h.init, h.rlen, hw, h.current, ?_, ⟨?_, ?_⟩, ?_, ?_⟩⟩
  · intro k hk
    have := h.sizes k hk
    show ringSectionLen (store (store b.bytes _ _) _ _) (256 * k) = 249
    unfold ringSectionLen at this ⊢
    rw [store_other _ _ _ _ (by omega), store_other _ _ _ _ (by omega),
      store_other _ _ _ _ (by omega), store_other _ _ _ _ (by omega)]
    exact this
  · intro hl2
    show store (store b.bytes _ _) _ _ 514 = 0x80
    rw [store_other _ _ _ _ (by omega), store_other _ _ _ _ (by omega)]
    exact h.third.1 hl2
  · intro hl2
    show store (store b.bytes _ _) _ _ 514 = 0x81
    rw [store_other _ _ _ _ (by omega), store_other _ _ _ _ (by omega)]
    exact h.third.2 hl2
  · show T + w ≤ 249 * E.length + (b.rpos + w)
    omega
  · show (250 - m) * E.length + (b.rpos + w) ≤ T + w
    omega

/-- Calls one after the other: the buffer. -/
theorem ringRun_append {σ : Type} (l1 l2 : List flxRingOp) :
    ∀ b : flxBuffer σ, flxRingRun (l1 ++ l2) b = flxRingRun l2 (flxRingRun l1 b) := by
  induction l1 with
  | nil => intro b; rfl
  | cons op l1 ih => intro b; exact ih _

/-- Calls one after the other: the sections entered. -/
theorem ringEntered_append {σ : Type} (l1 l2 : List flxRingOp) :
    ∀ (b : flxBuffer σ) (e : List Nat), flxRingEntered (l1 ++ l2) b e
      = flxRingEntered l2 (flxRingRun l1 b) (flxRingEntered l1 b e) := by
  induction l1 with
  | nil => intro b e; rfl
  | cons op l1 ih => intro b e; exact ih _ _

/-- Calls one after the other: the results. -/
theorem ringResults_append {σ : Type} (l1 l2 : List flxRingOp) :
    ∀ b : flxBuffer σ, flxRingResults (l1 ++ l2) b
      = flxRingResults l1 b ++ flxRingResults l2 (flxRingRun l1 b) := by
  induction l1 with
  | nil => intro b; rfl
  | cons op l1 ih =>
    intro b
    show op.result b :: flxRingResults (l1 ++ l2) (op.run b) = _
    rw [ih]
    rfl

/-- The writes of an entry and its `COMMIT`, after a granted `REQUEST`. -/
theorem recycle_puts {σ : Type} {m : Nat} (E : List Nat) (T w : Nat)
    (data : List (Nat × Nat)) :
    ∀ b : flxBuffer σ, RecycleInv m b E T → b.rpos + w ≤ 249 →
      RecycleInv m (flxRingRun (data.map (fun d => flxRingOp.put d.1 d.2)
        ++ [flxRingOp.commit w]) b) E (T + w) ∧
      flxRingEntered (data.map (fun d => flxRingOp.put d.1 d.2) ++ [flxRingOp.commit w]) b E
        = E ∧
      ∀ x ∈ flxRingResults (data.map (fun d => flxRingOp.put d.1 d.2)
        ++ [flxRingOp.commit w]) b, x = FLX_OK := by
  induction data with
  | nil =>
    intro b h hw
    obtain ⟨h1, h2⟩ := recycle_commit b E T h w hw
    refine ⟨h2, rfl, fun x hx => ?_⟩
    have hx1 : x ∈ [(flxRingOp.commit w).result b] := hx
    rw [List.mem_singleton] at hx1
    rw [hx1]
    exact h1
  | cons d data ih =>
    intro b h hw
    obtain ⟨h1, h2⟩ := recycle_put b E T h d.1 d.2
    obtain ⟨k1, k2, k3⟩ := ih _ h1 (by rw [h2]; exact hw)
    refine ⟨k1, k2, fun x hx => ?_⟩
    have hx1 : x ∈ FLX_OK :: flxRingResults (data.map (fun d => flxRingOp.put d.1 d.2)
        ++ [flxRingOp.commit w]) ((flxRingOp.put d.1 d.2).run b) := hx
    rcases List.mem_cons.mp hx1 with e | e
    · exact e
    · exact k3 x e

/-- An entry that requests at most `m` bytes and commits no more than it
requested. -/
theorem recycle_entry {σ : Type} {m : Nat} (hm : m ≤ 249) (e : ringEntry)
    (hw : e.written ≤ e.request) (hr : e.request ≤ m) (b : flxBuffer σ) (E : List Nat) (T : Nat)
    (h : RecycleInv m b E T) :
    RecycleInv m (flxRingRun e.ops b) (flxRingEntered e.ops b E) (T + e.written) ∧
    ∀ x ∈ flxRingResults e.ops b, x = FLX_OK := by
  obtain ⟨h1, h2, h3⟩ := recycle_request b E T h e.request hr hm
  obtain ⟨k1, k2, k3⟩ := recycle_puts _ T e.written e.data _ h2 (by omega)
  refine ⟨?_, fun x hx => ?_⟩
  · show RecycleInv m (flxRingRun _ ((flxRingOp.request e.request).run b))
      (flxRingEntered _ ((flxRingOp.request e.request).run b) _) _
    rw [k2]
    exact k1
  · have hx1 : x ∈ (flxRingOp.request e.request).result b ::
        flxRingResults (e.data.map (fun d => flxRingOp.put d.1 d.2)
          ++ [flxRingOp.commit e.written]) ((flxRingOp.request e.request).run b) := hx
    rcases List.mem_cons.mp hx1 with e1 | e1
    · rw [e1]
      exact h1
    · exact k3 x e1

/-- A sequence of entries that request at most `m` bytes each. -/
theorem recycle_entries {σ : Type} {m : Nat} (hm : m ≤ 249) (es : List ringEntry) :
    ∀ (b : flxBuffer σ) (E : List Nat) (T : Nat), RecycleInv m b E T →
      (∀ e ∈ es, e.written ≤ e.request ∧ e.request ≤ m) →
      RecycleInv m (flxRingRun (ringEntriesOps es) b) (flxRingEntered (ringEntriesOps es) b E)
        (T + (es.map (fun e => e.written)).sum) ∧
      ∀ x ∈ flxRingResults (ringEntriesOps es) b, x = FLX_OK := by
  induction es with
  | nil =>
    intro b E T h _
    exact ⟨h, fun x hx => by cases hx⟩
  | cons e es ih =>
    intro b E T h hes
    obtain ⟨h1, h2⟩ := recycle_entry hm e (hes e (List.mem_cons_self _ _)).1
      (hes e (List.mem_cons_self _ _)).2 b E T h
    obtain ⟨k1, k2⟩ := ih _ _ _ h1 (fun x hx => hes x (List.mem_cons_of_mem _ hx))
    have eo : ringEntriesOps (e :: es) = e.ops ++ ringEntriesOps es := rfl
    rw [eo, ringRun_append, ringEntered_append, ringResults_append, List.map_cons,
      List.sum_cons, ← Nat.add_assoc]
    refine ⟨k1, fun x hx => ?_⟩
    rcases List.mem_append.mp hx with e1 | e1
    · exact h2 x e1
    · exact k2 x e1

/-- C31, amended. Ring recycle scenario: a ring buffer of 768 bytes without init
callback is pre-filled with 3 sections of 256 bytes (`flxWriteSectionEntries`
returns `FLX_OK`), and 700 bytes are written as a sequence of entries, each a
`REQUEST` of at most the 249 content bytes of a section, writes into the
section and a `COMMIT` of no more than requested. Then every call returns
`FLX_OK` and at least two section advances have occurred. When exactly two have
occurred, the current section is the third and its counter byte is `0x81`: low
nibble 1, the first pass, and bit `0x80` of the last section. Exactly two occur
when no entry requests more than 16 bytes. -/
theorem ring_recycle_scenario {σ : Type} (bytes0 : Nat → Nat) (st : σ) (es : List ringEntry)
    (hfit : ∀ e ∈ es, e.written ≤ e.request ∧ e.request ≤ 249)
    (hsum : (es.map (fun e => e.written)).sum = 700) :
    ∃ b1, flxWriteSectionEntries (flxCreateRingBuffer 0 bytes0 768 none st) 3
        = some (FLX_OK, b1) ∧
      (∀ x ∈ flxRingResults (ringEntriesOps es) b1, x = FLX_OK) ∧
      2 ≤ (flxRingEntered (ringEntriesOps es) b1 []).length ∧
      ((flxRingEntered (ringEntriesOps es) b1 []).length = 2 →
        (flxRingRun (ringEntriesOps es) b1).current = sectionOffset 0 256 2 ∧
        (flxRingRun (ringEntriesOps es) b1).bytes (sectionOffset 0 256 2 + 2) = 0x81 ∧
        (flxRingRun (ringEntriesOps es) b1).bytes (sectionOffset 0 256 2 + 2) &&& 0xf = 1 ∧
        (flxRingRun (ringEntriesOps es) b1).bytes (sectionOffset 0 256 2 + 2) &&& 0x80
          = 0x80) ∧
      ((∀ e ∈ es, e.request ≤ 16) →
        (flxRingEntered (ringEntriesOps es) b1 []).length = 2) := by
  obtain ⟨b1, hb1, hinv, _⟩ := recycle_start 249 bytes0 st
  obtain ⟨b2, hb2, hinv2, _⟩ := recycle_start 16 bytes0 st
  have e12 : b2 = b1 := by
    rw [hb1] at hb2
    exact (congrArg Prod.snd (Option.some.inj hb2)).symm
  subst e12
  obtain ⟨h1, h2⟩ := recycle_entries (le_refl 249) es b2 [] 0 hinv hfit
  rw [hsum] at h1
  have hup := h1.upper
  have hrp := h1.rpos
  refine ⟨b2, hb1, h2, by omega, fun ha => ?_, fun h16 => ?_⟩
  · have hc := h1.current
    have hb := h1.third.2 ha
    rw [ha] at hc
    have e514 : sectionOffset 0 256 2 + 2 = 514 := rfl
    rw [e514, hb]
    exact ⟨hc, rfl, by decide, by decide⟩
  · obtain ⟨k1, _⟩ := recycle_entries (by decide : 16 ≤ 249) es b2 [] 0 hinv2
      (fun e he => ⟨(hfit e he).1, h16 e he⟩)
    rw [hsum] at k1
    have hlow := k1.lower
    omega

set_option maxRecDepth 100000 in
theorem ring_recycle_scenario_witness :
    (∀ e ∈ exEntries700, e.written ≤ e.request ∧ e.request ≤ 249) ∧
    (exEntries700.map (fun e => e.written)).sum = 700 ∧
    (∀ e ∈ exEntries700, e.request ≤ 16) ∧
    ∃ b1, flxWriteSectionEntries exRing768 3 = some (FLX_OK, b1) ∧
      (∀ x ∈ flxRingResults (ringEntriesOps exEntries700) b1, x = FLX_OK) ∧
      (flxRingEntered (ringEntriesOps exEntries700) b1 []).length = 2 ∧
      (flxRingRun (ringEntriesOps exEntries700) b1).current = sectionOffset 0 256 2 ∧
      (flxRingRun (ringEntriesOps exEntries700) b1).bytes (sectionOffset 0 256 2 + 2) = 0x81 := by
  have hfit : ∀ e ∈ exEntries700, e.written ≤ e.request ∧ e.request ≤ 249 := by decide
  have hsum : (exEntries700.map (fun e => e.written)).sum = 700 := by decide
  have h16 : ∀ e ∈ exEntries700, e.request ≤ 16 := by decide
  obtain ⟨b1, h1, h2, _, h4, h5⟩ := ring_recycle_scenario (fun _ => 0) () exEntries700 hfit hsum
  exact ⟨hfit, hsum, h16, b1, h1, h2, h5 h16, (h4 (h5 h16)).1, (h4 (h5 h16)).2.1⟩

set_option maxRecDepth 100000 in
/-- Counterexample to C31 as stated: on the ring of 768 bytes with three
sections, twelve entries with 700 bytes (eleven of 60 bytes, one of 40) are
written with `FLX_OK` throughout and two section advances, and the counter byte
of the third, the current section is `0x81`, low nibble 1 and not 2. Five
entries of 140 bytes, of which only one fits into a section, make four section
advances, and the current section is the second one. -/
theorem ring_recycle_scenario_counterexample :
    (exEntries60.map (fun e => e.written)).sum = 700 ∧
    (∀ e ∈ exEntries60, e.written ≤ e.request ∧ e.request ≤ 249) ∧
    (flxWriteSectionEntries exRing768 3).map (fun r =>
        (r.1, (flxRingResults (ringEntriesOps exEntries60) r.2).all (fun x => x = FLX_OK)))
      = some (FLX_OK, true) ∧
    (flxWriteSectionEntries exRing768 3).map (fun r =>
        [(flxRingEntered (ringEntriesOps exEntries60) r.2 []).length,
          (flxRingRun (ringEntriesOps exEntries60) r.2).current,
          (flxRingRun (ringEntriesOps exEntries60) r.2).bytes 514,
          (flxRingRun (ringEntriesOps exEntries60) r.2).bytes 514 &&& 0xf])
      = some [2, 512, 0x81, 1] ∧
    (exEntries140.map (fun e => e.written)).sum = 700 ∧
    (∀ e ∈ exEntries140, e.written ≤ e.request ∧ e.request ≤ 249) ∧
    (flxWriteSectionEntries exRing768 3).map (fun r =>
        (r.1, (flxRingResults (ringEntriesOps exEntries140) r.2).all (fun x => x = FLX_OK)))
      = some (FLX_OK, true) ∧
    (flxWriteSectionEntries exRing768 3).map (fun r =>
        [(flxRingEntered (ringEntriesOps exEntries140) r.2 []).length,
          (flxRingRun (ringEntriesOps exEntries140) r.2).current,
          (flxRingRun (ringEntriesOps exEntries140) r.2).bytes 514])
      = some [4, 256, 0x81] := by
  refine ⟨by decide, by decide, by decide, by decide, by decide, by decide, by decide, by decide⟩


/-! ### Back-patched size prefix -/

/-- The loop of `_pluswritefixed` with `n` bytes to go after the current one:
it reports `size`, writes the `n + 1` bytes of the fixed varint at `pos` and
nothing else. -/
theorem pluswritefixed_loop_spec : ∀ (n val : Nat) (bytes : Nat → Nat) (pos written size : Nat),
    written + n = size →
    (_pluswritefixed_loop (n + 1) val bytes pos written size).2 = size ∧
    (∀ j, j < pos → (_pluswritefixed_loop (n + 1) val bytes pos written size).1 j = bytes j) ∧
    (∀ j, pos + n + 1 ≤ j →
      (_pluswritefixed_loop (n + 1) val bytes pos written size).1 j = bytes j) ∧
    readBytes (_pluswritefixed_loop (n + 1) val bytes pos written size).1 pos (n + 1)
      = fixedVarintBytes (n + 1) val := by
  intro n
  induction n with
  | zero =>
    intro val bytes pos written size h
    have hb := plus_byte_facts (val % 128) (Nat.mod_lt _ (by norm_num))
    have e : _pluswritefixed_loop (0 + 1) val bytes pos written size
        = (store bytes pos (val % 128), written) := by
      simp only [_pluswritefixed_loop, MASK_PLUS_DATA, and_7f_eq_mod]
      rw [if_pos (by omega)]
      have : val % 128 % 256 = val % 128 := by omega
      rw [this]
    rw [e]
    refine ⟨by omega, fun j hj => store_other _ _ _ _ (by omega),
      fun j hj => store_other _ _ _ _ (by omega), ?_⟩
    rw [readBytes_succ]
    simp [readBytes, fixedVarintBytes, store_same]
  | succ n ih =>
    intro val bytes pos written size h
    have hb := plus_byte_facts (val % 128) (Nat.mod_lt _ (by norm_num))
    have hdiv : val >>> DEFAULT_PLUS_LENGTH = val / 128 := by
      rw [Nat.shiftRight_eq_div_pow]; rfl
    have e : _pluswritefixed_loop (n + 1 + 1) val bytes pos written size
        = _pluswritefixed_loop (n + 1) (val / 128) (store bytes pos (val % 128 + 128))
            (pos + 1) (written + 1) size := by
      simp only [_pluswritefixed_loop, MASK_PLUS_DATA, MASK_PLUS, and_7f_eq_mod, hdiv]
      rw [if_neg (by omega), hb.2.2.2.1]
    rw [e]
    obtain ⟨h1, h2, h3, h4⟩ := ih (val / 128) (store bytes pos (val % 128 + 128)) (pos + 1)
      (written + 1) size (by omega)
    refine ⟨h1, fun j hj => ?_, fun j hj => ?_, ?_⟩
    · rw [h2 j (by omega)]
      exact store_other _ _ _ _ (by omega)
    · rw [h3 j (by omega)]
      exact store_other _ _ _ _ (by omega)
    · rw [readBytes_succ, h4, h2 pos (by omega), store_same]
      show _ = fixedVarintBytes (n + 1 + 1) val
      conv_rhs => unfold fixedVarintBytes
      rw [if_neg (by omega)]

/-- The function `_pluswritefixed` for a size of at least one byte. -/
theorem pluswritefixed_spec (val : Nat) (bytes : Nat → Nat) (pos size : Nat) (hs : 1 ≤ size) :
    (_pluswritefixed val bytes pos size).2 = size ∧
    (∀ j, j < pos → (_pluswritefixed val bytes pos size).1 j = bytes j) ∧
    (∀ j, pos + size ≤ j → (_pluswritefixed val bytes pos size).1 j = bytes j) ∧
    readBytes (_pluswritefixed val bytes pos size).1 pos size = fixedVarintBytes size val := by
  obtain ⟨n, rfl⟩ : ∃ n, size = n + 1 := ⟨size - 1, by omega⟩
  have h := pluswritefixed_loop_spec n val bytes pos 1 (n + 1) (by omega)
  exact ⟨h.1, h.2.1, fun j hj => h.2.2.1 j (by omega), h.2.2.2⟩

/-- The continuation bit of the bytes of a fixed varint. -/
theorem fixedVarintBytes_bit : ∀ (k v i : Nat), i < k →
    (fixedVarintBytes k v).getD i 0 &&& 0x80 = if i + 1 < k then 0x80 else 0 := by
  intro k
  induction k with
  | zero => intro v i h; omega
  | succ k ih =>
    intro v i h
    have hb := plus_byte_facts (v % 128) (Nat.mod_lt _ (by norm_num))
    unfold fixedVarintBytes
    by_cases hk : k = 0
    · subst hk
      have hi : i = 0 := by omega
      subst hi
      simp only [if_true, List.getD_cons_zero]
      rw [hb.2.2.1, if_neg (by omega)]
    · rw [if_neg hk]
      cases i with
      | zero =>
        simp only [List.getD_cons_zero]
        rw [hb.2.2.2.2.2, if_pos (by omega)]
      | succ i =>
        simp only [List.getD_cons_succ]
        rw [ih (v / 128) i (by omega)]
        by_cases h2 : i + 1 < k
        · rw [if_pos h2, if_pos (by omega)]
        · rw [if_neg h2, if_neg (by omega)]

theorem fixedVarintBytes_length : ∀ (k v : Nat), (fixedVarintBytes k v).length = k := by
  intro k
  induction k with
  | zero => intro v; rfl
  | succ k ih =>
    intro v
    unfold fixedVarintBytes
    split
    · rename_i h; subst h; rfl
    · rw [List.length_cons, ih]

/-- Reading a fixed varint of `n + 1` bytes: `_plusread` returns the value, when
it fits into the bytes and into 32 bits, and the number of bytes. -/
theorem plusread_loop_fixed : ∀ (n v : Nat) (bytes : Nat → Nat) (start left pos acc shift : Nat),
    readBytes bytes pos (n + 1) = fixedVarintBytes (n + 1) v →
    v < 128 ^ (n + 1) → acc < 2 ^ shift → acc + v * 2 ^ shift < 2 ^ 32 → n < left →
    _plusread_loop bytes start left pos acc shift = (acc + v * 2 ^ shift, pos + n + 1 - start) := by
  intro n
  induction n with
  | zero =>
    intro v bytes start left pos acc shift hb hv hacc hsum hleft
    obtain ⟨l, rfl⟩ : ∃ l, left = l + 1 := ⟨left - 1, by omega⟩
    have h1 : v < 128 := by simpa using hv
    have hb0 : bytes pos = v := by
      have := readBytes_getD bytes pos (fixedVarintBytes 1 v)
        (by rw [fixedVarintBytes_length]; exact hb) 0 (by rw [fixedVarintBytes_length]; omega)
      rw [Nat.add_zero] at this
      rw [this]
      simp [fixedVarintBytes, Nat.mod_eq_of_lt h1]
    rw [plusread_loop_last _ start l pos acc shift v hb0 h1 hacc (by omega)]
  | succ n ih =>
    intro v bytes start left pos acc shift hb hv hacc hsum hleft
    obtain ⟨l, rfl⟩ : ∃ l, left = l + 1 := ⟨left - 1, by omega⟩
    have hmod : v % 128 < 128 := Nat.mod_lt _ (by norm_num)
    have hfix : fixedVarintBytes (n + 1 + 1) v
        = (v % 128 + 128) :: fixedVarintBytes (n + 1) (v / 128) := by
      conv_lhs => unfold fixedVarintBytes
      rw [if_neg (by omega)]
    rw [readBytes_succ, hfix] at hb
    have hb0 : bytes pos = v % 128 + 128 := (List.cons.inj hb).1
    have hb1 := (List.cons.inj hb).2
    have h2 := div128_lt_pow v n hv
    have hsplit : v * 2 ^ shift = (v % 128) * 2 ^ shift + (v / 128) * 2 ^ (shift + 7) := by
      have := Nat.mod_add_div v 128
      simp only [pow_add]
      nth_rewrite 1 [← this]
      ring
    have hx : (v % 128) * 2 ^ shift < 2 ^ 32 := by omega
    have hacc2 : acc + (v % 128) * 2 ^ shift < 2 ^ (shift + 7) := by
      simp only [pow_add]
      have : (v % 128) * 2 ^ shift ≤ 127 * 2 ^ shift := Nat.mul_le_mul_right _ (by omega)
      omega
    rw [plusread_loop_cont _ start l pos acc shift (v % 128) hb0 hmod hacc hx,
      ih (v / 128) bytes start l (pos + 1) (acc + (v % 128) * 2 ^ shift) (shift + 7) hb1 h2
        hacc2 (by omega) (by omega)]
    congr 1
    · omega
    · omega

/-- The function `_plusread` on a fixed varint of `k` bytes. -/
theorem plusread_fixed (k v : Nat) (bytes : Nat → Nat) (pos end_ : Nat) (hk : 1 ≤ k)
    (hb : readBytes bytes pos k = fixedVarintBytes k v) (hv : v < 128 ^ k) (hv32 : v < 2 ^ 32)
    (he : pos + k ≤ end_ + 1) :
    _plusread bytes pos end_ = (v, k) := by
  obtain ⟨n, rfl⟩ : ∃ n, k = n + 1 := ⟨k - 1, by omega⟩
  have h := plusread_loop_fixed n v bytes pos (end_ + 1 - pos) pos 0 0 hb hv (by norm_num)
    (by simpa using hv32) (by omega)
  unfold _plusread
  rw [h]
  congr 1
  · simp
  · omega

/-- The loop of `_intlen` on a pattern that reaches the sign bit within `f`
shifts. -/
theorem intlen_loop_spec : ∀ (f x n : Nat), x < 2 ^ 32 → 2 ^ 31 ≤ x * 2 ^ f → f ≤ n →
    n - f ≤ _intlen_loop (f + 1) x n ∧ _intlen_loop (f + 1) x n ≤ n ∧
    x * 2 ^ (n - _intlen_loop (f + 1) x n) < 2 ^ 32 := by
  intro f
  induction f with
  | zero =>
    intro x n hx h31 _
    have h1 : x ≥ 2 ^ 31 := by simpa using h31
    have e : _intlen_loop (0 + 1) x n = n := by
      unfold _intlen_loop
      rw [if_pos h1]
    rw [e]
    simp only [Nat.sub_self, pow_zero, Nat.mul_one]
    omega
  | succ f ih =>
    intro x n hx h31 hfn
    by_cases h1 : x ≥ 2 ^ 31
    · have e : _intlen_loop (f + 1 + 1) x n = n := by
        unfold _intlen_loop
        rw [if_pos h1]
      rw [e]
      simp only [Nat.sub_self, pow_zero, Nat.mul_one]
      omega
    · have hsh : (x <<< 1) % 2 ^ 32 = 2 * x := by
        rw [Nat.shiftLeft_eq]
        omega
      have e : _intlen_loop (f + 1 + 1) x n = _intlen_loop (f + 1) (2 * x) (n - 1) := by
        conv_lhs => unfold _intlen_loop
        rw [if_neg h1, hsh]
      rw [e]
      have h31b : 2 ^ 31 ≤ 2 * x * 2 ^ f := by
        rw [pow_succ] at h31
        calc 2 ^ 31 ≤ x * (2 ^ f * 2) := h31
          _ = 2 * x * 2 ^ f := by ring
      obtain ⟨k1, k2, k3⟩ := ih (2 * x) (n - 1) (by omega) h31b (by omega)
      refine ⟨by omega, by omega, ?_⟩
      have hexp : n - _intlen_loop (f + 1) (2 * x) (n - 1)
          = (n - 1 - _intlen_loop (f + 1) (2 * x) (n - 1)) + 1 := by omega
      rw [hexp, pow_succ]
      calc x * (2 ^ (n - 1 - _intlen_loop (f + 1) (2 * x) (n - 1)) * 2)
          = 2 * x * 2 ^ (n - 1 - _intlen_loop (f + 1) (2 * x) (n - 1)) := by ring
        _ < 2 ^ 32 := k3

/-- The function `_intlen` on a 32 bit pattern: the pattern is below
`2 ^ _intlen x`. -/
theorem intlen_spec (x : Nat) (hx : x < 2 ^ 32) : x < 2 ^ _intlen x ∧ _intlen x ≤ 32 := by
  unfold _intlen
  by_cases h0 : x = 0
  · rw [if_pos h0, h0]
    exact ⟨by norm_num, by omega⟩
  · rw [if_neg h0]
    have h31 : 2 ^ 31 ≤ x * 2 ^ 31 := Nat.le_mul_of_pos_left _ (by omega)
    have hs : 32 - 31 ≤ _intlen_loop 32 x 32 ∧ _intlen_loop 32 x 32 ≤ 32 ∧
        x * 2 ^ (32 - _intlen_loop 32 x 32) < 2 ^ 32 :=
      intlen_loop_spec 31 x 32 hx h31 (by omega)
    obtain ⟨k1, k2, k3⟩ := hs
    refine ⟨?_, k2⟩
    have e : (2 : Nat) ^ 32 = 2 ^ _intlen_loop 32 x 32 * 2 ^ (32 - _intlen_loop 32 x 32) := by
      rw [← pow_add]
      congr 1
      omega
    rw [e] at k3
    exact Nat.lt_of_mul_lt_mul_right k3

theorem writesAtMost_nil : WritesAtMost (writeSeq []) 0 := by
  intro bytes pos
  exact ⟨Nat.le_refl _, fun _ _ => rfl⟩

theorem writesAtMost_mono (f : (Nat → Nat) → Nat → (Nat → Nat) × Nat) (a b : Nat) (h : a ≤ b)
    (hf : WritesAtMost f a) : WritesAtMost f b := by
  intro bytes pos
  exact ⟨Nat.le_trans (hf bytes pos).1 h, (hf bytes pos).2⟩

theorem writesAtMost_cons (f : (Nat → Nat) → Nat → (Nat → Nat) × Nat)
    (fs : List ((Nat → Nat) → Nat → (Nat → Nat) × Nat)) (a b : Nat)
    (hf : WritesAtMost f a) (hfs : WritesAtMost (writeSeq fs) b) :
    WritesAtMost (writeSeq (f :: fs)) (a + b) := by
  intro bytes pos
  rw [writeSeq_cons]
  have h1 := hf bytes pos
  have h2 := hfs (f bytes pos).1 (pos + (f bytes pos).2)
  refine ⟨Nat.add_le_add h1.1 h2.1, fun j hj => ?_⟩
  show (writeSeq fs (f bytes pos).1 (pos + (f bytes pos).2)).1 j = bytes j
  rw [h2.2 j (by omega), h1.2 j hj]

theorem writesAtMost_append (fs gs : List ((Nat → Nat) → Nat → (Nat → Nat) × Nat)) (a b : Nat)
    (hf : WritesAtMost (writeSeq fs) a) (hg : WritesAtMost (writeSeq gs) b) :
    WritesAtMost (writeSeq (fs ++ gs)) (a + b) := by
  intro bytes pos
  rw [writeSeq_append]
  have h1 := hf bytes pos
  have h2 := hg (writeSeq fs bytes pos).1 (pos + (writeSeq fs bytes pos).2)
  refine ⟨Nat.add_le_add h1.1 h2.1, fun j hj => ?_⟩
  show (writeSeq gs (writeSeq fs bytes pos).1 (pos + (writeSeq fs bytes pos).2)).1 j = bytes j
  rw [h2.2 j (by omega), h1.2 j hj]

theorem writesAtMost_single (f : (Nat → Nat) → Nat → (Nat → Nat) × Nat) (a : Nat)
    (hf : WritesAtMost f a) : WritesAtMost (writeSeq [f]) a :=
  writesAtMost_cons f [] a 0 hf writesAtMost_nil

theorem writesAtMost_of_emits (f : (Nat → Nat) → Nat → (Nat → Nat) × Nat) (l : List Nat)
    (hf : Emits f l) : WritesAtMost f l.length := by
  intro bytes pos
  exact ⟨Nat.le_of_eq (hf bytes pos).1, (hf bytes pos).2.1⟩

theorem writesAtMost_pluswrite (v : Nat) : WritesAtMost (_pluswrite v) (_pluslen v) := by
  intro bytes pos
  exact ⟨Nat.le_of_eq (pluswrite_loop_len 5 v bytes pos 1),
    fun j hj => pluswrite_loop_frame 5 v bytes pos 1 j hj⟩

theorem writesAtMost_putByte (b : Nat) : WritesAtMost (putByte b) 1 := by
  intro bytes pos
  exact ⟨Nat.le_refl _, fun j hj => store_other _ _ _ _ (by omega)⟩

theorem writesAtMost_intwrite (value : Nat → Nat) (size signd : Nat) (hsize : size < 128) :
    WritesAtMost (_intwrite value size signd FLX_SZDF_SIZEONLY) (1 + size) := by
  intro bytes pos
  have := intwrite_len_le value size signd bytes pos hsize
  exact ⟨by omega, fun j hj => intwrite_frame value size signd _ bytes pos j hj⟩

/-- The length of a varint grows with the value. -/
theorem pluslen_loop_mono : ∀ (fuel a b w : Nat), a ≤ b → b < 128 ^ (fuel + 1) →
    _pluslen_loop (fuel + 1) a w ≤ _pluslen_loop (fuel + 1) b w := by
  intro fuel
  induction fuel with
  | zero =>
    intro a b w hab hb
    have hb1 : b < 128 := by simpa using hb
    rw [pluslen_loop_last 0 a w (by omega), pluslen_loop_last 0 b w hb1]
  | succ n ih =>
    intro a b w hab hb
    by_cases hb1 : b < 128
    · rw [pluslen_loop_last _ a w (by omega), pluslen_loop_last _ b w hb1]
    · have h2 := div128_lt_pow b n hb
      rw [pluslen_loop_cont _ b w (by omega)]
      by_cases ha1 : a < 128
      · rw [pluslen_loop_last _ a w ha1]
        have := (pluslen_loop_bounds n (b / 128) (w + 1) h2).1
        omega
      · rw [pluslen_loop_cont _ a w (by omega)]
        exact ih (a / 128) (b / 128) (w + 1) (Nat.div_le_div_right hab) h2

theorem pluslen_mono (a b : Nat) (hab : a ≤ b) (hb : b < 2 ^ 32) : _pluslen a ≤ _pluslen b :=
  pluslen_loop_mono 4 a b 1 hab (by norm_num at hb ⊢; omega)

theorem varintBytes_length_pluslen (v : Nat) (hv : v < 2 ^ 32) :
    (varintBytes v).length = _pluslen v := by
  have h1 := (emits_pluswrite v hv (fun _ => 0) 0).1
  have h2 := pluswrite_loop_len 5 v (fun _ => 0) 0 1
  rw [← h1]
  exact h2

/-- The payload of a member is at most the varint of its size and `size` bytes. -/
theorem memberPayloadBytes_length_le (m : flxMemberValueStruct) (hsize : m.size < 2 ^ 32) :
    (memberPayloadBytes m).length ≤ _pluslen m.size + m.size := by
  have h8 : m.size % 256 ≤ m.size := Nat.mod_le _ _
  have h1 : 1 ≤ _pluslen m.size := by
    rw [← varintBytes_length_pluslen _ hsize]
    exact varintBytes_length_pos _
  unfold memberPayloadBytes
  simp only
  split
  · have hm := minimalLen_le (decide (m.option % 2 = 1)) (memberValueBytes m (m.size % 256))
    rw [memberValueBytes_length] at hm
    rw [List.length_append, varintBytes_length_pluslen _ (by omega), List.length_take,
      memberValueBytes_length]
    have := pluslen_mono _ _ (Nat.le_trans hm h8) hsize
    omega
  · split
    · split
      · rw [List.length_append, varintBytes_length_pluslen _ (by omega),
          memberValueBytes_length]
        have := pluslen_mono _ _ h8 hsize
        omega
      · simp
    · split
      · rw [List.length_append, varintBytes_length_pluslen _ hsize, memberValueBytes_length]
      · simp

theorem writesAtMost_member (m : flxMemberValueStruct) (hsize : m.valid ≠ 0 → m.size < 2 ^ 32) :
    WritesAtMost (writeSeq (_memberwrite_member m))
      (if m.valid ≠ 0 then _pluslen m.memberId + 1 + _pluslen m.size + m.size else 0) := by
  unfold _memberwrite_member
  by_cases hv : m.valid ≠ 0
  · rw [if_pos hv, if_pos hv]
    have hp := writesAtMost_mono _ _ _ (memberPayloadBytes_length_le m (hsize hv))
      (writesAtMost_of_emits _ _ (emits_memberwrite_payload m (hsize hv)))
    have h := writesAtMost_cons _ _ _ _ (writesAtMost_pluswrite m.memberId)
      (writesAtMost_cons _ _ _ _ (writesAtMost_putByte m.type) (writesAtMost_single _ _ hp))
    exact writesAtMost_mono _ _ _ (by omega) h
  · rw [if_neg hv, if_neg hv]
    exact writesAtMost_nil

theorem writesAtMost_members (value : Nat → flxMemberValueStruct) : ∀ count,
    (∀ n, n < count → (value n).valid ≠ 0 → (value n).size < 2 ^ 32) →
    WritesAtMost (writeSeq (memberWriters value count)) (membersMaxSize value count) := by
  intro count
  induction count with
  | zero => intro _; exact writesAtMost_nil
  | succ n ih =>
    intro h
    unfold memberWriters at ih ⊢
    rw [List.range_succ, List.flatMap_append]
    have hm := writesAtMost_member (value n) (h n (by omega))
    have e : [n].flatMap (fun n => _memberwrite_member (value n))
        = _memberwrite_member (value n) := by
      simp only [List.flatMap_cons, List.flatMap_nil, List.append_nil]
    rw [e]
    exact writesAtMost_append _ _ _ _ (ih (fun k hk => h k (by omega))) hm

theorem writesAtMost_intArray (value : Nat → Nat) (intsize signd : Nat) (hsize : intsize < 128) :
    ∀ count, WritesAtMost (writeSeq (intArrayWriters value intsize signd count))
      ((1 + intsize) * count) := by
  intro count
  induction count with
  | zero => exact writesAtMost_nil
  | succ n ih =>
    unfold intArrayWriters at ih ⊢
    rw [List.range_succ, List.map_append, Nat.mul_succ]
    exact writesAtMost_append _ _ _ _ ih
      (writesAtMost_single _ _ (writesAtMost_intwrite _ intsize signd hsize))

/-- The sum `maxSize` of `_memberwrite` when it stays in 32 bits. -/
theorem memberwrite_maxSize_eq (value : Nat → flxMemberValueStruct) : ∀ count,
    membersMaxSize value count < 2 ^ 32 →
    _memberwrite_maxSize value count = membersMaxSize value count ∧
    ∀ n, n < count → (value n).valid ≠ 0 → (value n).size < 2 ^ 32 := by
  intro count
  induction count with
  | zero => intro _; exact ⟨rfl, fun n hn => by omega⟩
  | succ n ih =>
    intro h
    unfold membersMaxSize at h
    obtain ⟨h1, h2⟩ := ih (by omega)
    refine ⟨?_, fun k hk hv => ?_⟩
    · unfold _memberwrite_maxSize membersMaxSize
      rw [h1]
      exact Nat.mod_eq_of_lt h
    · by_cases e : k = n
      · subst e
        rw [if_pos hv] at h
        omega
      · exact h2 k (by omega) hv

/-- The value of the size prefix fits into the reserved bytes and into 32 bits,
when the payload is within its bound `maxSize`, the bound within 32 bits and
the shifted payload length within 32 bits. -/
theorem prefix_value_fits (M size szDf : Nat) (hsize : size ≤ M) (hM : M < 2 ^ 32)
    (hP : szDf ≠ 0 → size < 2 ^ 28) :
    (if szDf ≠ 0 then ((size <<< 4) % 2 ^ 32) ||| (szDf &&& 0x0f) else size)
      = sizePrefixValue size szDf ∧
    sizePrefixValue size szDf < 2 ^ 32 ∧
    sizePrefixValue size szDf < 128 ^ sizeBytesOf M szDf ∧
    1 ≤ sizeBytesOf M szDf := by
  obtain ⟨hL, hL32⟩ := intlen_spec M hM
  have h128 : ∀ k, (128 : Nat) ^ k = 2 ^ (7 * k) := by
    intro k
    have e7 : (128 : Nat) = 2 ^ 7 := by norm_num
    rw [e7, ← pow_mul]
  have hkk : 1 ≤ sizeBytesOf M szDf ∧
      _intlen M + (if szDf ≠ 0 then 4 else 0) ≤ 7 * sizeBytesOf M szDf := by
    unfold sizeBytesOf
    generalize _intlen M + (if szDf ≠ 0 then 4 else 0) = a
    split <;> omega
  have hk1 := hkk.1
  refine ⟨?_, ?_, ?_, hk1⟩
  · unfold sizePrefixValue
    by_cases h0 : szDf ≠ 0
    · rw [if_pos h0, if_pos h0]
      have hs := hP h0
      rw [Nat.shiftLeft_eq]
      have : size * 2 ^ 4 % 2 ^ 32 = size * 2 ^ 4 := Nat.mod_eq_of_lt (by omega)
      rw [this]
    · rw [if_neg h0, if_neg h0]
  · unfold sizePrefixValue
    by_cases h0 : szDf ≠ 0
    · rw [if_pos h0]
      have hs := hP h0
      have hn : szDf &&& 0x0f ≤ 0x0f := Nat.and_le_right
      rw [Nat.shiftLeft_eq, Nat.lor_comm, or_shifted_eq_add _ _ _ (by omega)]
      omega
    · rw [if_neg h0]
      omega
  · rw [h128]
    unfold sizePrefixValue
    by_cases h0 : szDf ≠ 0
    · have hk : _intlen M + 4 ≤ 7 * sizeBytesOf M szDf := by
        have := hkk.2
        rw [if_pos h0] at this
        exact this
      rw [if_pos h0]
      have hn : szDf &&& 0x0f ≤ 0x0f := Nat.and_le_right
      rw [Nat.shiftLeft_eq, Nat.lor_comm, or_shifted_eq_add _ _ _ (by omega)]
      have hpow : (2 : Nat) ^ (_intlen M + 4) ≤ 2 ^ (7 * sizeBytesOf M szDf) :=
        Nat.pow_le_pow_right (by omega) hk
      rw [pow_add] at hpow
      omega
    · have hk : _intlen M ≤ 7 * sizeBytesOf M szDf := by
        have := hkk.2
        rw [if_neg h0, Nat.add_zero] at this
        exact this
      rw [if_neg h0]
      have hpow : (2 : Nat) ^ _intlen M ≤ 2 ^ (7 * sizeBytesOf M szDf) :=
        Nat.pow_le_pow_right (by omega) hk
      omega

/-- A payload of at most `M` bytes written behind `sizeBytesOf M szDf` reserved
bytes, with the size prefix written into them afterwards by `_pluswritefixed`. -/
theorem backPatched_of (payload : List ((Nat → Nat) → Nat → (Nat → Nat) × Nat))
    (M szDf : Nat) (bytes : Nat → Nat) (pos : Nat) (hM : M < 2 ^ 32)
    (hw : WritesAtMost (writeSeq payload) M)
    (hP : szDf ≠ 0 → (writeSeq payload bytes (pos + sizeBytesOf M szDf)).2 < 2 ^ 28) :
    BackPatched
      ((_pluswritefixed
          (if szDf ≠ 0 then
            (((sizeBytesOf M szDf + (writeSeq payload bytes (pos + sizeBytesOf M szDf)).2
                - sizeBytesOf M szDf) <<< 4) % 2 ^ 32) ||| (szDf &&& 0x0f)
           else sizeBytesOf M szDf + (writeSeq payload bytes (pos + sizeBytesOf M szDf)).2
                - sizeBytesOf M szDf)
          (writeSeq payload bytes (pos + sizeBytesOf M szDf)).1 pos (sizeBytesOf M szDf)).1,
        sizeBytesOf M szDf + (writeSeq payload bytes (pos + sizeBytesOf M szDf)).2)
      payload (sizeBytesOf M szDf) szDf bytes pos := by
  rw [Nat.add_sub_cancel_left]
  obtain ⟨hlen, hframe⟩ := hw bytes (pos + sizeBytesOf M szDf)
  obtain ⟨e1, e2, e3, e4⟩ := prefix_value_fits M _ szDf hlen hM hP
  rw [e1]
  obtain ⟨p1, p2, p3, p4⟩ := pluswritefixed_spec
    (sizePrefixValue (writeSeq payload bytes (pos + sizeBytesOf M szDf)).2 szDf)
    (writeSeq payload bytes (pos + sizeBytesOf M szDf)).1 pos (sizeBytesOf M szDf) e4
  refine ⟨e4, rfl, fun j hj => ?_, fun j hj => p3 j hj, p4, fun i hi => ?_, fun end_ he => ?_⟩
  · show (_pluswritefixed _ _ pos _).1 j = bytes j
    rw [p2 j hj]
    exact hframe j (by omega)
  · have hg := readBytes_getD _ pos (fixedVarintBytes (sizeBytesOf M szDf)
      (sizePrefixValue (writeSeq payload bytes (pos + sizeBytesOf M szDf)).2 szDf))
      (by rw [fixedVarintBytes_length]; exact p4) i (by rw [fixedVarintBytes_length]; exact hi)
    show (_pluswritefixed _ _ pos _).1 (pos + i) &&& 0x80 = _
    rw [hg]
    exact fixedVarintBytes_bit _ _ i hi
  · exact plusread_fixed _ _ _ pos end_ e4 p4 e3 e2 he

/-- C36, amended. Back-patched length prefix is exact, while the 32 bit
arithmetic of the size does not overflow: for `_intarraywrite` (any count,
`intsize` below 128) and `_memberwrite` (any member list) called with
`szDf != FLX_SZDF_NONE`, when the bound on the payload that the function
computes (`(1 + intsize) * count`, the sum `maxSize` over the valid members)
is below `2 ^ 32` and, for `szDf != 0`, the payload is shorter than `2 ^ 28`
bytes, the payload is written behind exactly `sizeBytes` reserved bytes, and
these bytes hold the varint of `(payloadLen << 4) | (szDf & 0x0f)` (of
`payloadLen` for `szDf = 0`) with the continuation bit on all but the last
byte, which `_plusread` decodes to that value; `payloadLen` is the number of
bytes written after the prefix. -/
theorem backpatched_prefix_exact (value : Nat → Nat) (intsize signd count : Nat)
    (mvalue : Nat → flxMemberValueStruct) (mcount szDf : Nat) (bytes : Nat → Nat) (pos : Nat)
    (hsz : szDf ≠ FLX_SZDF_NONE) (hint : intsize < 128)
    (hA : (1 + intsize) * count < 2 ^ 32)
    (hA28 : szDf ≠ 0 → (writeSeq (intArrayWriters value intsize signd count) bytes
      (pos + sizeBytesOf ((1 + intsize) * count) szDf)).2 < 2 ^ 28)
    (hB : membersMaxSize mvalue mcount < 2 ^ 32)
    (hB28 : szDf ≠ 0 → (writeSeq (memberWriters mvalue mcount) bytes
      (pos + sizeBytesOf (membersMaxSize mvalue mcount) szDf)).2 < 2 ^ 28) :
    BackPatched (_intarraywrite value intsize signd count szDf bytes pos)
      (intArrayWriters value intsize signd count)
      (sizeBytesOf ((1 + intsize) * count) szDf) szDf bytes pos ∧
    BackPatched (_memberwrite mvalue mcount szDf bytes pos) (memberWriters mvalue mcount)
      (sizeBytesOf (membersMaxSize mvalue mcount) szDf) szDf bytes pos := by
  constructor
  · have h := backPatched_of (intArrayWriters value intsize signd count)
      ((1 + intsize) * count) szDf bytes pos hA
      (writesAtMost_intArray value intsize signd hint count) hA28
    unfold _intarraywrite
    simp only [hsz, ne_eq, not_false_eq_true, if_true, Nat.mod_eq_of_lt hA]
    exact h
  · obtain ⟨hmax, hsizes⟩ := memberwrite_maxSize_eq mvalue mcount hB
    have h := backPatched_of (memberWriters mvalue mcount)
      (membersMaxSize mvalue mcount) szDf bytes pos hB
      (writesAtMost_members mvalue mcount hsizes) hB28
    unfold _memberwrite
    simp only [hsz, ne_eq, not_false_eq_true, if_true, hmax]
    exact h

set_option maxRecDepth 100000 in
theorem backpatched_prefix_exact_witness :
    (1 + 4) * 3 < 2 ^ 32 ∧ membersMaxSize exMembers 2 < 2 ^ 32 ∧
    sizeBytesOf ((1 + 4) * 3) 1 = 2 ∧ sizeBytesOf (membersMaxSize exMembers 2) 1 = 2 ∧
    BackPatched (_intarraywrite exIntArray 4 0 3 1 (fun _ => 0) 2)
      (intArrayWriters exIntArray 4 0 3) (sizeBytesOf ((1 + 4) * 3) 1) 1 (fun _ => 0) 2 ∧
    BackPatched (_memberwrite exMembers 2 1 (fun _ => 0) 2) (memberWriters exMembers 2)
      (sizeBytesOf (membersMaxSize exMembers 2) 1) 1 (fun _ => 0) 2 ∧
    readBytes (_intarraywrite exIntArray 4 0 3 1 (fun _ => 0) 2).1 2 12
      = [0xa1, 0x01, 1, 1, 2, 0x34, 0x12, 4, 0xff, 0xff, 0xff, 0x7f] ∧
    readBytes (_memberwrite exMembers 2 1 (fun _ => 0) 2).1 2 12
      = [0xa1, 0x01, 5, 3, 1, 0x80, 9, 1, 3, 0x41, 0x41, 0x41] ∧
    sizePrefixValue 10 1 = 0xa1 :=
  ⟨by decide, by decide, by decide, by decide,
    (backpatched_prefix_exact exIntArray 4 0 3 exMembers 2 1 (fun _ => 0) 2 (by decide)
      (by decide) (by decide) (fun _ => by decide) (by decide) (fun _ => by decide)).1,
    (backpatched_prefix_exact exIntArray 4 0 3 exMembers 2 1 (fun _ => 0) 2 (by decide)
      (by decide) (by decide) (fun _ => by decide) (by decide) (fun _ => by decide)).2,
    by decide, by decide, by decide⟩

set_option maxRecDepth 100000 in
/-- Counterexample to C36 as stated: for four valid members of unknown type,
one of them with the size `2 ^ 32 - 16`, the sum `maxSize` of `_memberwrite`
wraps around to 0 and one byte is reserved for the prefix. The payload has 8
bytes, the value `(8 << 4) | 1 = 129` needs two bytes, and the one byte written
is `0x01`, which `_plusread` decodes to 1: a payload length of 0. -/
theorem backpatched_prefix_exact_counterexample :
    membersMaxSize exMembersWrap 4 = 2 ^ 32 ∧ _memberwrite_maxSize exMembersWrap 4 = 0 ∧
    (_memberwrite exMembersWrap 4 1 (fun _ => 0xee) 0).2 = 9 ∧
    readBytes (_memberwrite exMembersWrap 4 1 (fun _ => 0xee) 0).1 0 10
      = [0x01, 1, 0, 2, 0, 3, 0, 4, 0, 0xee] ∧
    (writeSeq (memberWriters exMembersWrap 4) (fun _ => 0xee) 1).2 = 8 ∧
    sizePrefixValue 8 1 = 129 ∧
    _plusread (_memberwrite exMembersWrap 4 1 (fun _ => 0xee) 0).1 0 8 = (1, 1) ∧
    1 >>> 4 = 0 := by
  refine ⟨by decide, by decide, by decide, by decide, by decide, by decide, by decide,
    by decide⟩

/-! ### Logic text -/

theorem char2State_fill_high (table : Nat → Nat) (c : Nat) (hc : 128 ≤ c) : ∀ n, n ≤ 16 →
    char2State_fill table n c = table c := by
  have hlc : ∀ n, n < 16 → FLX_STATE_LC_DIGITS.getD n 0 < 128 := by decide
  have huc : ∀ n, n < 16 → FLX_STATE_UC_DIGITS.getD n 0 < 128 := by decide
  intro n
  induction n with
  | zero => intro _; rfl
  | succ n ih =>
    intro hn
    have h1 := hlc n (by omega)
    have h2 := huc n (by omega)
    simp only [char2State_fill]
    rw [store_other _ _ _ _ (by omega), store_other _ _ _ _ (by omega)]
    exact ih (by omega)

set_option maxRecDepth 100000 in
theorem char2State_low : ∀ c, c < 128 → char2State c = stateOfChar c := by
  decide

/-- The table built by the initialisation loops is the table of the format. -/
theorem char2State_eq (c : Nat) : char2State c = stateOfChar c := by
  by_cases hc : c < 128
  · exact char2State_low c hc
  · rw [show char2State c = FLX_STATE_UNKNOWN_BITS from
      char2State_fill_high _ c (by omega) 16 (le_refl _)]
    unfold stateOfChar FLX_STATE_UNKNOWN_BITS
    simp only [show ¬ (c = 0x30) from by omega, show ¬ (c = 0x31) from by omega,
      show ¬ (c = 0x7a ∨ c = 0x5a) from by omega, show ¬ (c = 0x78 ∨ c = 0x58) from by omega,
      show ¬ (c = 0x6c ∨ c = 0x4c) from by omega, show ¬ (c = 0x68 ∨ c = 0x48) from by omega,
      show ¬ (c = 0x75 ∨ c = 0x55) from by omega, show ¬ (c = 0x77 ∨ c = 0x57) from by omega,
      show ¬ (c = 0x2d) from by omega, show ¬ (c = 0x6a ∨ c = 0x4a) from by omega,
      show ¬ (c = 0x6b ∨ c = 0x4b) from by omega, show ¬ (c = 0x6d ∨ c = 0x4d) from by omega,
      show ¬ (c = 0x6e ∨ c = 0x4e) from by omega, show ¬ (c = 0x6f ∨ c = 0x4f) from by omega,
      show ¬ (c = 0x70 ∨ c = 0x50) from by omega, if_false]

/-- The crop loop reads the states below `n + k` only. -/
theorem logicstates_crop_congr (p : Nat) (v1 v2 : Nat → Nat) :
    ∀ (k n : Nat) (crop : Bool) (start size maxState : Nat),
    (∀ i, n ≤ i → i < n + k → v1 i = v2 i) →
    _logicstates_crop p v1 k n crop start size maxState
      = _logicstates_crop p v2 k n crop start size maxState := by
  intro k
  induction k with
  | zero => intro n crop start size maxState _; rfl
  | succ k ih =>
    intro n crop start size maxState h
    simp only [_logicstates_crop]
    rw [h n (le_refl _) (by omega)]
    split
    · exact ih _ _ _ _ _ (fun i h1 h2 => h i (by omega) (by omega))
    · exact ih _ _ _ _ _ (fun i h1 h2 => h i (by omega) (by omega))

/-- The crop loop moves states from `size` to `start`. -/
theorem logicstates_crop_sum (p : Nat) (value : Nat → Nat) :
    ∀ (k n : Nat) (crop : Bool) (start size maxState : Nat), k ≤ size →
    (_logicstates_crop p value k n crop start size maxState).1
      + (_logicstates_crop p value k n crop start size maxState).2.1 = start + size := by
  intro k
  induction k with
  | zero => intro n crop start size maxState _; rfl
  | succ k ih =>
    intro n crop start size maxState h
    simp only [_logicstates_crop]
    split
    · rw [ih _ _ _ _ _ (by omega)]
      omega
    · exact ih _ _ _ _ _ (by omega)

theorem logicstates_shift_congr_below (bits : Nat) (v1 v2 : Nat → Nat) (s : Nat) :
    ∀ (k i d : Nat), (∀ j, i ≤ j → j < i + k → v1 (s + j) = v2 (s + j)) →
    _logicstates_shift bits v1 s k i d = _logicstates_shift bits v2 s k i d := by
  intro k
  induction k with
  | zero => intro i d _; rfl
  | succ k ih =>
    intro i d h
    simp only [_logicstates_shift]
    rw [h i (le_refl _) (by omega)]
    exact ih _ _ (fun j h1 h2 => h j (by omega) (by omega))

/-- The data loop reads the states below its last `to` only. -/
theorem logicstates_data_congr_below (per bits fill : Nat) (v1 v2 : Nat → Nat) (s pos N : Nat)
    (h : ∀ j, j < N → v1 (s + j) = v2 (s + j)) :
    ∀ (k : Nat) (t : Int) (bytes : Nat → Nat) (w : Nat), t + ((k * per : Nat) : Int) ≤ N →
    _logicstates_data per bits fill v1 s pos k t bytes w
      = _logicstates_data per bits fill v2 s pos k t bytes w := by
  intro k
  induction k with
  | zero => intro t bytes w _; rfl
  | succ k ih =>
    intro t bytes w hN
    have hsucc : (((k + 1) * per : Nat) : Int) = ((k * per : Nat) : Int) + (per : Int) := by
      rw [Nat.succ_mul]
      push_cast
      rfl
    rw [hsucc] at hN
    have hk0 : (0 : Int) ≤ ((k * per : Nat) : Int) := Int.ofNat_nonneg _
    simp only [_logicstates_data]
    rw [logicstates_shift_congr_below bits v1 v2 s _ _ _ (fun j h1 h2 => h j (by
      by_cases ht : t < 0
      · simp only [ht, if_true] at h1 h2
        omega
      · simp only [ht, if_false] at h1 h2
        omega))]
    exact ih _ _ _ (by omega)

/-- The function `_logicstateswrite` at automatic level reads the states below
`size` only. -/
theorem logicstateswrite_congr_below (p : Nat) (v1 v2 : Nat → Nat) (size : Nat)
    (bytes : Nat → Nat) (pos : Nat) (h : ∀ i, i < size → v1 i = v2 i) :
    _logicstateswrite 0 p v1 size bytes pos = _logicstateswrite 0 p v2 size bytes pos := by
  have hcrop := logicstates_crop_congr p v1 v2 size 0 true 0 size p
    (fun i _ h2 => h i (by omega))
  have hsum := logicstates_crop_sum p v1 size 0 true 0 size p (le_refl _)
  obtain ⟨start, size1, M, hc1⟩ : ∃ start size1 M,
      _logicstates_crop p v1 size 0 true 0 size p = (start, size1, M) := ⟨_, _, _, rfl⟩
  have hc2 : _logicstates_crop p v2 size 0 true 0 size p = (start, size1, M) := by
    rw [← hcrop]
    exact hc1
  rw [hc1] at hsum
  simp only [Nat.zero_add] at hsum
  have hv : ∀ j, j < size1 → v1 (start + j) = v2 (start + j) := fun j hj => h _ (by omega)
  obtain ⟨a0, a1, a2, a4, a16⟩ := logicstateswrite_auto p v1 size bytes pos start size1 M hc1
  obtain ⟨b0, b1, b2, b4, b16⟩ := logicstateswrite_auto p v2 size bytes pos start size1 M hc2
  have hto : ∀ per : Nat, (size1 : Int) - ((size1 + per) / per : Nat) * (per : Nat)
      + ((((size1 + per) / per) * per : Nat) : Int) ≤ (size1 : Nat) := by
    intro per
    push_cast
    omega
  by_cases hz : size1 = 0 ∧ p ≤ 1
  · by_cases hp : p = 0
    · rw [a0 ⟨hz.1, hp⟩, b0 ⟨hz.1, hp⟩]
    · rw [a1 ⟨hz.1, by omega⟩, b1 ⟨hz.1, by omega⟩]
  · by_cases hM2 : M < 2
    · rw [a2 hz hM2, b2 hz hM2]
      exact logicstates_data_congr_below 8 1 _ v1 v2 start pos size1 hv _ _ _ _ (hto 8)
    · by_cases hM4 : M < 4
      · rw [a4 hz (by omega) hM4, b4 hz (by omega) hM4]
        exact logicstates_data_congr_below 4 2 _ v1 v2 start pos size1 hv _ _ _ _ (hto 4)
      · rw [a16 hz (by omega), b16 hz (by omega)]
        exact logicstates_data_congr_below 2 4 _ v1 v2 start pos size1 hv _ _ _ _ (hto 2)

/-- The conversion loop of `_logictextwrite` on characters below `0x80`: the
cells below `n` get the states of the characters, the other cells stay. -/
theorem logictextwrite_states_spec (value states : Nat → Nat) : ∀ n,
    (∀ i, i < n → value i < 128) →
    ∃ st, _logictextwrite_states value states n = some st ∧
      (∀ i, i < n → st i = stateOfChar (value i)) ∧ (∀ i, n ≤ i → st i = states i) := by
  intro n
  induction n with
  | zero => intro _; exact ⟨states, rfl, fun i hi => by omega, fun _ _ => rfl⟩
  | succ n ih =>
    intro h
    obtain ⟨st, e, h1, h2⟩ := ih (fun i hi => h i (by omega))
    have hv := h n (by omega)
    have hci : charIndex (value n) = (value n : Int) := by
      unfold charIndex
      rw [if_pos hv]
    have hat : char2StateAt (charIndex (value n)) = some (stateOfChar (value n)) := by
      unfold char2StateAt
      rw [hci, if_pos ⟨by omega, by omega⟩, Int.toNat_ofNat, char2State_eq]
    refine ⟨store st n (stateOfChar (value n)), ?_, fun i hi => ?_, fun i hi => ?_⟩
    · simp only [_logictextwrite_states, e, hat]
    · by_cases e1 : i = n
      · rw [e1, store_same]
      · rw [store_other _ _ _ _ e1]
        exact h1 i (by omega)
    · rw [store_other _ _ _ _ (by omega)]
      exact h2 i (by omega)

/-- A character above `0x7f` in the text: the conversion loop reads outside the
table. -/
theorem logictextwrite_states_none (value states : Nat → Nat) (i : Nat)
    (hi : 128 ≤ value i) (hb : value i < 256) : ∀ n, i < n →
    _logictextwrite_states value states n = none := by
  have hci : charIndex (value i) = (value i : Int) - 256 := by
    unfold charIndex
    rw [if_neg (by omega)]
  have hat : char2StateAt (charIndex (value i)) = none := by
    unfold char2StateAt
    rw [hci, if_neg (by omega)]
  intro n
  induction n with
  | zero => intro h; omega
  | succ n ih =>
    intro h
    by_cases e : i = n
    · subst e
      simp only [_logictextwrite_states, hat]
      cases _logictextwrite_states value states i <;> rfl
    · simp only [_logictextwrite_states, ih (by omega)]

/-- C23, amended. Logic text agrees with logic states, for texts of characters
below `0x80`: for every such text of length at most 256 and every preceding
character `c`, `flxWriteLogicTextDataEntry` does exactly what
`flxWriteLogicStatesDataEntry` does for the state sequence obtained by mapping
each character through the table of the format, with the preceding state
`stateOfChar c`: same result, same buffer, same bytes. For a length above 256
and an item id other than 0 it returns `FLX_ERROR_INVALID_DATA_SIZE` and leaves
the buffer as it was; with the item id 0 the result is `FLX_ERROR_INVALID_ID`
whatever the length. -/
theorem logic_text_agrees_with_states {σ : Type} (buffer : flxBuffer σ)
    (itemId conflict delta c : Nat) (value : Nat → Nat) (size : Nat) :
    (size ≤ 256 → (∀ n, n < size → value n < 128) →
      flxWriteLogicTextDataEntry buffer itemId conflict delta c value size
        = some (flxWriteLogicStatesDataEntry buffer itemId conflict delta (stateOfChar c)
            (fun n => stateOfChar (value n)) size)) ∧
    (256 < size → itemId ≠ 0 →
      flxWriteLogicTextDataEntry buffer itemId conflict delta c value size
        = some (FLX_ERROR_INVALID_DATA_SIZE, buffer)) ∧
    (itemId = 0 →
      flxWriteLogicTextDataEntry buffer itemId conflict delta c value size
        = some (FLX_ERROR_INVALID_ID, buffer)) := by
  refine ⟨fun hs hchars => ?_, fun hs hid => ?_, fun hid => ?_⟩
  · obtain ⟨st, e, h1, _⟩ := logictextwrite_states_spec value (fun _ => 0) size hchars
    have hw : ∀ bytes pos, _logictextwrite c value size bytes pos
        = some (_logicstateswrite FLX_STATE_LEVEL_UNKNOWN (stateOfChar c)
            (fun n => stateOfChar (value n)) size bytes pos) := by
      intro bytes pos
      unfold _logictextwrite
      rw [if_neg (by omega), e, char2State_eq]
      simp only
      rw [logicstateswrite_congr_below (stateOfChar c) st (fun n => stateOfChar (value n)) size
        bytes pos h1]
      rfl
    unfold flxWriteLogicTextDataEntry flxWriteLogicStatesDataEntry
    by_cases hid : itemId = 0
    · rw [if_pos hid, if_pos hid]
    · rw [if_neg hid, if_neg hid, if_neg (show ¬ size > 256 by omega)]
      unfold flxEntry
      simp only [hw]
      split
      · simp only [writeSeq_append, writeSeq_cons, writeSeq_nil, Nat.add_zero]
      · rfl
  · unfold flxWriteLogicTextDataEntry
    rw [if_neg hid, if_pos hs]
  · unfold flxWriteLogicTextDataEntry
    rw [if_pos hid]

set_option maxRecDepth 100000 in
theorem logic_text_agrees_with_states_witness :
    (3 ≤ 256 ∧ ∀ n, n < 3 → [0x31, 0x7a, 0x58].getD n 0 < 128) ∧
    flxWriteLogicTextDataEntry exBufferEmpty 1 0 0 0x30 (fun n => [0x31, 0x7a, 0x58].getD n 0) 3
      = some (flxWriteLogicStatesDataEntry exBufferEmpty 1 0 0 (stateOfChar 0x30)
          (fun n => stateOfChar ([0x31, 0x7a, 0x58].getD n 0)) 3) ∧
    ((flxWriteLogicTextDataEntry exBufferEmpty 1 0 0 0x30
        (fun n => [0x31, 0x7a, 0x58].getD n 0) 3).map
      (fun r => (r.1, readBytes r.2.bytes 0 r.2.pos))) = some (FLX_OK, [0x08, 0x1a, 0x1b]) :=
  ⟨⟨by decide, by decide⟩,
    (logic_text_agrees_with_states exBufferEmpty 1 0 0 0x30
      (fun n => [0x31, 0x7a, 0x58].getD n 0) 3).1 (by decide) (by decide),
    by decide⟩

set_option maxRecDepth 100000 in
/-- Counterexample to C23 as stated: for a text of 257 characters and the item
id 0 the result is `FLX_ERROR_INVALID_ID`, not `FLX_ERROR_INVALID_DATA_SIZE`.
And for the text of the two bytes `0xb1, '1'` the first character is the index
`-79`, a read before the table `char2State`: the call has no result here, while
the claim maps the character to the state 15, for which the states writer
emits `08 2b 00 f1`. -/
theorem logic_text_agrees_with_states_counterexample :
    (flxWriteLogicTextDataEntry exBufferEmpty 0 0 0 0x30 (fun _ => 0x31) 257).map (fun r => r.1)
      = some FLX_ERROR_INVALID_ID ∧
    FLX_ERROR_INVALID_ID ≠ FLX_ERROR_INVALID_DATA_SIZE ∧
    charIndex 0xb1 = -79 ∧ char2StateAt (charIndex 0xb1) = none ∧
    (flxWriteLogicTextDataEntry exBufferEmpty 1 0 0 0x30 (fun n => [0xb1, 0x31].getD n 0) 2).map
      (fun r => r.1) = none ∧
    stateOfChar 0xb1 = 15 ∧
    readBytes (flxWriteLogicStatesDataEntry exBufferEmpty 1 0 0 (stateOfChar 0x30)
      (fun n => stateOfChar ([0xb1, 0x31].getD n 0)) 2).2.bytes 0 4 = [0x08, 0x2b, 0x00, 0xf1] :=
  ⟨by decide, by decide, by decide, by decide, by decide, by decide, by decide⟩

theorem addSignals_loop_defstep 
    {R : Option (List flxTraceItem) → Option (List flxTraceItem) → Prop} (hR : DefineStep R)
    (maxItemId parentId : Nat) : ∀ (k itemId : Nat)
    (items items1 : Option (List flxTraceItem)) (e : Option Int),
    flxAddSignals_loop maxItemId parentId k itemId items = some (e, items1) →
    R items items1 := by
  intro k
  induction k with
  | zero =>
    intro itemId items items1 e h
    simp only [flxAddSignals_loop, Option.some.injEq, Prod.mk.injEq] at h
    rw [← h.2]
    exact hR.refl _
  | succ k ih =>
    intro itemId items items1 e h
    unfold flxAddSignals_loop at h
    cases hd : flxDefineItem maxItemId items itemId parentId FLX_ITEM_TYPE_SIGNAL with
    | none => rw [hd] at h; simp at h
    | some r =>
      rw [hd] at h
      cases r with
      | error err =>
        simp only [Option.some.injEq, Prod.mk.injEq] at h
        rw [← h.2]
        exact hR.refl _
      | ok items2 =>
        simp only at h
        exact hR.trans _ _ _ (hR.define _ _ _ _ _ _ (Or.inr rfl) hd) (ih _ _ _ _ h)

theorem addScope_defstep 
    {R : Option (List flxTraceItem) → Option (List flxTraceItem) → Prop} (hR : DefineStep R)
    {σ : Type} (trace t1 : flxTrace σ) (itemId parentId : Nat)
    (name description : flxtext) (r : Int)
    (h : flxAddScope trace itemId parentId name description = some (r, t1)) :
    R trace.items t1.items ∧ t1.maxItemId = trace.maxItemId := by
  unfold flxAddScope at h
  cases hb : trace.buffer with
  | none =>
    rw [hb] at h
    simp only [Option.some.injEq, Prod.mk.injEq] at h
    rw [← h.2]; exact ⟨hR.refl _, rfl⟩
  | some buffer =>
    rw [hb] at h
    simp only at h
    cases hd : flxDefineItem trace.maxItemId trace.items itemId parentId FLX_ITEM_TYPE_SCOPE with
    | none => rw [hd] at h; simp at h
    | some res =>
      rw [hd] at h
      cases res with
      | error e =>
        simp only [Option.some.injEq, Prod.mk.injEq] at h
        rw [← h.2]; exact ⟨hR.refl _, rfl⟩
      | ok items1 =>
        simp only [Option.some.injEq, Prod.mk.injEq] at h
        rw [← h.2]
        exact ⟨hR.define _ _ _ _ _ _ (Or.inl rfl) hd, rfl⟩

theorem addSignal_defstep 
    {R : Option (List flxTraceItem) → Option (List flxTraceItem) → Prop} (hR : DefineStep R)
    {σ : Type} (trace t1 : flxTrace σ) (itemId parentId : Nat)
    (name description : flxtext) (signalType : Nat) (signalDescriptor : flxtext) (r : Int)
    (h : flxAddSignal trace itemId parentId name description signalType signalDescriptor
      = some (r, t1)) :
    R trace.items t1.items ∧ t1.maxItemId = trace.maxItemId := by
  unfold flxAddSignal at h
  cases hb : trace.buffer with
  | none =>
    rw [hb] at h
    simp only [Option.some.injEq, Prod.mk.injEq] at h
    rw [← h.2]; exact ⟨hR.refl _, rfl⟩
  | some buffer =>
    rw [hb] at h
    simp only at h
    cases hd : flxDefineItem trace.maxItemId trace.items itemId parentId FLX_ITEM_TYPE_SIGNAL with
    | none => rw [hd] at h; simp at h
    | some res =>
      rw [hd] at h
      cases res with
      | error e =>
        simp only [Option.some.injEq, Prod.mk.injEq] at h
        rw [← h.2]; exact ⟨hR.refl _, rfl⟩
      | ok items1 =>
        simp only [Option.some.injEq, Prod.mk.injEq] at h
        rw [← h.2]
        exact ⟨hR.define _ _ _ _ _ _ (Or.inr rfl) hd, rfl⟩

theorem addScatteredSignal_defstep 
    {R : Option (List flxTraceItem) → Option (List flxTraceItem) → Prop} (hR : DefineStep R)
    {σ : Type} (trace t1 : flxTrace σ) (itemId parentId : Nat)
    (name description : flxtext) (signalType : Nat) (signalDescriptor : flxtext)
    (scatteredFrom scatteredTo : Nat) (r : Int)
    (h : flxAddScatteredSignal trace itemId parentId name description signalType
      signalDescriptor scatteredFrom scatteredTo = some (r, t1)) :
    R trace.items t1.items ∧ t1.maxItemId = trace.maxItemId := by
  unfold flxAddScatteredSignal at h
  cases hb : trace.buffer with
  | none =>
    rw [hb] at h
    simp only [Option.some.injEq, Prod.mk.injEq] at h
    rw [← h.2]; exact ⟨hR.refl _, rfl⟩
  | some buffer =>
    rw [hb] at h
    simp only at h
    cases hd : flxDefineItem trace.maxItemId trace.items itemId parentId FLX_ITEM_TYPE_SIGNAL with
    | none => rw [hd] at h; simp at h
    | some res =>
      rw [hd] at h
      cases res with
      | error e =>
        simp only [Option.some.injEq, Prod.mk.injEq] at h
        rw [← h.2]; exact ⟨hR.refl _, rfl⟩
      | ok items1 =>
        simp only [Option.some.injEq, Prod.mk.injEq] at h
        rw [← h.2]
        exact ⟨hR.define _ _ _ _ _ _ (Or.inr rfl) hd, rfl⟩

theorem addSignals_defstep 
    {R : Option (List flxTraceItem) → Option (List flxTraceItem) → Prop} (hR : DefineStep R)
    {σ : Type} (trace t1 : flxTrace σ) (itemIdFrom itemIdTo parentId : Nat)
    (name description : flxtext) (signalType : Nat) (signalDescriptor : flxtext) (r : Int)
    (h : flxAddSignals trace itemIdFrom itemIdTo parentId name description signalType
      signalDescriptor = some (r, t1)) :
    R trace.items t1.items ∧ t1.maxItemId = trace.maxItemId := by
  unfold flxAddSignals at h
  cases hb : trace.buffer with
  | none =>
    rw [hb] at h
    simp only [Option.some.injEq, Prod.mk.injEq] at h
    rw [← h.2]; exact ⟨hR.refl _, rfl⟩
  | some buffer =>
    rw [hb] at h
    simp only at h
    cases hd : flxAddSignals_loop trace.maxItemId parentId (itemIdTo + 1 - itemIdFrom)
        itemIdFrom trace.items with
    | none => rw [hd] at h; simp at h
    | some res =>
      rw [hd] at h
      obtain ⟨e, items1⟩ := res
      have hk := addSignals_loop_defstep hR _ _ _ _ _ _ _ hd
      cases e with
      | none =>
        simp only [Option.some.injEq, Prod.mk.injEq] at h
        rw [← h.2]; exact ⟨hk, rfl⟩
      | some err =>
        simp only [Option.some.injEq, Prod.mk.injEq] at h
        rw [← h.2]; exact ⟨hk, rfl⟩

theorem addSignalReference_defstep 
    {R : Option (List flxTraceItem) → Option (List flxTraceItem) → Prop} (hR : DefineStep R)
    {σ : Type} (trace t1 : flxTrace σ) (referenceId parentId : Nat)
    (name description : flxtext) (r : Int)
    (h : flxAddSignalReference trace referenceId parentId name description = some (r, t1)) :
    R trace.items t1.items ∧ t1.maxItemId = trace.maxItemId := by
  unfold flxAddSignalReference at h
  cases hb : trace.buffer with
  | none =>
    rw [hb] at h
    simp only [Option.some.injEq, Prod.mk.injEq] at h
    rw [← h.2]; exact ⟨hR.refl _, rfl⟩
  | some buffer =>
    rw [hb] at h
    simp only at h
    cases hd : flxCheckReference trace.maxItemId trace.items referenceId parentId with
    | none => rw [hd] at h; simp at h
    | some res =>
      rw [hd] at h
      cases res with
      | none =>
        simp only [Option.some.injEq, Prod.mk.injEq] at h
        rw [← h.2]; exact ⟨hR.refl _, rfl⟩
      | some e =>
        simp only [Option.some.injEq, Prod.mk.injEq] at h
        rw [← h.2]; exact ⟨hR.refl _, rfl⟩

theorem addScatteredSignalReference_defstep 
    {R : Option (List flxTraceItem) → Option (List flxTraceItem) → Prop} (hR : DefineStep R)
    {σ : Type} (trace t1 : flxTrace σ)
    (referenceId parentId : Nat) (name description : flxtext) (scatteredFrom scatteredTo : Nat)
    (r : Int)
    (h : flxAddScatteredSignalReference trace referenceId parentId name description
      scatteredFrom scatteredTo = some (r, t1)) :
    R trace.items t1.items ∧ t1.maxItemId = trace.maxItemId := by
  unfold flxAddScatteredSignalReference at h
  cases hb : trace.buffer with
  | none =>
    rw [hb] at h
    simp only [Option.some.injEq, Prod.mk.injEq] at h
    rw [← h.2]; exact ⟨hR.refl _, rfl⟩
  | some buffer =>
    rw [hb] at h
    simp only at h
    cases hd : flxCheckReference trace.maxItemId trace.items referenceId parentId with
    | none => rw [hd] at h; simp at h
    | some res =>
      rw [hd] at h
      cases res with
      | none =>
        simp only [Option.some.injEq, Prod.mk.injEq] at h
        rw [← h.2]; exact ⟨hR.refl _, rfl⟩
      | some e =>
        simp only [Option.some.injEq, Prod.mk.injEq] at h
        rw [← h.2]; exact ⟨hR.refl _, rfl⟩

theorem setBuffer_defstep 
    {R : Option (List flxTraceItem) → Option (List flxTraceItem) → Prop} (hR : DefineStep R)
    {σ : Type} (trace : flxTrace σ) (buffer : Option (flxBuffer σ)) :
    R trace.items (flxSetBuffer trace buffer).2.items := by
  unfold flxSetBuffer
  cases buffer with
  | none => exact hR.refl _
  | some b =>
    simp only
    split
    · exact hR.refl _
    · exact hR.refl _

theorem op_run_defstep
    {R : Option (List flxTraceItem) → Option (List flxTraceItem) → Prop} (hR : DefineStep R)
    {σ : Type} (op : flxOp σ) (hdef : op.isDefinition = true) (trace t1 : flxTrace σ) (r : Int)
    (h : op.run trace = some (r, t1)) :
    R trace.items t1.items ∧ t1.maxItemId = trace.maxItemId := by
  cases op with
  | addScope itemId parentId name description =>
    exact addScope_defstep hR trace t1 itemId parentId name description r h
  | addSignal itemId parentId name description signalType signalDescriptor =>
    exact addSignal_defstep hR trace t1 itemId parentId name description signalType
      signalDescriptor r h
  | addSignals itemIdFrom itemIdTo parentId name description signalType signalDescriptor =>
    exact addSignals_defstep hR trace t1 itemIdFrom itemIdTo parentId name description signalType
      signalDescriptor r h
  | addSignalReference referenceId parentId name description =>
    exact addSignalReference_defstep hR trace t1 referenceId parentId name description r h
  | addScatteredSignal itemId parentId name description signalType signalDescriptor
      scatteredFrom scatteredTo =>
    exact addScatteredSignal_defstep hR trace t1 itemId parentId name description signalType
      signalDescriptor scatteredFrom scatteredTo r h
  | addScatteredSignalReference referenceId parentId name description scatteredFrom
      scatteredTo =>
    exact addScatteredSignalReference_defstep hR trace t1 referenceId parentId name description
      scatteredFrom scatteredTo r h
  | opening itemId domainBase start rate => exact absurd hdef (by simp [flxOp.isDefinition])
  | closing itemId end_ => exact absurd hdef (by simp [flxOp.isDefinition])
  | writeAt x itemId domainPosition isDelta => exact absurd hdef (by simp [flxOp.isDefinition])
  | setBuffer buffer =>
    simp only [flxOp.run, Option.some.injEq] at h
    have h2 : t1 = (flxSetBuffer trace buffer).2 := by rw [h]
    rw [h2]; exact ⟨setBuffer_defstep hR trace buffer, setBuffer_maxItemId trace buffer⟩

/-- The definition operations open no item. -/
theorem noneOpen_defstep : DefineStep (fun a b => NoneOpen a → NoneOpen b) where
  refl := fun _ h => h
  trans := fun _ _ _ h1 h2 h => h2 (h1 h)
  define := by
    intro maxItemId items items1 itemId parentId newType _ hd h its1 h1 n x hx
    rcases defineItem_ok_inv maxItemId items items1 itemId parentId newType hd with
      ⟨_, e⟩ | ⟨its, item, e0, hitem, _, _, e⟩
    · rw [e] at h1
      simp at h1
    · rw [e] at h1
      have e1 := Option.some.inj h1
      subst e1
      have hid : itemId ≠ 0 := (itemAt_isSome_lt its itemId item hitem).1
      by_cases hn : n = itemId
      · subst hn
        rw [itemAt_itemSet_same its n item _ hitem] at hx
        have e2 := Option.some.inj hx
        rw [← e2]
      · rw [itemAt_itemSet_other its itemId n _ hid hn] at hx
        exact h its e0 n x hx

theorem run_noneOpen {σ : Type} : ∀ (ops : List (flxOp σ)) (t0 t : flxTrace σ),
    flxRun ops t0 = some t → (∀ op ∈ ops, op.isDefinition = true) →
    NoneOpen t0.items → NoneOpen t.items := by
  intro ops
  induction ops with
  | nil =>
    intro t0 t h _ hok
    simp only [flxRun, Option.some.injEq] at h
    subst h
    exact hok
  | cons op ops ih =>
    intro t0 t h hdef hok
    unfold flxRun at h
    cases hop : op.run t0 with
    | none => rw [hop] at h; simp at h
    | some r =>
      rw [hop] at h
      simp only at h
      obtain ⟨h1, _⟩ := op_run_defstep noneOpen_defstep op (hdef op (List.mem_cons_self _ _))
        t0 r.2 r.1 hop
      exact ih r.2 t h (fun o ho => hdef o (List.mem_cons_of_mem _ ho)) (h1 hok)

theorem createTrace_noneOpen {σ : Type} (szTrace szItem traceId maxItemId maxEntrySize traceBytes
    traceBytesLen : Nat) (buffer : Option (flxBuffer σ)) (t0 : flxTrace σ)
    (hc : flxCreateTrace szTrace szItem traceId maxItemId maxEntrySize traceBytes traceBytesLen
      buffer = some t0) :
    NoneOpen t0.items := by
  unfold flxCreateTrace at hc
  split at hc
  · simp at hc
  · have e := Option.some.inj hc
    subst e
    rw [setBuffer_items]
    intro its hits n item hi
    simp only at hits
    split at hits
    · simp at hits
    · have e := Option.some.inj hits
      subst e
      have hx := itemAt_replicate _ _ _ _ hi
      subst hx
      rfl

/-- The loop of `flxOpen` that looks for open children ends with "none open"
when no item it visits is marked open; it then reads no other item. -/
theorem open_check_closed (its : List flxTraceItem) (itemId : Nat) :
    ∀ (k n : Nat), 1 ≤ n → n + k ≤ its.length + 1 →
      (∀ m item, itemAt its m = some item → n ≤ m → m < n + k →
        item.opn = FLX_ITEM_OPEN_NONE) →
      flxOpen_check its itemId k n = some false := by
  intro k
  induction k with
  | zero => intro n _ _ _; rfl
  | succ k ih =>
    intro n h1 h2 hc
    obtain ⟨item, hitem⟩ := itemAt_of_le_length its n (by omega) (by omega)
    have hopn := hc n item hitem (le_refl _) (by omega)
    unfold flxOpen_check
    simp only [hitem, hopn, ne_eq, not_true_eq_false, if_false]
    exact ih (n + 1) (by omega) (by omega) (fun m x hx hm1 hm2 => hc m x hx (by omega) (by omega))

/-- `flxOpen` of the root returns on a trace whose table is ranked, when the
root is open or no item below `maxItemId` is marked open. -/
theorem open_root_total {σ : Type} (t : flxTrace σ) (hok : TableOk t.maxItemId t.items)
    (hclosed : t.opn ≠ FLX_ITEM_OPEN_NONE ∨ ∀ its, t.items = some its → ∀ n item,
      itemAt its n = some item → n < t.maxItemId → item.opn = FLX_ITEM_OPEN_NONE)
    (domainBase : flxtext) (start : Int) (rate : Nat) :
    ∃ r, flxOpen t 0 domainBase start rate = some r := by
  unfold flxOpen
  cases hb : t.buffer with
  | none => exact ⟨_, rfl⟩
  | some buffer =>
    simp only
    by_cases hcond : 0 ≥ t.maxItemId ∨ (t.items.isNone ∧ 0 > 0)
    · rw [if_pos hcond]
      exact ⟨_, rfl⟩
    · rw [if_neg hcond]
      cases hi : t.items with
      | none =>
        simp only
        split <;> exact ⟨_, rfl⟩
      | some its =>
        obtain ⟨hlen, hr⟩ := hok its hi
        simp only [if_true]
        by_cases hopn : t.opn ≠ FLX_ITEM_OPEN_NONE
        · have hd : decide (t.opn ≠ FLX_ITEM_OPEN_NONE) = true := decide_eq_true hopn
          rw [hd]
          exact ⟨_, rfl⟩
        · have hd : decide (t.opn ≠ FLX_ITEM_OPEN_NONE) = false := decide_eq_false hopn
          rw [hd]
          have hall : ∀ n item, itemAt its n = some item → n < t.maxItemId →
              item.opn = FLX_ITEM_OPEN_NONE := by
            rcases hclosed with h | h
            · exact absurd h hopn
            · exact h its hi
          have hchk := open_check_closed its 0 (t.maxItemId - 1) 1 (le_refl _) (by omega)
            (fun m x hx _ hm => hall m x hx (by omega))
          obtain ⟨its2, hm, _, _⟩ := markChildren_total 0 (markOpen 0) (markOpen_fields 0)
            (t.maxItemId - 1) 1 its hr (le_refl _) (by omega)
          simp only [hchk, hm]
          exact ⟨_, rfl⟩

/-- C37. Ancestor walks terminate: in every trace state reached from
`flxCreateTrace` by public operations (definitions, references, `flxOpen`,
`flxClose`, writes, `flxSetBuffer`; whatever they return), the item table has
`maxItemId` items, every undefined item has `parentId = 0`, and the parent of
every other item is a scope of the table that was defined earlier (ranked
links). So the walk over the parents from `0` or from any item ends, for every
`itemId` it looks for, within `walkFuel` rounds and with the same answer for
any larger number of rounds; looking for an id outside the table it ends at
`0`. `flxClose` returns for every `itemId`. `flxOpen` returns for every
`itemId` but 0, and for the root `itemId = 0` when the root is open or no item
below `maxItemId` is marked open (with an item marked open its first loop reads
`items[-1]`). In the states reached by definition operations alone no item is
marked open, and `flxOpen` returns for every `itemId`. -/
theorem ancestor_walks_terminate {σ : Type} (szTrace szItem traceId maxItemId maxEntrySize
    traceBytes traceBytesLen : Nat) (buffer : Option (flxBuffer σ)) (t0 t : flxTrace σ)
    (ops : List (flxOp σ)) (its : List flxTraceItem)
    (hc : flxCreateTrace szTrace szItem traceId maxItemId maxEntrySize traceBytes traceBytesLen
      buffer = some t0)
    (hr : flxRun ops t0 = some t) (hi : t.items = some its) :
    its.length = t.maxItemId ∧ RankedItems its ∧
    (∀ itemId p, p ≤ its.length →
      ∃ b, ancestorWalk its itemId (walkFuel its) p = some b ∧
        ∀ f, walkFuel its ≤ f → ancestorWalk its itemId f p = some b) ∧
    (∀ p, p ≤ its.length → ancestorWalk its (its.length + 1) (walkFuel its) p = some false) ∧
    (∀ itemId domainBase start rate, itemId ≠ 0 →
      ∃ r, flxOpen t itemId domainBase start rate = some r) ∧
    (∀ itemId end_, ∃ r, flxClose t itemId end_ = some r) ∧
    (∀ domainBase start rate,
      (t.opn ≠ FLX_ITEM_OPEN_NONE ∨ ∀ n item, itemAt its n = some item → n < t.maxItemId →
        item.opn = FLX_ITEM_OPEN_NONE) →
      ∃ r, flxOpen t 0 domainBase start rate = some r) ∧
    ((∀ op ∈ ops, op.isDefinition = true) →
      (∀ n item, itemAt its n = some item → item.opn = FLX_ITEM_OPEN_NONE) ∧
      ∀ itemId domainBase start rate, ∃ r, flxOpen t itemId domainBase start rate = some r) := by
  have hok := run_tableOk ops t0 t hr
    (createTrace_tableOk szTrace szItem traceId maxItemId maxEntrySize traceBytes traceBytesLen
      buffer t0 hc)
  obtain ⟨hlen, hrk⟩ := hok its hi
  have hroot : ∀ domainBase start rate,
      (t.opn ≠ FLX_ITEM_OPEN_NONE ∨ ∀ n item, itemAt its n = some item → n < t.maxItemId →
        item.opn = FLX_ITEM_OPEN_NONE) →
      ∃ r, flxOpen t 0 domainBase start rate = some r := by
    intro domainBase start rate h
    refine open_root_total t hok ?_ domainBase start rate
    rcases h with h | h
    · exact Or.inl h
    · right
      intro its1 h1
      rw [hi] at h1
      have e := Option.some.inj h1
      subst e
      exact h
  refine ⟨hlen, hrk, fun itemId p hp => ?_, fun p hp => ?_,
    fun itemId domainBase start rate h0 => open_total t hok itemId h0 domainBase start rate,
    fun itemId end_ => close_total t hok itemId end_, hroot, fun hdef => ?_⟩
  · obtain ⟨b, hb⟩ := ranked_walk_ends its hrk itemId p hp
    exact ⟨b, hb, fun f hf => ancestorWalk_mono its itemId _ f p b hf hb⟩
  · obtain ⟨b, hb⟩ := ranked_walk_ends its hrk (its.length + 1) p hp
    have e := walk_reaches_zero its hrk _ p b hp hb
    rw [e] at hb
    exact hb
  · have hno := run_noneOpen ops t0 t hr hdef
      (createTrace_noneOpen szTrace szItem traceId maxItemId maxEntrySize traceBytes
        traceBytesLen buffer t0 hc) its hi
    refine ⟨hno, fun itemId domainBase start rate => ?_⟩
    by_cases h0 : itemId = 0
    · subst h0
      exact hroot domainBase start rate (Or.inr (fun n item hn _ => hno n item hn))
    · exact open_total t hok itemId h0 domainBase start rate

set_option maxRecDepth 100000 in
theorem ancestor_walks_terminate_witness :
    (∃ (t0 t : flxTrace Unit) (its : List flxTraceItem),
      exCreate 5 = some t0 ∧
      flxRun (exTreeOps ++ [.opening 2 none 7 0, .closing 2 9]) t0 = some t ∧
      t.items = some its ∧ its.length = 5 ∧ RankedItems its ∧
      its.map (fun item => item.parentId) = [0, 1, 2, 2, 3] ∧
      (∀ itemId p, p ≤ its.length →
        ∃ b, ancestorWalk its itemId (walkFuel its) p = some b ∧
          ∀ f, walkFuel its ≤ f → ancestorWalk its itemId f p = some b) ∧
      (∀ p, p ≤ its.length →
        ancestorWalk its (its.length + 1) (walkFuel its) p = some false) ∧
      (∀ itemId domainBase start rate, itemId ≠ 0 →
        ∃ r, flxOpen t itemId domainBase start rate = some r) ∧
      (∀ itemId end_, ∃ r, flxClose t itemId end_ = some r)) ∧
    (∃ (t0 t : flxTrace Unit) (its : List flxTraceItem),
      exCreate 5 = some t0 ∧ flxRun exTreeOps t0 = some t ∧ t.items = some its ∧
      (∀ op ∈ exTreeOps, op.isDefinition = true) ∧
      (∀ n item, itemAt its n = some item → item.opn = FLX_ITEM_OPEN_NONE) ∧
      (∀ itemId domainBase start rate, ∃ r, flxOpen t itemId domainBase start rate = some r) ∧
      (∀ itemId end_, ∃ r, flxClose t itemId end_ = some r)) ∧
    ((exCreate 5).bind (flxRun exTreeOps)).bind
        (fun t => (flxOpen t 0 none 7 0).map (fun r => (r.1, r.2.opn, r.2.current)))
      = some (FLX_OK, FLX_ITEM_OPEN_LOCAL, 7) ∧
    ((exCreate 5).bind (flxRun exTreeOps)).bind
        (fun t => (flxOpen t 2 none 7 0).map (fun r => r.1)) = some FLX_OK := by
  obtain ⟨t0, h0⟩ := Option.isSome_iff_exists.mp (show (exCreate 5).isSome = true by decide)
  refine ⟨?_, ?_, by decide, by decide⟩
  · obtain ⟨t, h1⟩ := Option.isSome_iff_exists.mp
      (show ((exCreate 5).bind
        (flxRun (exTreeOps ++ [.opening 2 none 7 0, .closing 2 9]))).isSome = true by decide)
    obtain ⟨its, h2⟩ := Option.isSome_iff_exists.mp
      (show (((exCreate 5).bind
        (flxRun (exTreeOps ++ [.opening 2 none 7 0, .closing 2 9]))).bind
          (fun t => t.items)).isSome = true by decide)
    have h3 : (((exCreate 5).bind
        (flxRun (exTreeOps ++ [.opening 2 none 7 0, .closing 2 9]))).bind
          (fun t => t.items)).map (List.map (fun item => item.parentId))
        = some [0, 1, 2, 2, 3] := by decide
    rw [h1, Option.some_bind] at h2
    rw [h1, Option.some_bind, h2, Option.map_some'] at h3
    rw [h0, Option.some_bind] at h1
    have h := ancestor_walks_terminate 56 16 0 5 4096 1000 (56 + 16 * 5)
      (some (flxCreateLinearBuffer 0 (fun _ => 0) 256 none ())) t0 t
      (exTreeOps ++ [.opening 2 none 7 0, .closing 2 9]) its h0 h1 h2
    have hlen : its.length = 5 := by
      have := congrArg List.length (Option.some.inj h3)
      simpa using this
    exact ⟨t0, t, its, h0, h1, h2, hlen, h.2.1, Option.some.inj h3, h.2.2.1, h.2.2.2.1,
      h.2.2.2.2.1, h.2.2.2.2.2.1⟩
  · obtain ⟨t, h1⟩ := Option.isSome_iff_exists.mp
      (show ((exCreate 5).bind (flxRun exTreeOps)).isSome = true by decide)
    obtain ⟨its, h2⟩ := Option.isSome_iff_exists.mp
      (show (((exCreate 5).bind (flxRun exTreeOps)).bind (fun t => t.items)).isSome = true
        by decide)
    rw [h1, Option.some_bind] at h2
    rw [h0, Option.some_bind] at h1
    have hdef : ∀ op ∈ exTreeOps, op.isDefinition = true := by decide
    have h := ancestor_walks_terminate 56 16 0 5 4096 1000 (56 + 16 * 5)
      (some (flxCreateLinearBuffer 0 (fun _ => 0) 256 none ())) t0 t exTreeOps its h0 h1 h2
    exact ⟨t0, t, its, h0, h1, h2, hdef, (h.2.2.2.2.2.2.2 hdef).1, (h.2.2.2.2.2.2.2 hdef).2,
      h.2.2.2.2.2.1⟩

end Flux
